import Mathlib

/-!
Legacy serial protocol of the Speeduino firmware.

A shallow embedding of `speeduino/comms_legacy.cpp` (release 202207.1).

* The file-level globals of `comms_legacy.cpp` and the firmware globals it touches
  are the fields of `State`.
* The serial port is part of the state: `rx` holds the bytes that
  `Serial.available()` reports, `wire` the bytes that are still in flight and reach
  `rx` only while the firmware spins in one of its blocking `while` loops, `tx` the
  bytes written so far, and `afw` the answers of `Serial.availableForWrite()`, an
  arbitrary sequence chosen by the environment.
* Firmware routines whose bodies live in other translation units are either fields
  of `Env` (pure readers, which receive the history of external writes) or
  constructors of `Effect` (writers, which are appended to `State.effects`).
* Machine integers are `Nat` or `Int`, reduced explicitly where the C++ narrows.
* A loop that can spin forever takes fuel and returns `none` when it runs out; a
  blocking wait returns `none` when the bytes it waits for never arrive.
* The definitions that embed the source come first, then the definitions in which
  the properties are stated, then the theorems.
-/

namespace CommsLegacy

/-! ## Data model -/

/-- The members of `currentStatus` that `comms_legacy.cpp` reads or writes. -/
structure Status where
  secl : Nat
  status1 : Nat
  status3 : Nat
  spark : Nat
  hasSync : Bool
  RPM : Nat
  loopsPerSecond : Nat
  freeRAM : Nat
  toothLogEnabled : Bool
  compositeLogEnabled : Bool
  PW1 : Nat
  PW2 : Nat
  advance : Int
  nSquirts : Nat
  engine : Nat
  afrTarget : Nat
  baro : Int
  MAP : Int
  IAT : Int
  coolant : Int
  TPS : Int
  battery10 : Nat
  O2 : Nat
  O2_2 : Nat
  egoCorrection : Int
  iatCorrection : Int
  wueCorrection : Int
  corrections : Int
  VE : Int
  VE2 : Int
  tpsDOT : Int
  mapDOT : Int
  dwell : Int
  fuelLoad : Int
  advance1 : Int
  advance2 : Int

/-- Calls into other translation units that change the world outside this file.
They are recorded, in order, in `State.effects`, with the arguments as the callee's
parameters receive them (`setPageValue(byte, uint16_t, byte)`,
`EEPROMWriteRaw(uint16_t, uint8_t)`, `writeConfig(uint8_t)`). The pair of
`detachInterrupt`/`attachInterrupt` calls on both trigger pins is one entry. -/
inductive Effect where
  | writeAllConfig
  | writeConfig (page : Nat)
  | TS_CommandButtonsHandler (cmdCombined : Nat)
  | setPageValue (page offset value : Nat)
  | EEPROMWriteRaw (address value : Nat)
  | attachLoggerISR
  | attachTriggerHandler
  | resetPinLow
  | bootloaderCaps (value : Nat)
  | Serial_flush
  deriving DecidableEq, Repr

/-- The `entity_type` of a `page_iterator_t`. -/
inductive EntityType where
  | Raw
  | Table
  | NoEntity
  | End
  deriving DecidableEq, Repr

/-- What `comms_legacy.cpp` reads of a `page_iterator_t`: the bytes of a raw entity,
and for a table its value rows in row-iterator order and its two axes, each with
the domain its iterator reports. -/
structure Entity where
  type : EntityType
  raw : List Nat
  rows : List (List Nat)
  xAxis : List Int
  xDomain : Nat
  yAxis : List Int
  yDomain : Nat

/-- The three sensor calibration tables (`cltCalibration_*`, `iatCalibration_*`,
`o2Calibration_*`), each an array of 32 bins and 32 values. -/
structure Calibration where
  cltCalibration_values : Nat → Nat
  cltCalibration_bins : Nat → Nat
  iatCalibration_values : Nat → Nat
  iatCalibration_bins : Nat → Nat
  o2Calibration_values : Nat → Nat
  o2Calibration_bins : Nat → Nat

/-- Constants, macros and pure helper routines that `comms_legacy.cpp` takes from
the firmware's headers and other translation units. Readers of memory that this
file can change through an `Effect` receive the effect history. `intBits` is the
width of the platform's `int` (16 on AVR), `argsRightToLeft` the order in which the
compiler evaluates the arguments of a call. -/
structure Env where
  veMapPage : Nat
  ignMapPage : Nat
  afrMapPage : Nat
  fuelMap2Page : Nat
  ignMap2Page : Nat
  LOG_ENTRY_SIZE : Nat
  TOOTH_LOG_SIZE : Nat
  CALIBRATION_TEMPERATURE_OFFSET : Int
  BIT_STATUS1_TOOTHLOG1READY : Nat
  BIT_SPARK_SYNC : Nat
  BIT_STATUS3_VSS_REFRESH : Nat
  RESET_CONTROL_DISABLED : Nat
  TS_CMD_INJ1_ON : Nat
  TS_CMD_IGN8_50PC : Nat
  TS_CMD_TEST_ENBL : Nat
  TS_CMD_TEST_DSBL : Nat
  TS_CMD_VSS_60KMH : Nat
  TS_CMD_VSS_RATIO6 : Nat
  TS_CMD_STM32_REBOOT : Nat
  TS_CMD_STM32_BOOTLOADER : Nat
  SMALL_FLASH_MODE : Bool
  USE_SERIAL3 : Bool
  CANSerial_AVAILABLE : Bool
  intBits : Nat
  argsRightToLeft : Bool
  getTSLogEntry : Status → Nat → Nat
  getPageValue : List Effect → Nat → Nat → Nat
  calculatePageCRC32 : List Effect → Nat → Nat
  getEEPROMSize : Nat
  EEPROMReadRaw : List Effect → Nat → Nat
  freeRam : Nat
  page_begin : List Effect → Nat → Entity
  advance : Entity → Entity
  to_byte : Nat → Int → Nat
  pageASCII : List Effect → Nat → List Nat
  wueBins : List Effect → Nat → Nat
  wueValues : List Effect → Nat → Nat

/-- The globals of `comms_legacy.cpp` (lines 26-42), the serial transport, and the
firmware globals the file reads or writes. `valueOffset` is an `int` whose every use
is as the `uint16_t` offset argument of `getPageValue` or `setPageValue`; it is kept
as that 16-bit value. -/
structure State where
  currentPage : Nat
  isMap : Bool
  requestCount : Nat
  currentCommand : Nat
  cmdPending : Bool
  chunkPending : Bool
  chunkComplete : Nat
  chunkSize : Nat
  valueOffset : Nat
  tsCanId : Nat
  inProgressOffset : Nat
  inProgressLength : Nat
  inProgressCompositeTime : Nat
  serialInProgress : Bool
  toothLogSendInProgress : Bool
  compositeLogSendInProgress : Bool
  legacySerial : Bool
  rx : List Nat
  wire : List Nat
  tx : List Nat
  canTx : List Nat
  afw : Nat → Nat
  afwCalls : Nat
  currentStatus : Status
  toothHistory : Nat → Nat
  compositeLogHistory : Nat → Nat
  toothHistoryIndex : Nat
  resetControl : Nat
  calibration : Calibration
  persisted : Calibration
  effects : List Effect

/-! ## Integer helpers -/

/-- Narrowing of an `int` to `byte`. -/
def toByte (i : Int) : Nat := (i % 256).toNat

/-- Narrowing of an `int` to `uint16_t`. -/
def toU16 (i : Int) : Nat := (i % 65536).toNat

/-- Two's-complement wrap of an integer to a signed type of `bits` bits. -/
def wrapSigned (bits : Nat) (i : Int) : Int :=
  if i % 2 ^ bits < 2 ^ (bits - 1) then i % 2 ^ bits else i % 2 ^ bits - 2 ^ bits

/-- Narrowing to `int16_t`. -/
def toInt16 (i : Int) : Int := wrapSigned 16 i

/-- Arduino `word(h, l)`: both arguments are bytes. -/
def word (h l : Nat) : Nat := (h % 256) * 256 + l % 256

/-- Arduino `lowByte`. -/
def lowByte (w : Nat) : Nat := w % 256

/-- Arduino `highByte`. -/
def highByte (w : Nat) : Nat := (w / 256) % 256

/-- `BIT_CHECK(var, pos)` as a truth value. -/
def BIT_CHECK (var pos : Nat) : Bool := var.testBit pos

/-- `BIT_CLEAR(var, pos)` on a byte variable. -/
def BIT_CLEAR (var pos : Nat) : Nat := var &&& (255 ^^^ (1 <<< pos))

/-! ## Serial transport -/

/-- `Serial.available()`. -/
def Serial_available (s : State) : Nat := s.rx.length

/-- `Serial.read()`: the next buffered byte, or -1 when the buffer is empty. -/
def Serial_read (s : State) : Int × State :=
  match s.rx with
  | [] => (-1, s)
  | b :: rest => ((b : Int), { s with rx := rest })

/-- `Serial.write(byte)`. -/
def Serial_write (s : State) (v : Nat) : State :=
  { s with tx := s.tx ++ [v % 256] }

/-- `Serial.print` of a text. -/
def Serial_print (s : State) (text : String) : State :=
  { s with tx := s.tx ++ text.toList.map Char.toNat }

/-- `Serial.println` of a text: the text and then carriage return, line feed. -/
def Serial_println (s : State) (text : String) : State :=
  { s with tx := s.tx ++ text.toList.map Char.toNat ++ [13, 10] }

/-- `Serial.print` of an unsigned number, in decimal. -/
def Serial_printNum (s : State) (n : Nat) : State :=
  Serial_print s (Nat.repr n)

/-- `Serial.println` of an unsigned number. -/
def Serial_printlnNum (s : State) (n : Nat) : State :=
  Serial_println s (Nat.repr n)

/-- `Serial.availableForWrite()`: the environment's next answer. -/
def Serial_availableForWrite (s : State) : Nat × State :=
  (s.afw s.afwCalls, { s with afwCalls := s.afwCalls + 1 })

/-- The spin `while (Serial.available() < k) { }` on the two input queues: bytes in
flight arrive one at a time until `k` are buffered; `none` when they never do. -/
def waitBytes (k : Nat) (rx : List Nat) : List Nat → Option (List Nat × List Nat)
  | [] => if k ≤ rx.length then some (rx, []) else none
  | b :: w => if k ≤ rx.length then some (rx, b :: w) else waitBytes k (rx ++ [b]) w

/-- The spin `while (Serial.available() < k) { }` on a state. -/
def Serial_wait (k : Nat) (s : State) : Option State :=
  (waitBytes k s.rx s.wire).map fun p => { s with rx := p.1, wire := p.2 }

/-- A counting loop `for (x = x0; x < x0 + n; x++) body(x)` without early exit. -/
def forLoop (body : Nat → State → State) : Nat → Nat → State → State
  | 0, _, s => s
  | n + 1, x, s => forLoop body n (x + 1) (body x s)

/-! ## Real-time record (`sendValues`, `sendValuesLegacy`) -/

/-- The statement `spark ^= (-hasSync ^ spark) & (1U << BIT_SPARK_SYNC)`: `-hasSync`
is all ones of the width of `int` or zero, and the result is stored in a byte. -/
def syncSpark (env : Env) (spark : Nat) (hasSync : Bool) : Nat :=
  (spark ^^^ (((if hasSync then 2 ^ env.intBits - 1 else 0) ^^^ spark)
    &&& (1 <<< env.BIT_SPARK_SYNC))) % 256

/-- The part of `sendValues` before its loop (lines 607-627). -/
def sendValuesHeader (env : Env) (cmd portNum : Nat) (s : State) : State :=
  let s1 :=
    if portNum = 3 then
      if env.USE_SERIAL3 then
        if cmd = 30 then { s with canTx := s.canTx ++ [114, cmd % 256] }
        else if cmd = 31 then { s with canTx := s.canTx ++ [65] }
        else s
      else s
    else
      let s0 :=
        if s.requestCount = 0 then { s with currentStatus := { s.currentStatus with secl := 0 } }
        else s
      { s0 with requestCount := (s0.requestCount + 1) % 2 ^ 32 }
  { s1 with currentStatus :=
      { s1.currentStatus with
        spark := syncSpark env s1.currentStatus.spark s1.currentStatus.hasSync } }

/-- The loop `for (byte x = 0; x < packetLength; x++)` of `sendValues` and the two
statements after it (lines 629-649). The loop variable is a byte, so it wraps at
256; each iteration uses one unit of fuel. -/
def sendValuesLoop (env : Env) (offset packetLength portNum : Nat) :
    Nat → Nat → State → Option State
  | 0, _, _ => none
  | fuel + 1, x, s =>
    if x < packetLength then
      let entry := env.getTSLogEntry s.currentStatus ((offset + x) % 65536)
      let s1 :=
        if portNum = 0 then Serial_write s entry
        else if portNum = 3 ∧ env.CANSerial_AVAILABLE = true then
          { s with canTx := s.canTx ++ [entry % 256] }
        else s
      let r := Serial_availableForWrite s1
      if r.1 < 1 then
        some { r.2 with
          inProgressOffset := (offset + x + 1) % 256
          inProgressLength := (packetLength - x - 1) % 256
          serialInProgress := true }
      else sendValuesLoop env offset packetLength portNum fuel ((x + 1) % 256) r.2
    else
      some { s with
        serialInProgress := false
        currentStatus :=
          { s.currentStatus with
            status3 := BIT_CLEAR s.currentStatus.status3 env.BIT_STATUS3_VSS_REFRESH } }

/-- The routine `sendValues(offset, packetLength, cmd, portNum)`. -/
def sendValues (env : Env) (fuel : Nat) (offset packetLength cmd portNum : Nat)
    (s : State) : Option State :=
  sendValuesLoop env offset packetLength portNum fuel 0 (sendValuesHeader env cmd portNum s)

/-- The arguments of the `Serial.write` calls of `sendValuesLegacy` that precede its
filler loop, in order (lines 658-769). `temp` is a `uint16_t`. -/
def legacyRecord (st : Status) : List Nat :=
  let hiLo (v : Int) : List Nat := [toU16 (v * 10) / 256, toU16 (v * 10)]
  [st.secl / 256, st.secl, st.PW1 / 256, st.PW1, st.PW2 / 256, st.PW2,
   st.RPM / 256, st.RPM]
  ++ hiLo st.advance
  ++ [st.nSquirts, st.engine, st.afrTarget, st.afrTarget, 99, 99]
  ++ hiLo st.baro ++ hiLo st.MAP ++ hiLo st.IAT ++ hiLo st.coolant ++ hiLo st.TPS
  ++ [st.battery10 / 256, st.battery10, st.O2 / 256, st.O2, st.O2_2 / 256, st.O2_2]
  ++ [99, 99]
  ++ hiLo st.egoCorrection ++ hiLo st.egoCorrection
  ++ hiLo st.iatCorrection ++ hiLo st.wueCorrection
  ++ [99, 99, 99, 99, 99, 99]
  ++ hiLo st.corrections ++ hiLo st.VE ++ hiLo st.VE2
  ++ [99, 99, 99, 99]
  ++ hiLo st.tpsDOT ++ hiLo st.mapDOT ++ hiLo st.dwell
  ++ [99, 99, toByte (st.fuelLoad * 10), 99, 99, 99]
  ++ hiLo st.advance1 ++ hiLo st.advance2

/-- One statement `bytestosend -= Serial.write(v)`; `Serial.write` of a single byte
returns 1. -/
def writeCounted (p : State × Int) (v : Nat) : State × Int :=
  (Serial_write p.1 v, p.2 - 1)

/-- The routine `sendValuesLegacy`. -/
def sendValuesLegacy (s : State) : State :=
  let p := (legacyRecord s.currentStatus).foldl writeCounted (s, 114)
  forLoop (fun _ t => Serial_write t 99) p.2.toNat 0 p.1

/-! ## Binary page dump (`sendPage`) -/

/-- `Serial.write(buffer, size)`. -/
def Serial_writeBuf (s : State) (buf : List Nat) : State :=
  { s with tx := s.tx ++ buf }

/-- `send_raw_entity`. -/
def send_raw_entity (entity : Entity) (s : State) : State :=
  Serial_writeBuf s entity.raw

/-- `send_table_values`: one buffer write per row. -/
def send_table_values (rows : List (List Nat)) (s : State) : State :=
  rows.foldl Serial_writeBuf s

/-- `send_table_axis`: every sample through the converter of the axis's domain. -/
def send_table_axis (env : Env) (domain : Nat) (axis : List Int) (s : State) : State :=
  axis.foldl (fun t v => Serial_write t (env.to_byte domain v)) s

/-- `send_table_entity`. -/
def send_table_entity (env : Env) (entity : Entity) (s : State) : State :=
  send_table_axis env entity.yDomain entity.yAxis
    (send_table_axis env entity.xDomain entity.xAxis (send_table_values entity.rows s))

/-- `send_entity`. The `default: abort()` arm is unreachable for the four
enumerators of `entity_type`; `sendPage` never passes `End`. -/
def send_entity (env : Env) (entity : Entity) (s : State) : State :=
  match entity.type with
  | EntityType.Raw => send_raw_entity entity s
  | EntityType.Table => send_table_entity env entity s
  | EntityType.NoEntity => s
  | EntityType.End => s

/-- The loop of `sendPage`; one unit of fuel per entity. -/
def sendPageLoop (env : Env) : Nat → Entity → State → Option State
  | 0, _, _ => none
  | fuel + 1, entity, s =>
    if entity.type = EntityType.End then some s
    else sendPageLoop env fuel (env.advance entity) (send_entity env entity s)

/-- The routine `sendPage`. -/
def sendPage (env : Env) (fuel : Nat) (s : State) : Option State :=
  sendPageLoop env fuel (env.page_begin s.effects s.currentPage) s

/-! ## ASCII page listing: fixed-width cells -/

/-- `serial_print_prepadding` (lines 885-895). -/
def serial_print_prepadding (value : Nat) (s : State) : State :=
  if value < 100 then
    let s1 := Serial_print s " "
    if value < 10 then Serial_print s1 " " else s1
  else s

/-- `serial_print_prepadded_value` (lines 897-902). `Serial.print` of a byte prints
its decimal digits. -/
def serial_print_prepadded_value (value : Nat) (s : State) : State :=
  Serial_print (Serial_printNum (serial_print_prepadding value s) value) " "

/-! ## Tooth and composite logs -/

/-- Body of the streaming loop of `sendToothLog_legacy` (lines 1175-1178). -/
def toothRecord (x : Nat) (s : State) : State :=
  Serial_write (Serial_write (Serial_write (Serial_write s
    (s.toothHistory x / 2 ^ 24)) (s.toothHistory x / 2 ^ 16))
    (s.toothHistory x / 2 ^ 8)) (s.toothHistory x)

/-- The routine `sendToothLog_legacy(startOffset)`. -/
def sendToothLog_legacy (env : Env) (startOffset : Nat) (s : State) : State :=
  if BIT_CHECK s.currentStatus.status1 env.BIT_STATUS1_TOOTHLOG1READY then
    let s1 := forLoop toothRecord (env.TOOTH_LOG_SIZE - startOffset) startOffset s
    { s1 with
      currentStatus :=
        { s1.currentStatus with
          status1 := BIT_CLEAR s1.currentStatus.status1 env.BIT_STATUS1_TOOTHLOG1READY }
      cmdPending := false
      toothLogSendInProgress := false
      toothHistoryIndex := 0 }
  else
    let s1 := forLoop (fun _ t => Serial_write t 0) (4 * env.TOOTH_LOG_SIZE) 0 s
    { s1 with cmdPending := false }

/-- The streaming loop of `sendCompositeLog_legacy` (lines 1201-1220), with the
number of records still to visit as its first argument. The flag returned is
`false` when the loop left the routine through its `return`. -/
def sendCompositeLoop : Nat → Nat → State → Bool × State
  | 0, _, s => (true, s)
  | n + 1, x, s =>
    let r := Serial_availableForWrite s
    if r.1 < 4 then
      (false, { r.2 with inProgressOffset := x % 256, compositeLogSendInProgress := true })
    else
      let s1 := { r.2 with inProgressCompositeTime := r.2.toothHistory x % 2 ^ 32 }
      let s2 := Serial_write (Serial_write (Serial_write (Serial_write s1
        (s1.inProgressCompositeTime / 2 ^ 24)) (s1.inProgressCompositeTime / 2 ^ 16))
        (s1.inProgressCompositeTime / 2 ^ 8)) s1.inProgressCompositeTime
      sendCompositeLoop n (x + 1) (Serial_write s2 (s2.compositeLogHistory x))

/-- The routine `sendCompositeLog_legacy(startOffset)`. -/
def sendCompositeLog_legacy (env : Env) (startOffset : Nat) (s : State) : State :=
  if BIT_CHECK s.currentStatus.status1 env.BIT_STATUS1_TOOTHLOG1READY then
    let s0 := if startOffset = 0 then { s with inProgressCompositeTime := 0 } else s
    let r := sendCompositeLoop (env.TOOTH_LOG_SIZE - startOffset) startOffset s0
    if r.1 then
      { r.2 with
        currentStatus :=
          { r.2.currentStatus with
            status1 := BIT_CLEAR r.2.currentStatus.status1 env.BIT_STATUS1_TOOTHLOG1READY }
        toothHistoryIndex := 0
        cmdPending := false
        compositeLogSendInProgress := false
        inProgressCompositeTime := 0 }
    else r.2
  else
    let s1 := forLoop (fun _ t => Serial_write t 0) (5 * env.TOOTH_LOG_SIZE) 0 s
    { s1 with cmdPending := false }

/-- The routine `testComm`. -/
def testComm (s : State) : State := Serial_write s 1

/-! ## Calibration ingestion (`receiveCalibration`) -/

/-- Modelled from the spec: `writeCalibration` of storage.cpp, which is not part of
`comms_legacy.cpp`; it stores the in-memory calibration tables in the persistent
copy. -/
def writeCalibration (s : State) : State :=
  { s with persisted := s.calibration }

/-- The table that `pnt_TargetTable_values` and `pnt_TargetTable_bins` point to. -/
inductive CalTable where
  | clt
  | iat
  | o2
  deriving DecidableEq, Repr

/-- Store through `pnt_TargetTable_values`. -/
def setCalValue (t : CalTable) (i v : Nat) (c : Calibration) : Calibration :=
  match t with
  | CalTable.clt => { c with cltCalibration_values := Function.update c.cltCalibration_values i v }
  | CalTable.iat => { c with iatCalibration_values := Function.update c.iatCalibration_values i v }
  | CalTable.o2 => { c with o2Calibration_values := Function.update c.o2Calibration_values i v }

/-- Store through `pnt_TargetTable_bins`. -/
def setCalBin (t : CalTable) (i v : Nat) (c : Calibration) : Calibration :=
  match t with
  | CalTable.clt => { c with cltCalibration_bins := Function.update c.cltCalibration_bins i v }
  | CalTable.iat => { c with iatCalibration_bins := Function.update c.iatCalibration_bins i v }
  | CalTable.o2 => { c with o2Calibration_bins := Function.update c.o2Calibration_bins i v }

/-- The `switch (tableID)` at the head of `receiveCalibration` (lines 1073-1104):
target table, `OFFSET` and `DIVISION_FACTOR`. -/
def calibrationTarget (env : Env) (tableID : Nat) : CalTable × Int × Int :=
  if tableID = 0 then (CalTable.clt, env.CALIBRATION_TEMPERATURE_OFFSET, 10)
  else if tableID = 1 then (CalTable.iat, env.CALIBRATION_TEMPERATURE_OFFSET, 10)
  else if tableID = 2 then (CalTable.o2, 0, 1)
  else (CalTable.iat, 0, 10)

/-- The O2 loop `for (int x = 0; x < 1024; x++)` (lines 1112-1123), with the number
of samples still to read as its first argument. -/
def receiveO2Loop (t : CalTable) : Nat → Nat → State → Option State
  | 0, _, s => some s
  | n + 1, x, s =>
    match Serial_wait 1 s with
    | none => none
    | some s1 =>
      let r := Serial_read s1
      let tempValue := toInt16 r.1
      let s2 :=
        if x % 32 = 0 then
          { r.2 with
            calibration :=
              setCalBin t (x / 32) (x % 65536)
                (setCalValue t (x / 32) (toByte tempValue) r.2.calibration) }
        else r.2
      receiveO2Loop t n (x + 1) s2

/-- The arithmetic of lines 1134-1140 on the two bytes of one sample, every
intermediate result wrapped to the width of the type that holds it. -/
def convertTemperature (env : Env) (OFFSET DIVISION_FACTOR : Int) (b0 b1 : Nat) : Int :=
  let v0 := toInt16 (word b1 b0)
  let v1 := toInt16 (Int.tdiv v0 DIVISION_FACTOR)
  let v2 := toInt16 (Int.tdiv (wrapSigned env.intBits (wrapSigned env.intBits (v1 - 32) * 5)) 9)
  let v3 := toInt16 (wrapSigned env.intBits (v2 + OFFSET))
  if v3 < 0 then 0 else v3

/-- The temperature loop `for (uint16_t x = 0; x < 32; x++)` (lines 1128-1146). -/
def receiveTempLoop (env : Env) (t : CalTable) (OFFSET DIVISION_FACTOR : Int) :
    Nat → Nat → State → Option State
  | 0, _, s => some s
  | n + 1, x, s =>
    match Serial_wait 2 s with
    | none => none
    | some s1 =>
      let r0 := Serial_read s1
      let r1 := Serial_read r0.2
      let tempValue := convertTemperature env OFFSET DIVISION_FACTOR (toByte r0.1) (toByte r1.1)
      let s2 :=
        { r1.2 with
          calibration :=
            setCalBin t x ((x * 32) % 65536)
              (setCalValue t x (toU16 tempValue) r1.2.calibration) }
      receiveTempLoop env t OFFSET DIVISION_FACTOR n (x + 1) (writeCalibration s2)

/-- The routine `receiveCalibration(tableID)`. -/
def receiveCalibration (env : Env) (tableID : Nat) (s : State) : Option State :=
  let target := calibrationTarget env tableID
  if tableID = 2 then
    (receiveO2Loop target.1 1024 0 s).map writeCalibration
  else
    (receiveTempLoop env target.1 target.2.1 target.2.2 32 0 s).map writeCalibration

/-! ## The command handlers of `legacySerialCommand`

One definition per `case` of the `switch (currentCommand)`, named after the
command character. -/

/-- Handler `case 'a'` (lines 58-68). -/
def case_a (s : State) : State :=
  let s := { s with cmdPending := true }
  if 2 ≤ Serial_available s then
    let s1 := (Serial_read (Serial_read s).2).2
    { sendValuesLegacy s1 with cmdPending := false }
  else s

/-- Handler `case 'A'` (lines 70-72). -/
def case_A (env : Env) (fuel : Nat) (s : State) : Option State :=
  sendValues env fuel 0 (env.LOG_ENTRY_SIZE % 65536) 49 0 s

/-- Handler `case 'B'` (lines 75-77). -/
def case_B (s : State) : State :=
  { s with effects := s.effects ++ [Effect.writeAllConfig] }

/-- Handler `case 'b'` (lines 79-88). -/
def case_b (s : State) : State :=
  let s := { s with cmdPending := true }
  if 2 ≤ Serial_available s then
    let r := Serial_read (Serial_read s).2
    { r.2 with effects := r.2.effects ++ [Effect.writeConfig (toByte r.1)], cmdPending := false }
  else s

/-- Handler `case 'C'` (lines 90-92). -/
def case_C (s : State) : State := testComm s

/-- Handler `case 'c'` (lines 94-97). -/
def case_c (s : State) : State :=
  Serial_write (Serial_write s (lowByte s.currentStatus.loopsPerSecond))
    (highByte s.currentStatus.loopsPerSecond)

/-- Handler `case 'd'` (lines 99-115). -/
def case_d (env : Env) (s : State) : State :=
  let s := { s with cmdPending := true }
  if 2 ≤ Serial_available s then
    let r := Serial_read (Serial_read s).2
    let CRC32_val := env.calculatePageCRC32 r.2.effects (toByte r.1) % 2 ^ 32
    let s1 := Serial_write (Serial_write (Serial_write (Serial_write r.2
      (CRC32_val / 2 ^ 24 % 256)) (CRC32_val / 2 ^ 16 % 256)) (CRC32_val / 2 ^ 8 % 256))
      (CRC32_val % 256)
    { s1 with cmdPending := false }
  else s

/-- Handler `case 'E'` (lines 117-145). -/
def case_E (env : Env) (s : State) : State :=
  let s := { s with cmdPending := true }
  if 2 ≤ Serial_available s then
    let r0 := Serial_read s
    let r1 := Serial_read r0.2
    let cmdCombined := word (toByte r0.1) (toByte r1.1)
    let s1 := r1.2
    let press : State := { s1 with effects := s1.effects ++ [Effect.TS_CommandButtonsHandler cmdCombined] }
    if (env.TS_CMD_INJ1_ON ≤ cmdCombined ∧ cmdCombined ≤ env.TS_CMD_IGN8_50PC)
        ∨ cmdCombined = env.TS_CMD_TEST_ENBL ∨ cmdCombined = env.TS_CMD_TEST_DSBL then
      if s1.currentStatus.RPM = 0 then { press with cmdPending := false }
      else { s1 with cmdPending := false }
    else if env.TS_CMD_VSS_60KMH ≤ cmdCombined ∧ cmdCombined ≤ env.TS_CMD_VSS_RATIO6 then
      { press with cmdPending := false }
    else if env.TS_CMD_STM32_REBOOT ≤ cmdCombined ∧ cmdCombined ≤ env.TS_CMD_STM32_BOOTLOADER then
      { press with cmdPending := false }
    else s1
  else s

/-- Handler `case 'F'` (lines 147-149). -/
def case_F (s : State) : State := Serial_print s "001"

/-- Handler `case 'G'` (lines 152-164). -/
def case_G (env : Env) (s : State) : State :=
  let s1 := Serial_write (Serial_write s (lowByte env.getEEPROMSize)) (highByte env.getEEPROMSize)
  let s2 := Serial_print s1 ","
  let s3 := forLoop (fun x t => Serial_write t (env.EEPROMReadRaw t.effects x))
    env.getEEPROMSize 0 s2
  { s3 with cmdPending := false }

/-- The loop `for (uint16_t x = 0; x < eepromSize; x++)` of `case 'g'`
(lines 179-183), with the number of bytes still to store as its first argument. -/
def loadEEPROMLoop : Nat → Nat → State → Option State
  | 0, _, s => some s
  | n + 1, x, s =>
    match Serial_wait 3 s with
    | none => none
    | some s1 =>
      let r := Serial_read s1
      loadEEPROMLoop n (x + 1)
        { r.2 with effects := r.2.effects ++ [Effect.EEPROMWriteRaw x (toByte r.1)] }

/-- Handler `case 'g'` (lines 166-187). The two `Serial.read()` calls are the
arguments of one `word` call, so their order is the compiler's choice. -/
def case_g (env : Env) (s : State) : Option State :=
  match Serial_wait 3 s with
  | none => none
  | some s1 =>
    let r0 := Serial_read s1
    let r1 := Serial_read r0.2
    let eepromSize :=
      if env.argsRightToLeft then word (toByte r1.1) (toByte r0.1)
      else word (toByte r0.1) (toByte r1.1)
    if eepromSize ≠ env.getEEPROMSize then
      some (Serial_println r1.2 "ERR; Incorrect EEPROM size")
    else
      (loadEEPROMLoop eepromSize 0 r1.2).map fun t => { t with cmdPending := false }

/-- Handler `case 'H'` (lines 189-203). -/
def case_H (env : Env) (s : State) : State :=
  let s1 : State :=
    { s with
      currentStatus :=
        { s.currentStatus with
          toothLogEnabled := true
          compositeLogEnabled := false
          status1 := BIT_CLEAR s.currentStatus.status1 env.BIT_STATUS1_TOOTHLOG1READY }
      toothHistoryIndex := 0
      effects := s.effects ++ [Effect.attachLoggerISR] }
  Serial_write s1 1

/-- Handler `case 'h'` (lines 205-214). -/
def case_h (s : State) : State :=
  { s with
    currentStatus := { s.currentStatus with toothLogEnabled := false }
    effects := s.effects ++ [Effect.attachTriggerHandler] }

/-- Handler `case 'J'` (lines 216-230). -/
def case_J (env : Env) (s : State) : State :=
  let s1 : State :=
    { s with
      currentStatus :=
        { s.currentStatus with
          compositeLogEnabled := true
          toothLogEnabled := false
          status1 := BIT_CLEAR s.currentStatus.status1 env.BIT_STATUS1_TOOTHLOG1READY }
      toothHistoryIndex := 0
      effects := s.effects ++ [Effect.attachLoggerISR] }
  Serial_write s1 1

/-- Handler `case 'j'` (lines 232-241). -/
def case_j (s : State) : State :=
  { s with
    currentStatus := { s.currentStatus with compositeLogEnabled := false }
    effects := s.effects ++ [Effect.attachTriggerHandler] }

/-- Handler `case 'L'` (lines 243-247). The text of `sendPageASCII` is laid out from
configuration structures declared in other headers; it is taken from `Env`. -/
def case_L (env : Env) (s : State) : State :=
  if env.SMALL_FLASH_MODE then s
  else { s with tx := s.tx ++ env.pageASCII s.effects s.currentPage }

/-- Handler `case 'm'` (lines 249-253). -/
def case_m (env : Env) (s : State) : State :=
  let s1 : State :=
    { s with currentStatus := { s.currentStatus with freeRAM := env.freeRam % 65536 } }
  Serial_write (Serial_write s1 (lowByte s1.currentStatus.freeRAM))
    (highByte s1.currentStatus.freeRAM)

/-- Handler `case 'N'` (lines 255-257). -/
def case_N (s : State) : State := Serial_println s ""

/-- Handler `case 'P'` (lines 259-286). -/
def case_P (env : Env) (s : State) : State :=
  let s := { s with cmdPending := true }
  if 0 < Serial_available s then
    let r := Serial_read s
    let b := toByte r.1
    let page :=
      if 48 ≤ b ∧ b ≤ 57 then (b - 48) % 256
      else if 97 ≤ b ∧ b ≤ 102 then (b - 87) % 256
      else if 65 ≤ b ∧ b ≤ 70 then (b - 55) % 256
      else b
    let map : Bool :=
      page = env.veMapPage ∨ page = env.ignMapPage ∨ page = env.afrMapPage
        ∨ page = env.fuelMap2Page ∨ page = env.ignMap2Page
    { r.2 with currentPage := page, isMap := map, cmdPending := false }
  else s

/-- Handler `case 'p'` (lines 291-320). `length` is an `int`. -/
def case_p (env : Env) (s : State) : State :=
  let s := { s with cmdPending := true }
  if 6 ≤ Serial_available s then
    let r0 := Serial_read s
    let r1 := Serial_read r0.2
    let tempPage := toByte r1.1
    let r2 := Serial_read r1.2
    let r3 := Serial_read r2.2
    let s1 : State := { r3.2 with valueOffset := word (toByte r3.1) (toByte r2.1) }
    let r4 := Serial_read s1
    let r5 := Serial_read r4.2
    let length := wrapSigned env.intBits (word (toByte r5.1) (toByte r4.1))
    let s2 := forLoop
      (fun i t => Serial_write t (env.getPageValue t.effects tempPage ((t.valueOffset + i) % 65536)))
      length.toNat 0 r5.2
    { s2 with cmdPending := false }
  else s

/-- Handler `case 'Q'` (lines 322-324). -/
def case_Q (s : State) : State := Serial_print s "speeduino 202207"

/-- Handler `case 'r'` (lines 326-352). -/
def case_r (env : Env) (fuel : Nat) (s : State) : Option State :=
  let s := { s with cmdPending := true }
  if 6 ≤ Serial_available s then
    let r0 := Serial_read s
    let s1 : State := { r0.2 with tsCanId := toByte r0.1 }
    let r1 := Serial_read s1
    let cmd := toByte r1.1
    let r2 := Serial_read r1.2
    let r3 := Serial_read r2.2
    let offset := word (toByte r3.1) (toByte r2.1)
    let r4 := Serial_read r3.2
    let r5 := Serial_read r4.2
    let length := word (toByte r5.1) (toByte r4.1)
    if cmd = 48 then
      (sendValues env fuel offset length cmd 0 r5.2).map fun t => { t with cmdPending := false }
    else some { r5.2 with cmdPending := false }
  else some s

/-- Handler `case 'S'` (lines 354-357). -/
def case_S (s : State) : State :=
  let s1 := Serial_print s "Speeduino 202207.1"
  { s1 with currentStatus := { s1.currentStatus with secl := 0 } }

/-- Handler `case 'T'` (lines 359-382). -/
def case_T (env : Env) (s : State) : State :=
  let s := { s with cmdPending := true }
  if 6 ≤ Serial_available s then
    let s1 := (Serial_read (Serial_read (Serial_read (Serial_read (Serial_read
      (Serial_read s).2).2).2).2).2).2
    let s2 :=
      if s1.currentStatus.toothLogEnabled = true then sendToothLog_legacy env 0 s1
      else if s1.currentStatus.compositeLogEnabled = true then sendCompositeLog_legacy env 0 s1
      else s1
    { s2 with cmdPending := false }
  else s

/-- Handler `case 't'` (lines 384-395). -/
def case_t (env : Env) (s : State) : Option State :=
  match Serial_wait 1 s with
  | none => none
  | some s1 =>
    let r := Serial_read s1
    (receiveCalibration env (toByte r.1) r.2).map writeCalibration

/-- Handler `case 'U'` (lines 397-413). -/
def case_U (env : Env) (s : State) : Option State :=
  if s.resetControl ≠ env.RESET_CONTROL_DISABLED then
    let s1 :=
      if env.SMALL_FLASH_MODE = false ∧ s.cmdPending = false then
        Serial_println s "Comms halted. Next byte will reset the Arduino."
      else s
    (Serial_wait 1 s1).map fun t => { t with effects := t.effects ++ [Effect.resetPinLow] }
  else
    if env.SMALL_FLASH_MODE = false ∧ s.cmdPending = false then
      some (Serial_println s "Reset control is currently disabled.")
    else some s

/-- Handler `case 'V'` (lines 415-417). -/
def case_V (env : Env) (fuel : Nat) (s : State) : Option State := sendPage env fuel s

/-- Handler `case 'W'` (lines 419-444). -/
def case_W (s : State) : State :=
  let s := { s with cmdPending := true }
  if s.isMap then
    if 3 ≤ Serial_available s then
      let r0 := Serial_read s
      let r1 := Serial_read r0.2
      let s1 : State := { r1.2 with valueOffset := word (toByte r1.1) (toByte r0.1) }
      let r2 := Serial_read s1
      { r2.2 with
        effects := r2.2.effects ++
          [Effect.setPageValue s1.currentPage (s1.valueOffset % 65536) (toByte r2.1)]
        cmdPending := false }
    else s
  else
    if 2 ≤ Serial_available s then
      let r0 := Serial_read s
      let s1 : State := { r0.2 with valueOffset := toByte r0.1 }
      let r1 := Serial_read s1
      { r1.2 with
        effects := r1.2.effects ++
          [Effect.setPageValue s1.currentPage (s1.valueOffset % 65536) (toByte r1.1)]
        cmdPending := false }
    else s

/-- The loop `while ((Serial.available() > 0) && (chunkComplete < chunkSize))` of
`case 'M'` (lines 479-483). Every iteration takes one byte from the buffer, so the
loop runs at most as often as its first argument, the number of buffered bytes. -/
def chunkLoop : Nat → State → State
  | 0, s => s
  | n + 1, s =>
    if 0 < Serial_available s ∧ s.chunkComplete < s.chunkSize then
      let r := Serial_read s
      chunkLoop n
        { r.2 with
          effects := r.2.effects ++
            [Effect.setPageValue r.2.currentPage ((r.2.valueOffset + r.2.chunkComplete) % 65536)
              (toByte r.1)]
          chunkComplete := (r.2.chunkComplete + 1) % 65536 }
    else s

/-- Handler `case 'M'` (lines 446-486). -/
def case_M (s : State) : State :=
  let s := { s with cmdPending := true }
  let s1 : State :=
    if s.chunkPending = false then
      if 7 ≤ Serial_available s then
        let r0 := Serial_read s
        let r1 := Serial_read r0.2
        let t1 : State := { r1.2 with currentPage := toByte r1.1 }
        let r2 := Serial_read t1
        let r3 := Serial_read r2.2
        let t2 : State := { r3.2 with valueOffset := word (toByte r3.1) (toByte r2.1) }
        let r4 := Serial_read t2
        let r5 := Serial_read r4.2
        { r5.2 with
          chunkSize := word (toByte r5.1) (toByte r4.1)
          chunkPending := true
          chunkComplete := 0 }
      else s
    else s
  if s1.chunkPending = true then
    let s2 := chunkLoop (Serial_available s1) s1
    if s2.chunkSize ≤ s2.chunkComplete then { s2 with cmdPending := false, chunkPending := false }
    else s2
  else s1

/-- Handler `case 'w'` (lines 488-504). -/
def case_w (s : State) : State :=
  if 7 ≤ Serial_available s then
    let r0 := Serial_read s
    let r1 := Serial_read r0.2
    let t1 : State := { r1.2 with currentPage := toByte r1.1 }
    let r2 := Serial_read t1
    let r3 := Serial_read r2.2
    let t2 : State := { r3.2 with valueOffset := word (toByte r3.1) (toByte r2.1) }
    let r4 := Serial_read t2
    let r5 := Serial_read r4.2
    { r5.2 with chunkSize := word (toByte r5.1) (toByte r4.1) }
  else s

/-- One line `bin, value` of the listing printed by `case 'Z'`. -/
def printPair (bin value : Nat) (s : State) : State :=
  Serial_printlnNum (Serial_print (Serial_printNum s bin) ", ") value

/-- Handler `case 'Z'` (lines 506-538). -/
def case_Z (env : Env) (s : State) : State :=
  if env.SMALL_FLASH_MODE then s
  else
    let s1 := forLoop
      (fun x t => printPair (t.calibration.cltCalibration_bins x) (t.calibration.cltCalibration_values x) t)
      32 0 (Serial_println s "Coolant")
    let s2 := forLoop
      (fun x t => printPair (t.calibration.iatCalibration_bins x) (t.calibration.iatCalibration_values x) t)
      32 0 (Serial_println s1 "Inlet temp")
    let s3 := forLoop
      (fun x t => printPair (t.calibration.o2Calibration_bins x) (t.calibration.o2Calibration_values x) t)
      32 0 (Serial_println s2 "O2")
    let s4 := forLoop
      (fun x t => printPair (env.wueBins t.effects x) (env.wueValues t.effects x) t)
      10 0 (Serial_println s3 "WUE")
    { s4 with effects := s4.effects ++ [Effect.Serial_flush] }

/-- Handler `case 'z'` (lines 540-542). -/
def case_z (env : Env) (s : State) : State := sendToothLog_legacy env 0 s

/-- Handler for the backquote command (lines 544-551). -/
def case_backquote (s : State) : State :=
  let s := { s with cmdPending := true }
  if 1 ≤ Serial_available s then
    let r := Serial_read s
    { r.2 with effects := r.2.effects ++ [Effect.bootloaderCaps (toByte r.1)], cmdPending := false }
  else s

/-- The help text of `case '?'` (lines 558-582). -/
def helpText : String :=
  "\n" ++
  "===Command Help===\n\n" ++
  "All commands are single character and are concatenated with their parameters \n" ++
  "without spaces." ++
  "Syntax:  <command>+<parameter1>+<parameter2>+<parameterN>\n\n" ++
  "===List of Commands===\n\n" ++
  "A - Displays 31 bytes of currentStatus values in binary (live data)\n" ++
  "B - Burn current map and configPage values to eeprom\n" ++
  "C - Test COM port.  Used by Tunerstudio to see whether an ECU is on a given serial \n" ++
  "    port. Returns a binary number.\n" ++
  "N - Print new line.\n" ++
  "P - Set current page.  Syntax:  P+<pageNumber>\n" ++
  "R - Same as A command\n" ++
  "S - Display signature number\n" ++
  "Q - Same as S command\n" ++
  "V - Display map or configPage values in binary\n" ++
  "W - Set one byte in map or configPage.  Expects binary parameters. \n" ++
  "    Syntax:  W+<offset>+<newbyte>\n" ++
  "t - Set calibration values.  Expects binary parameters.  Table index is either 0, \n" ++
  "    1, or 2.  Syntax:  t+<tble_idx>+<newValue1>+<newValue2>+<newValueN>\n" ++
  "Z - Display calibration values\n" ++
  "T - Displays 256 tooth log entries in binary\n" ++
  "r - Displays 256 tooth log entries\n" ++
  "U - Prepare for firmware update. The next byte received will cause the Arduino to reset.\n" ++
  "? - Displays this help page"

/-- Handler `case '?'` (lines 554-586). -/
def case_help (env : Env) (s : State) : State :=
  if env.SMALL_FLASH_MODE then s else Serial_println s helpText

/-- Handler `default` (lines 588-591). -/
def case_default (s : State) : State :=
  { Serial_println s "Err: Unknown cmd" with cmdPending := false }

/-! ## The dispatcher -/

/-- The command characters that have a `case` in the `switch` of
`legacySerialCommand`, in source order. -/
def handledCommands : List Nat :=
  [97, 65, 66, 98, 67, 99, 100, 69, 70, 71, 103, 72, 104, 74, 106, 76, 109, 78, 80, 112,
   81, 114, 83, 84, 116, 85, 86, 87, 77, 119, 90, 122, 96, 63]

/-- Line 53: a new command byte is read only when no command is pending. The `int`
that `Serial.read()` returns is narrowed to the byte `currentCommand`. -/
def readCommand (s : State) : State :=
  if s.cmdPending = false ∧ s.legacySerial = false then
    let r := Serial_read s
    { r.2 with currentCommand := toByte r.1 }
  else s

/-- The `switch (currentCommand)` of `legacySerialCommand` (lines 55-592). -/
def dispatch (env : Env) (fuel : Nat) (s : State) : Option State :=
  if s.currentCommand = 97 then some (case_a s) -- 'a'
  else if s.currentCommand = 65 then case_A env fuel s -- 'A'
  else if s.currentCommand = 66 then some (case_B s) -- 'B'
  else if s.currentCommand = 98 then some (case_b s) -- 'b'
  else if s.currentCommand = 67 then some (case_C s) -- 'C'
  else if s.currentCommand = 99 then some (case_c s) -- 'c'
  else if s.currentCommand = 100 then some (case_d env s) -- 'd'
  else if s.currentCommand = 69 then some (case_E env s) -- 'E'
  else if s.currentCommand = 70 then some (case_F s) -- 'F'
  else if s.currentCommand = 71 then some (case_G env s) -- 'G'
  else if s.currentCommand = 103 then case_g env s -- 'g'
  else if s.currentCommand = 72 then some (case_H env s) -- 'H'
  else if s.currentCommand = 104 then some (case_h s) -- 'h'
  else if s.currentCommand = 74 then some (case_J env s) -- 'J'
  else if s.currentCommand = 106 then some (case_j s) -- 'j'
  else if s.currentCommand = 76 then some (case_L env s) -- 'L'
  else if s.currentCommand = 109 then some (case_m env s) -- 'm'
  else if s.currentCommand = 78 then some (case_N s) -- 'N'
  else if s.currentCommand = 80 then some (case_P env s) -- 'P'
  else if s.currentCommand = 112 then some (case_p env s) -- 'p'
  else if s.currentCommand = 81 then some (case_Q s) -- 'Q'
  else if s.currentCommand = 114 then case_r env fuel s -- 'r'
  else if s.currentCommand = 83 then some (case_S s) -- 'S'
  else if s.currentCommand = 84 then some (case_T env s) -- 'T'
  else if s.currentCommand = 116 then case_t env s -- 't'
  else if s.currentCommand = 85 then case_U env s -- 'U'
  else if s.currentCommand = 86 then case_V env fuel s -- 'V'
  else if s.currentCommand = 87 then some (case_W s) -- 'W'
  else if s.currentCommand = 77 then some (case_M s) -- 'M'
  else if s.currentCommand = 119 then some (case_w s) -- 'w'
  else if s.currentCommand = 90 then some (case_Z env s) -- 'Z'
  else if s.currentCommand = 122 then some (case_z env s) -- 'z'
  else if s.currentCommand = 96 then some (case_backquote s) -- backquote
  else if s.currentCommand = 63 then some (case_help env s) -- '?'
  else some (case_default s)

/-- The routine `legacySerialCommand`. The result is `none` when the call never
returns. -/
def legacySerialCommand (env : Env) (fuel : Nat) (s : State) : Option State :=
  dispatch env fuel (readCommand s)

/-- Bytes that reach the receive buffer between two calls. -/
def receive (bytes : List Nat) (s : State) : State :=
  { s with rx := s.rx ++ bytes }

/-- Successive calls of `legacySerialCommand`, the bytes of one chunk arriving
before each call. -/
def poll (env : Env) (fuel : Nat) : List (List Nat) → State → Option State
  | [], s => some s
  | chunk :: chunks, s =>
    match legacySerialCommand env fuel (receive chunk s) with
    | none => none
    | some s1 => poll env fuel chunks s1

/-! ## Sample configuration and start state -/

/-- A sample configuration on which the definitions are evaluated: typical values
for the constants of the firmware's headers and simple stand-ins for the external
readers. -/
def sampleEnv : Env where
  veMapPage := 2
  ignMapPage := 3
  afrMapPage := 5
  fuelMap2Page := 11
  ignMap2Page := 14
  LOG_ENTRY_SIZE := 122
  TOOTH_LOG_SIZE := 127
  CALIBRATION_TEMPERATURE_OFFSET := 40
  BIT_STATUS1_TOOTHLOG1READY := 6
  BIT_SPARK_SYNC := 7
  BIT_STATUS3_VSS_REFRESH := 3
  RESET_CONTROL_DISABLED := 0
  TS_CMD_INJ1_ON := 513
  TS_CMD_IGN8_50PC := 792
  TS_CMD_TEST_ENBL := 257
  TS_CMD_TEST_DSBL := 256
  TS_CMD_VSS_60KMH := 39168
  TS_CMD_VSS_RATIO6 := 39174
  TS_CMD_STM32_REBOOT := 12800
  TS_CMD_STM32_BOOTLOADER := 12801
  SMALL_FLASH_MODE := false
  USE_SERIAL3 := true
  CANSerial_AVAILABLE := true
  intBits := 16
  argsRightToLeft := true
  getTSLogEntry := fun st i => if i = 0 then st.secl else (st.spark + i) % 256
  getPageValue := fun _ page offset => (page + offset) % 256
  calculatePageCRC32 := fun _ page => page
  getEEPROMSize := 4
  EEPROMReadRaw := fun _ a => a % 256
  freeRam := 1000
  page_begin := fun _ _ => ⟨EntityType.End, [], [], [], 0, [], 0⟩
  advance := fun e => e
  to_byte := fun _ v => toByte v
  pageASCII := fun _ _ => []
  wueBins := fun _ _ => 0
  wueValues := fun _ _ => 0

/-- An engine status with every member zero. -/
def zeroStatus : Status :=
  ⟨0, 0, 0, 0, false, 0, 0, 0, false, false, 0, 0, 0, 0, 0, 0, 0, 0, 0, 0, 0, 0, 0, 0,
   0, 0, 0, 0, 0, 0, 0, 0, 0, 0, 0, 0⟩

/-- Calibration tables with every cell zero. -/
def zeroCalibration : Calibration :=
  ⟨fun _ => 0, fun _ => 0, fun _ => 0, fun _ => 0, fun _ => 0, fun _ => 0⟩

/-- The state after start-up (initialisers of lines 26-42, zero for the globals
without one), with a given receive buffer and transmit capacity. -/
def initialState (rx : List Nat) (afw : Nat → Nat) : State where
  currentPage := 1
  isMap := true
  requestCount := 0
  currentCommand := 0
  cmdPending := false
  chunkPending := false
  chunkComplete := 0
  chunkSize := 0
  valueOffset := 0
  tsCanId := 0
  inProgressOffset := 0
  inProgressLength := 0
  inProgressCompositeTime := 0
  serialInProgress := false
  toothLogSendInProgress := false
  compositeLogSendInProgress := false
  legacySerial := false
  rx := rx
  wire := []
  tx := []
  canTx := []
  afw := afw
  afwCalls := 0
  currentStatus := zeroStatus
  toothHistory := fun _ => 0
  compositeLogHistory := fun _ => 0
  toothHistoryIndex := 0
  resetControl := 0
  calibration := zeroCalibration
  persisted := zeroCalibration
  effects := []

/-! ## Definitions used to state the properties -/

/-- The number of argument bytes a command with a fixed argument count waits for,
as the protocol description lists them: `'a'`, `'b'`, `'d'`, `'E'` need 2; `'P'`
and the backquote need 1; `'p'`, `'r'`, `'T'` need 6; `'W'` needs 3 on a map page
and 2 otherwise; a new `'M'` needs 7. Other commands have no entry. -/
def requiredArgs (isMap : Bool) (c : Nat) : Option Nat :=
  if c = 97 ∨ c = 98 ∨ c = 100 ∨ c = 69 then some 2
  else if c = 80 ∨ c = 96 then some 1
  else if c = 112 ∨ c = 114 ∨ c = 84 then some 6
  else if c = 87 then some (if isMap then 3 else 2)
  else if c = 77 then some 7
  else none

/-- The bytes of a text as `Serial.print` sends them. -/
def textBytes (text : String) : List Nat := text.toList.map Char.toNat

/-- The two wire bytes of a signed 16-bit calibration sample in the order in which
`receiveCalibration` reads them: first the low byte, then the high byte. -/
def sampleBytes (v : Int) : List Nat := [toU16 v % 256, toU16 v / 256]

/-- The stored temperature as the calibration description gives it: tenths of a
degree Fahrenheit to whole degrees, Fahrenheit to Celsius, the calibration offset,
and a floor of 0, both divisions truncating toward zero. -/
def storedTemperature (OFFSET v : Int) : Int :=
  max 0 (Int.tdiv ((Int.tdiv v 10 - 32) * 5) 9 + OFFSET)

/-- A value that a signed 16-bit integer can hold. -/
def fitsInt16 (i : Int) : Prop := -32768 ≤ i ∧ i ≤ 32767

/-- The values array of a calibration table. -/
def calValues (t : CalTable) (c : Calibration) : Nat → Nat :=
  match t with
  | CalTable.clt => c.cltCalibration_values
  | CalTable.iat => c.iatCalibration_values
  | CalTable.o2 => c.o2Calibration_values

/-- The bins array of a calibration table. -/
def calBins (t : CalTable) (c : Calibration) : Nat → Nat :=
  match t with
  | CalTable.clt => c.cltCalibration_bins
  | CalTable.iat => c.iatCalibration_bins
  | CalTable.o2 => c.o2Calibration_bins

/-- The page writes of a bulk write of `data` to `page` at `offset`, from index `i`
on: `setPageValue(page, offset + i, data[i])`, `setPageValue(page, offset + i + 1,
data[i + 1])`, and so on, the address as a `uint16_t`. -/
def chunkWrites (page offset : Nat) : Nat → List Nat → List Effect
  | _, [] => []
  | i, d :: ds =>
    Effect.setPageValue page ((offset + i) % 65536) d :: chunkWrites page offset (i + 1) ds

/-- The progress of one `'M'` bulk write between two calls of
`legacySerialCommand`; `pending` are the request bytes that have not yet reached
the receive buffer. Either the header is still incomplete, or `chunkComplete` data
bytes have been written and the rest is awaited, or the write is complete. -/
def BulkWrite (e0 : List Effect) (page offset : Nat) (request data pending : List Nat)
    (s : State) : Prop :=
  s.legacySerial = false
  ∧ ((s.cmdPending = true ∧ s.currentCommand = 77 ∧ s.chunkPending = false
        ∧ s.rx ++ pending = request ∧ s.rx.length < 7 ∧ s.effects = e0)
    ∨ (s.cmdPending = true ∧ s.currentCommand = 77 ∧ s.chunkPending = true ∧ s.rx = []
        ∧ s.currentPage = page ∧ s.valueOffset = offset ∧ s.chunkSize = data.length
        ∧ s.chunkComplete < data.length ∧ pending = data.drop s.chunkComplete
        ∧ s.effects = e0 ++ chunkWrites page offset 0 (data.take s.chunkComplete))
    ∨ (s.cmdPending = false ∧ s.chunkPending = false ∧ s.rx = [] ∧ pending = []
        ∧ s.effects = e0 ++ chunkWrites page offset 0 data))

/-- The resumed calls `sendValues(inProgressOffset, inProgressLength, cmd, 0)` that
follow a suspended send, made for as long as `serialInProgress` is set and at most
`n` times. -/
def resumeValues (env : Env) (fuel cmd : Nat) : Nat → State → Option State
  | 0, s => some s
  | n + 1, s =>
    if s.serialInProgress = true then
      match sendValues env fuel s.inProgressOffset s.inProgressLength cmd 0 s with
      | none => none
      | some s1 => resumeValues env fuel cmd n s1
    else some s

/-- The states in which `legacySerialCommand` can be entered: the start state, every
state a call returns, and each of these after the environment has acted. The
environment (the host, the capture interrupts, the rest of the firmware) delivers
bytes, decides the transmit capacity, and changes the engine status, the log
buffers and `resetControl`; it does not write the globals of `comms_legacy.cpp`. -/
inductive Reachable (env : Env) : State → Prop where
  | start (rx : List Nat) (afw : Nat → Nat) : Reachable env (initialState rx afw)
  | call (s s1 : State) (fuel : Nat) :
      Reachable env s → legacySerialCommand env fuel s = some s1 → Reachable env s1
  | environment (s : State) (rx wire : List Nat) (afw : Nat → Nat) (afwCalls : Nat)
      (st : Status) (toothHistory compositeLogHistory : Nat → Nat)
      (toothHistoryIndex resetControl : Nat) :
      Reachable env s →
      Reachable env { s with
        rx := rx
        wire := wire
        afw := afw
        afwCalls := afwCalls
        currentStatus := st
        toothHistory := toothHistory
        compositeLogHistory := compositeLogHistory
        toothHistoryIndex := toothHistoryIndex
        resetControl := resetControl }

/-- What a command handler other than `'M'` leaves alone: `chunkPending`,
`legacySerial` and `currentCommand` keep their values, and
`toothLogSendInProgress` is not set. -/
def Frame (s s1 : State) : Prop :=
  s1.chunkPending = s.chunkPending ∧ s1.legacySerial = s.legacySerial
    ∧ s1.currentCommand = s.currentCommand
    ∧ (s.toothLogSendInProgress = false → s1.toothLogSendInProgress = false)

/-- The session facts that hold between calls: the legacy flag and the tooth-log
flag are clear, and a pending chunk belongs to a pending `'M'`. -/
def SessionInv (s : State) : Prop :=
  s.legacySerial = false ∧ s.toothLogSendInProgress = false
    ∧ (s.chunkPending = true → s.cmdPending = true ∧ s.currentCommand = 77)

/-- The samples that the temperature loop decodes from a byte stream: of each pair
of bytes the second is the high byte. -/
def decodePairs : List Nat → List Int
  | b0 :: b1 :: rest => toInt16 ((b1 * 256 + b0 : Nat) : Int) :: decodePairs rest
  | _ => []


/-- A sample state with the tooth-log ready bit set in `status1` and the two log
buffers filled: timestamp `x` is 0x01020304 + x, status byte `x` is 200 + x. -/
def loggedState (afw : Nat → Nat) : State :=
  { initialState [] afw with
    currentStatus := { zeroStatus with status1 := 64 }
    toothHistory := fun x => 16909060 + x
    compositeLogHistory := fun x => 200 + x }

/-- A sample environment whose pages consist of three raw bytes, then a table of two
rows with a two-sample axis each way, then an empty entity; the converter of domain
0 narrows a sample to a byte and that of any other domain halves it first. -/
def pagedEnv : Env :=
  { sampleEnv with
    page_begin := fun _ _ => ⟨EntityType.Raw, [1, 2, 3], [], [], 0, [], 0⟩
    advance := fun e =>
      match e.type with
      | EntityType.Raw =>
        ⟨EntityType.Table, [], [[10, 11], [12, 13]], [100, 200], 0, [50, 60], 1⟩
      | EntityType.Table => ⟨EntityType.NoEntity, [], [], [], 0, [], 0⟩
      | EntityType.NoEntity => ⟨EntityType.End, [], [], [], 0, [], 0⟩
      | EntityType.End => ⟨EntityType.End, [], [], [], 0, [], 0⟩
    to_byte := fun d v => if d = 0 then toByte v else toByte (v / 2) }

/-- The byte stream that `'G'` writes for the store content read through `effects`:
the two size bytes, low byte first, a comma, and the raw bytes. -/
def dumpStream (env : Env) (effects : List Effect) : List Nat :=
  [lowByte env.getEEPROMSize, highByte env.getEEPROMSize, 44]
    ++ (List.range env.getEEPROMSize).map (fun x => env.EEPROMReadRaw effects x % 256)

/-- A 32-bit value on the wire, most significant byte first. -/
def be32 (v : Nat) : List Nat :=
  [v / 2 ^ 24 % 256, v / 2 ^ 16 % 256, v / 2 ^ 8 % 256, v % 256]

/-- The number that a sequence of bytes, most significant first, stands for. -/
def ofBytesBE (bytes : List Nat) : Nat :=
  bytes.foldl (fun acc b => acc * 256 + b) 0

/-- Record `x` of the composite log on the wire: the four bytes of `toothHistory[x]`
most significant first, then `compositeLogHistory[x]`. -/
def compositeRecord (s : State) (x : Nat) : List Nat :=
  be32 (s.toothHistory x) ++ [s.compositeLogHistory x % 256]

/-- The resumed calls `sendCompositeLog_legacy(inProgressOffset)` that follow a
suspended send, made for as long as `compositeLogSendInProgress` is set and at most
`n` times. -/
def resumeComposite (env : Env) : Nat → State → State
  | 0, s => s
  | n + 1, s =>
    if s.compositeLogSendInProgress = true then
      resumeComposite env n (sendCompositeLog_legacy env s.inProgressOffset s)
    else s

/-- The wire form of one entity of a page: a raw entity is its bytes, a table is its
value rows in row-iterator order, then its X axis and then its Y axis, each axis
sample as the byte its domain's converter gives. -/
def entityWire (env : Env) (e : Entity) : List Nat :=
  match e.type with
  | EntityType.Raw => e.raw
  | EntityType.Table =>
    e.rows.flatten ++ e.xAxis.map (fun v => env.to_byte e.xDomain v % 256)
      ++ e.yAxis.map (fun v => env.to_byte e.yDomain v % 256)
  | EntityType.NoEntity => []
  | EntityType.End => []

/-- The first `n` entities of the sequence that `advance` makes from `e`. -/
def entitySeq (env : Env) : Nat → Entity → List Entity
  | 0, _ => []
  | n + 1, e => e :: entitySeq env n (env.advance e)

/-- What a command handler other than `'P'`, `'M'` and `'w'` leaves alone: the
selected page and its table/raw classification. -/
def SamePage (s s1 : State) : Prop :=
  s1.currentPage = s.currentPage ∧ s1.isMap = s.isMap

/-- Command codes whose handlers raise `cmdPending` while their arguments are
outstanding (lines 59, 80, 100, 118, 262, 292, 327, 364, 420, 447 and 545). -/
def pendable : List Nat := [97, 98, 100, 69, 80, 112, 114, 84, 87, 77, 96]

/-- A step that leaves an idle session idle. -/
def KeepsIdle (s s1 : State) : Prop := s.cmdPending = false → s1.cmdPending = false

/-- A command can be pending only if its handler is one of those that wait for
arguments across calls. -/
def PendInv (s : State) : Prop := s.cmdPending = true → s.currentCommand ∈ pendable

/-! ## Basic facts -/

theorem toByte_natCast (b : Nat) (hb : b < 256) : toByte (b : Int) = b := by
  unfold toByte
  omega

theorem toByte_neg_one : toByte (-1) = 255 := by decide

theorem Serial_read_cons (s : State) (b : Nat) (rest : List Nat) (h : s.rx = b :: rest) :
    Serial_read s = ((b : Int), { s with rx := rest }) := by
  simp [Serial_read, h]

theorem Serial_read_nil (s : State) (h : s.rx = []) : Serial_read s = (-1, s) := by
  simp [Serial_read, h]

/-! ## Page select (`case 'P'`) -/

theorem dispatch_P (env : Env) (fuel : Nat) (s : State) (h : s.currentCommand = 80) :
    dispatch env fuel s = some (case_P env s) := by
  simp [dispatch, h]

/-- What `case 'P'` does when its argument byte is buffered. -/
theorem case_P_avail (env : Env) (s : State) (b : Nat) (rest : List Nat) (hb : b < 256)
    (hrx : s.rx = b :: rest) :
    (case_P env s).rx = rest ∧ (case_P env s).cmdPending = false
     ∧ (case_P env s).currentPage = (if 48 ≤ b ∧ b ≤ 57 then b - 48
      else if 97 ≤ b ∧ b ≤ 102 then b - 87
      else if 65 ≤ b ∧ b ≤ 70 then b - 55
      else b)
     ∧ ((case_P env s).isMap = true ↔
          (case_P env s).currentPage = env.veMapPage ∨ (case_P env s).currentPage = env.ignMapPage
            ∨ (case_P env s).currentPage = env.afrMapPage
            ∨ (case_P env s).currentPage = env.fuelMap2Page
            ∨ (case_P env s).currentPage = env.ignMap2Page) := by
  simp [case_P, Serial_available, Serial_read, hrx, toByte_natCast b hb]
  split_ifs <;> omega

/-- **C1** Page select: when `legacySerialCommand` handles `'P'` (code 80) and an
argument byte `b` is buffered, the call returns with `currentPage` equal to `b - 48`
for `b` in `'0'..'9'`, `b - 87` for `'a'..'f'`, `b - 55` for `'A'..'F'` and `b`
itself otherwise; `isMap` is true exactly when that page is one of `veMapPage`,
`ignMapPage`, `afrMapPage`, `fuelMap2Page`, `ignMap2Page`; `cmdPending` is false and
exactly the argument byte has been consumed. -/
theorem C1_page_select (env : Env) (fuel : Nat) (s : State) (b : Nat) (rest : List Nat)
    (hb : b < 256) (hcmd : (readCommand s).currentCommand = 80)
    (hrx : (readCommand s).rx = b :: rest) :
    ∃ s1, legacySerialCommand env fuel s = some s1
      ∧ (48 ≤ b ∧ b ≤ 57 → s1.currentPage = b - 48)
      ∧ (97 ≤ b ∧ b ≤ 102 → s1.currentPage = b - 87)
      ∧ (65 ≤ b ∧ b ≤ 70 → s1.currentPage = b - 55)
      ∧ (¬ (48 ≤ b ∧ b ≤ 57) ∧ ¬ (97 ≤ b ∧ b ≤ 102) ∧ ¬ (65 ≤ b ∧ b ≤ 70) →
          s1.currentPage = b)
      ∧ (s1.isMap = true ↔
          s1.currentPage = env.veMapPage ∨ s1.currentPage = env.ignMapPage
            ∨ s1.currentPage = env.afrMapPage ∨ s1.currentPage = env.fuelMap2Page
            ∨ s1.currentPage = env.ignMap2Page)
      ∧ s1.cmdPending = false
      ∧ s1.rx = rest := by
  obtain ⟨h1, h2, h3, h4⟩ := case_P_avail env (readCommand s) b rest hb hrx
  refine ⟨case_P env (readCommand s), ?_, ?_, ?_, ?_, ?_, h4, h2, h1⟩
  · simp [legacySerialCommand, dispatch_P env fuel _ hcmd]
  · intro h; rw [h3, if_pos h]
  · intro h; rw [h3, if_neg (by omega), if_pos h]
  · intro h; rw [h3, if_neg (by omega), if_neg (by omega), if_pos h]
  · intro h; rw [h3, if_neg h.1, if_neg h.2.1, if_neg h.2.2]

/-- The four examples of the page-id decoding: `'9'` selects page 9, `'a'` page 10,
`'F'` page 15, and the byte 0x20 page 32. -/
theorem C1_page_select_witness :
    (∃ s1, legacySerialCommand sampleEnv 0 (initialState [80, 57] (fun _ => 1)) = some s1
      ∧ s1.currentPage = 9 ∧ s1.cmdPending = false)
    ∧ (∃ s1, legacySerialCommand sampleEnv 0 (initialState [80, 97] (fun _ => 1)) = some s1
      ∧ s1.currentPage = 10)
    ∧ (∃ s1, legacySerialCommand sampleEnv 0 (initialState [80, 70] (fun _ => 1)) = some s1
      ∧ s1.currentPage = 15)
    ∧ (∃ s1, legacySerialCommand sampleEnv 0 (initialState [80, 32] (fun _ => 1)) = some s1
      ∧ s1.currentPage = 32 ∧ s1.isMap = false) := by
  refine ⟨?_, ?_, ?_, ?_⟩
  · obtain ⟨s1, h, h1, -, -, -, -, h6, -⟩ :=
      C1_page_select sampleEnv 0 (initialState [80, 57] (fun _ => 1)) 57 [] (by decide)
        (by decide) (by decide)
    exact ⟨s1, h, h1 (by decide), h6⟩
  · obtain ⟨s1, h, -, h2, -, -, -, -, -⟩ :=
      C1_page_select sampleEnv 0 (initialState [80, 97] (fun _ => 1)) 97 [] (by decide)
        (by decide) (by decide)
    exact ⟨s1, h, h2 (by decide)⟩
  · obtain ⟨s1, h, -, -, h3, -, -, -, -⟩ :=
      C1_page_select sampleEnv 0 (initialState [80, 70] (fun _ => 1)) 70 [] (by decide)
        (by decide) (by decide)
    exact ⟨s1, h, h3 (by decide)⟩
  · obtain ⟨s1, h, -, -, -, h4, h5, -, -⟩ :=
      C1_page_select sampleEnv 0 (initialState [80, 32] (fun _ => 1)) 32 [] (by decide)
        (by decide) (by decide)
    have hp : s1.currentPage = 32 := h4 (by decide)
    refine ⟨s1, h, hp, ?_⟩
    cases hm : s1.isMap
    · rfl
    · have h6 := h5.mp hm
      rw [hp] at h6
      exact absurd h6 (by decide)

/-! ## Starvation -/

/-- **C4** Starvation is not an error: when `legacySerialCommand` handles a command
with a fixed argument count (for `'M'`, a new request: no chunk pending) while fewer
argument bytes are buffered than the command requires, the call returns the state
it had after the command byte was taken, with `cmdPending` set: no argument byte is
consumed, nothing is written, `currentCommand` stays, and no other global, page or
external effect changes. -/
theorem C4_starvation (env : Env) (fuel : Nat) (s : State) (n : Nat)
    (hreq : requiredArgs (readCommand s).isMap (readCommand s).currentCommand = some n)
    (hnew : (readCommand s).currentCommand = 77 → (readCommand s).chunkPending = false)
    (hfew : Serial_available (readCommand s) < n) :
    legacySerialCommand env fuel s = some { readCommand s with cmdPending := true } := by
  unfold legacySerialCommand
  generalize readCommand s = t at *
  unfold requiredArgs at hreq
  unfold Serial_available at hfew
  by_cases h1 : t.currentCommand = 97 ∨ t.currentCommand = 98 ∨ t.currentCommand = 100
      ∨ t.currentCommand = 69
  · rw [if_pos h1] at hreq
    obtain rfl : n = 2 := by simpa using hreq.symm
    have hn : ¬ 2 ≤ t.rx.length := by omega
    rcases h1 with h | h | h | h
    · simp [dispatch, h, case_a, Serial_available, hn]
    · simp [dispatch, h, case_b, Serial_available, hn]
    · simp [dispatch, h, case_d, Serial_available, hn]
    · simp [dispatch, h, case_E, Serial_available, hn]
  rw [if_neg h1] at hreq
  by_cases h2 : t.currentCommand = 80 ∨ t.currentCommand = 96
  · rw [if_pos h2] at hreq
    obtain rfl : n = 1 := by simpa using hreq.symm
    have hn : t.rx = [] := by
      cases hr : t.rx with
      | nil => rfl
      | cons a l => rw [hr] at hfew; simp at hfew
    rcases h2 with h | h
    · simp [dispatch, h, case_P, Serial_available, hn]
    · simp [dispatch, h, case_backquote, Serial_available, hn]
  rw [if_neg h2] at hreq
  by_cases h3 : t.currentCommand = 112 ∨ t.currentCommand = 114 ∨ t.currentCommand = 84
  · rw [if_pos h3] at hreq
    obtain rfl : n = 6 := by simpa using hreq.symm
    have hn : ¬ 6 ≤ t.rx.length := by omega
    rcases h3 with h | h | h
    · simp [dispatch, h, case_p, Serial_available, hn]
    · simp [dispatch, h, case_r, Serial_available, hn]
    · simp [dispatch, h, case_T, Serial_available, hn]
  rw [if_neg h3] at hreq
  by_cases h4 : t.currentCommand = 87
  · rw [if_pos h4] at hreq
    cases hm : t.isMap
    · obtain rfl : n = 2 := by simpa [hm] using hreq.symm
      have hn : ¬ 2 ≤ t.rx.length := by omega
      simp [dispatch, h4, case_W, Serial_available, hm, hn]
    · obtain rfl : n = 3 := by simpa [hm] using hreq.symm
      have hn : ¬ 3 ≤ t.rx.length := by omega
      simp [dispatch, h4, case_W, Serial_available, hm, hn]
  rw [if_neg h4] at hreq
  by_cases h5 : t.currentCommand = 77
  · rw [if_pos h5] at hreq
    obtain rfl : n = 7 := by simpa using hreq.symm
    have hc := hnew h5
    have hn : ¬ 7 ≤ t.rx.length := by omega
    simp [dispatch, h5, case_M, Serial_available, hc, hn]
  · rw [if_neg h5] at hreq
    exact absurd hreq (by simp)

/-- A `'p'` request of which only three of the six argument bytes have arrived. -/
theorem C4_starvation_witness :
    (requiredArgs (readCommand (initialState [112, 0, 1, 0] (fun _ => 1))).isMap
        (readCommand (initialState [112, 0, 1, 0] (fun _ => 1))).currentCommand = some 6
      ∧ Serial_available (readCommand (initialState [112, 0, 1, 0] (fun _ => 1))) < 6)
    ∧ legacySerialCommand sampleEnv 0 (initialState [112, 0, 1, 0] (fun _ => 1))
      = some { readCommand (initialState [112, 0, 1, 0] (fun _ => 1)) with cmdPending := true } :=
  ⟨⟨by decide, by decide⟩,
    C4_starvation sampleEnv 0 (initialState [112, 0, 1, 0] (fun _ => 1)) 6 (by decide)
      (by decide) (by decide)⟩

/-! ## Unknown commands and the empty poll -/

/-- A command byte without a `case` reaches the `default` arm. -/
theorem dispatch_default (env : Env) (fuel : Nat) (s : State)
    (h : s.currentCommand ∉ handledCommands) :
    dispatch env fuel s = some (case_default s) := by
  simp only [handledCommands, List.mem_cons, List.mem_singleton, not_or] at h
  simp [dispatch, h]

/-- **C5** Unknown command safety: when the command byte that the call dispatches on
(the byte just read when no command was pending) has no `case` in the switch,
`legacySerialCommand` writes exactly the text "Err: Unknown cmd" followed by
carriage return and line feed, and returns with `cmdPending` false. -/
theorem C5_unknown_command (env : Env) (fuel : Nat) (s : State)
    (hunk : (readCommand s).currentCommand ∉ handledCommands) :
    ∃ s1, legacySerialCommand env fuel s = some s1
      ∧ s1.tx = s.tx ++ textBytes "Err: Unknown cmd" ++ [13, 10]
      ∧ s1.cmdPending = false := by
  refine ⟨case_default (readCommand s), ?_, ?_, ?_⟩
  · simp [legacySerialCommand, dispatch_default env fuel _ hunk]
  · have htx : (readCommand s).tx = s.tx := by
      unfold readCommand
      split_ifs
      · cases hr : s.rx <;> simp [Serial_read, hr]
      · rfl
    simp [case_default, Serial_println, textBytes, htx]
  · simp [case_default]

/-- The byte `'x'` (120) has no `case`; the answer is the 18 bytes of the error
line. -/
theorem C5_unknown_command_witness :
    (initialState [120] (fun _ => 1)).cmdPending = false
    ∧ (readCommand (initialState [120] (fun _ => 1))).currentCommand ∉ handledCommands
    ∧ ∃ s1, legacySerialCommand sampleEnv 0 (initialState [120] (fun _ => 1)) = some s1
      ∧ s1.tx = [69, 114, 114, 58, 32, 85, 110, 107, 110, 111, 119, 110, 32, 99, 109, 100,
          13, 10]
      ∧ s1.cmdPending = false := by
  refine ⟨by decide, by decide, ?_⟩
  obtain ⟨s1, h, h1, h2⟩ :=
    C5_unknown_command sampleEnv 0 (initialState [120] (fun _ => 1)) (by decide)
  refine ⟨s1, h, ?_, h2⟩
  rw [h1]
  decide

/-- Counterexample to **C7**: polled in the start state with an empty receive
buffer, `legacySerialCommand` writes the 18 bytes of the unknown-command line and
stores 255 in `currentCommand`; it is not a no-op. -/
theorem C7_counterexample :
    (initialState [] (fun _ => 1)).cmdPending = false
    ∧ (initialState [] (fun _ => 1)).legacySerial = false
    ∧ Serial_available (initialState [] (fun _ => 1)) = 0
    ∧ ∃ s1, legacySerialCommand sampleEnv 0 (initialState [] (fun _ => 1)) = some s1
      ∧ s1.tx ≠ (initialState [] (fun _ => 1)).tx
      ∧ s1.currentCommand ≠ (initialState [] (fun _ => 1)).currentCommand := by
  refine ⟨rfl, rfl, rfl, case_default (readCommand (initialState [] (fun _ => 1))), ?_, ?_, ?_⟩
  · exact dispatch_default sampleEnv 0 _ (by decide)
  · decide
  · decide

/-- A call with no command pending and an empty receive buffer: `Serial.read()`
yields -1, `currentCommand` becomes 255 and the `default` arm runs. -/
theorem legacySerialCommand_empty (env : Env) (fuel : Nat) (s : State)
    (hidle : s.cmdPending = false) (hleg : s.legacySerial = false) (hrx : s.rx = []) :
    legacySerialCommand env fuel s
      = some { s with
          currentCommand := 255
          tx := s.tx ++ textBytes "Err: Unknown cmd" ++ [13, 10] } := by
  have hr : readCommand s = { s with currentCommand := 255 } := by
    simp [readCommand, hidle, hleg, Serial_read, hrx, toByte_neg_one]
  have hd : (readCommand s).currentCommand ∉ handledCommands := by
    rw [hr]; show 255 ∉ handledCommands; decide
  rw [legacySerialCommand, dispatch_default env fuel _ hd, hr]
  simp only [case_default, Serial_println, textBytes, Option.some.injEq]
  cases s
  simp_all

/-- **C7** (amended) Polling with nothing to read: when no command is pending and
the receive buffer is empty, `Serial.read()` yields -1, which is stored in
`currentCommand` as 255 and reaches the `default` arm: the call writes
"Err: Unknown cmd" and a line ending, and changes nothing else. -/
theorem C7_poll_empty (env : Env) (fuel : Nat) (s : State)
    (hidle : s.cmdPending = false) (hleg : s.legacySerial = false) (hrx : s.rx = []) :
    legacySerialCommand env fuel s
      = some { s with
          currentCommand := 255
          tx := s.tx ++ textBytes "Err: Unknown cmd" ++ [13, 10] } :=
  legacySerialCommand_empty env fuel s hidle hleg hrx

/-- The start state polled with an empty receive buffer. -/
theorem C7_poll_empty_witness :
    ((initialState [] (fun _ => 1)).cmdPending = false
      ∧ (initialState [] (fun _ => 1)).legacySerial = false
      ∧ (initialState [] (fun _ => 1)).rx = [])
    ∧ legacySerialCommand sampleEnv 0 (initialState [] (fun _ => 1))
      = some { initialState [] (fun _ => 1) with
          currentCommand := 255
          tx := (initialState [] (fun _ => 1)).tx ++ textBytes "Err: Unknown cmd" ++ [13, 10] } :=
  ⟨⟨rfl, rfl, rfl⟩, C7_poll_empty sampleEnv 0 (initialState [] (fun _ => 1)) rfl rfl rfl⟩

/-! ## Zero-fill fallback of the log streamers -/

/-- A loop that writes the same byte `n` times appends `n` copies of it. -/
theorem forLoop_write_const (v n : Nat) : ∀ (x : Nat) (s : State),
    forLoop (fun _ t => Serial_write t v) n x s
      = { s with tx := s.tx ++ List.replicate n (v % 256) } := by
  induction n with
  | zero => intro x s; simp [forLoop]
  | succ n ih =>
    intro x s
    rw [forLoop, ih]
    simp [Serial_write, List.replicate_succ]

/-- **C8** Zero-fill fallback: with the tooth-log ready bit clear,
`sendToothLog_legacy` appends exactly `4 * TOOTH_LOG_SIZE` zero bytes to the output
and `sendCompositeLog_legacy` exactly `5 * TOOTH_LOG_SIZE`, for every start offset;
both clear `cmdPending` and change nothing else, so the ready bit,
`toothHistoryIndex` and the log buffers are as before. -/
theorem C8_zero_fill (env : Env) (startOffset : Nat) (s : State)
    (hready : BIT_CHECK s.currentStatus.status1 env.BIT_STATUS1_TOOTHLOG1READY = false) :
    sendToothLog_legacy env startOffset s
        = { s with tx := s.tx ++ List.replicate (4 * env.TOOTH_LOG_SIZE) 0, cmdPending := false }
    ∧ sendCompositeLog_legacy env startOffset s
        = { s with tx := s.tx ++ List.replicate (5 * env.TOOTH_LOG_SIZE) 0, cmdPending := false } := by
  constructor
  · simp [sendToothLog_legacy, hready, forLoop_write_const]
  · simp [sendCompositeLog_legacy, hready, forLoop_write_const]

/-- The start state has the ready bit clear; with `TOOTH_LOG_SIZE` 127 the two
answers are 508 and 635 zero bytes long. -/
theorem C8_zero_fill_witness :
    BIT_CHECK (initialState [] (fun _ => 1)).currentStatus.status1
        sampleEnv.BIT_STATUS1_TOOTHLOG1READY = false
    ∧ (sendToothLog_legacy sampleEnv 0 (initialState [] (fun _ => 1))).tx = List.replicate 508 0
    ∧ (sendCompositeLog_legacy sampleEnv 3 (initialState [] (fun _ => 1))).tx
        = List.replicate 635 0 := by
  have h := C8_zero_fill sampleEnv 0 (initialState [] (fun _ => 1)) (by decide)
  have h3 := C8_zero_fill sampleEnv 3 (initialState [] (fun _ => 1)) (by decide)
  refine ⟨by decide, ?_, ?_⟩
  · rw [h.1]; rfl
  · rw [h3.2]; rfl

/-! ## Calibration ingestion: the O2 table -/

/-- The spin for `k` bytes ends as soon as the two input queues hold `k` bytes
together; it only moves bytes from the second queue to the first. -/
theorem waitBytes_some (k : Nat) : ∀ (wire rx : List Nat), k ≤ (rx ++ wire).length →
    ∃ rx1 wire1, waitBytes k rx wire = some (rx1, wire1) ∧ rx1 ++ wire1 = rx ++ wire
      ∧ k ≤ rx1.length := by
  intro wire
  induction wire with
  | nil =>
    intro rx h
    refine ⟨rx, [], ?_, rfl, by simpa using h⟩
    have : k ≤ rx.length := by simpa using h
    simp [waitBytes, this]
  | cons b w ih =>
    intro rx h
    by_cases hk : k ≤ rx.length
    · exact ⟨rx, b :: w, by simp [waitBytes, hk], rfl, hk⟩
    · obtain ⟨rx1, wire1, h1, h2, h3⟩ := ih (rx ++ [b]) (by simpa using h)
      exact ⟨rx1, wire1, by simp [waitBytes, hk, h1], by simpa using h2, h3⟩

/-- The spin on a state, see `waitBytes_some`. -/
theorem Serial_wait_some (k : Nat) (s : State) (h : k ≤ (s.rx ++ s.wire).length) :
    ∃ s1, Serial_wait k s = some s1 ∧ s1.rx ++ s1.wire = s.rx ++ s.wire
      ∧ k ≤ s1.rx.length ∧ s1 = { s with rx := s1.rx, wire := s1.wire } := by
  obtain ⟨rx1, wire1, h1, h2, h3⟩ := waitBytes_some k s.wire s.rx h
  exact ⟨{ s with rx := rx1, wire := wire1 }, by simp [Serial_wait, h1], h2, h3, rfl⟩

theorem toInt16_natCast (b : Nat) (hb : b < 32768) : toInt16 (b : Int) = b := by
  unfold toInt16 wrapSigned
  norm_num
  omega

/-- The O2 loop started at sample index `x` with `n` samples to read, when the
input queues begin with the `n` bytes `bs`: it consumes exactly those bytes and
stores the byte at every sample index `32 * k` in cell `k`. -/
theorem receiveO2Loop_spec (n : Nat) : ∀ (x : Nat) (s : State) (bs rest : List Nat),
    bs.length = n → (∀ b ∈ bs, b < 256) → s.rx ++ s.wire = bs ++ rest → x + n ≤ 65536 →
    ∃ s1, receiveO2Loop CalTable.o2 n x s = some s1
      ∧ s1.rx ++ s1.wire = rest
      ∧ s1 = { s with rx := s1.rx, wire := s1.wire, calibration := s1.calibration }
      ∧ s1.calibration = { s.calibration with
          o2Calibration_values := s1.calibration.o2Calibration_values
          o2Calibration_bins := s1.calibration.o2Calibration_bins }
      ∧ ∀ k, s1.calibration.o2Calibration_values k
            = (if x ≤ 32 * k ∧ 32 * k < x + n then bs.getD (32 * k - x) 0
               else s.calibration.o2Calibration_values k)
          ∧ s1.calibration.o2Calibration_bins k
            = (if x ≤ 32 * k ∧ 32 * k < x + n then 32 * k
               else s.calibration.o2Calibration_bins k) := by
  induction n with
  | zero =>
    intro x s bs rest hlen _ hrx _
    have : bs = [] := List.eq_nil_of_length_eq_zero hlen
    subst this
    refine ⟨s, rfl, by simpa using hrx, rfl, rfl, ?_⟩
    intro k
    have : ¬ (x ≤ 32 * k ∧ 32 * k < x) := by omega
    simp [this]
  | succ n ih =>
    intro x s bs rest hlen hb hrx hx
    match bs, hlen with
    | b :: bs', hlen =>
      have hlen' : bs'.length = n := by simpa using hlen
      obtain ⟨w, hw1, hw2, hw3, hw4⟩ := Serial_wait_some 1 s (by rw [hrx]; simp)
      have hb0 : b < 256 := hb b (by simp)
      obtain ⟨r', hr'⟩ : ∃ r', w.rx = b :: r' := by
        cases hwr : w.rx with
        | nil => rw [hwr] at hw3; simp at hw3
        | cons a r' =>
          rw [hwr, hrx] at hw2
          simp at hw2
          exact ⟨r', by rw [hw2.1]⟩
      have hrest : r' ++ w.wire = bs' ++ rest := by
        rw [hr', hrx] at hw2
        simpa using hw2
      have hread : Serial_read w = ((b : Int), { w with rx := r' }) := Serial_read_cons w b r' hr'
      by_cases hx32 : x % 32 = 0
      · obtain ⟨s1, h1, h2, h3, h4, h5⟩ := ih (x + 1)
          { w with
            rx := r'
            calibration := (setCalBin CalTable.o2 (x / 32) (x % 65536)
              (setCalValue CalTable.o2 (x / 32) (toByte (toInt16 (b : Int))) w.calibration)) }
          bs' rest hlen' (fun c hc => hb c (by simp [hc])) hrest (by omega)
        refine ⟨s1, ?_, h2, ?_, ?_, ?_⟩
        · simp [receiveO2Loop, hw1, hread, hx32, h1]
        · rw [hw4] at h3
          rw [h3]
        · rw [hw4] at h4
          rw [h4]
          simp [setCalBin, setCalValue]
        · intro k
          have hk := h5 k
          rw [hw4] at hk
          simp only [setCalBin, setCalValue, Function.update_apply] at hk
          rw [hk.1, hk.2, toInt16_natCast b (by omega), toByte_natCast b hb0]
          have hmod : x % 65536 = x := Nat.mod_eq_of_lt (by omega)
          rw [hmod]
          by_cases hk0 : 32 * k = x
          · have e1 : k = x / 32 := by omega
            have e2 : ¬ (x + 1 ≤ 32 * k ∧ 32 * k < x + 1 + n) := by omega
            have e3 : x ≤ 32 * k ∧ 32 * k < x + (n + 1) := by omega
            have e4 : 32 * k - x = 0 := by omega
            simp [e1.symm, e2, e3, e4, hk0.symm]
          · have e1 : ¬ k = x / 32 := by omega
            by_cases hin : x ≤ 32 * k ∧ 32 * k < x + (n + 1)
            · have e2 : x + 1 ≤ 32 * k ∧ 32 * k < x + 1 + n := by omega
              have e4 : 32 * k - x = (32 * k - (x + 1)) + 1 := by omega
              simp only [e1, e2, hin, if_true, if_false, and_self]
              rw [e4]
              simp
            · have e2 : ¬ (x + 1 ≤ 32 * k ∧ 32 * k < x + 1 + n) := by omega
              simp [e1, e2, hin]
      · obtain ⟨s1, h1, h2, h3, h4, h5⟩ := ih (x + 1) { w with rx := r' }
          bs' rest hlen' (fun c hc => hb c (by simp [hc])) hrest (by omega)
        refine ⟨s1, ?_, h2, ?_, ?_, ?_⟩
        · simp [receiveO2Loop, hw1, hread, hx32, h1]
        · rw [hw4] at h3
          rw [h3]
        · rw [hw4] at h4
          rw [h4]
        · intro k
          have hk := h5 k
          rw [hw4] at hk
          simp only at hk
          rw [hk.1, hk.2]
          have hk0 : ¬ 32 * k = x := by omega
          by_cases hin : x ≤ 32 * k ∧ 32 * k < x + (n + 1)
          · have e2 : x + 1 ≤ 32 * k ∧ 32 * k < x + 1 + n := by omega
            have e4 : 32 * k - x = (32 * k - (x + 1)) + 1 := by omega
            simp only [e2, hin, if_true, and_self]
            rw [e4]
            simp
          · have e2 : ¬ (x + 1 ≤ 32 * k ∧ 32 * k < x + 1 + n) := by omega
            simp [e2, hin]


/-- **C10** O2 subsampling: for table 2 and 1024 input bytes `s_0 .. s_1023` at the
head of the input, `receiveCalibration` returns having consumed exactly those 1024
bytes, with `o2Calibration_values[k] = s_(32k)` (the byte as received) and
`o2Calibration_bins[k] = 32 k` for every `k < 32`; every other calibration cell
(the cells from 32 on, the coolant and the intake-air tables) keeps its value, so
the 32 samples at indices 0, 32, ..., 992 are the only ones that reach the table. -/
theorem C10_o2_subsampling (env : Env) (s : State) (bytes rest : List Nat)
    (hlen : bytes.length = 1024) (hbytes : ∀ b ∈ bytes, b < 256)
    (hin : s.rx ++ s.wire = bytes ++ rest) :
    ∃ s1, receiveCalibration env 2 s = some s1
      ∧ s1.rx ++ s1.wire = rest
      ∧ (∀ k, k < 32 →
          s1.calibration.o2Calibration_values k = bytes.getD (32 * k) 0
          ∧ s1.calibration.o2Calibration_bins k = 32 * k)
      ∧ (∀ k, 32 ≤ k →
          s1.calibration.o2Calibration_values k = s.calibration.o2Calibration_values k
          ∧ s1.calibration.o2Calibration_bins k = s.calibration.o2Calibration_bins k)
      ∧ s1.calibration.cltCalibration_values = s.calibration.cltCalibration_values
      ∧ s1.calibration.cltCalibration_bins = s.calibration.cltCalibration_bins
      ∧ s1.calibration.iatCalibration_values = s.calibration.iatCalibration_values
      ∧ s1.calibration.iatCalibration_bins = s.calibration.iatCalibration_bins := by
  obtain ⟨s1, h1, h2, -, h4, h5⟩ :=
    receiveO2Loop_spec 1024 0 s bytes rest hlen hbytes hin (by omega)
  refine ⟨writeCalibration s1, ?_, h2, ?_, ?_, ?_, ?_, ?_, ?_⟩
  · simp [receiveCalibration, calibrationTarget, h1]
  · intro k hk
    have := h5 k
    have hr : 0 ≤ 32 * k ∧ 32 * k < 0 + 1024 := by omega
    simpa [writeCalibration, hr] using this
  · intro k hk
    have := h5 k
    have hr : ¬ (32 * k < 1024) := by omega
    simpa [writeCalibration, hr] using this
  · show s1.calibration.cltCalibration_values = _
    rw [h4]
  · show s1.calibration.cltCalibration_bins = _
    rw [h4]
  · show s1.calibration.iatCalibration_values = _
    rw [h4]
  · show s1.calibration.iatCalibration_bins = _
    rw [h4]

/-- The bytes `0, 1, ..., 255` four times over, all in flight when the command
starts: cell 3 receives the byte at index 96, which is 96. -/
theorem C10_o2_subsampling_witness :
    ((List.range 1024).map (fun i => i % 256)).length = 1024
    ∧ (∀ b ∈ (List.range 1024).map (fun i => i % 256), b < 256)
    ∧ ∃ s1, receiveCalibration sampleEnv 2
        { initialState [] (fun _ => 1) with wire := (List.range 1024).map (fun i => i % 256) }
          = some s1
      ∧ s1.rx ++ s1.wire = []
      ∧ s1.calibration.o2Calibration_values 3 = 96
      ∧ s1.calibration.o2Calibration_bins 3 = 96 := by
  have hl : ((List.range 1024).map (fun i => i % 256)).length = 1024 := by simp
  have hb : ∀ b ∈ (List.range 1024).map (fun i => i % 256), b < 256 := by
    intro b hb
    simp only [List.mem_map] at hb
    obtain ⟨i, -, rfl⟩ := hb
    exact Nat.mod_lt _ (by decide)
  refine ⟨hl, hb, ?_⟩
  obtain ⟨s1, h1, h2, h3, -⟩ :=
    C10_o2_subsampling sampleEnv
      { initialState [] (fun _ => 1) with wire := (List.range 1024).map (fun i => i % 256) }
      ((List.range 1024).map (fun i => i % 256)) [] hl hb (by simp [initialState])
  refine ⟨s1, h1, h2, ?_, ?_⟩
  · rw [(h3 3 (by decide)).1]
    simp [List.getD]
  · rw [(h3 3 (by decide)).2]

/-! ## Calibration ingestion: the temperature tables -/

/-- Truncating division by a positive divisor in terms of flooring division. -/
theorem tdiv_cases (a b : Int) (hb : 0 < b) :
    Int.tdiv a b = if 0 ≤ a then a / b else -((-a) / b) := by
  split_ifs with h
  · exact Int.tdiv_eq_ediv h (by omega)
  · have := Int.tdiv_eq_ediv (a := -a) (b := b) (by omega) (by omega)
    rw [Int.neg_tdiv] at this
    omega

/-- Wrapping to a signed type of at least 16 bits leaves a 16-bit value alone. -/
theorem wrapSigned_fits (bits : Nat) (i : Int) (hbits : 16 ≤ bits) (hi : fitsInt16 i) :
    wrapSigned bits i = i := by
  obtain ⟨m, rfl⟩ : ∃ m, bits = m + 16 := ⟨bits - 16, by omega⟩
  have hP : (2 : Int) ^ (m + 16) = 2 ^ m * 65536 := by rw [pow_add]; norm_num
  have hH : (2 : Int) ^ (m + 16 - 1) = 2 ^ m * 32768 := by
    have : m + 16 - 1 = m + 15 := by omega
    rw [this, pow_add]; norm_num
  have hm : (1 : Int) ≤ 2 ^ m := by
    exact one_le_pow₀ (by norm_num)
  unfold fitsInt16 at hi
  unfold wrapSigned
  rw [hP, hH]
  by_cases h0 : 0 ≤ i
  · have e : i % (2 ^ m * 65536) = i := Int.emod_eq_of_lt h0 (by nlinarith)
    rw [e, if_pos (by nlinarith)]
  · have e : i % (2 ^ m * 65536) = i + 2 ^ m * 65536 := by
      rw [← Int.add_emod_self]
      exact Int.emod_eq_of_lt (by nlinarith) (by nlinarith)
    rw [e, if_neg (by nlinarith)]
    ring

theorem toInt16_fits (i : Int) (hi : fitsInt16 i) : toInt16 i = i :=
  wrapSigned_fits 16 i (le_refl _) hi

/-- Decoding the two wire bytes of a sample gives the sample back. -/
theorem decode_sampleBytes (v : Int) (hv : fitsInt16 v) :
    toInt16 (word (toU16 v / 256) (toU16 v % 256)) = v := by
  unfold fitsInt16 at hv
  unfold toInt16 wrapSigned word toU16
  norm_num
  omega


/-- Every intermediate result of the temperature conversion of a 16-bit sample fits
a signed 16-bit integer, provided the calibration offset leaves room for the
Celsius range -1837 .. 1802. -/
theorem temperature_no_overflow (OFFSET v : Int) (hv : fitsInt16 v)
    (hoff : -30931 ≤ OFFSET ∧ OFFSET ≤ 30965) :
    fitsInt16 (Int.tdiv v 10) ∧ fitsInt16 (Int.tdiv v 10 - 32)
      ∧ fitsInt16 ((Int.tdiv v 10 - 32) * 5)
      ∧ fitsInt16 (Int.tdiv ((Int.tdiv v 10 - 32) * 5) 9)
      ∧ fitsInt16 (Int.tdiv ((Int.tdiv v 10 - 32) * 5) 9 + OFFSET) := by
  unfold fitsInt16 at *
  have h1 := tdiv_cases v 10 (by norm_num)
  have h2 := tdiv_cases ((Int.tdiv v 10 - 32) * 5) 9 (by norm_num)
  generalize Int.tdiv ((Int.tdiv v 10 - 32) * 5) 9 = r at *
  generalize Int.tdiv v 10 = q at *
  split_ifs at h1 h2 <;> omega

/-- The conversion as the firmware computes it, with every wrap in place, equals
the conversion of the calibration description. -/
theorem convertTemperature_eq (env : Env) (OFFSET v : Int) (hbits : 16 ≤ env.intBits)
    (hv : fitsInt16 v) (hoff : -30931 ≤ OFFSET ∧ OFFSET ≤ 30965) :
    convertTemperature env OFFSET 10 (toU16 v % 256) (toU16 v / 256)
      = storedTemperature OFFSET v := by
  obtain ⟨f1, f2, f3, f4, f5⟩ := temperature_no_overflow OFFSET v hv hoff
  unfold convertTemperature storedTemperature
  simp only [decode_sampleBytes v hv, toInt16_fits _ f1, wrapSigned_fits _ _ hbits f2,
    wrapSigned_fits _ _ hbits f3, toInt16_fits _ f4, wrapSigned_fits _ _ hbits f5,
    toInt16_fits _ f5]
  split_ifs with h
  · rw [max_eq_left (by omega)]
  · rw [max_eq_right (by omega)]

theorem calValues_set (t : CalTable) (i v b : Nat) (c : Calibration) (k : Nat) :
    calValues t (setCalBin t i b (setCalValue t i v c)) k
      = if k = i then v else calValues t c k := by
  cases t <;> simp [calValues, setCalBin, setCalValue, Function.update_apply]

theorem calBins_set (t : CalTable) (i v b : Nat) (c : Calibration) (k : Nat) :
    calBins t (setCalBin t i b (setCalValue t i v c)) k
      = if k = i then b else calBins t c k := by
  cases t <;> simp [calBins, setCalBin, setCalValue, Function.update_apply]


/-- The temperature loop started at sample index `x` with `n` samples to read, when
the input queues begin with the wire bytes of the samples `vs`: it consumes exactly
those bytes and stores the converted sample `k - x` in cell `k`, with bin `32 k`. -/
theorem receiveTempLoop_spec (env : Env) (t : CalTable) (OFFSET : Int)
    (hbits : 16 ≤ env.intBits) (hoff : -30931 ≤ OFFSET ∧ OFFSET ≤ 30965) (n : Nat) :
    ∀ (x : Nat) (s : State) (vs : List Int) (rest : List Nat),
    vs.length = n → (∀ v ∈ vs, fitsInt16 v) →
    s.rx ++ s.wire = (vs.map sampleBytes).flatten ++ rest → x + n ≤ 2048 →
    ∃ s1, receiveTempLoop env t OFFSET 10 n x s = some s1
      ∧ s1.rx ++ s1.wire = rest
      ∧ ∀ k, calValues t s1.calibration k
            = (if x ≤ k ∧ k < x + n then (storedTemperature OFFSET (vs.getD (k - x) 0)).toNat
               else calValues t s.calibration k)
          ∧ calBins t s1.calibration k
            = (if x ≤ k ∧ k < x + n then 32 * k else calBins t s.calibration k) := by
  induction n with
  | zero =>
    intro x s vs rest hlen _ hrx _
    have : vs = [] := List.eq_nil_of_length_eq_zero hlen
    subst this
    refine ⟨s, rfl, by simpa using hrx, ?_⟩
    intro k
    have : ¬ (x ≤ k ∧ k < x) := by omega
    simp [this]
  | succ n ih =>
    intro x s vs rest hlen hv hrx hx
    match vs, hlen with
    | v :: vs', hlen =>
      have hlen' : vs'.length = n := by simpa using hlen
      have hv0 : fitsInt16 v := hv v (by simp)
      have hrx' : s.rx ++ s.wire
          = toU16 v % 256 :: toU16 v / 256 :: ((vs'.map sampleBytes).flatten ++ rest) := by
        rw [hrx]; simp [sampleBytes]
      obtain ⟨w, hw1, hw2, hw3, hw4⟩ := Serial_wait_some 2 s (by rw [hrx']; simp)
      obtain ⟨r', hr'⟩ : ∃ r', w.rx = toU16 v % 256 :: toU16 v / 256 :: r' := by
        cases hwr : w.rx with
        | nil => rw [hwr] at hw3; simp at hw3
        | cons a l =>
          cases l with
          | nil => rw [hwr] at hw3; simp at hw3
          | cons a' r' =>
            rw [hwr, hrx'] at hw2
            simp at hw2
            exact ⟨r', by rw [hw2.1, hw2.2.1]⟩
      have hrest : r' ++ w.wire = (vs'.map sampleBytes).flatten ++ rest := by
        rw [hr', hrx'] at hw2
        simpa using hw2
      have hlo : toU16 v % 256 < 256 := Nat.mod_lt _ (by decide)
      have hhi : toU16 v / 256 < 256 := by
        have : toU16 v < 65536 := by unfold toU16; omega
        omega
      have hread0 : Serial_read w
          = (((toU16 v % 256 : Nat) : Int), { w with rx := toU16 v / 256 :: r' }) :=
        Serial_read_cons w _ _ hr'
      have hread1 : Serial_read { w with rx := toU16 v / 256 :: r' }
          = (((toU16 v / 256 : Nat) : Int), { w with rx := r' }) := by
        simp [Serial_read]
      obtain ⟨s1, h1, h2, h5⟩ := ih (x + 1)
        (writeCalibration { w with
          rx := r'
          calibration := (setCalBin t x ((x * 32) % 65536)
            (setCalValue t x (toU16 (storedTemperature OFFSET v)) w.calibration)) })
        vs' rest hlen' (fun c hc => hv c (by simp [hc])) hrest (by omega)
      refine ⟨s1, ?_, h2, ?_⟩
      · rw [receiveTempLoop, hw1]
        simp only [hread0, hread1, toByte_natCast _ hlo, toByte_natCast _ hhi,
          convertTemperature_eq env OFFSET v hbits hv0 hoff]
        exact h1
      · intro k
        have hk := h5 k
        have hcal : w.calibration = s.calibration := by rw [hw4]
        simp only [writeCalibration, calValues_set, calBins_set, hcal] at hk
        rw [hk.1, hk.2]
        have hmod : x * 32 % 65536 = 32 * x := by omega
        have hst : toU16 (storedTemperature OFFSET v) = (storedTemperature OFFSET v).toNat := by
          have f := (temperature_no_overflow OFFSET v hv0 hoff).2.2.2.2
          unfold fitsInt16 at f
          unfold storedTemperature toU16
          have := le_max_left 0 (Int.tdiv ((Int.tdiv v 10 - 32) * 5) 9 + OFFSET)
          have := max_le (a := (0 : Int)) (b := Int.tdiv ((Int.tdiv v 10 - 32) * 5) 9 + OFFSET)
            (c := 32767) (by norm_num) f.2
          rw [Int.emod_eq_of_lt (by omega) (by omega)]
        rw [hmod, hst]
        by_cases hk0 : k = x
        · subst hk0
          have e2 : ¬ (k + 1 ≤ k ∧ k < k + 1 + n) := by omega
          have e3 : k ≤ k ∧ k < k + (n + 1) := by omega
          simp [e2, e3]
        · by_cases hin : x ≤ k ∧ k < x + (n + 1)
          · have e2 : x + 1 ≤ k ∧ k < x + 1 + n := by omega
            have e4 : k - x = (k - (x + 1)) + 1 := by omega
            simp only [e2, hin, hk0, if_true, if_false, and_self]
            rw [e4]
            simp
          · have e2 : ¬ (x + 1 ≤ k ∧ k < x + 1 + n) := by omega
            simp [e2, hin, hk0]


/-- **C9** Temperature calibration conversion: for table 0 (coolant) and table 1
(intake air) and 32 signed 16-bit samples `v_0 .. v_31` at the head of the input,
`receiveCalibration` returns having consumed exactly their 64 bytes, with
`values[x] = max 0 (((v_x / 10 - 32) * 5) / 9 + CALIBRATION_TEMPERATURE_OFFSET)`,
both divisions truncating toward zero, and `bins[x] = 32 x` for every `x < 32`; and
every intermediate result of the conversion fits a signed 16-bit integer. The
platform's `int` has at least 16 bits and the offset lies in -30931 .. 30965. -/
theorem C9_temperature_conversion (env : Env) (s : State) (tableID : Nat)
    (samples : List Int) (rest : List Nat)
    (htable : tableID = 0 ∨ tableID = 1) (hbits : 16 ≤ env.intBits)
    (hoff : -30931 ≤ env.CALIBRATION_TEMPERATURE_OFFSET
      ∧ env.CALIBRATION_TEMPERATURE_OFFSET ≤ 30965)
    (hlen : samples.length = 32) (hfit : ∀ v ∈ samples, fitsInt16 v)
    (hin : s.rx ++ s.wire = (samples.map sampleBytes).flatten ++ rest) :
    ∃ s1, receiveCalibration env tableID s = some s1
      ∧ s1.rx ++ s1.wire = rest
      ∧ (samples.map sampleBytes).flatten.length = 64
      ∧ ∀ x, x < 32 →
          ((calValues (if tableID = 0 then CalTable.clt else CalTable.iat) s1.calibration x : Nat)
              : Int)
            = max 0 (Int.tdiv ((Int.tdiv (samples.getD x 0) 10 - 32) * 5) 9
                + env.CALIBRATION_TEMPERATURE_OFFSET)
          ∧ calBins (if tableID = 0 then CalTable.clt else CalTable.iat) s1.calibration x = 32 * x
          ∧ fitsInt16 (Int.tdiv (samples.getD x 0) 10)
          ∧ fitsInt16 (Int.tdiv (samples.getD x 0) 10 - 32)
          ∧ fitsInt16 ((Int.tdiv (samples.getD x 0) 10 - 32) * 5)
          ∧ fitsInt16 (Int.tdiv ((Int.tdiv (samples.getD x 0) 10 - 32) * 5) 9)
          ∧ fitsInt16 (Int.tdiv ((Int.tdiv (samples.getD x 0) 10 - 32) * 5) 9
              + env.CALIBRATION_TEMPERATURE_OFFSET) := by
  have h64 : (samples.map sampleBytes).flatten.length = 64 := by
    have : ∀ l : List Int, (l.map sampleBytes).flatten.length = 2 * l.length := by
      intro l
      induction l with
      | nil => simp
      | cons a l ih => simp [sampleBytes, ih]; omega
    rw [this, hlen]
  have htarget : calibrationTarget env tableID
      = (if tableID = 0 then CalTable.clt else CalTable.iat,
          env.CALIBRATION_TEMPERATURE_OFFSET, 10) := by
    rcases htable with h | h <;> simp [calibrationTarget, h]
  obtain ⟨s1, h1, h2, h5⟩ :=
    receiveTempLoop_spec env (if tableID = 0 then CalTable.clt else CalTable.iat)
      env.CALIBRATION_TEMPERATURE_OFFSET hbits hoff 32 0 s samples rest hlen hfit hin (by omega)
  refine ⟨writeCalibration s1, ?_, h2, h64, ?_⟩
  · have h2' : tableID ≠ 2 := by omega
    simp only [receiveCalibration, htarget, h2', if_false, h1, Option.map_some']
  · intro x hx
    have hk := h5 x
    have hr : 0 ≤ x ∧ x < 0 + 32 := by omega
    rw [if_pos hr, if_pos hr] at hk
    have hmem : fitsInt16 (samples.getD x 0) := by
      have hlt : x < samples.length := by omega
      rw [List.getD_eq_getElem _ _ hlt]
      exact hfit _ (List.getElem_mem _)
    have f := temperature_no_overflow env.CALIBRATION_TEMPERATURE_OFFSET _ hmem hoff
    refine ⟨?_, hk.2, f⟩
    show ((calValues _ s1.calibration x : Nat) : Int) = _
    rw [hk.1]
    simp only [Nat.sub_zero]
    rw [Int.toNat_of_nonneg (by unfold storedTemperature; exact le_max_left _ _)]
    rfl

/-- Thirty-two samples of 320 (32.0 degrees Fahrenheit) for the coolant table with
offset 40, all in flight when the command starts: every cell holds 0 + 40. -/
theorem C9_temperature_conversion_witness :
    ((0 : Nat) = 0 ∨ (0 : Nat) = 1) ∧ 16 ≤ sampleEnv.intBits
    ∧ (List.replicate 32 (320 : Int)).length = 32
    ∧ (∀ v ∈ List.replicate 32 (320 : Int), fitsInt16 v)
    ∧ ∃ s1, receiveCalibration sampleEnv 0
        { initialState [] (fun _ => 1) with
          wire := ((List.replicate 32 (320 : Int)).map sampleBytes).flatten } = some s1
      ∧ s1.rx ++ s1.wire = []
      ∧ s1.calibration.cltCalibration_values 5 = 40
      ∧ s1.calibration.cltCalibration_bins 5 = 160 := by
  have hf : ∀ v ∈ List.replicate 32 (320 : Int), fitsInt16 v := by
    intro v hv
    rw [List.eq_of_mem_replicate hv]
    unfold fitsInt16
    decide
  refine ⟨Or.inl rfl, by decide, by simp, hf, ?_⟩
  obtain ⟨s1, h1, h2, -, h4⟩ :=
    C9_temperature_conversion sampleEnv
      { initialState [] (fun _ => 1) with
        wire := ((List.replicate 32 (320 : Int)).map sampleBytes).flatten }
      0 (List.replicate 32 (320 : Int)) [] (Or.inl rfl) (by decide)
      (by decide) (by simp) hf (by simp [initialState])
  obtain ⟨hv, hb, -⟩ := h4 5 (by decide)
  refine ⟨s1, h1, h2, ?_, ?_⟩
  · have e : ((calValues CalTable.clt s1.calibration 5 : Nat) : Int) = 40 := by
      rw [show CalTable.clt = (if (0 : Nat) = 0 then CalTable.clt else CalTable.iat) from rfl, hv]
      decide
    exact_mod_cast e
  · exact hb

/-! ## Chunked bulk write (`case 'M'`) -/

theorem chunkWrites_append (page offset : Nat) : ∀ (l1 l2 : List Nat) (i : Nat),
    chunkWrites page offset i (l1 ++ l2)
      = chunkWrites page offset i l1 ++ chunkWrites page offset (i + l1.length) l2 := by
  intro l1
  induction l1 with
  | nil => intro l2 i; simp [chunkWrites]
  | cons a l ih =>
    intro l2 i
    show _ :: chunkWrites page offset (i + 1) (l ++ l2) = _
    rw [ih, chunkWrites, List.length_cons]
    have : i + 1 + l.length = i + (l.length + 1) := by omega
    rw [this]
    rfl

/-- The `i`-th page write of a bulk write. -/
theorem chunkWrites_eq_map (page offset : Nat) (data : List Nat) :
    chunkWrites page offset 0 data
      = (List.range data.length).map
          (fun i => Effect.setPageValue page ((offset + i) % 65536) (data.getD i 0)) := by
  have h : ∀ (l : List Nat) (k : Nat), chunkWrites page offset k l
      = (List.range l.length).map
          (fun i => Effect.setPageValue page ((offset + (k + i)) % 65536) (l.getD i 0)) := by
    intro l
    induction l with
    | nil => intro k; simp [chunkWrites]
    | cons a l ih =>
      intro k
      rw [chunkWrites, ih, List.length_cons, List.range_succ_eq_map]
      simp only [List.map_cons, List.map_map, Nat.add_zero, List.getD_cons_zero]
      congr 1
      apply List.map_congr_left
      intro i _
      simp only [Function.comp, List.getD_cons_succ]
      have : k + 1 + i = k + (i + 1) := by omega
      rw [this]
  simpa using h data 0

/-- The data loop of `case 'M'`: from a state with `chunkComplete ≤ chunkSize` it
takes as many buffered bytes as the chunk still needs and writes each to the page
at `valueOffset + chunkComplete`. -/
theorem chunkLoop_spec (n : Nat) : ∀ (s : State), s.rx.length ≤ n →
    s.chunkComplete ≤ s.chunkSize → s.chunkSize < 65536 → (∀ b ∈ s.rx, b < 256) →
    chunkLoop n s = { s with
      rx := s.rx.drop (min s.rx.length (s.chunkSize - s.chunkComplete))
      effects := s.effects ++ chunkWrites s.currentPage s.valueOffset s.chunkComplete
        (s.rx.take (min s.rx.length (s.chunkSize - s.chunkComplete)))
      chunkComplete := s.chunkComplete + min s.rx.length (s.chunkSize - s.chunkComplete) } := by
  induction n with
  | zero =>
    intro s h _ _ _
    have : s.rx = [] := List.eq_nil_of_length_eq_zero (by omega)
    cases s
    simp_all [chunkLoop, chunkWrites]
  | succ n ih =>
    intro s h hle hsz hb
    cases hrx : s.rx with
    | nil =>
      cases s
      simp_all [chunkLoop, Serial_available, chunkWrites]
    | cons b r =>
      by_cases hc : s.chunkComplete < s.chunkSize
      · have hb0 : b < 256 := hb b (by simp [hrx])
        have hmin : min (b :: r).length (s.chunkSize - s.chunkComplete)
            = min r.length (s.chunkSize - (s.chunkComplete + 1)) + 1 := by
          simp only [List.length_cons]; omega
        have hmod : (s.chunkComplete + 1) % 65536 = s.chunkComplete + 1 := by omega
        rw [chunkLoop, if_pos ⟨by simp [Serial_available, hrx], hc⟩]
        simp only [Serial_read_cons s b r hrx, toByte_natCast b hb0, hmod]
        rw [ih]
        · simp only [hmin, List.drop_succ_cons, List.take_succ_cons, chunkWrites,
            List.append_assoc, List.singleton_append]
          have e : s.chunkComplete + 1 + min r.length (s.chunkSize - (s.chunkComplete + 1))
              = s.chunkComplete + (min r.length (s.chunkSize - (s.chunkComplete + 1)) + 1) := by
            omega
          rw [e]
        · simpa [hrx] using h
        · simpa using hc
        · exact hsz
        · intro c hc'
          exact hb c (by simp only [hrx]; exact List.mem_cons_of_mem _ hc')
      · have hz : s.chunkSize - s.chunkComplete = 0 := by omega
        rw [chunkLoop, if_neg (by simp [hc])]
        cases s
        simp_all [chunkWrites]


/-- A pending `'M'` is dispatched to its handler without reading a command byte. -/
theorem legacySerialCommand_pending_M (env : Env) (fuel : Nat) (s : State)
    (hp : s.cmdPending = true) (hc : s.currentCommand = 77) :
    legacySerialCommand env fuel s = some (case_M s) := by
  simp [legacySerialCommand, readCommand, hp, dispatch, hc]

/-- A call of `case 'M'` that finds the complete header and at least one data byte
in the buffer. -/
theorem case_M_header (e0 : List Effect) (t : State)
    (x0 page offLo offHi lenLo lenHi d : Nat) (ds request data pending : List Nat)
    (hleg : t.legacySerial = false) (hch : t.chunkPending = false) (hcmd : t.currentCommand = 77)
    (hrx : t.rx = x0 :: page :: offLo :: offHi :: lenLo :: lenHi :: d :: ds)
    (he : t.effects = e0)
    (hhdr : page < 256 ∧ offLo < 256 ∧ offHi < 256 ∧ lenLo < 256 ∧ lenHi < 256)
    (hdata : data = (d :: ds) ++ pending) (hlen : data.length = word lenHi lenLo)
    (hbytes : ∀ b ∈ data, b < 256) :
    BulkWrite e0 page (word offHi offLo) request data pending (case_M t) := by
  obtain ⟨h1, h2, h3, h4, h5⟩ := hhdr
  have hsz : word lenHi lenLo < 65536 := by unfold word; omega
  have hdl : (d :: ds).length ≤ data.length := by rw [hdata]; simp
  have hmin : min (d :: ds).length (word lenHi lenLo - 0) = (d :: ds).length := by
    rw [← hlen]; simp only [Nat.sub_zero]; exact Nat.min_eq_left hdl
  let t1 : State :=
    { t with
      cmdPending := true
      rx := d :: ds
      currentPage := page
      valueOffset := word offHi offLo
      chunkSize := word lenHi lenLo
      chunkPending := true
      chunkComplete := 0 }
  have hloop := chunkLoop_spec (d :: ds).length t1 (le_refl _) (Nat.zero_le _) hsz
    (fun b hb => hbytes b (by rw [hdata]; exact List.mem_append_left _ hb))
  have hmin1 : min t1.rx.length (t1.chunkSize - t1.chunkComplete) = (d :: ds).length := hmin
  have hrx1 : t1.rx = d :: ds := rfl
  rw [hmin1, hrx1, List.drop_length, List.take_length] at hloop
  have hcase : case_M t =
      if (chunkLoop (d :: ds).length t1).chunkSize ≤ (chunkLoop (d :: ds).length t1).chunkComplete
      then { chunkLoop (d :: ds).length t1 with cmdPending := false, chunkPending := false }
      else chunkLoop (d :: ds).length t1 := by
    simp [case_M, hch, Serial_available, Serial_read, hrx, toByte_natCast, h1, h2, h3, h4, h5, t1]
  rw [hcase, hloop]
  simp only [t1, Nat.zero_add]
  refine ⟨by split_ifs <;> exact hleg, ?_⟩
  by_cases hfin : word lenHi lenLo ≤ (d :: ds).length
  · rw [if_pos hfin]
    have hp : pending = [] := by
      have : data.length = (d :: ds).length + pending.length := by
        rw [hdata, List.length_append]
      exact List.eq_nil_of_length_eq_zero (by omega)
    right; right
    refine ⟨rfl, rfl, rfl, hp, ?_⟩
    simp only [he, hdata, hp, List.append_nil]
  · rw [if_neg hfin]
    right; left
    refine ⟨rfl, hcmd, rfl, rfl, rfl, rfl, hlen.symm,
      (show (d :: ds).length < data.length by omega), ?_, ?_⟩
    · show pending = List.drop (d :: ds).length data
      rw [hdata, List.drop_left]
    · show t.effects ++ _ = e0 ++ chunkWrites page (word offHi offLo) 0
        (List.take (d :: ds).length data)
      rw [hdata, List.take_left, he]


/-- A call of `case 'M'` while a chunk is pending, with the newly arrived data bytes
`c` in the buffer. -/
theorem case_M_data (e0 : List Effect) (t : State) (page offset : Nat)
    (c request data pending : List Nat)
    (hleg : t.legacySerial = false) (hcmd : t.currentCommand = 77)
    (hch : t.chunkPending = true) (hrx : t.rx = c)
    (hpage : t.currentPage = page) (hoff : t.valueOffset = offset)
    (hsize : t.chunkSize = data.length) (hk : t.chunkComplete < data.length)
    (hpend : c ++ pending = data.drop t.chunkComplete)
    (he : t.effects = e0 ++ chunkWrites page offset 0 (data.take t.chunkComplete))
    (hlen : data.length < 65536) (hbytes : ∀ b ∈ data, b < 256) :
    BulkWrite e0 page offset request data pending (case_M t) := by
  have hcl : c.length + pending.length = data.length - t.chunkComplete := by
    have := congrArg List.length hpend
    simpa using this
  have hdata : data = data.take t.chunkComplete ++ (c ++ pending) := by
    rw [hpend, List.take_append_drop]
  have htl : (data.take t.chunkComplete).length = t.chunkComplete := by
    rw [List.length_take]; omega
  let t1 : State := { t with cmdPending := true }
  have hloop := chunkLoop_spec c.length t1 (by show t.rx.length ≤ _; rw [hrx])
    (by show t.chunkComplete ≤ t.chunkSize; omega) (by show t.chunkSize < _; omega)
    (by
      intro b hb
      have hb' : b ∈ c := by rw [← hrx]; exact hb
      refine hbytes b ?_
      rw [hdata]
      exact List.mem_append_right _ (List.mem_append_left _ hb'))
  have hmin1 : min t1.rx.length (t1.chunkSize - t1.chunkComplete) = c.length := by
    show min t.rx.length (t.chunkSize - t.chunkComplete) = _
    rw [hrx, hsize]; omega
  have hrx1 : t1.rx = c := hrx
  rw [hmin1, hrx1, List.drop_length, List.take_length] at hloop
  have hcase : case_M t =
      if (chunkLoop c.length t1).chunkSize ≤ (chunkLoop c.length t1).chunkComplete
      then { chunkLoop c.length t1 with cmdPending := false, chunkPending := false }
      else chunkLoop c.length t1 := by
    simp [case_M, hch, Serial_available, hrx, t1]
  have hwr : e0 ++ chunkWrites page offset 0 (data.take t.chunkComplete)
        ++ chunkWrites page offset t.chunkComplete c
      = e0 ++ chunkWrites page offset 0 (data.take t.chunkComplete ++ c) := by
    rw [chunkWrites_append, htl, Nat.zero_add, List.append_assoc]
  rw [hcase, hloop]
  simp only [t1]
  refine ⟨by split_ifs <;> exact hleg, ?_⟩
  by_cases hfin : t.chunkSize ≤ t.chunkComplete + c.length
  · rw [if_pos hfin]
    have hp : pending = [] := List.eq_nil_of_length_eq_zero (by omega)
    right; right
    refine ⟨rfl, rfl, rfl, hp, ?_⟩
    show t.effects ++ chunkWrites t.currentPage t.valueOffset t.chunkComplete c = _
    rw [he, hpage, hoff, hwr]
    conv_rhs => rw [hdata, hp, List.append_nil]
  · rw [if_neg hfin]
    right; left
    refine ⟨rfl, hcmd, hch, rfl, hpage, hoff, hsize,
      (show t.chunkComplete + c.length < data.length by omega), ?_, ?_⟩
    · show pending = List.drop (t.chunkComplete + c.length) data
      rw [← List.drop_drop, ← hpend, List.drop_left]
    · show t.effects ++ chunkWrites t.currentPage t.valueOffset t.chunkComplete c
        = e0 ++ chunkWrites page offset 0 (List.take (t.chunkComplete + c.length) data)
      rw [he, hpage, hoff, hwr]
      congr 2
      conv_rhs => rw [hdata]
      rw [List.take_append_eq_append_take, htl]
      simp [List.take_take, List.take_left]

/-- A list of at least seven elements. -/
theorem seven_cons (l : List Nat) (h : 7 ≤ l.length) :
    ∃ a0 a1 a2 a3 a4 a5 d ds, l = a0 :: a1 :: a2 :: a3 :: a4 :: a5 :: d :: ds := by
  rcases l with _ | ⟨a0, _ | ⟨a1, _ | ⟨a2, _ | ⟨a3, _ | ⟨a4, _ | ⟨a5, _ | ⟨d, ds⟩⟩⟩⟩⟩⟩⟩
  all_goals first | exact ⟨_, _, _, _, _, _, _, _, rfl⟩ | (simp at h)


theorem case_M_pending (s : State) : case_M { s with cmdPending := true } = case_M s := by
  simp [case_M]

/-- One call of `legacySerialCommand` during a bulk write, after the bytes `c` have
arrived, keeps the progress description. -/
theorem bulk_step (env : Env) (fuel : Nat) (e0 : List Effect)
    (x0 page offLo offHi lenLo lenHi : Nat) (data c pending : List Nat) (s : State)
    (hhdr : page < 256 ∧ offLo < 256 ∧ offHi < 256 ∧ lenLo < 256 ∧ lenHi < 256)
    (hbytes : ∀ b ∈ data, b < 256) (hlen : data.length = word lenHi lenLo)
    (hinv : BulkWrite e0 page (word offHi offLo)
      (x0 :: page :: offLo :: offHi :: lenLo :: lenHi :: data) data (c ++ pending) s) :
    ∃ s1, legacySerialCommand env fuel (receive c s) = some s1
      ∧ BulkWrite e0 page (word offHi offLo)
          (x0 :: page :: offLo :: offHi :: lenLo :: lenHi :: data) data pending s1 := by
  have hsz : data.length < 65536 := by rw [hlen]; unfold word; omega
  obtain ⟨hleg, hA | hB | hC⟩ := hinv
  · obtain ⟨hp, hcmd, hch, hrx, hshort, he⟩ := hA
    refine ⟨case_M (receive c s), legacySerialCommand_pending_M env fuel _ hp hcmd, ?_⟩
    by_cases h7 : 7 ≤ (s.rx ++ c).length
    · obtain ⟨a0, a1, a2, a3, a4, a5, d, ds, hl⟩ := seven_cons _ h7
      have hreq : (s.rx ++ c) ++ pending
          = x0 :: page :: offLo :: offHi :: lenLo :: lenHi :: data := by
        rw [List.append_assoc]; exact hrx
      rw [hl] at hreq
      simp only [List.cons_append, List.cons.injEq] at hreq
      obtain ⟨r0, r1, r2, r3, r4, r5, r6⟩ := hreq
      subst r0 r1 r2 r3 r4 r5
      exact case_M_header e0 (receive c s) _ _ _ _ _ _ d ds _ data pending hleg hch hcmd hl he
        hhdr r6.symm hlen hbytes
    · have hcase : case_M (receive c s) = receive c s := by
        have : ¬ 7 ≤ s.rx.length + c.length := by simpa using h7
        simp only [case_M, receive, hch, Serial_available, List.length_append, this]
        cases s
        simp_all
      rw [hcase]
      refine ⟨hleg, Or.inl ⟨hp, hcmd, hch, ?_,
        (show (s.rx ++ c).length < 7 by omega), he⟩⟩
      show (s.rx ++ c) ++ pending = _
      rw [List.append_assoc]; exact hrx
  · obtain ⟨hp, hcmd, hch, hrx, hpage, hoff, hsize, hk, hpend, he⟩ := hB
    refine ⟨case_M (receive c s), legacySerialCommand_pending_M env fuel _ hp hcmd, ?_⟩
    exact case_M_data e0 (receive c s) page _ c _ data pending hleg hcmd hch
      (by simp [receive, hrx]) hpage hoff hsize hk hpend he hsz hbytes
  · obtain ⟨hp, hch, hrx, hpend, he⟩ := hC
    have hc : c = [] := (List.append_eq_nil.mp hpend).1
    have hpn : pending = [] := (List.append_eq_nil.mp hpend).2
    subst hc hpn
    have hrec : receive [] s = s := by
      cases s
      simp_all [receive]
    rw [hrec, legacySerialCommand_empty env fuel s hp hleg hrx]
    exact ⟨_, rfl, hleg, Or.inr (Or.inr ⟨hp, hch, hrx, rfl, he⟩)⟩

/-- Calls of `legacySerialCommand` fed with the rest of a bulk-write request end
with the write complete. -/
theorem poll_bulk (env : Env) (fuel : Nat) (e0 : List Effect)
    (x0 page offLo offHi lenLo lenHi : Nat) (data : List Nat)
    (hhdr : page < 256 ∧ offLo < 256 ∧ offHi < 256 ∧ lenLo < 256 ∧ lenHi < 256)
    (hbytes : ∀ b ∈ data, b < 256) (hlen : data.length = word lenHi lenLo) :
    ∀ (chunks : List (List Nat)) (s : State),
    BulkWrite e0 page (word offHi offLo)
      (x0 :: page :: offLo :: offHi :: lenLo :: lenHi :: data) data chunks.flatten s →
    ∃ s1, poll env fuel chunks s = some s1
      ∧ BulkWrite e0 page (word offHi offLo)
          (x0 :: page :: offLo :: offHi :: lenLo :: lenHi :: data) data [] s1 := by
  intro chunks
  induction chunks with
  | nil => intro s h; exact ⟨s, rfl, by simpa using h⟩
  | cons c cs ih =>
    intro s h
    rw [List.flatten_cons] at h
    obtain ⟨s1, h1, h2⟩ := bulk_step env fuel e0 x0 page offLo offHi lenLo lenHi data c _ s
      hhdr hbytes hlen h
    obtain ⟨s2, h3, h4⟩ := ih s1 h2
    exact ⟨s2, by simp [poll, h1, h3], h4⟩

/-- **C2** Chunked write conservation: from an idle session with an empty receive
buffer, for every page, 16-bit offset, length `N ≥ 1` and `N` data bytes, and for
every way in which the request bytes after the `'M'` arrive in chunks before
successive calls of `legacySerialCommand`, the calls return, the external effects
performed are exactly `setPageValue(page, offset + i, data[i])` for `i = 0 .. N-1`
in increasing order (the address taken as the 16-bit argument), `cmdPending` and
`chunkPending` are false at the end, and a single call with the whole request
buffered performs the same writes. -/
theorem C2_chunked_write (env : Env) (fuel : Nat) (s : State)
    (x0 page offLo offHi lenLo lenHi : Nat) (data first : List Nat) (chunks : List (List Nat))
    (hidle : s.cmdPending = false ∧ s.chunkPending = false ∧ s.legacySerial = false ∧ s.rx = [])
    (hhdr : page < 256 ∧ offLo < 256 ∧ offHi < 256 ∧ lenLo < 256 ∧ lenHi < 256)
    (hbytes : ∀ b ∈ data, b < 256)
    (hlen : data.length = word lenHi lenLo) (hpos : 1 ≤ data.length)
    (hsplit : first ++ chunks.flatten
      = x0 :: page :: offLo :: offHi :: lenLo :: lenHi :: data) :
    ∃ s1, poll env fuel ((77 :: first) :: chunks) s = some s1
      ∧ s1.effects = s.effects ++ (List.range data.length).map
          (fun i => Effect.setPageValue page ((word offHi offLo + i) % 65536) (data.getD i 0))
      ∧ s1.cmdPending = false ∧ s1.chunkPending = false
      ∧ ∃ s2, legacySerialCommand env fuel
            (receive (77 :: x0 :: page :: offLo :: offHi :: lenLo :: lenHi :: data) s) = some s2
          ∧ s2.effects = s1.effects := by
  obtain ⟨hp, hch, hleg, hrx⟩ := hidle
  -- the state once the command byte has been taken
  have hfirst : ∀ l : List Nat, legacySerialCommand env fuel (receive (77 :: l) s)
      = legacySerialCommand env fuel
          (receive l { s with currentCommand := 77, cmdPending := true }) := by
    intro l
    rw [legacySerialCommand_pending_M env fuel
      (receive l { s with currentCommand := 77, cmdPending := true }) rfl rfl]
    have : readCommand (receive (77 :: l) s) = { s with rx := l, currentCommand := 77 } := by
      simp [readCommand, receive, hp, hleg, hrx, Serial_read, toByte]
    rw [legacySerialCommand, this]
    have hd : dispatch env fuel { s with rx := l, currentCommand := 77 }
        = some (case_M { s with rx := l, currentCommand := 77 }) := by
      simp [dispatch]
    rw [hd, ← case_M_pending]
    simp [receive, hrx]
  have hstart : ∀ pending, pending = x0 :: page :: offLo :: offHi :: lenLo :: lenHi :: data →
      BulkWrite s.effects page (word offHi offLo)
        (x0 :: page :: offLo :: offHi :: lenLo :: lenHi :: data) data pending
        { s with currentCommand := 77, cmdPending := true } := by
    intro pending hpend
    exact ⟨hleg, Or.inl ⟨rfl, rfl, hch, by simp [hrx, hpend], by simp [hrx], rfl⟩⟩
  have hdone : ∀ s1 : State, BulkWrite s.effects page (word offHi offLo)
        (x0 :: page :: offLo :: offHi :: lenLo :: lenHi :: data) data [] s1 →
      s1.effects = s.effects ++ (List.range data.length).map
          (fun i => Effect.setPageValue page ((word offHi offLo + i) % 65536) (data.getD i 0))
        ∧ s1.cmdPending = false ∧ s1.chunkPending = false := by
    intro s1 h
    obtain ⟨-, hA | hB | hC⟩ := h
    · obtain ⟨-, -, -, hr, hshort, -⟩ := hA
      rw [List.append_nil] at hr
      rw [hr] at hshort
      simp at hshort
      omega
    · obtain ⟨-, -, -, -, -, -, -, hk, hpend, -⟩ := hB
      have := congrArg List.length hpend
      simp at this
      omega
    · obtain ⟨h1, h2, -, -, h5⟩ := hC
      exact ⟨by rw [h5, chunkWrites_eq_map], h1, h2⟩
  obtain ⟨s1, h1, h2⟩ := poll_bulk env fuel s.effects x0 page offLo offHi lenLo lenHi data
    hhdr hbytes hlen (first :: chunks) { s with currentCommand := 77, cmdPending := true }
    (hstart _ (by rw [List.flatten_cons]; exact hsplit))
  obtain ⟨s2, h3, h4⟩ := poll_bulk env fuel s.effects x0 page offLo offHi lenLo lenHi data
    hhdr hbytes hlen [x0 :: page :: offLo :: offHi :: lenLo :: lenHi :: data]
    { s with currentCommand := 77, cmdPending := true } (hstart _ (by simp))
  obtain ⟨e1, e2, e3⟩ := hdone s1 h2
  obtain ⟨f1, -, -⟩ := hdone s2 h4
  refine ⟨s1, ?_, e1, e2, e3, s2, ?_, by rw [e1, f1]⟩
  · rw [poll, hfirst]
    exact h1
  · rw [hfirst]
    simp only [poll] at h3
    cases hq : legacySerialCommand env fuel
      (receive (x0 :: page :: offLo :: offHi :: lenLo :: lenHi :: data)
        { s with currentCommand := 77, cmdPending := true }) with
    | none => rw [hq] at h3; simp at h3
    | some q => rw [hq] at h3; simpa using h3


/-- Three bytes written to page 3 at offset 5, the request arriving in five pieces,
one of them empty and one cutting the header in two. -/
theorem C2_chunked_write_witness :
    ((initialState [] (fun _ => 1)).cmdPending = false
      ∧ (initialState [] (fun _ => 1)).chunkPending = false
      ∧ (initialState [] (fun _ => 1)).legacySerial = false
      ∧ (initialState [] (fun _ => 1)).rx = [])
    ∧ [10, 20, 30].length = word 0 3
    ∧ [0, 3, 5] ++ [[0, 3, 0, 10], [], [20], [30]].flatten = [0, 3, 5, 0, 3, 0, 10, 20, 30]
    ∧ ∃ s1, poll sampleEnv 0 [[77, 0, 3, 5], [0, 3, 0, 10], [], [20], [30]]
          (initialState [] (fun _ => 1)) = some s1
      ∧ s1.effects = [Effect.setPageValue 3 5 10, Effect.setPageValue 3 6 20,
          Effect.setPageValue 3 7 30]
      ∧ s1.cmdPending = false ∧ s1.chunkPending = false := by
  refine ⟨⟨rfl, rfl, rfl, rfl⟩, by decide, by decide, ?_⟩
  obtain ⟨s1, h1, h2, h3, h4, -⟩ :=
    C2_chunked_write sampleEnv 0 (initialState [] (fun _ => 1)) 0 3 5 0 3 0 [10, 20, 30]
      [0, 3, 5] [[0, 3, 0, 10], [], [20], [30]] ⟨rfl, rfl, rfl, rfl⟩ (by decide) (by decide)
      (by decide) (by decide) (by decide)
  refine ⟨s1, h1, ?_, h3, h4⟩
  rw [h2]
  decide

/-! ## Resumption of the telemetry stream (`sendValues`) -/

/-- Mirroring the sync flag into the spark byte a second time changes nothing. -/
theorem syncSpark_idem (env : Env) (spark : Nat) (hasSync : Bool) :
    syncSpark env (syncSpark env spark hasSync) hasSync = syncSpark env spark hasSync := by
  unfold syncSpark
  have h256 : (256 : Nat) = 2 ^ 8 := by norm_num
  rw [h256, Nat.one_shiftLeft]
  apply Nat.eq_of_testBit_eq
  intro i
  simp only [Nat.testBit_mod_two_pow, Nat.testBit_xor, Nat.testBit_and, Nat.testBit_two_pow]
  cases hasSync <;> simp only [if_true, if_false, Bool.false_eq_true, Nat.zero_testBit,
      Nat.testBit_two_pow_sub_one] <;>
    by_cases h8 : i < 8 <;> by_cases hb : env.BIT_SPARK_SYNC = i <;>
    by_cases hw : i < env.intBits <;>
    cases spark.testBit i <;> simp [h8, hb, hw]


/-- The loop of `sendValues` on the primary port, entered at `x ≤ packetLength ≤ 255`
with more fuel than bytes left: it returns after writing `w` consecutive record
bytes, either all that were left, or at least one with the resumption cursor set
to the first unsent byte. -/
theorem sendValuesLoop_spec (env : Env) (offset packetLength : Nat) (hP : packetLength ≤ 255) :
    ∀ (fuel x : Nat) (s : State), x ≤ packetLength → packetLength - x < fuel →
    ∃ s1 w, sendValuesLoop env offset packetLength 0 fuel x s = some s1
      ∧ x + w ≤ packetLength
      ∧ s1.tx = s.tx ++ (List.range w).map
          (fun i => env.getTSLogEntry s.currentStatus ((offset + (x + i)) % 65536) % 256)
      ∧ ((s1.serialInProgress = false ∧ x + w = packetLength)
        ∨ (s1.serialInProgress = true ∧ 1 ≤ w
            ∧ s1.inProgressOffset = (offset + (x + w)) % 256
            ∧ s1.inProgressLength = (packetLength - (x + w)) % 256
            ∧ s1.currentStatus = s.currentStatus)) := by
  intro fuel
  induction fuel with
  | zero => intro x s _ h; omega
  | succ fuel ih =>
    intro x s hx hf
    by_cases hlt : x < packetLength
    · rw [sendValuesLoop, if_pos hlt]
      simp only [if_true, Serial_availableForWrite]
      by_cases hfull : (Serial_write s
          (env.getTSLogEntry s.currentStatus ((offset + x) % 65536))).afw
          (Serial_write s (env.getTSLogEntry s.currentStatus ((offset + x) % 65536))).afwCalls < 1
      · rw [if_pos hfull]
        refine ⟨_, 1, rfl, by omega, ?_, Or.inr ⟨rfl, le_refl _, ?_, ?_, rfl⟩⟩
        · simp [Serial_write, List.range_succ]
        · show (offset + x + 1) % 256 = _
          rw [Nat.add_assoc]
        · show (packetLength - x - 1) % 256 = _
          rw [Nat.sub_sub]
      · rw [if_neg hfull]
        have hx1 : (x + 1) % 256 = x + 1 := by omega
        rw [hx1]
        obtain ⟨s1, w, h1, h2, h3, h4⟩ := ih (x + 1)
          { Serial_write s (env.getTSLogEntry s.currentStatus ((offset + x) % 65536)) with
            afwCalls := (Serial_write s
              (env.getTSLogEntry s.currentStatus ((offset + x) % 65536))).afwCalls + 1 }
          (by omega) (by omega)
        refine ⟨s1, w + 1, h1, by omega, ?_, ?_⟩
        · rw [h3, List.range_succ_eq_map]
          simp only [Serial_write, List.map_cons, List.map_map, List.append_assoc,
            List.singleton_append, Nat.add_zero]
          congr 2
          apply List.map_congr_left
          intro i _
          simp only [Function.comp]
          have : x + 1 + i = x + (i + 1) := by omega
          rw [this]
        · rcases h4 with ⟨a, b⟩ | ⟨a, b, c, d, e⟩
          · exact Or.inl ⟨a, by omega⟩
          · refine Or.inr ⟨a, by omega, ?_, ?_, e⟩
            · rw [c]; congr 2; omega
            · rw [d]; congr 2; omega
    · have hxP : x = packetLength := by omega
      refine ⟨_, 0, by rw [sendValuesLoop, if_neg hlt], by omega, by simp, Or.inl ⟨rfl, by omega⟩⟩


/-- The part of `sendValues` before its loop, on the primary port: it may zero
`secl`, mirrors the sync flag into `spark`, and touches neither the output nor the
resumption cursor. -/
theorem sendValuesHeader_primary (env : Env) (cmd : Nat) (s : State) :
    (∃ v, (sendValuesHeader env cmd 0 s).currentStatus
        = { s.currentStatus with
            secl := v
            spark := syncSpark env s.currentStatus.spark s.currentStatus.hasSync })
      ∧ (sendValuesHeader env cmd 0 s).tx = s.tx := by
  unfold sendValuesHeader
  by_cases h : s.requestCount = 0
  · exact ⟨⟨0, by simp [h]⟩, by simp [h]⟩
  · exact ⟨⟨s.currentStatus.secl, by simp [h]⟩, by simp [h]⟩

/-- The resumed calls after a suspension at record byte `k`: they deliver the bytes
`k`, ..., `packetLength - 1` of the record in order and end with `serialInProgress`
cleared. `st0` is the status the first call streamed from. -/
theorem resumeValues_spec (env : Env) (fuel cmd offset packetLength : Nat) (st0 : Status)
    (hsecl : ∀ (st : Status) (v i : Nat), i ≠ 0 →
      env.getTSLogEntry { st with secl := v } i = env.getTSLogEntry st i)
    (hfix : syncSpark env st0.spark st0.hasSync = st0.spark)
    (hrange : offset + packetLength ≤ 255) (hfuel : packetLength < fuel) :
    ∀ (n : Nat) (s : State) (k : Nat), s.serialInProgress = true → 1 ≤ k → k ≤ packetLength →
    s.inProgressOffset = offset + k → s.inProgressLength = packetLength - k →
    (∃ v, s.currentStatus = { st0 with secl := v }) → packetLength - k < n →
    ∃ s1, resumeValues env fuel cmd n s = some s1 ∧ s1.serialInProgress = false
      ∧ s1.tx = s.tx ++ (List.range (packetLength - k)).map
          (fun i => env.getTSLogEntry st0 (offset + k + i) % 256) := by
  intro n
  induction n with
  | zero => intro s k _ _ _ _ _ _ h; omega
  | succ n ih =>
    intro s k hprog hk1 hkP hoff hlen hst hn
    obtain ⟨v, hv⟩ := hst
    obtain ⟨⟨v1, hv1⟩, htx⟩ := sendValuesHeader_primary env cmd s
    have hst1 : (sendValuesHeader env cmd 0 s).currentStatus = { st0 with secl := v1 } := by
      rw [hv1, hv]
      simp only [hfix]
    obtain ⟨s1, w, h1, h2, h3, h4⟩ := sendValuesLoop_spec env (offset + k) (packetLength - k)
      (by omega) fuel 0 (sendValuesHeader env cmd 0 s) (Nat.zero_le _) (by omega)
    have hentries : s1.tx = s.tx ++ (List.range w).map
        (fun i => env.getTSLogEntry st0 (offset + k + i) % 256) := by
      rw [h3, htx]
      congr 1
      apply List.map_congr_left
      intro i hi
      have hi' : i < w := List.mem_range.mp hi
      have hmod : (offset + k + (0 + i)) % 65536 = offset + k + i := by omega
      rw [hmod, hst1, hsecl _ _ _ (by omega)]
    have hcall : sendValues env fuel s.inProgressOffset s.inProgressLength cmd 0 s = some s1 := by
      rw [hoff, hlen]
      exact h1
    rw [resumeValues, if_pos hprog, hcall]
    simp only
    rcases h4 with ⟨a, b⟩ | ⟨a, b, c, d, e⟩
    · have hw : w = packetLength - k := by omega
      refine ⟨s1, ?_, a, by rw [hentries, hw]⟩
      cases n with
      | zero => rfl
      | succ m => rw [resumeValues]; simp [a]
    · have hc : s1.inProgressOffset = offset + (k + w) := by rw [c]; omega
      have hd : s1.inProgressLength = packetLength - (k + w) := by rw [d]; omega
      obtain ⟨s2, g1, g2, g3⟩ := ih s1 (k + w) a (by omega) (by omega) hc hd
        ⟨v1, by rw [e, hst1]⟩ (by omega)
      refine ⟨s2, g1, g2, ?_⟩
      have hsplit : packetLength - k = w + (packetLength - (k + w)) := by omega
      rw [g3, hentries, hsplit, List.range_add, List.map_append, List.map_map,
        List.append_assoc]
      congr 2
      apply List.map_congr_left
      intro i _
      simp only [Function.comp]
      have : offset + (k + w) + i = offset + k + (w + i) := by omega
      rw [this]

/-- **C3** Resumption correctness of the telemetry stream: for a request
`sendValues(offset, packetLength, cmd, 0)` with `offset + packetLength ≤ 255` (the
full record is `offset = 0`, `packetLength = LOG_ENTRY_SIZE`), whatever answers
`Serial.availableForWrite()` gives, the first call and the resumed calls
`sendValues(inProgressOffset, inProgressLength, cmd, 0)` made while
`serialInProgress` is set all return, and together they append to the output
exactly `getTSLogEntry(offset)`, ..., `getTSLogEntry(offset + packetLength - 1)` of
the status the first call streams from, in order; `serialInProgress` is false at the
end. Record entries other than entry 0 do not depend on `secl`. -/
theorem C3_resumption (env : Env) (fuel cmd offset packetLength n : Nat) (s : State)
    (hsecl : ∀ (st : Status) (v i : Nat), i ≠ 0 →
      env.getTSLogEntry { st with secl := v } i = env.getTSLogEntry st i)
    (hrange : offset + packetLength ≤ 255) (hfuel : packetLength < fuel)
    (hcalls : packetLength ≤ n) :
    ∃ s1, (sendValues env fuel offset packetLength cmd 0 s).bind (resumeValues env fuel cmd n)
        = some s1
      ∧ s1.tx = s.tx ++ (List.range packetLength).map
          (fun i => env.getTSLogEntry (sendValuesHeader env cmd 0 s).currentStatus (offset + i)
            % 256)
      ∧ s1.serialInProgress = false := by
  obtain ⟨⟨v0, hv0⟩, htx⟩ := sendValuesHeader_primary env cmd s
  obtain ⟨s1, w, h1, h2, h3, h4⟩ := sendValuesLoop_spec env offset packetLength
    (by omega) fuel 0 (sendValuesHeader env cmd 0 s) (Nat.zero_le _) (by omega)
  have hentries : s1.tx = s.tx ++ (List.range w).map
      (fun i => env.getTSLogEntry (sendValuesHeader env cmd 0 s).currentStatus (offset + i)
        % 256) := by
    rw [h3, htx]
    congr 1
    apply List.map_congr_left
    intro i hi
    have hi' : i < w := List.mem_range.mp hi
    have hmod : (offset + (0 + i)) % 65536 = offset + i := by omega
    rw [hmod]
  have hcall : sendValues env fuel offset packetLength cmd 0 s = some s1 := h1
  rw [hcall, Option.some_bind]
  rcases h4 with ⟨a, b⟩ | ⟨a, b, c, d, e⟩
  · have hw : w = packetLength := by omega
    refine ⟨s1, ?_, by rw [hentries, hw], a⟩
    cases n with
    | zero => rfl
    | succ m => rw [resumeValues]; simp [a]
  · have hfix : syncSpark env (sendValuesHeader env cmd 0 s).currentStatus.spark
        (sendValuesHeader env cmd 0 s).currentStatus.hasSync
        = (sendValuesHeader env cmd 0 s).currentStatus.spark := by
      rw [hv0]
      exact syncSpark_idem env _ _
    obtain ⟨s2, g1, g2, g3⟩ := resumeValues_spec env fuel cmd offset packetLength
      (sendValuesHeader env cmd 0 s).currentStatus hsecl hfix hrange hfuel n s1 w a b
      (by omega) (by rw [c]; omega) (by rw [d]; omega)
      ⟨(sendValuesHeader env cmd 0 s).currentStatus.secl, by rw [e]⟩ (by omega)
    refine ⟨s2, g1, ?_, g2⟩
    have hsplit : packetLength = w + (packetLength - w) := by omega
    rw [g3, hentries]
    conv_rhs => rw [hsplit, List.range_add, List.map_append, List.map_map]
    rw [List.append_assoc]
    congr 2
    apply List.map_congr_left
    intro i _
    simp only [Function.comp]
    rw [Nat.add_assoc]


/-- Six record bytes requested from the start state while the transmit buffer is
full at every third query: the first call and its resumptions deliver 0, 1, ..., 5. -/
theorem C3_resumption_witness :
    (∀ (st : Status) (v i : Nat), i ≠ 0 →
      sampleEnv.getTSLogEntry { st with secl := v } i = sampleEnv.getTSLogEntry st i)
    ∧ 0 + 6 ≤ 255
    ∧ ∃ s1, (sendValues sampleEnv 7 0 6 49 0
          (initialState [] (fun q => if q % 3 = 2 then 0 else 1))).bind
          (resumeValues sampleEnv 7 49 6) = some s1
      ∧ s1.tx = [0, 1, 2, 3, 4, 5]
      ∧ s1.serialInProgress = false := by
  have hs : ∀ (st : Status) (v i : Nat), i ≠ 0 →
      sampleEnv.getTSLogEntry { st with secl := v } i = sampleEnv.getTSLogEntry st i := by
    intro st v i hi
    simp [sampleEnv, hi]
  refine ⟨hs, by decide, ?_⟩
  obtain ⟨s1, h1, h2, h3⟩ :=
    C3_resumption sampleEnv 7 49 0 6 6 (initialState [] (fun q => if q % 3 = 2 then 0 else 1))
      hs (by decide) (by decide) (by decide)
  refine ⟨s1, h1, ?_, h3⟩
  rw [h2]
  decide

/-! ## Session facts in reachable states -/

theorem Frame.refl (s : State) : Frame s s := ⟨rfl, rfl, rfl, fun h => h⟩

theorem Frame.trans {a b c : State} (h1 : Frame a b) (h2 : Frame b c) : Frame a c :=
  ⟨h2.1.trans h1.1, h2.2.1.trans h1.2.1, h2.2.2.1.trans h1.2.2.1,
    fun h => h2.2.2.2 (h1.2.2.2 h)⟩

/-- A state that agrees with `s` on the four framed globals. -/
theorem Frame.of_eq {s s1 : State} (h1 : s1.chunkPending = s.chunkPending)
    (h2 : s1.legacySerial = s.legacySerial) (h3 : s1.currentCommand = s.currentCommand)
    (h4 : s1.toothLogSendInProgress = s.toothLogSendInProgress) : Frame s s1 :=
  ⟨h1, h2, h3, fun h => by rw [h4, h]⟩

theorem Serial_read_snd (s : State) : (Serial_read s).2 = { s with rx := s.rx.tail } := by
  unfold Serial_read
  cases h : s.rx <;> cases s <;> simp_all

theorem Serial_write_frame (s : State) (v : Nat) : Frame s (Serial_write s v) :=
  Frame.of_eq rfl rfl rfl rfl

theorem Serial_print_frame (s : State) (t : String) : Frame s (Serial_print s t) :=
  Frame.of_eq rfl rfl rfl rfl

theorem Serial_println_frame (s : State) (t : String) : Frame s (Serial_println s t) :=
  Frame.of_eq rfl rfl rfl rfl

theorem Serial_read_frame (s : State) : Frame s (Serial_read s).2 := by
  rw [Serial_read_snd]
  exact Frame.of_eq rfl rfl rfl rfl

theorem Serial_wait_frame (k : Nat) (s s1 : State) (h : Serial_wait k s = some s1) :
    Frame s s1 := by
  unfold Serial_wait at h
  cases hw : waitBytes k s.rx s.wire with
  | none => rw [hw] at h; simp at h
  | some p =>
    rw [hw] at h
    simp only [Option.map_some', Option.some.injEq] at h
    rw [← h]
    exact Frame.of_eq rfl rfl rfl rfl

theorem forLoop_frame (body : Nat → State → State) (h : ∀ x s, Frame s (body x s)) :
    ∀ (n x : Nat) (s : State), Frame s (forLoop body n x s) := by
  intro n
  induction n with
  | zero => intro x s; exact Frame.refl s
  | succ n ih => intro x s; exact (h x s).trans (ih (x + 1) (body x s))

theorem foldl_frame {α : Type} (f : State → α → State) (h : ∀ s a, Frame s (f s a)) :
    ∀ (l : List α) (s : State), Frame s (l.foldl f s) := by
  intro l
  induction l with
  | nil => intro s; exact Frame.refl s
  | cons a l ih => intro s; exact (h s a).trans (ih (f s a))

theorem sendValuesLegacy_frame (s : State) : Frame s (sendValuesLegacy s) := by
  unfold sendValuesLegacy
  have h : ∀ (l : List Nat) (p : State × Int), Frame p.1 (l.foldl writeCounted p).1 := by
    intro l
    induction l with
    | nil => intro p; exact Frame.refl _
    | cons a l ih =>
      intro p
      exact (Serial_write_frame p.1 a).trans (ih (writeCounted p a))
  exact (h _ (s, 114)).trans (forLoop_frame _ (fun _ t => Serial_write_frame t 99) _ _ _)

theorem sendValuesHeader_frame (env : Env) (cmd portNum : Nat) (s : State) :
    Frame s (sendValuesHeader env cmd portNum s) := by
  unfold sendValuesHeader
  split_ifs <;> exact Frame.of_eq rfl rfl rfl rfl

theorem sendValuesLoop_frame (env : Env) (offset packetLength portNum : Nat) :
    ∀ (fuel x : Nat) (s s1 : State),
    sendValuesLoop env offset packetLength portNum fuel x s = some s1 → Frame s s1 := by
  intro fuel
  induction fuel with
  | zero => intro x s s1 h; simp [sendValuesLoop] at h
  | succ fuel ih =>
    intro x s s1 h
    rw [sendValuesLoop] at h
    by_cases h1 : x < packetLength
    · rw [if_pos h1] at h
      obtain ⟨sw, hsw, hw⟩ : ∃ sw, sw = (if portNum = 0 then
          Serial_write s (env.getTSLogEntry s.currentStatus ((offset + x) % 65536))
          else if portNum = 3 ∧ env.CANSerial_AVAILABLE = true then
            { s with canTx := s.canTx ++
              [env.getTSLogEntry s.currentStatus ((offset + x) % 65536) % 256] }
          else s) ∧ Frame s sw := by
        refine ⟨_, rfl, ?_⟩
        split_ifs <;> exact Frame.of_eq rfl rfl rfl rfl
      simp only [← hsw] at h
      by_cases h2 : (Serial_availableForWrite sw).1 < 1
      · rw [if_pos h2] at h
        simp only [Option.some.injEq] at h
        rw [← h]
        exact hw.trans (Frame.of_eq rfl rfl rfl rfl)
      · rw [if_neg h2] at h
        have hq : Frame sw (Serial_availableForWrite sw).2 := Frame.of_eq rfl rfl rfl rfl
        exact (hw.trans hq).trans (ih _ _ _ h)
    · rw [if_neg h1] at h
      simp only [Option.some.injEq] at h
      rw [← h]
      exact Frame.of_eq rfl rfl rfl rfl

theorem sendValues_frame (env : Env) (fuel offset packetLength cmd portNum : Nat)
    (s s1 : State) (h : sendValues env fuel offset packetLength cmd portNum s = some s1) :
    Frame s s1 :=
  (sendValuesHeader_frame env cmd portNum s).trans (sendValuesLoop_frame env _ _ _ _ _ _ _ h)


theorem send_entity_frame (env : Env) (e : Entity) (s : State) : Frame s (send_entity env e s) := by
  unfold send_entity
  cases e.type
  · exact Frame.of_eq rfl rfl rfl rfl
  · exact ((foldl_frame Serial_writeBuf (fun _ _ => Frame.of_eq rfl rfl rfl rfl) _ _).trans
      (foldl_frame _ (fun t v => Serial_write_frame t _) _ _)).trans
      (foldl_frame _ (fun t v => Serial_write_frame t _) _ _)
  · exact Frame.refl s
  · exact Frame.refl s

theorem sendPageLoop_frame (env : Env) : ∀ (fuel : Nat) (e : Entity) (s s1 : State),
    sendPageLoop env fuel e s = some s1 → Frame s s1 := by
  intro fuel
  induction fuel with
  | zero => intro e s s1 h; simp [sendPageLoop] at h
  | succ fuel ih =>
    intro e s s1 h
    rw [sendPageLoop] at h
    by_cases he : e.type = EntityType.End
    · rw [if_pos he] at h
      simp only [Option.some.injEq] at h
      rw [← h]
      exact Frame.refl s
    · rw [if_neg he] at h
      exact (send_entity_frame env e s).trans (ih _ _ _ h)

theorem toothRecord_frame (x : Nat) (s : State) : Frame s (toothRecord x s) := by
  unfold toothRecord
  exact (((Serial_write_frame _ _).trans (Serial_write_frame _ _)).trans
    (Serial_write_frame _ _)).trans (Serial_write_frame _ _)

theorem sendToothLog_legacy_frame (env : Env) (startOffset : Nat) (s : State) :
    Frame s (sendToothLog_legacy env startOffset s) := by
  unfold sendToothLog_legacy
  split_ifs
  · have h := forLoop_frame toothRecord toothRecord_frame
      (env.TOOTH_LOG_SIZE - startOffset) startOffset s
    exact ⟨h.1, h.2.1, h.2.2.1, fun _ => rfl⟩
  · have h := forLoop_frame (fun _ t => Serial_write t 0)
      (fun _ t => Serial_write_frame t 0) (4 * env.TOOTH_LOG_SIZE) 0 s
    exact ⟨h.1, h.2.1, h.2.2.1, h.2.2.2⟩

theorem sendCompositeLoop_frame : ∀ (n x : Nat) (s : State),
    Frame s (sendCompositeLoop n x s).2 := by
  intro n
  induction n with
  | zero => intro x s; exact Frame.refl s
  | succ n ih =>
    intro x s
    rw [sendCompositeLoop]
    by_cases h : (Serial_availableForWrite s).1 < 4
    · rw [if_pos h]
      exact Frame.of_eq rfl rfl rfl rfl
    · rw [if_neg h]
      refine Frame.trans ?_ (ih _ _)
      have h1 : Frame s { (Serial_availableForWrite s).2 with
          inProgressCompositeTime := (Serial_availableForWrite s).2.toothHistory x % 2 ^ 32 } :=
        Frame.of_eq rfl rfl rfl rfl
      exact ((((h1.trans (Serial_write_frame _ _)).trans (Serial_write_frame _ _)).trans
        (Serial_write_frame _ _)).trans (Serial_write_frame _ _)).trans (Serial_write_frame _ _)

theorem sendCompositeLog_legacy_frame (env : Env) (startOffset : Nat) (s : State) :
    Frame s (sendCompositeLog_legacy env startOffset s) := by
  unfold sendCompositeLog_legacy
  by_cases hr : BIT_CHECK s.currentStatus.status1 env.BIT_STATUS1_TOOTHLOG1READY = true
  · rw [if_pos hr]
    obtain ⟨s0, hs0, h0⟩ : ∃ s0, s0 = (if startOffset = 0 then
        { s with inProgressCompositeTime := 0 } else s) ∧ Frame s s0 := by
      refine ⟨_, rfl, ?_⟩
      split_ifs
      · exact Frame.of_eq rfl rfl rfl rfl
      · exact Frame.refl s
    simp only [← hs0]
    have h := h0.trans (sendCompositeLoop_frame (env.TOOTH_LOG_SIZE - startOffset) startOffset s0)
    by_cases hc : (sendCompositeLoop (env.TOOTH_LOG_SIZE - startOffset) startOffset s0).1 = true
    · rw [if_pos hc]
      exact h.trans (Frame.of_eq rfl rfl rfl rfl)
    · rw [if_neg hc]
      exact h
  · rw [if_neg hr]
    have h := forLoop_frame (fun _ t => Serial_write t 0)
      (fun _ t => Serial_write_frame t 0) (5 * env.TOOTH_LOG_SIZE) 0 s
    exact ⟨h.1, h.2.1, h.2.2.1, h.2.2.2⟩

theorem writeCalibration_frame (s : State) : Frame s (writeCalibration s) :=
  Frame.of_eq rfl rfl rfl rfl

theorem receiveO2Loop_frame (t : CalTable) : ∀ (n x : Nat) (s s1 : State),
    receiveO2Loop t n x s = some s1 → Frame s s1 := by
  intro n
  induction n with
  | zero =>
    intro x s s1 h
    simp only [receiveO2Loop, Option.some.injEq] at h
    rw [← h]
    exact Frame.refl s
  | succ n ih =>
    intro x s s1 h
    rw [receiveO2Loop] at h
    cases hw : Serial_wait 1 s with
    | none => rw [hw] at h; simp at h
    | some w =>
      rw [hw] at h
      simp only at h
      refine ((Serial_wait_frame 1 s w hw).trans ?_).trans (ih _ _ _ h)
      split_ifs
      · exact (Serial_read_frame w).trans (Frame.of_eq rfl rfl rfl rfl)
      · exact Serial_read_frame w

theorem receiveTempLoop_frame (env : Env) (t : CalTable) (OFFSET DIVISION_FACTOR : Int) :
    ∀ (n x : Nat) (s s1 : State),
    receiveTempLoop env t OFFSET DIVISION_FACTOR n x s = some s1 → Frame s s1 := by
  intro n
  induction n with
  | zero =>
    intro x s s1 h
    simp only [receiveTempLoop, Option.some.injEq] at h
    rw [← h]
    exact Frame.refl s
  | succ n ih =>
    intro x s s1 h
    rw [receiveTempLoop] at h
    cases hw : Serial_wait 2 s with
    | none => rw [hw] at h; simp at h
    | some w =>
      rw [hw] at h
      simp only at h
      refine ((Serial_wait_frame 2 s w hw).trans ?_).trans (ih _ _ _ h)
      exact ((Serial_read_frame w).trans (Serial_read_frame _)).trans
        (Frame.of_eq rfl rfl rfl rfl)

theorem receiveCalibration_frame (env : Env) (tableID : Nat) (s s1 : State)
    (h : receiveCalibration env tableID s = some s1) : Frame s s1 := by
  unfold receiveCalibration at h
  simp only at h
  split_ifs at h
  · cases hl : receiveO2Loop (calibrationTarget env tableID).1 1024 0 s with
    | none => rw [hl] at h; simp at h
    | some w =>
      rw [hl] at h
      simp only [Option.map_some', Option.some.injEq] at h
      rw [← h]
      exact (receiveO2Loop_frame _ _ _ _ _ hl).trans (writeCalibration_frame w)
  · cases hl : receiveTempLoop env (calibrationTarget env tableID).1
        (calibrationTarget env tableID).2.1 (calibrationTarget env tableID).2.2 32 0 s with
    | none => rw [hl] at h; simp at h
    | some w =>
      rw [hl] at h
      simp only [Option.map_some', Option.some.injEq] at h
      rw [← h]
      exact (receiveTempLoop_frame _ _ _ _ _ _ _ _ hl).trans (writeCalibration_frame w)

theorem loadEEPROMLoop_frame : ∀ (n x : Nat) (s s1 : State),
    loadEEPROMLoop n x s = some s1 → Frame s s1 := by
  intro n
  induction n with
  | zero =>
    intro x s s1 h
    simp only [loadEEPROMLoop, Option.some.injEq] at h
    rw [← h]
    exact Frame.refl s
  | succ n ih =>
    intro x s s1 h
    rw [loadEEPROMLoop] at h
    cases hw : Serial_wait 3 s with
    | none => rw [hw] at h; simp at h
    | some w =>
      rw [hw] at h
      simp only at h
      refine ((Serial_wait_frame 3 s w hw).trans ?_).trans (ih _ _ _ h)
      exact (Serial_read_frame w).trans (Frame.of_eq rfl rfl rfl rfl)


/-- A counting loop whose body only appends to the output only appends to the
output. -/
theorem forLoop_tx_only (body : Nat → State → State)
    (hb : ∀ x s, ∃ out, body x s = { s with tx := s.tx ++ out }) :
    ∀ (n x : Nat) (s : State), ∃ out, forLoop body n x s = { s with tx := s.tx ++ out } := by
  intro n
  induction n with
  | zero => intro x s; exact ⟨[], by simp [forLoop]⟩
  | succ n ih =>
    intro x s
    obtain ⟨o1, h1⟩ := hb x s
    obtain ⟨o2, h2⟩ := ih (x + 1) (body x s)
    refine ⟨o1 ++ o2, ?_⟩
    rw [forLoop, h2, h1]
    simp

/-- The framed globals after a loop of single-byte writes. -/
theorem forLoop_write_core (g : Nat → State → Nat) (n x : Nat) (s : State) :
    (forLoop (fun i t => Serial_write t (g i t)) n x s).chunkPending = s.chunkPending
    ∧ (forLoop (fun i t => Serial_write t (g i t)) n x s).legacySerial = s.legacySerial
    ∧ (forLoop (fun i t => Serial_write t (g i t)) n x s).currentCommand = s.currentCommand
    ∧ (forLoop (fun i t => Serial_write t (g i t)) n x s).toothLogSendInProgress
        = s.toothLogSendInProgress := by
  obtain ⟨out, h⟩ := forLoop_tx_only (fun i t => Serial_write t (g i t))
    (fun i t => ⟨[g i t % 256], rfl⟩) n x s
  rw [h]
  exact ⟨rfl, rfl, rfl, rfl⟩

theorem Serial_write_core (s : State) (v : Nat) :
    (Serial_write s v).chunkPending = s.chunkPending
    ∧ (Serial_write s v).legacySerial = s.legacySerial
    ∧ (Serial_write s v).currentCommand = s.currentCommand
    ∧ (Serial_write s v).toothLogSendInProgress = s.toothLogSendInProgress :=
  ⟨rfl, rfl, rfl, rfl⟩

theorem Serial_print_core (s : State) (text : String) :
    (Serial_print s text).chunkPending = s.chunkPending
    ∧ (Serial_print s text).legacySerial = s.legacySerial
    ∧ (Serial_print s text).currentCommand = s.currentCommand
    ∧ (Serial_print s text).toothLogSendInProgress = s.toothLogSendInProgress :=
  ⟨rfl, rfl, rfl, rfl⟩

theorem Serial_println_core (s : State) (text : String) :
    (Serial_println s text).chunkPending = s.chunkPending
    ∧ (Serial_println s text).legacySerial = s.legacySerial
    ∧ (Serial_println s text).currentCommand = s.currentCommand
    ∧ (Serial_println s text).toothLogSendInProgress = s.toothLogSendInProgress :=
  ⟨rfl, rfl, rfl, rfl⟩

/-- The framed globals after a loop that prints pairs. -/
theorem forLoop_printPair_core (f g : Nat → State → Nat) (n x : Nat) (s : State) :
    (forLoop (fun i t => printPair (f i t) (g i t) t) n x s).chunkPending = s.chunkPending
    ∧ (forLoop (fun i t => printPair (f i t) (g i t) t) n x s).legacySerial = s.legacySerial
    ∧ (forLoop (fun i t => printPair (f i t) (g i t) t) n x s).currentCommand = s.currentCommand
    ∧ (forLoop (fun i t => printPair (f i t) (g i t) t) n x s).toothLogSendInProgress
        = s.toothLogSendInProgress
    ∧ (forLoop (fun i t => printPair (f i t) (g i t) t) n x s).effects = s.effects := by
  obtain ⟨out, h⟩ := forLoop_tx_only (fun i t => printPair (f i t) (g i t) t)
    (fun i t => ⟨textBytes (Nat.repr (f i t)) ++ (textBytes ", "
        ++ (textBytes (Nat.repr (g i t)) ++ [13, 10])), by
      simp only [printPair, Serial_printlnNum, Serial_println, Serial_print, Serial_printNum,
        List.append_assoc, textBytes]⟩) n x s
  rw [h]
  exact ⟨rfl, rfl, rfl, rfl, rfl⟩

theorem case_a_frame (s : State) : Frame s (case_a s) := by
  unfold case_a
  simp only []
  split_ifs
  · have h0 : Frame s { s with cmdPending := true } := Frame.of_eq rfl rfl rfl rfl
    have h1 := (h0.trans (Serial_read_frame _)).trans
      (Serial_read_frame (Serial_read { s with cmdPending := true }).2)
    have h2 := h1.trans (sendValuesLegacy_frame _)
    refine h2.trans ?_
    generalize sendValuesLegacy (Serial_read (Serial_read { s with cmdPending := true }).2).2 = q
    exact Frame.of_eq rfl rfl rfl rfl
  · exact Frame.of_eq rfl rfl rfl rfl

theorem case_b_frame (s : State) : Frame s (case_b s) := by
  unfold Frame case_b
  simp only []
  split_ifs <;> simp [Serial_read_snd]

theorem case_c_frame (s : State) : Frame s (case_c s) := by
  simp [Frame, case_c, Serial_write_core]

theorem case_d_frame (env : Env) (s : State) : Frame s (case_d env s) := by
  unfold Frame case_d
  simp only []
  split_ifs <;> simp [Serial_read_snd, Serial_write_core]

theorem case_E_frame (env : Env) (s : State) : Frame s (case_E env s) := by
  unfold Frame case_E
  simp only []
  split_ifs <;> simp [Serial_read_snd]

theorem case_G_frame (env : Env) (s : State) : Frame s (case_G env s) := by
  unfold Frame case_G
  simp [forLoop_write_core, Serial_print_core, Serial_write_core]

theorem case_H_frame (env : Env) (s : State) : Frame s (case_H env s) := by
  simp [Frame, case_H, Serial_write_core]

theorem case_J_frame (env : Env) (s : State) : Frame s (case_J env s) := by
  simp [Frame, case_J, Serial_write_core]

theorem case_L_frame (env : Env) (s : State) : Frame s (case_L env s) := by
  unfold Frame case_L
  split_ifs <;> simp

theorem case_m_frame (env : Env) (s : State) : Frame s (case_m env s) := by
  simp [Frame, case_m, Serial_write_core]

theorem case_P_frame (env : Env) (s : State) : Frame s (case_P env s) := by
  unfold Frame case_P
  simp only []
  split_ifs <;> simp [Serial_read_snd]

theorem case_p_frame (env : Env) (s : State) : Frame s (case_p env s) := by
  unfold Frame case_p
  simp only []
  split_ifs <;> simp [Serial_read_snd, forLoop_write_core]

theorem case_S_frame (s : State) : Frame s (case_S s) := by
  simp [Frame, case_S, Serial_print_core]

theorem case_T_frame (env : Env) (s : State) : Frame s (case_T env s) := by
  unfold case_T
  simp only []
  split_ifs
  · refine Frame.trans (Frame.trans ?_ (sendToothLog_legacy_frame env 0 _))
      (Frame.of_eq rfl rfl rfl rfl)
    unfold Frame
    simp [Serial_read_snd]
  · refine Frame.trans (Frame.trans ?_ (sendCompositeLog_legacy_frame env 0 _))
      (Frame.of_eq rfl rfl rfl rfl)
    unfold Frame
    simp [Serial_read_snd]
  · unfold Frame
    simp [Serial_read_snd]
  · exact Frame.of_eq rfl rfl rfl rfl

theorem case_W_frame (s : State) : Frame s (case_W s) := by
  unfold Frame case_W
  simp only []
  split_ifs <;> simp [Serial_read_snd]

theorem case_w_frame (s : State) : Frame s (case_w s) := by
  unfold Frame case_w
  split_ifs <;> simp [Serial_read_snd]

theorem case_Z_frame (env : Env) (s : State) : Frame s (case_Z env s) := by
  unfold Frame case_Z
  split_ifs
  · simp
  · simp [forLoop_printPair_core, Serial_println_core]

theorem case_backquote_frame (s : State) : Frame s (case_backquote s) := by
  unfold Frame case_backquote
  simp only []
  split_ifs <;> simp [Serial_read_snd]

theorem case_help_frame (env : Env) (s : State) : Frame s (case_help env s) := by
  unfold Frame case_help
  split_ifs <;> simp [Serial_println_core]

theorem case_default_frame (s : State) : Frame s (case_default s) := by
  simp [Frame, case_default, Serial_println_core]


theorem case_g_frame (env : Env) (s s1 : State) (h : case_g env s = some s1) : Frame s s1 := by
  unfold case_g at h
  cases hw : Serial_wait 3 s with
  | none => rw [hw] at h; simp at h
  | some w =>
    rw [hw] at h
    simp only at h
    have h0 : Frame s (Serial_read (Serial_read w).2).2 :=
      ((Serial_wait_frame 3 s w hw).trans (Serial_read_frame w)).trans (Serial_read_frame _)
    split_ifs at h
    · simp only [Option.some.injEq] at h
      rw [← h]
      exact h0.trans (Serial_println_frame _ _)
    · cases hl : loadEEPROMLoop (word (toByte (Serial_read (Serial_read w).2).1)
          (toByte (Serial_read w).1)) 0 (Serial_read (Serial_read w).2).2 with
      | none => rw [hl] at h; simp at h
      | some q =>
        rw [hl] at h
        simp only [Option.map_some', Option.some.injEq] at h
        rw [← h]
        exact (h0.trans (loadEEPROMLoop_frame _ _ _ _ hl)).trans (Frame.of_eq rfl rfl rfl rfl)
    · simp only [Option.some.injEq] at h
      rw [← h]
      exact h0.trans (Serial_println_frame _ _)
    · cases hl : loadEEPROMLoop (word (toByte (Serial_read w).1)
          (toByte (Serial_read (Serial_read w).2).1)) 0 (Serial_read (Serial_read w).2).2 with
      | none => rw [hl] at h; simp at h
      | some q =>
        rw [hl] at h
        simp only [Option.map_some', Option.some.injEq] at h
        rw [← h]
        exact (h0.trans (loadEEPROMLoop_frame _ _ _ _ hl)).trans (Frame.of_eq rfl rfl rfl rfl)

theorem case_r_frame (env : Env) (fuel : Nat) (s s1 : State) (h : case_r env fuel s = some s1) :
    Frame s s1 := by
  unfold case_r at h
  simp only [] at h
  by_cases h6 : 6 ≤ Serial_available { s with cmdPending := true }
  · rw [if_pos h6] at h
    obtain ⟨q, hq, hf⟩ : ∃ q, q = (Serial_read (Serial_read (Serial_read (Serial_read
        (Serial_read { (Serial_read { s with cmdPending := true }).2 with
          tsCanId := toByte (Serial_read { s with cmdPending := true }).1 }).2).2).2).2).2
        ∧ Frame s q := by
      refine ⟨_, rfl, ?_⟩
      unfold Frame
      simp [Serial_read_snd]
    simp only [← hq] at h
    split_ifs at h
    · cases hv : sendValues env fuel
          (word (toByte (Serial_read (Serial_read (Serial_read
            { (Serial_read { s with cmdPending := true }).2 with
              tsCanId := toByte (Serial_read { s with cmdPending := true }).1 }).2).2).1)
            (toByte (Serial_read (Serial_read
            { (Serial_read { s with cmdPending := true }).2 with
              tsCanId := toByte (Serial_read { s with cmdPending := true }).1 }).2).1))
          (word (toByte (Serial_read (Serial_read (Serial_read (Serial_read (Serial_read
            { (Serial_read { s with cmdPending := true }).2 with
              tsCanId := toByte (Serial_read { s with cmdPending := true }).1 }).2).2).2).2).1)
            (toByte (Serial_read (Serial_read (Serial_read (Serial_read
            { (Serial_read { s with cmdPending := true }).2 with
              tsCanId := toByte (Serial_read { s with cmdPending := true }).1 }).2).2).2).1))
          (toByte (Serial_read { (Serial_read { s with cmdPending := true }).2 with
              tsCanId := toByte (Serial_read { s with cmdPending := true }).1 }).1) 0 q with
      | none => rw [hv] at h; simp at h
      | some r =>
        rw [hv] at h
        simp only [Option.map_some', Option.some.injEq] at h
        rw [← h]
        exact (hf.trans (sendValues_frame _ _ _ _ _ _ _ _ hv)).trans
          (Frame.of_eq rfl rfl rfl rfl)
    · simp only [Option.some.injEq] at h
      rw [← h]
      exact hf.trans (Frame.of_eq rfl rfl rfl rfl)
  · rw [if_neg h6] at h
    simp only [Option.some.injEq] at h
    rw [← h]
    exact Frame.of_eq rfl rfl rfl rfl

theorem case_t_frame (env : Env) (s s1 : State) (h : case_t env s = some s1) : Frame s s1 := by
  unfold case_t at h
  cases hw : Serial_wait 1 s with
  | none => rw [hw] at h; simp at h
  | some w =>
    rw [hw] at h
    simp only at h
    cases hc : receiveCalibration env (toByte (Serial_read w).1) (Serial_read w).2 with
    | none => rw [hc] at h; simp at h
    | some q =>
      rw [hc] at h
      simp only [Option.map_some', Option.some.injEq] at h
      rw [← h]
      exact (((Serial_wait_frame 1 s w hw).trans (Serial_read_frame w)).trans
        (receiveCalibration_frame _ _ _ _ hc)).trans (writeCalibration_frame q)

theorem case_U_frame (env : Env) (s s1 : State) (h : case_U env s = some s1) : Frame s s1 := by
  unfold case_U at h
  by_cases hr : s.resetControl ≠ env.RESET_CONTROL_DISABLED
  · rw [if_pos hr] at h
    obtain ⟨q, hq, hf⟩ : ∃ q, q = (if env.SMALL_FLASH_MODE = false ∧ s.cmdPending = false then
        Serial_println s "Comms halted. Next byte will reset the Arduino." else s)
        ∧ Frame s q := by
      refine ⟨_, rfl, ?_⟩
      split_ifs
      · exact Serial_println_frame _ _
      · exact Frame.refl s
    simp only [← hq] at h
    cases hw : Serial_wait 1 q with
    | none => rw [hw] at h; simp at h
    | some w =>
      rw [hw] at h
      simp only [Option.map_some', Option.some.injEq] at h
      rw [← h]
      exact (hf.trans (Serial_wait_frame 1 q w hw)).trans (Frame.of_eq rfl rfl rfl rfl)
  · rw [if_neg hr] at h
    split_ifs at h
    · simp only [Option.some.injEq] at h
      rw [← h]
      exact Serial_println_frame _ _
    · simp only [Option.some.injEq] at h
      rw [← h]
      exact Frame.refl s

theorem Frame.of_some {s a s1 : State} (hf : Frame s a) (h : some a = some s1) : Frame s s1 := by
  simp only [Option.some.injEq] at h
  rw [← h]
  exact hf

/-- Every command handler other than `'M'` keeps `chunkPending`, `legacySerial` and
`currentCommand` and does not set `toothLogSendInProgress`. -/
theorem dispatch_frame (env : Env) (fuel : Nat) (s s1 : State) (hM : s.currentCommand ≠ 77)
    (h : dispatch env fuel s = some s1) : Frame s s1 := by
  unfold dispatch at h
  by_cases c : s.currentCommand = 97
  · rw [if_pos c] at h
    exact (case_a_frame s).of_some h
  rw [if_neg c] at h
  clear c
  by_cases c : s.currentCommand = 65
  · rw [if_pos c] at h
    exact sendValues_frame env fuel 0 (env.LOG_ENTRY_SIZE % 65536) 49 0 s s1 h
  rw [if_neg c] at h
  clear c
  by_cases c : s.currentCommand = 66
  · rw [if_pos c] at h
    exact (Frame.of_eq rfl rfl rfl rfl : Frame s (case_B s)).of_some h
  rw [if_neg c] at h
  clear c
  by_cases c : s.currentCommand = 98
  · rw [if_pos c] at h
    exact (case_b_frame s).of_some h
  rw [if_neg c] at h
  clear c
  by_cases c : s.currentCommand = 67
  · rw [if_pos c] at h
    exact (Serial_write_frame s 1 : Frame s (case_C s)).of_some h
  rw [if_neg c] at h
  clear c
  by_cases c : s.currentCommand = 99
  · rw [if_pos c] at h
    exact (case_c_frame s).of_some h
  rw [if_neg c] at h
  clear c
  by_cases c : s.currentCommand = 100
  · rw [if_pos c] at h
    exact (case_d_frame env s).of_some h
  rw [if_neg c] at h
  clear c
  by_cases c : s.currentCommand = 69
  · rw [if_pos c] at h
    exact (case_E_frame env s).of_some h
  rw [if_neg c] at h
  clear c
  by_cases c : s.currentCommand = 70
  · rw [if_pos c] at h
    exact (Serial_print_frame s "001" : Frame s (case_F s)).of_some h
  rw [if_neg c] at h
  clear c
  by_cases c : s.currentCommand = 71
  · rw [if_pos c] at h
    exact (case_G_frame env s).of_some h
  rw [if_neg c] at h
  clear c
  by_cases c : s.currentCommand = 103
  · rw [if_pos c] at h
    exact case_g_frame env s s1 h
  rw [if_neg c] at h
  clear c
  by_cases c : s.currentCommand = 72
  · rw [if_pos c] at h
    exact (case_H_frame env s).of_some h
  rw [if_neg c] at h
  clear c
  by_cases c : s.currentCommand = 104
  · rw [if_pos c] at h
    exact (Frame.of_eq rfl rfl rfl rfl : Frame s (case_h s)).of_some h
  rw [if_neg c] at h
  clear c
  by_cases c : s.currentCommand = 74
  · rw [if_pos c] at h
    exact (case_J_frame env s).of_some h
  rw [if_neg c] at h
  clear c
  by_cases c : s.currentCommand = 106
  · rw [if_pos c] at h
    exact (Frame.of_eq rfl rfl rfl rfl : Frame s (case_j s)).of_some h
  rw [if_neg c] at h
  clear c
  by_cases c : s.currentCommand = 76
  · rw [if_pos c] at h
    exact (case_L_frame env s).of_some h
  rw [if_neg c] at h
  clear c
  by_cases c : s.currentCommand = 109
  · rw [if_pos c] at h
    exact (case_m_frame env s).of_some h
  rw [if_neg c] at h
  clear c
  by_cases c : s.currentCommand = 78
  · rw [if_pos c] at h
    exact (Serial_println_frame s "" : Frame s (case_N s)).of_some h
  rw [if_neg c] at h
  clear c
  by_cases c : s.currentCommand = 80
  · rw [if_pos c] at h
    exact (case_P_frame env s).of_some h
  rw [if_neg c] at h
  clear c
  by_cases c : s.currentCommand = 112
  · rw [if_pos c] at h
    exact (case_p_frame env s).of_some h
  rw [if_neg c] at h
  clear c
  by_cases c : s.currentCommand = 81
  · rw [if_pos c] at h
    exact (Serial_print_frame s "speeduino 202207" : Frame s (case_Q s)).of_some h
  rw [if_neg c] at h
  clear c
  by_cases c : s.currentCommand = 114
  · rw [if_pos c] at h
    exact case_r_frame env fuel s s1 h
  rw [if_neg c] at h
  clear c
  by_cases c : s.currentCommand = 83
  · rw [if_pos c] at h
    exact (case_S_frame s).of_some h
  rw [if_neg c] at h
  clear c
  by_cases c : s.currentCommand = 84
  · rw [if_pos c] at h
    exact (case_T_frame env s).of_some h
  rw [if_neg c] at h
  clear c
  by_cases c : s.currentCommand = 116
  · rw [if_pos c] at h
    exact case_t_frame env s s1 h
  rw [if_neg c] at h
  clear c
  by_cases c : s.currentCommand = 85
  · rw [if_pos c] at h
    exact case_U_frame env s s1 h
  rw [if_neg c] at h
  clear c
  by_cases c : s.currentCommand = 86
  · rw [if_pos c] at h
    exact sendPageLoop_frame env fuel _ s s1 h
  rw [if_neg c] at h
  clear c
  by_cases c : s.currentCommand = 87
  · rw [if_pos c] at h
    exact (case_W_frame s).of_some h
  rw [if_neg c] at h
  clear c
  by_cases c : s.currentCommand = 77
  · rw [if_pos c] at h
    exact absurd c hM
  rw [if_neg c] at h
  clear c
  by_cases c : s.currentCommand = 119
  · rw [if_pos c] at h
    exact (case_w_frame s).of_some h
  rw [if_neg c] at h
  clear c
  by_cases c : s.currentCommand = 90
  · rw [if_pos c] at h
    exact (case_Z_frame env s).of_some h
  rw [if_neg c] at h
  clear c
  by_cases c : s.currentCommand = 122
  · rw [if_pos c] at h
    exact (sendToothLog_legacy_frame env 0 s : Frame s (case_z env s)).of_some h
  rw [if_neg c] at h
  clear c
  by_cases c : s.currentCommand = 96
  · rw [if_pos c] at h
    exact (case_backquote_frame s).of_some h
  rw [if_neg c] at h
  clear c
  by_cases c : s.currentCommand = 63
  · rw [if_pos c] at h
    exact (case_help_frame env s).of_some h
  rw [if_neg c] at h
  clear c
  exact (case_default_frame s).of_some h


/-- The data loop of `case 'M'` changes only the buffer, the effects and
`chunkComplete`. -/
theorem chunkLoop_core : ∀ (n : Nat) (s : State),
    (chunkLoop n s).cmdPending = s.cmdPending
    ∧ (chunkLoop n s).chunkPending = s.chunkPending
    ∧ (chunkLoop n s).currentCommand = s.currentCommand
    ∧ (chunkLoop n s).legacySerial = s.legacySerial
    ∧ (chunkLoop n s).toothLogSendInProgress = s.toothLogSendInProgress := by
  intro n
  induction n with
  | zero => intro s; exact ⟨rfl, rfl, rfl, rfl, rfl⟩
  | succ n ih =>
    intro s
    rw [chunkLoop]
    split_ifs
    · obtain ⟨h1, h2, h3, h4, h5⟩ := ih
        { (Serial_read s).2 with
          effects := (Serial_read s).2.effects ++
            [Effect.setPageValue (Serial_read s).2.currentPage
              (((Serial_read s).2.valueOffset + (Serial_read s).2.chunkComplete) % 65536)
              (toByte (Serial_read s).1)]
          chunkComplete := ((Serial_read s).2.chunkComplete + 1) % 65536 }
      rw [h1, h2, h3, h4, h5]
      simp [Serial_read_snd]
    · exact ⟨rfl, rfl, rfl, rfl, rfl⟩

/-- The handler `case 'M'` keeps the legacy flag, the tooth-log flag and the
command, and leaves a chunk pending only together with the command. -/
theorem case_M_session (s : State) :
    (case_M s).legacySerial = s.legacySerial
    ∧ (case_M s).toothLogSendInProgress = s.toothLogSendInProgress
    ∧ (case_M s).currentCommand = s.currentCommand
    ∧ ((case_M s).chunkPending = true → (case_M s).cmdPending = true) := by
  unfold case_M
  simp only []
  split_ifs <;> simp [chunkLoop_core, Serial_read_snd]

theorem readCommand_session (s : State) :
    (readCommand s).legacySerial = s.legacySerial
    ∧ (readCommand s).toothLogSendInProgress = s.toothLogSendInProgress
    ∧ (readCommand s).chunkPending = s.chunkPending
    ∧ (readCommand s).cmdPending = s.cmdPending
    ∧ (readCommand s).serialInProgress = s.serialInProgress
    ∧ (readCommand s).compositeLogSendInProgress = s.compositeLogSendInProgress
    ∧ (readCommand s).tx = s.tx
    ∧ (s.cmdPending = true → readCommand s = s) := by
  unfold readCommand
  split_ifs with h
  · simp [Serial_read_snd, h.1]
  · simp

/-- One call of `legacySerialCommand` keeps the session facts. -/
theorem SessionInv_call (env : Env) (fuel : Nat) (s s1 : State) (hinv : SessionInv s)
    (h : legacySerialCommand env fuel s = some s1) : SessionInv s1 := by
  obtain ⟨hleg, htooth, hchunk⟩ := hinv
  obtain ⟨r1, r2, r3, r4, -, -, -, r8⟩ := readCommand_session s
  unfold legacySerialCommand at h
  by_cases hM : (readCommand s).currentCommand = 77
  · have hd : dispatch env fuel (readCommand s) = some (case_M (readCommand s)) := by
      simp [dispatch, hM]
    rw [hd] at h
    simp only [Option.some.injEq] at h
    obtain ⟨m1, m2, m3, m4⟩ := case_M_session (readCommand s)
    rw [← h]
    exact ⟨by rw [m1, r1, hleg], by rw [m2, r2, htooth], fun hc => ⟨m4 hc, by rw [m3, hM]⟩⟩
  · have hf := dispatch_frame env fuel _ s1 hM h
    have hnc : s.chunkPending = false := by
      cases hc : s.chunkPending
      · rfl
      · obtain ⟨hp, hcmd⟩ := hchunk hc
        rw [r8 hp] at hM
        exact absurd hcmd hM
    refine ⟨by rw [hf.2.1, r1, hleg], hf.2.2.2 (by rw [r2, htooth]), ?_⟩
    intro hc
    rw [hf.1, r3, hnc] at hc
    exact absurd hc (by simp)

/-- The session facts hold in every reachable state. -/
theorem Reachable.sessionInv {env : Env} {s : State} (h : Reachable env s) : SessionInv s := by
  induction h with
  | start rx afw => exact ⟨rfl, rfl, fun hc => absurd hc (by simp [initialState])⟩
  | call s s1 fuel _ hcall ih => exact SessionInv_call env fuel s s1 ih hcall
  | environment s rx wire afw afwCalls st th clh thi rc _ ih => exact ih


/-- Counterexample to **C6**: from the start state with `'A'` and then the byte
`'x'` (120, no `case`) buffered and the transmit buffer full, the first call
suspends the telemetry stream with `serialInProgress` set; this state is reachable,
the second call handles the unknown byte, and `serialInProgress` is still set
afterwards. -/
theorem C6_counterexample :
    ∃ s s1, Reachable sampleEnv s
      ∧ (readCommand s).currentCommand ∉ handledCommands
      ∧ legacySerialCommand sampleEnv 1 s = some s1
      ∧ s1.serialInProgress = true := by
  have h1 : (legacySerialCommand sampleEnv 1 (initialState [65, 120] (fun _ => 0))).isSome
      = true := by decide
  obtain ⟨sA, hA⟩ := Option.isSome_iff_exists.mp h1
  have h2 : (legacySerialCommand sampleEnv 1 (initialState [65, 120] (fun _ => 0))).bind
      (fun s => (legacySerialCommand sampleEnv 1 s).map
        (fun s1 => ((readCommand s).currentCommand, s1.serialInProgress)))
      = some (120, true) := by decide
  rw [hA, Option.some_bind] at h2
  cases hB : legacySerialCommand sampleEnv 1 sA with
  | none => rw [hB] at h2; simp at h2
  | some sB =>
    rw [hB] at h2
    simp only [Option.map_some', Option.some.injEq, Prod.mk.injEq] at h2
    refine ⟨sA, sB, Reachable.call _ sA 1 (Reachable.start _ _) hA, ?_, hB, h2.2⟩
    rw [h2.1]
    decide

/-- **C6** (amended) An unrecognized command byte in a reachable state: the call
writes the error line and returns with `cmdPending`, `chunkPending` and
`toothLogSendInProgress` false; `serialInProgress` and `compositeLogSendInProgress`
keep the values they had, so a suspended send stays suspended. -/
theorem C6_unknown_command_flags (env : Env) (fuel : Nat) (s : State)
    (hreach : Reachable env s)
    (hunk : (readCommand s).currentCommand ∉ handledCommands) :
    ∃ s1, legacySerialCommand env fuel s = some s1
      ∧ s1.cmdPending = false ∧ s1.chunkPending = false
      ∧ s1.toothLogSendInProgress = false
      ∧ s1.serialInProgress = s.serialInProgress
      ∧ s1.compositeLogSendInProgress = s.compositeLogSendInProgress := by
  have hcall : legacySerialCommand env fuel s = some (case_default (readCommand s)) :=
    dispatch_default env fuel _ hunk
  have hinv := SessionInv_call env fuel s _ hreach.sessionInv hcall
  obtain ⟨-, -, -, -, r5, r6, -, -⟩ := readCommand_session s
  refine ⟨_, hcall, rfl, ?_, hinv.2.1, ?_, ?_⟩
  · cases hc : (case_default (readCommand s)).chunkPending
    · rfl
    · have := (hinv.2.2 hc).1
      simp [case_default] at this
  · show (readCommand s).serialInProgress = _
    rw [r5]
  · show (readCommand s).compositeLogSendInProgress = _
    rw [r6]

/-- The start state with the unknown byte 120 buffered: all five flags are false
after the call, the two send flags because they were false before. -/
theorem C6_unknown_command_flags_witness :
    Reachable sampleEnv (initialState [120] (fun _ => 0))
    ∧ (readCommand (initialState [120] (fun _ => 0))).currentCommand ∉ handledCommands
    ∧ ∃ s1, legacySerialCommand sampleEnv 0 (initialState [120] (fun _ => 0)) = some s1
      ∧ s1.cmdPending = false ∧ s1.chunkPending = false
      ∧ s1.toothLogSendInProgress = false
      ∧ s1.serialInProgress = false
      ∧ s1.compositeLogSendInProgress = false :=
  ⟨Reachable.start _ _, by decide,
    C6_unknown_command_flags sampleEnv 0 (initialState [120] (fun _ => 0))
      (Reachable.start _ _) (by decide)⟩

/-! ## Byte order of the temperature calibration samples -/

theorem fitsInt16_toInt16 (i : Int) : fitsInt16 (toInt16 i) := by
  unfold fitsInt16 toInt16 wrapSigned
  norm_num
  split_ifs <;> omega

/-- The wire bytes of the sample decoded from `b0`, `b1` are `b0`, `b1` again. -/
theorem sampleBytes_decode (b0 b1 : Nat) (h0 : b0 < 256) (h1 : b1 < 256) :
    sampleBytes (toInt16 ((b1 * 256 + b0 : Nat) : Int)) = [b0, b1] := by
  have hu : toU16 (toInt16 ((b1 * 256 + b0 : Nat) : Int)) = b1 * 256 + b0 := by
    unfold toU16 toInt16 wrapSigned
    have e1 : (2 : Int) ^ 16 = 65536 := by norm_num
    have e2 : (2 : Int) ^ (16 - 1) = 32768 := by norm_num
    rw [e1, e2]
    split_ifs <;> omega
  unfold sampleBytes
  rw [hu]
  have a : (b1 * 256 + b0) % 256 = b0 := by omega
  have b : (b1 * 256 + b0) / 256 = b1 := by omega
  rw [a, b]

theorem decodePairs_cons (b0 b1 : Nat) (rest : List Nat) :
    decodePairs (b0 :: b1 :: rest)
      = toInt16 ((b1 * 256 + b0 : Nat) : Int) :: decodePairs rest := by
  rw [decodePairs]

theorem decodePairs_spec (n : Nat) : ∀ (bytes : List Nat), bytes.length = 2 * n →
    (∀ b ∈ bytes, b < 256) →
    ((decodePairs bytes).map sampleBytes).flatten = bytes
      ∧ (decodePairs bytes).length = n
      ∧ ∀ x, x < n → (decodePairs bytes).getD x 0
          = toInt16 ((bytes.getD (2 * x + 1) 0 * 256 + bytes.getD (2 * x) 0 : Nat) : Int) := by
  induction n with
  | zero =>
    intro bytes hlen _
    have : bytes = [] := List.eq_nil_of_length_eq_zero (by omega)
    subst this
    exact ⟨rfl, rfl, fun x hx => absurd hx (by omega)⟩
  | succ n ih =>
    intro bytes hlen hb
    match bytes, hlen, hb with
    | b0 :: b1 :: rest, hlen, hb =>
      have hl : rest.length = 2 * n := by simp at hlen; omega
      obtain ⟨i1, i2, i3⟩ := ih rest hl (fun b hb' => hb b (by simp [hb']))
      refine ⟨?_, ?_, ?_⟩
      · rw [decodePairs_cons, List.map_cons, List.flatten_cons, i1,
          sampleBytes_decode b0 b1 (hb b0 (by simp)) (hb b1 (by simp))]
        rfl
      · rw [decodePairs_cons, List.length_cons, i2]
      · intro x hx
        rw [decodePairs_cons]
        cases x with
        | zero =>
          have h1 : (b0 :: b1 :: rest).getD (2 * 0 + 1) 0 = b1 := rfl
          have h2 : (b0 :: b1 :: rest).getD (2 * 0) 0 = b0 := rfl
          rw [h1, h2, List.getD_cons_zero]
        | succ y =>
          have e1 : 2 * (y + 1) + 1 = (2 * y + 1) + 1 + 1 := by omega
          have e2 : 2 * (y + 1) = (2 * y) + 1 + 1 := by omega
          rw [e1, e2]
          simp only [List.getD_cons_succ]
          exact i3 y (by omega)
    | [], hlen, _ => simp at hlen
    | [_], hlen, _ => exact absurd hlen (by simp; omega)

/-- The temperature tables after `receiveCalibration` in terms of the bytes
received: sample `x` is decoded from bytes `2x` and `2x + 1` with byte `2x + 1` as
its high byte. -/
theorem receiveCalibration_bytes (env : Env) (s : State) (tableID : Nat)
    (bytes rest : List Nat)
    (htable : tableID = 0 ∨ tableID = 1) (hbits : 16 ≤ env.intBits)
    (hoff : -30931 ≤ env.CALIBRATION_TEMPERATURE_OFFSET
      ∧ env.CALIBRATION_TEMPERATURE_OFFSET ≤ 30965)
    (hlen : bytes.length = 64) (hbytes : ∀ b ∈ bytes, b < 256)
    (hin : s.rx ++ s.wire = bytes ++ rest) :
    ∃ s1, receiveCalibration env tableID s = some s1
      ∧ s1.rx ++ s1.wire = rest
      ∧ ∀ x, x < 32 →
          calValues (if tableID = 0 then CalTable.clt else CalTable.iat) s1.calibration x
            = (storedTemperature env.CALIBRATION_TEMPERATURE_OFFSET
                (toInt16 ((bytes.getD (2 * x + 1) 0 * 256 + bytes.getD (2 * x) 0 : Nat) : Int))).toNat := by
  obtain ⟨d1, d2, d3⟩ := decodePairs_spec 32 bytes (by omega) hbytes
  have htarget : calibrationTarget env tableID
      = (if tableID = 0 then CalTable.clt else CalTable.iat,
          env.CALIBRATION_TEMPERATURE_OFFSET, 10) := by
    rcases htable with h | h <;> simp [calibrationTarget, h]
  obtain ⟨s1, h1, h2, h5⟩ :=
    receiveTempLoop_spec env (if tableID = 0 then CalTable.clt else CalTable.iat)
      env.CALIBRATION_TEMPERATURE_OFFSET hbits hoff 32 0 s (decodePairs bytes) rest d2
      (fun v hv => by
        obtain ⟨i, hi, rfl⟩ := List.getElem_of_mem hv
        have := d3 i (by omega)
        rw [List.getD_eq_getElem _ _ hi] at this
        rw [this]
        exact fitsInt16_toInt16 _)
      (by rw [d1]; exact hin) (by omega)
  refine ⟨writeCalibration s1, ?_, h2, ?_⟩
  · have h2' : tableID ≠ 2 := by omega
    simp only [receiveCalibration, htarget, h2', if_false, h1, Option.map_some']
  · intro x hx
    have hk := (h5 x).1
    have hr : 0 ≤ x ∧ x < 0 + 32 := by omega
    rw [if_pos hr, Nat.sub_zero, d3 x hx] at hk
    exact hk

/-- Counterexample to **C11**: the coolant table fed 32 times with the bytes 64, 1.
Read high byte first the sample would be 64 * 256 + 1 = 16385 and the stored value
932; the firmware stores 40, the value of the sample 1 * 256 + 64 = 320. -/
theorem C11_counterexample :
    ∃ s1, receiveCalibration sampleEnv 0
        { initialState [] (fun _ => 1) with wire := (List.replicate 32 [64, 1]).flatten }
          = some s1
      ∧ s1.calibration.cltCalibration_values 0 = 40
      ∧ (storedTemperature sampleEnv.CALIBRATION_TEMPERATURE_OFFSET
          (toInt16 ((64 * 256 + 1 : Nat) : Int))).toNat = 932 := by
  obtain ⟨s1, h1, -, h3⟩ := receiveCalibration_bytes sampleEnv
    { initialState [] (fun _ => 1) with wire := (List.replicate 32 [64, 1]).flatten } 0
    (List.replicate 32 [64, 1]).flatten [] (Or.inl rfl) (by decide) (by decide) (by decide)
    (by decide) (by simp [initialState])
  refine ⟨s1, h1, ?_, by decide⟩
  have := h3 0 (by decide)
  show calValues (if (0 : Nat) = 0 then CalTable.clt else CalTable.iat) s1.calibration 0 = 40
  rw [this]
  decide

/-- **C11** (amended) Temperature sample byte order: each temperature calibration
sample is decoded from its two wire bytes with the low byte first: for bytes `b0`
then `b1` read from the transport the sample is the two's-complement reading of
`b1 * 256 + b0`, and the value stored for sample `x` is the conversion of that
sample. -/
theorem C11_sample_byte_order (env : Env) (s : State) (tableID : Nat)
    (bytes rest : List Nat)
    (htable : tableID = 0 ∨ tableID = 1) (hbits : 16 ≤ env.intBits)
    (hoff : -30931 ≤ env.CALIBRATION_TEMPERATURE_OFFSET
      ∧ env.CALIBRATION_TEMPERATURE_OFFSET ≤ 30965)
    (hlen : bytes.length = 64) (hbytes : ∀ b ∈ bytes, b < 256)
    (hin : s.rx ++ s.wire = bytes ++ rest) :
    ∃ s1, receiveCalibration env tableID s = some s1
      ∧ s1.rx ++ s1.wire = rest
      ∧ ∀ x, x < 32 →
          calValues (if tableID = 0 then CalTable.clt else CalTable.iat) s1.calibration x
            = (storedTemperature env.CALIBRATION_TEMPERATURE_OFFSET
                (toInt16 ((bytes.getD (2 * x + 1) 0 * 256 + bytes.getD (2 * x) 0 : Nat) : Int))).toNat :=
  receiveCalibration_bytes env s tableID bytes rest htable hbits hoff hlen hbytes hin

/-- The intake-air table fed 32 times with the bytes 64, 1: cell 7 holds 40, the
conversion of the sample 1 * 256 + 64 = 320. -/
theorem C11_sample_byte_order_witness :
    ((1 : Nat) = 0 ∨ (1 : Nat) = 1) ∧ 16 ≤ sampleEnv.intBits
    ∧ (List.replicate 32 [64, 1]).flatten.length = 64
    ∧ (∀ b ∈ (List.replicate 32 [64, 1]).flatten, b < 256)
    ∧ ∃ s1, receiveCalibration sampleEnv 1
        { initialState [] (fun _ => 1) with wire := (List.replicate 32 [64, 1]).flatten }
          = some s1
      ∧ s1.calibration.iatCalibration_values 7 = 40 := by
  refine ⟨Or.inr rfl, by decide, by decide, by decide, ?_⟩
  obtain ⟨s1, h1, -, h3⟩ := C11_sample_byte_order sampleEnv
    { initialState [] (fun _ => 1) with wire := (List.replicate 32 [64, 1]).flatten } 1
    (List.replicate 32 [64, 1]).flatten [] (Or.inr rfl) (by decide) (by decide) (by decide)
    (by decide) (by simp [initialState])
  refine ⟨s1, h1, ?_⟩
  have := h3 7 (by decide)
  show calValues (if (1 : Nat) = 0 then CalTable.clt else CalTable.iat) s1.calibration 7 = 40
  rw [this]
  decide

/-! ## Calibration memory and its persisted copy -/

/-- One iteration of the temperature loop when two bytes are due: the rest of the
loop continues from a state whose persisted copy equals the in-memory tables. -/
theorem receiveTempLoop_step (env : Env) (t : CalTable) (OFFSET DIVISION_FACTOR : Int)
    (x : Nat) (s : State) (h : 2 ≤ (s.rx ++ s.wire).length) :
    ∃ s2, (∀ n, receiveTempLoop env t OFFSET DIVISION_FACTOR (n + 1) x s
              = receiveTempLoop env t OFFSET DIVISION_FACTOR n (x + 1) s2)
      ∧ s2.persisted = s2.calibration
      ∧ (s2.rx ++ s2.wire).length + 2 = (s.rx ++ s.wire).length := by
  obtain ⟨w, hw1, hw2, hw3, -⟩ := Serial_wait_some 2 s h
  refine ⟨_, fun n => by rw [receiveTempLoop, hw1], rfl, ?_⟩
  simp only [writeCalibration, Serial_read_snd]
  rw [← hw2]
  simp only [List.length_append, List.length_tail]
  omega

/-- The first `k` iterations of the temperature loop, given `2 * k` bytes: they
return, the whole loop is the remaining iterations run from their result, and the
persisted copy equals the in-memory tables in that result. -/
theorem receiveTempLoop_prefix (env : Env) (t : CalTable) (OFFSET DIVISION_FACTOR : Int)
    (k : Nat) : ∀ (x : Nat) (s : State), 2 * k ≤ (s.rx ++ s.wire).length →
    ∃ sk, receiveTempLoop env t OFFSET DIVISION_FACTOR k x s = some sk
      ∧ (∀ m, receiveTempLoop env t OFFSET DIVISION_FACTOR (k + m) x s
              = receiveTempLoop env t OFFSET DIVISION_FACTOR m (x + k) sk)
      ∧ (0 < k ∨ s.persisted = s.calibration → sk.persisted = sk.calibration)
      ∧ (sk.rx ++ sk.wire).length + 2 * k = (s.rx ++ s.wire).length := by
  induction k with
  | zero =>
    intro x s _
    exact ⟨s, rfl, fun m => by rw [Nat.zero_add, Nat.add_zero],
      fun h => h.resolve_left (by omega), by omega⟩
  | succ k ih =>
    intro x s h
    obtain ⟨s2, e2, p2, l2⟩ := receiveTempLoop_step env t OFFSET DIVISION_FACTOR x s (by omega)
    obtain ⟨sk, e1, e3, p3, l3⟩ := ih (x + 1) s2 (by omega)
    refine ⟨sk, by rw [e2, e1], fun m => ?_, fun _ => p3 (Or.inr p2), by omega⟩
    have a : k + 1 + m = (k + m) + 1 := by omega
    have b : x + (k + 1) = x + 1 + k := by omega
    rw [a, e2, e3, b]

/-- The O2 loop returns when the bytes it reads are due. -/
theorem receiveO2Loop_returns (t : CalTable) (n : Nat) : ∀ (x : Nat) (s : State),
    n ≤ (s.rx ++ s.wire).length → ∃ s1, receiveO2Loop t n x s = some s1 := by
  induction n with
  | zero => intro x s _; exact ⟨s, rfl⟩
  | succ n ih =>
    intro x s h
    obtain ⟨w, hw1, hw2, hw3, -⟩ := Serial_wait_some 1 s (by omega)
    rw [receiveO2Loop, hw1]
    apply ih
    have hl : (w.rx.tail ++ w.wire).length + 1 = (s.rx ++ s.wire).length := by
      rw [← hw2]
      simp only [List.length_append, List.length_tail]
      omega
    by_cases hx : x % 32 = 0
    · simp only [hx, if_true, Serial_read_snd]
      omega
    · simp only [hx, if_false, Serial_read_snd]
      omega

/-- **C12** Calibration memory and persistence stay in lock-step, with
`writeCalibration` copying the in-memory tables to the persisted copy: when the
bytes of the table are due, `receiveCalibration` returns, and whenever it returns
the persisted copy equals the in-memory tables; during temperature ingestion, for
every `k` from 1 to 32, the first `k` iterations of the loop return a state in which
the persisted copy equals the in-memory tables, and the whole loop is the remaining
`32 - k` iterations run from that state. -/
theorem C12_calibration_lockstep (env : Env) (tableID : Nat) (s : State)
    (hin : (if tableID = 2 then 1024 else 64) ≤ (s.rx ++ s.wire).length) :
    (∃ s1, receiveCalibration env tableID s = some s1)
    ∧ (∀ s1, receiveCalibration env tableID s = some s1 → s1.persisted = s1.calibration)
    ∧ (tableID ≠ 2 → ∀ k, 1 ≤ k → k ≤ 32 →
        ∃ sk, receiveTempLoop env (calibrationTarget env tableID).1
                (calibrationTarget env tableID).2.1 (calibrationTarget env tableID).2.2 k 0 s
              = some sk
          ∧ sk.persisted = sk.calibration
          ∧ receiveTempLoop env (calibrationTarget env tableID).1
                (calibrationTarget env tableID).2.1 (calibrationTarget env tableID).2.2 32 0 s
              = receiveTempLoop env (calibrationTarget env tableID).1
                (calibrationTarget env tableID).2.1 (calibrationTarget env tableID).2.2
                (32 - k) k sk) := by
  refine ⟨?_, ?_, ?_⟩
  · by_cases h2 : tableID = 2
    · subst h2
      rw [if_pos rfl] at hin
      obtain ⟨s1, h1⟩ := receiveO2Loop_returns (calibrationTarget env 2).1 1024 0 s hin
      exact ⟨writeCalibration s1, by simp only [receiveCalibration, if_true, h1, Option.map_some']⟩
    · rw [if_neg h2] at hin
      obtain ⟨s1, h1, -⟩ := receiveTempLoop_prefix env (calibrationTarget env tableID).1
        (calibrationTarget env tableID).2.1 (calibrationTarget env tableID).2.2 32 0 s
        (by omega)
      exact ⟨writeCalibration s1, by simp only [receiveCalibration, h2, if_false, h1, Option.map_some']⟩
  · intro s1 h
    unfold receiveCalibration at h
    by_cases h2 : tableID = 2
    · simp only [h2, if_true, Option.map_eq_some'] at h
      obtain ⟨a, -, rfl⟩ := h
      rfl
    · simp only [h2, if_false, Option.map_eq_some'] at h
      obtain ⟨a, -, rfl⟩ := h
      rfl
  · intro h2 k hk1 hk2
    rw [if_neg h2] at hin
    obtain ⟨sk, e1, e3, p3, -⟩ := receiveTempLoop_prefix env (calibrationTarget env tableID).1
      (calibrationTarget env tableID).2.1 (calibrationTarget env tableID).2.2 k 0 s
      (by omega)
    refine ⟨sk, e1, p3 (Or.inl (by omega)), ?_⟩
    have := e3 (32 - k)
    rw [show k + (32 - k) = 32 by omega, Nat.zero_add] at this
    exact this

/-- The coolant table with 64 zero bytes in flight: the call returns, and after the
first sample the persisted copy equals the in-memory tables. -/
theorem C12_calibration_lockstep_witness :
    (if (0 : Nat) = 2 then 1024 else 64)
        ≤ ((initialState [] (fun _ => 1)).rx ++ List.replicate 64 0).length
    ∧ (∃ s1, receiveCalibration sampleEnv 0
          { initialState [] (fun _ => 1) with wire := List.replicate 64 0 } = some s1)
    ∧ ∃ sk, receiveTempLoop sampleEnv (calibrationTarget sampleEnv 0).1
                (calibrationTarget sampleEnv 0).2.1 (calibrationTarget sampleEnv 0).2.2 1 0
                { initialState [] (fun _ => 1) with wire := List.replicate 64 0 }
              = some sk
          ∧ sk.persisted = sk.calibration :=
  ⟨by decide,
   (C12_calibration_lockstep sampleEnv 0
      { initialState [] (fun _ => 1) with wire := List.replicate 64 0 } (by decide)).1,
   let ⟨sk, h1, h2, _⟩ := (C12_calibration_lockstep sampleEnv 0
      { initialState [] (fun _ => 1) with wire := List.replicate 64 0 } (by decide)).2.2
        (by decide) 1 (by decide) (by decide)
   ⟨sk, h1, h2⟩⟩

/-! ## Tooth-log streaming -/

/-- The four bytes of `be32 v` stand for `v` reduced to 32 bits. -/
theorem ofBytesBE_be32 (v : Nat) : ofBytesBE (be32 v) = v % 2 ^ 32 := by
  unfold ofBytesBE be32
  simp only [List.foldl_cons, List.foldl_nil]
  norm_num
  omega

/-- Clearing a bit of a byte: the bit reads as clear afterwards. -/
theorem BIT_CHECK_BIT_CLEAR (var pos : Nat) (hpos : pos < 8) :
    BIT_CHECK (BIT_CLEAR var pos) pos = false := by
  unfold BIT_CHECK BIT_CLEAR
  rw [Nat.testBit_and, Nat.testBit_xor, Nat.one_shiftLeft, Nat.testBit_two_pow]
  have : Nat.testBit 255 pos = true := by
    interval_cases pos <;> decide
  simp [this]

/-- One tooth record appends the four bytes of its timestamp. -/
theorem toothRecord_eq (x : Nat) (s : State) :
    toothRecord x s = { s with tx := s.tx ++ be32 (s.toothHistory x) } := by
  simp [toothRecord, Serial_write, be32]

/-- The streaming loop of the tooth log over `n` records from index `x`. -/
theorem forLoop_toothRecord (n : Nat) : ∀ (x : Nat) (s : State),
    forLoop toothRecord n x s
      = { s with tx := s.tx
            ++ ((List.range n).map (fun i => be32 (s.toothHistory (x + i)))).flatten } := by
  induction n with
  | zero => intro x s; simp [forLoop]
  | succ n ih =>
    intro x s
    rw [forLoop, ih, toothRecord_eq, List.range_succ_eq_map]
    simp only [List.map_cons, List.map_map, List.flatten_cons, Nat.add_zero,
      List.append_assoc]
    congr 4
    apply List.map_congr_left
    intro i _
    simp only [Function.comp]
    rw [show x + 1 + i = x + (i + 1) by omega]

/-- **C17** Tooth-log streaming: with the ready bit set (a bit of the status byte),
`sendToothLog_legacy(0)` appends to the output, for `x = 0 .. TOOTH_LOG_SIZE - 1` in
order, the four bytes of `toothHistory[x]` as a 32-bit value most significant byte
first, `4 * TOOTH_LOG_SIZE` bytes in all; afterwards the ready bit is clear,
`toothHistoryIndex` is 0, `cmdPending` and `toothLogSendInProgress` are false, and
nothing else has changed. -/
theorem C17_tooth_log_stream (env : Env) (s : State)
    (hready : BIT_CHECK s.currentStatus.status1 env.BIT_STATUS1_TOOTHLOG1READY = true)
    (hbit : env.BIT_STATUS1_TOOTHLOG1READY < 8) :
    sendToothLog_legacy env 0 s
        = { s with
            tx := s.tx
              ++ ((List.range env.TOOTH_LOG_SIZE).map (fun x => be32 (s.toothHistory x))).flatten
            currentStatus :=
              { s.currentStatus with
                status1 := BIT_CLEAR s.currentStatus.status1 env.BIT_STATUS1_TOOTHLOG1READY }
            cmdPending := false
            toothLogSendInProgress := false
            toothHistoryIndex := 0 }
    ∧ ((List.range env.TOOTH_LOG_SIZE).map (fun x => be32 (s.toothHistory x))).flatten.length
        = 4 * env.TOOTH_LOG_SIZE
    ∧ (∀ x, (be32 (s.toothHistory x)).length = 4
        ∧ ofBytesBE (be32 (s.toothHistory x)) = s.toothHistory x % 2 ^ 32)
    ∧ BIT_CHECK (sendToothLog_legacy env 0 s).currentStatus.status1
        env.BIT_STATUS1_TOOTHLOG1READY = false
    ∧ (sendToothLog_legacy env 0 s).toothHistoryIndex = 0
    ∧ (sendToothLog_legacy env 0 s).cmdPending = false
    ∧ (sendToothLog_legacy env 0 s).toothLogSendInProgress = false := by
  have h : sendToothLog_legacy env 0 s
        = { s with
            tx := s.tx
              ++ ((List.range env.TOOTH_LOG_SIZE).map (fun x => be32 (s.toothHistory x))).flatten
            currentStatus :=
              { s.currentStatus with
                status1 := BIT_CLEAR s.currentStatus.status1 env.BIT_STATUS1_TOOTHLOG1READY }
            cmdPending := false
            toothLogSendInProgress := false
            toothHistoryIndex := 0 } := by
    simp [sendToothLog_legacy, hready, forLoop_toothRecord]
  refine ⟨h, ?_, fun x => ⟨rfl, ofBytesBE_be32 _⟩, ?_, ?_, ?_, ?_⟩
  · rw [List.length_flatten, List.map_map]
    have : (List.length ∘ fun x => be32 (s.toothHistory x)) = fun _ => 4 := by
      funext x; rfl
    rw [this, List.map_const', List.sum_replicate, List.length_range, smul_eq_mul,
      Nat.mul_comm]
  · rw [h]
    exact BIT_CHECK_BIT_CLEAR _ _ hbit
  · rw [h]
  · rw [h]
  · rw [h]

/-- The sample log of 127 records: 508 bytes are appended, the first two records
are 1, 2, 3, 4 and 1, 2, 3, 5, and the ready bit is clear afterwards. -/
theorem C17_tooth_log_stream_witness :
    BIT_CHECK (loggedState (fun _ => 0)).currentStatus.status1
        sampleEnv.BIT_STATUS1_TOOTHLOG1READY = true
    ∧ sampleEnv.BIT_STATUS1_TOOTHLOG1READY < 8
    ∧ (sendToothLog_legacy sampleEnv 0 (loggedState (fun _ => 0))).tx.length = 508
    ∧ (sendToothLog_legacy sampleEnv 0 (loggedState (fun _ => 0))).tx.take 8
        = [1, 2, 3, 4, 1, 2, 3, 5]
    ∧ BIT_CHECK (sendToothLog_legacy sampleEnv 0 (loggedState (fun _ => 0))).currentStatus.status1
        sampleEnv.BIT_STATUS1_TOOTHLOG1READY = false := by
  have h := C17_tooth_log_stream sampleEnv (loggedState (fun _ => 0)) (by decide) (by decide)
  refine ⟨by decide, by decide, ?_, ?_, h.2.2.2.1⟩
  · rw [h.1]
    show ([] ++ _ : List Nat).length = 508
    rw [List.nil_append, h.2.1]
    rfl
  · rw [h.1]
    rfl

/-! ## Composite-log streaming and its resumption -/

/-- The bytes of a timestamp reduced to 32 bits are the bytes of the timestamp. -/
theorem be32_mod (v : Nat) :
    [v % 2 ^ 32 / 2 ^ 24 % 256, v % 2 ^ 32 / 2 ^ 16 % 256, v % 2 ^ 32 / 2 ^ 8 % 256,
      v % 2 ^ 32 % 256] = be32 v := by
  unfold be32
  have a : v % 2 ^ 32 / 2 ^ 24 % 256 = v / 2 ^ 24 % 256 := by norm_num; omega
  have b : v % 2 ^ 32 / 2 ^ 16 % 256 = v / 2 ^ 16 % 256 := by norm_num; omega
  have c : v % 2 ^ 32 / 2 ^ 8 % 256 = v / 2 ^ 8 % 256 := by norm_num; omega
  have d : v % 2 ^ 32 % 256 = v % 256 := by norm_num
  rw [a, b, c, d]

/-- An iteration of the composite loop that finds the transport full. -/
theorem sendCompositeLoop_full (n x : Nat) (s : State) (h : s.afw s.afwCalls < 4) :
    sendCompositeLoop (n + 1) x s
      = (false, { s with
          afwCalls := s.afwCalls + 1
          inProgressOffset := x % 256
          compositeLogSendInProgress := true }) := by
  rw [sendCompositeLoop]
  have : (Serial_availableForWrite s).1 < 4 := h
  rw [if_pos this]
  rfl

/-- The writes of one composite record. -/
theorem compositeRecord_write (x : Nat) (s : State) :
    Serial_write (Serial_write (Serial_write (Serial_write (Serial_write
        { s with inProgressCompositeTime := s.toothHistory x % 2 ^ 32 }
        (s.toothHistory x % 2 ^ 32 / 2 ^ 24)) (s.toothHistory x % 2 ^ 32 / 2 ^ 16))
        (s.toothHistory x % 2 ^ 32 / 2 ^ 8)) (s.toothHistory x % 2 ^ 32))
        (s.compositeLogHistory x)
      = { s with
          inProgressCompositeTime := s.toothHistory x % 2 ^ 32
          tx := s.tx ++ compositeRecord s x } := by
  simp only [Serial_write, compositeRecord, ← be32_mod (s.toothHistory x), List.append_assoc,
    List.singleton_append, List.cons_append, List.nil_append]

/-- An iteration of the composite loop that finds room: one record is appended. -/
theorem sendCompositeLoop_room (n x : Nat) (s : State) (h : 4 ≤ s.afw s.afwCalls) :
    sendCompositeLoop (n + 1) x s
      = sendCompositeLoop n (x + 1) { s with
          afwCalls := s.afwCalls + 1
          inProgressCompositeTime := s.toothHistory x % 2 ^ 32
          tx := s.tx ++ compositeRecord s x } := by
  rw [sendCompositeLoop]
  have : ¬ (Serial_availableForWrite s).1 < 4 := by
    show ¬ s.afw s.afwCalls < 4
    omega
  rw [if_neg this]
  exact congrArg (sendCompositeLoop n (x + 1))
    (compositeRecord_write x (Serial_availableForWrite s).2)

/-- The composite loop over `n` records from index `x`: it appends the records
`x .. x + w - 1` for some `w ≤ n`, and either ends (`w = n`) or returns early on a
refused capacity check with `inProgressOffset = x + w`. -/
theorem sendCompositeLoop_spec : ∀ (n x : Nat) (s : State), x + n ≤ 256 →
    ∃ w, w ≤ n
      ∧ (sendCompositeLoop n x s).2.tx
          = s.tx ++ ((List.range w).map (fun i => compositeRecord s (x + i))).flatten
      ∧ (sendCompositeLoop n x s).2.toothHistory = s.toothHistory
      ∧ (sendCompositeLoop n x s).2.compositeLogHistory = s.compositeLogHistory
      ∧ (sendCompositeLoop n x s).2.currentStatus = s.currentStatus
      ∧ (sendCompositeLoop n x s).2.afw = s.afw
      ∧ (((sendCompositeLoop n x s).1 = true ∧ w = n)
        ∨ ((sendCompositeLoop n x s).1 = false ∧ w < n
            ∧ (sendCompositeLoop n x s).2.inProgressOffset = x + w
            ∧ (sendCompositeLoop n x s).2.compositeLogSendInProgress = true
            ∧ s.afwCalls < (sendCompositeLoop n x s).2.afwCalls
            ∧ ∃ i, s.afwCalls ≤ i ∧ s.afw i < 4)) := by
  intro n
  induction n with
  | zero =>
    intro x s _
    exact ⟨0, Nat.le_refl 0, by simp [sendCompositeLoop], rfl, rfl, rfl, rfl, Or.inl ⟨rfl, rfl⟩⟩
  | succ n ih =>
    intro x s hx
    by_cases h : s.afw s.afwCalls < 4
    · rw [sendCompositeLoop_full n x s h]
      refine ⟨0, Nat.zero_le _, by simp, rfl, rfl, rfl, rfl, Or.inr ⟨rfl, by omega, ?_, rfl, ?_,
        s.afwCalls, Nat.le_refl _, h⟩⟩
      · show x % 256 = x + 0
        omega
      · show s.afwCalls < s.afwCalls + 1
        omega
    · rw [sendCompositeLoop_room n x s (by omega)]
      obtain ⟨w, hw, h1, h2, h3, h4, h5, h6⟩ := ih (x + 1) { s with
          afwCalls := s.afwCalls + 1
          inProgressCompositeTime := s.toothHistory x % 2 ^ 32
          tx := s.tx ++ compositeRecord s x } (by omega)
      refine ⟨w + 1, by omega, ?_, h2, h3, h4, h5, ?_⟩
      · rw [h1, List.range_succ_eq_map]
        simp only [List.map_cons, List.map_map, List.flatten_cons, Nat.add_zero,
          List.append_assoc]
        congr 3
        apply List.map_congr_left
        intro i _
        simp only [Function.comp, compositeRecord]
        rw [show x + 1 + i = x + (i + 1) by omega]
      · rcases h6 with ⟨a, b⟩ | ⟨a, b, c, d, e, i, f, g⟩
        · exact Or.inl ⟨a, by omega⟩
        · refine Or.inr ⟨a, by omega, by rw [c]; omega, d, ?_, i, ?_, g⟩
          · have : s.afwCalls + 1 < _ := e
            omega
          · have : s.afwCalls + 1 ≤ i := f
            omega

/-- One call `sendCompositeLog_legacy(k)` with the ready bit set: it appends the
records `k .. k1 - 1` and either completes (`k1 = TOOTH_LOG_SIZE`) or suspends at
record `k1` after a refused capacity check. -/
theorem sendCompositeLog_legacy_spec (env : Env) (k : Nat) (s : State)
    (hready : BIT_CHECK s.currentStatus.status1 env.BIT_STATUS1_TOOTHLOG1READY = true)
    (hbit : env.BIT_STATUS1_TOOTHLOG1READY < 8) (hT : env.TOOTH_LOG_SIZE ≤ 255)
    (hk : k ≤ env.TOOTH_LOG_SIZE) :
    ∃ k1, k ≤ k1 ∧ k1 ≤ env.TOOTH_LOG_SIZE
      ∧ (sendCompositeLog_legacy env k s).tx
          = s.tx ++ ((List.range (k1 - k)).map (fun i => compositeRecord s (k + i))).flatten
      ∧ (sendCompositeLog_legacy env k s).toothHistory = s.toothHistory
      ∧ (sendCompositeLog_legacy env k s).compositeLogHistory = s.compositeLogHistory
      ∧ (sendCompositeLog_legacy env k s).afw = s.afw
      ∧ ((k1 = env.TOOTH_LOG_SIZE
            ∧ (sendCompositeLog_legacy env k s).compositeLogSendInProgress = false
            ∧ BIT_CHECK (sendCompositeLog_legacy env k s).currentStatus.status1
                env.BIT_STATUS1_TOOTHLOG1READY = false
            ∧ (sendCompositeLog_legacy env k s).cmdPending = false
            ∧ (sendCompositeLog_legacy env k s).toothHistoryIndex = 0)
        ∨ (k1 < env.TOOTH_LOG_SIZE
            ∧ (sendCompositeLog_legacy env k s).compositeLogSendInProgress = true
            ∧ (sendCompositeLog_legacy env k s).inProgressOffset = k1
            ∧ (sendCompositeLog_legacy env k s).currentStatus = s.currentStatus
            ∧ s.afwCalls < (sendCompositeLog_legacy env k s).afwCalls
            ∧ ∃ i, s.afwCalls ≤ i ∧ s.afw i < 4)) := by
  obtain ⟨q, hq, q1, q2, q3, q4, q5, q6⟩ : ∃ q,
      q = (if k = 0 then { s with inProgressCompositeTime := 0 } else s)
      ∧ q.tx = s.tx ∧ q.toothHistory = s.toothHistory
      ∧ q.compositeLogHistory = s.compositeLogHistory ∧ q.currentStatus = s.currentStatus
      ∧ q.afw = s.afw ∧ q.afwCalls = s.afwCalls := by
    refine ⟨_, rfl, ?_⟩
    by_cases h0 : k = 0
    · rw [if_pos h0]; exact ⟨rfl, rfl, rfl, rfl, rfl, rfl⟩
    · rw [if_neg h0]; exact ⟨rfl, rfl, rfl, rfl, rfl, rfl⟩
  have hrec : ∀ i, compositeRecord q i = compositeRecord s i := by
    intro i
    simp only [compositeRecord, q2, q3]
  obtain ⟨w, hw, h1, h2, h3, h4, h5, h6⟩ :=
    sendCompositeLoop_spec (env.TOOTH_LOG_SIZE - k) k q (by omega)
  simp only [hrec, q1] at h1
  have hdef : sendCompositeLog_legacy env k s
      = (if (sendCompositeLoop (env.TOOTH_LOG_SIZE - k) k q).1 = true then
          { (sendCompositeLoop (env.TOOTH_LOG_SIZE - k) k q).2 with
            currentStatus :=
              { (sendCompositeLoop (env.TOOTH_LOG_SIZE - k) k q).2.currentStatus with
                status1 := BIT_CLEAR
                  (sendCompositeLoop (env.TOOTH_LOG_SIZE - k) k q).2.currentStatus.status1
                  env.BIT_STATUS1_TOOTHLOG1READY }
            toothHistoryIndex := 0
            cmdPending := false
            compositeLogSendInProgress := false
            inProgressCompositeTime := 0 }
         else (sendCompositeLoop (env.TOOTH_LOG_SIZE - k) k q).2) := by
    rw [hq]
    simp only [sendCompositeLog_legacy, hready, if_true]
  rcases h6 with ⟨a, b⟩ | ⟨a, b, c, d, e, i, f, g⟩
  · rw [hdef, if_pos a]
    refine ⟨env.TOOTH_LOG_SIZE, hk, Nat.le_refl _, ?_, h2.trans q2, h3.trans q3, h5.trans q5,
      Or.inl ⟨rfl, rfl, BIT_CHECK_BIT_CLEAR _ _ hbit, rfl, rfl⟩⟩
    rw [b] at h1
    exact h1
  · have a1 : ¬ (sendCompositeLoop (env.TOOTH_LOG_SIZE - k) k q).1 = true := by
      rw [a]; decide
    rw [hdef, if_neg a1]
    refine ⟨k + w, by omega, by omega, ?_, h2.trans q2, h3.trans q3, h5.trans q5,
      Or.inr ⟨by omega, d, c, h4.trans q4, by rw [← q6]; exact e, i, by rw [← q6]; exact f,
        by rw [← q5]; exact g⟩⟩
    rw [show k + w - k = w by omega]
    exact h1

/-- Records `0 .. k - 1` followed by records `k .. k1 - 1`. -/
theorem records_append (f : Nat → List Nat) (k k1 : Nat) (h : k ≤ k1) :
    ((List.range k).map f).flatten ++ ((List.range (k1 - k)).map (fun i => f (k + i))).flatten
      = ((List.range k1).map f).flatten := by
  have e : k1 = k + (k1 - k) := by omega
  conv_rhs => rw [e, List.range_add, List.map_append, List.flatten_append, List.map_map]
  rfl

theorem resumeComposite_done (env : Env) (n : Nat) (s : State)
    (h : s.compositeLogSendInProgress = false) : resumeComposite env n s = s := by
  cases n with
  | zero => rfl
  | succ n => rw [resumeComposite]; simp [h]

/-- The resumed calls of a composite-log send whose records `0 .. k - 1` are out:
after any number of them the output holds the records `0 .. k1 - 1`, and the send
is complete or suspended at record `k1`; it is complete once a call starts after
the last refused capacity check. -/
theorem resumeComposite_spec (env : Env) (hbit : env.BIT_STATUS1_TOOTHLOG1READY < 8)
    (hT : env.TOOTH_LOG_SIZE ≤ 255) (s0 : State) :
    ∀ (n : Nat) (s : State) (k : Nat),
    s.toothHistory = s0.toothHistory → s.compositeLogHistory = s0.compositeLogHistory →
    s.afw = s0.afw →
    s.tx = s0.tx ++ ((List.range k).map (compositeRecord s0)).flatten →
    ((k = env.TOOTH_LOG_SIZE ∧ s.compositeLogSendInProgress = false
        ∧ BIT_CHECK s.currentStatus.status1 env.BIT_STATUS1_TOOTHLOG1READY = false)
      ∨ (k < env.TOOTH_LOG_SIZE ∧ s.compositeLogSendInProgress = true
        ∧ s.inProgressOffset = k
        ∧ BIT_CHECK s.currentStatus.status1 env.BIT_STATUS1_TOOTHLOG1READY = true)) →
    ∃ k1, k1 ≤ env.TOOTH_LOG_SIZE
      ∧ (resumeComposite env n s).tx
          = s0.tx ++ ((List.range k1).map (compositeRecord s0)).flatten
      ∧ ((k1 = env.TOOTH_LOG_SIZE ∧ (resumeComposite env n s).compositeLogSendInProgress = false
          ∧ BIT_CHECK (resumeComposite env n s).currentStatus.status1
              env.BIT_STATUS1_TOOTHLOG1READY = false)
        ∨ (k1 < env.TOOTH_LOG_SIZE ∧ (resumeComposite env n s).compositeLogSendInProgress = true
          ∧ (resumeComposite env n s).inProgressOffset = k1
          ∧ BIT_CHECK (resumeComposite env n s).currentStatus.status1
              env.BIT_STATUS1_TOOTHLOG1READY = true))
      ∧ (∀ N, (∀ i, N ≤ i → 4 ≤ s0.afw i) → N < s.afwCalls + n → 0 < n →
          (resumeComposite env n s).compositeLogSendInProgress = false) := by
  intro n
  induction n with
  | zero =>
    intro s k _ _ _ htx hcase
    refine ⟨k, ?_, htx, hcase, fun N _ _ h => absurd h (by omega)⟩
    rcases hcase with ⟨a, -⟩ | ⟨a, -⟩ <;> omega
  | succ n ih =>
    intro s k hth hch hafw htx hcase
    rcases hcase with ⟨a, b, c⟩ | ⟨a, b, c, d⟩
    · rw [resumeComposite_done env _ s b]
      exact ⟨k, by omega, htx, Or.inl ⟨a, b, c⟩, fun _ _ _ _ => b⟩
    · have hstep : resumeComposite env (n + 1) s
          = resumeComposite env n (sendCompositeLog_legacy env k s) := by
        rw [resumeComposite, if_pos b, c]
      have hrec : ∀ i, compositeRecord s i = compositeRecord s0 i := by
        intro i
        simp only [compositeRecord, hth, hch]
      obtain ⟨k1, g1, g2, g3, g4, g5, g6, g7⟩ :=
        sendCompositeLog_legacy_spec env k s d hbit hT (by omega)
      have htx1 : (sendCompositeLog_legacy env k s).tx
          = s0.tx ++ ((List.range k1).map (compositeRecord s0)).flatten := by
        rw [g3, htx, List.append_assoc]
        simp only [hrec]
        rw [records_append (compositeRecord s0) k k1 g1]
      have hcase1 : (k1 = env.TOOTH_LOG_SIZE
            ∧ (sendCompositeLog_legacy env k s).compositeLogSendInProgress = false
            ∧ BIT_CHECK (sendCompositeLog_legacy env k s).currentStatus.status1
                env.BIT_STATUS1_TOOTHLOG1READY = false)
          ∨ (k1 < env.TOOTH_LOG_SIZE
            ∧ (sendCompositeLog_legacy env k s).compositeLogSendInProgress = true
            ∧ (sendCompositeLog_legacy env k s).inProgressOffset = k1
            ∧ BIT_CHECK (sendCompositeLog_legacy env k s).currentStatus.status1
                env.BIT_STATUS1_TOOTHLOG1READY = true) := by
        rcases g7 with ⟨p1, p2, p3, -⟩ | ⟨p1, p2, p3, p4, -⟩
        · exact Or.inl ⟨p1, p2, p3⟩
        · exact Or.inr ⟨p1, p2, p3, by rw [p4]; exact d⟩
      obtain ⟨k2, r1, r2, r3, r4⟩ := ih (sendCompositeLog_legacy env k s) k1
        (g4.trans hth) (g5.trans hch) (g6.trans hafw) htx1 hcase1
      rw [hstep]
      refine ⟨k2, r1, r2, r3, ?_⟩
      intro N hfree hN _
      rcases g7 with ⟨p1, p2, -⟩ | ⟨p1, p2, p3, p4, p5, i, p6, p7⟩
      · rw [resumeComposite_done env _ _ p2]
        exact p2
      · by_cases hn : 0 < n
        · exact r4 N hfree (by omega) hn
        · have := hfree i (by omega)
          rw [hafw] at p7
          omega

/-- **C16** Composite-log resumption correctness: with the ready bit set (a bit of
the status byte) and `TOOTH_LOG_SIZE ≤ 255`, whatever answers
`Serial.availableForWrite()` gives, after `sendCompositeLog_legacy(0)` and any
number `n` of resumed calls `sendCompositeLog_legacy(inProgressOffset)` the output
has grown by exactly the records `0 .. k - 1` in order, each the four bytes of
`toothHistory[x]` most significant first followed by `compositeLogHistory[x]`.
Either the send is complete (`k = TOOTH_LOG_SIZE`, `compositeLogSendInProgress`
false, ready bit clear) or it is suspended on a record boundary (`k` is the first
unsent record, `inProgressOffset = k`, `compositeLogSendInProgress` true, ready bit
still set). It is complete whenever the capacity checks from the `n`-th on after
the first call's start all succeed. -/
theorem C16_composite_resumption (env : Env) (s : State) (n : Nat)
    (hready : BIT_CHECK s.currentStatus.status1 env.BIT_STATUS1_TOOTHLOG1READY = true)
    (hbit : env.BIT_STATUS1_TOOTHLOG1READY < 8) (hT : env.TOOTH_LOG_SIZE ≤ 255) :
    ∃ k, k ≤ env.TOOTH_LOG_SIZE
      ∧ (resumeComposite env n (sendCompositeLog_legacy env 0 s)).tx
          = s.tx ++ ((List.range k).map (compositeRecord s)).flatten
      ∧ ((k = env.TOOTH_LOG_SIZE
          ∧ (resumeComposite env n (sendCompositeLog_legacy env 0 s)).compositeLogSendInProgress
              = false
          ∧ BIT_CHECK (resumeComposite env n (sendCompositeLog_legacy env 0 s)).currentStatus.status1
              env.BIT_STATUS1_TOOTHLOG1READY = false)
        ∨ (k < env.TOOTH_LOG_SIZE
          ∧ (resumeComposite env n (sendCompositeLog_legacy env 0 s)).compositeLogSendInProgress
              = true
          ∧ (resumeComposite env n (sendCompositeLog_legacy env 0 s)).inProgressOffset = k
          ∧ BIT_CHECK (resumeComposite env n (sendCompositeLog_legacy env 0 s)).currentStatus.status1
              env.BIT_STATUS1_TOOTHLOG1READY = true))
      ∧ ((∀ i, s.afwCalls + n ≤ i → 4 ≤ s.afw i) →
          (resumeComposite env n (sendCompositeLog_legacy env 0 s)).compositeLogSendInProgress
            = false) := by
  obtain ⟨k1, -, g2, g3, g4, g5, g6, g7⟩ :=
    sendCompositeLog_legacy_spec env 0 s hready hbit hT (Nat.zero_le _)
  have htx1 : (sendCompositeLog_legacy env 0 s).tx
      = s.tx ++ ((List.range k1).map (compositeRecord s)).flatten := by
    rw [g3]
    simp only [Nat.sub_zero, Nat.zero_add]
  have hcase1 : (k1 = env.TOOTH_LOG_SIZE
        ∧ (sendCompositeLog_legacy env 0 s).compositeLogSendInProgress = false
        ∧ BIT_CHECK (sendCompositeLog_legacy env 0 s).currentStatus.status1
            env.BIT_STATUS1_TOOTHLOG1READY = false)
      ∨ (k1 < env.TOOTH_LOG_SIZE
        ∧ (sendCompositeLog_legacy env 0 s).compositeLogSendInProgress = true
        ∧ (sendCompositeLog_legacy env 0 s).inProgressOffset = k1
        ∧ BIT_CHECK (sendCompositeLog_legacy env 0 s).currentStatus.status1
            env.BIT_STATUS1_TOOTHLOG1READY = true) := by
    rcases g7 with ⟨p1, p2, p3, -⟩ | ⟨p1, p2, p3, p4, -⟩
    · exact Or.inl ⟨p1, p2, p3⟩
    · exact Or.inr ⟨p1, p2, p3, by rw [p4]; exact hready⟩
  obtain ⟨k2, r1, r2, r3, r4⟩ := resumeComposite_spec env hbit hT s n
    (sendCompositeLog_legacy env 0 s) k1 g4 g5 g6 htx1 hcase1
  refine ⟨k2, r1, r2, r3, ?_⟩
  intro hfree
  rcases g7 with ⟨p1, p2, -⟩ | ⟨p1, p2, p3, p4, p5, i, p6, p7⟩
  · rw [resumeComposite_done env _ _ p2]
    exact p2
  · by_cases hn : 0 < n
    · exact r4 (s.afwCalls + n) hfree (by omega) hn
    · have := hfree i (by omega)
      omega

/-- The sample log of 127 records when the first capacity check is refused and all
later ones succeed: the first call suspends, one resumed call completes the send,
and the output is the 127 records in order. -/
theorem C16_composite_resumption_witness :
    BIT_CHECK (loggedState (fun i => if i = 0 then 0 else 64)).currentStatus.status1
        sampleEnv.BIT_STATUS1_TOOTHLOG1READY = true
    ∧ sampleEnv.BIT_STATUS1_TOOTHLOG1READY < 8 ∧ sampleEnv.TOOTH_LOG_SIZE ≤ 255
    ∧ (sendCompositeLog_legacy sampleEnv 0
        (loggedState (fun i => if i = 0 then 0 else 64))).compositeLogSendInProgress = true
    ∧ (resumeComposite sampleEnv 1 (sendCompositeLog_legacy sampleEnv 0
        (loggedState (fun i => if i = 0 then 0 else 64)))).compositeLogSendInProgress = false
    ∧ (resumeComposite sampleEnv 1 (sendCompositeLog_legacy sampleEnv 0
        (loggedState (fun i => if i = 0 then 0 else 64)))).tx
        = ((List.range 127).map
            (compositeRecord (loggedState (fun i => if i = 0 then 0 else 64)))).flatten := by
  obtain ⟨k, -, h2, h3, h4⟩ := C16_composite_resumption sampleEnv
    (loggedState (fun i => if i = 0 then 0 else 64)) 1 (by decide) (by decide) (by decide)
  have hf := h4 (by
    intro i hi
    have : 1 ≤ i := hi
    have hi0 : i ≠ 0 := by omega
    show 4 ≤ (if i = 0 then 0 else 64)
    rw [if_neg hi0]
    decide)
  refine ⟨by decide, by decide, by decide, by decide, hf, ?_⟩
  rcases h3 with ⟨a, -⟩ | ⟨-, b, -⟩
  · rw [h2, a]
    rfl
  · rw [hf] at b
    exact absurd b (by decide)

/-! ## Packet lengths beyond the byte counter of sendValues -/

/-- The loop of `sendValues` on the primary port with a packet length of 256 or more
and a transport that always has room: the byte counter wraps before it reaches the
length, and no amount of fuel ends the loop. -/
theorem sendValuesLoop_never_ends (env : Env) (offset packetLength : Nat)
    (h : 256 ≤ packetLength) : ∀ (fuel x : Nat) (s : State), x < 256 →
    (∀ n, 1 ≤ s.afw n) → sendValuesLoop env offset packetLength 0 fuel x s = none := by
  intro fuel
  induction fuel with
  | zero => intro x s _ _; rfl
  | succ fuel ih =>
    intro x s hx hafw
    rw [sendValuesLoop]
    have hlt : x < packetLength := by omega
    rw [if_pos hlt]
    simp only [if_true]
    have hr : ¬ (Serial_availableForWrite (Serial_write s
        (env.getTSLogEntry s.currentStatus ((offset + x) % 65536)))).1 < 1 := by
      show ¬ s.afw s.afwCalls < 1
      have := hafw s.afwCalls
      omega
    rw [if_neg hr]
    exact ih _ _ (Nat.mod_lt _ (by decide)) hafw

/-- **C18** (divergence from the stated contract) `sendValues` with a packet length of
256 and a transport that always has room does not terminate: the model returns no
state for any amount of fuel, both for the direct call `sendValues(0, 256, 0x30, 0)`
and for the command `'r'` with the length bytes 0x00, 0x01 that makes this call. -/
theorem C18_long_packet_never_returns (fuel : Nat) :
    sendValues sampleEnv fuel 0 256 48 0 (initialState [] (fun _ => 1)) = none
    ∧ legacySerialCommand sampleEnv fuel
        (initialState [114, 0, 48, 0, 0, 0, 1] (fun _ => 1)) = none := by
  constructor
  · exact sendValuesLoop_never_ends sampleEnv 0 256 (by decide) fuel 0 _ (by decide)
      (fun _ => Nat.le_refl 1)
  · obtain ⟨q, hq, hafw⟩ : ∃ q : State,
        legacySerialCommand sampleEnv fuel (initialState [114, 0, 48, 0, 0, 0, 1] (fun _ => 1))
          = (sendValues sampleEnv fuel 0 256 48 0 q).map (fun t => { t with cmdPending := false })
        ∧ ∀ n, 1 ≤ q.afw n :=
      ⟨_, rfl, fun _ => Nat.le_refl 1⟩
    rw [hq]
    have : sendValues sampleEnv fuel 0 256 48 0 q = none :=
      sendValuesLoop_never_ends sampleEnv 0 256 (by decide) fuel 0 _ (by decide)
        (by
          intro n
          have e : (sendValuesHeader sampleEnv 48 0 q).afw = q.afw := by
            simp only [sendValuesHeader]
            split_ifs <;> rfl
          rw [e]
          exact hafw n)
    rw [this]
    rfl

/-! ## Binary page dump -/

theorem foldl_writeBuf (rows : List (List Nat)) : ∀ (s : State),
    rows.foldl Serial_writeBuf s = { s with tx := s.tx ++ rows.flatten } := by
  induction rows with
  | nil => intro s; simp
  | cons r rows ih =>
    intro s
    rw [List.foldl_cons, ih]
    simp [Serial_writeBuf]

theorem send_table_axis_eq (env : Env) (domain : Nat) (axis : List Int) : ∀ (s : State),
    send_table_axis env domain axis s
      = { s with tx := s.tx ++ axis.map (fun v => env.to_byte domain v % 256) } := by
  unfold send_table_axis
  induction axis with
  | nil => intro s; simp
  | cons v axis ih =>
    intro s
    rw [List.foldl_cons, ih]
    simp [Serial_write]

/-- One entity on the wire. -/
theorem send_entity_eq (env : Env) (e : Entity) (s : State) :
    send_entity env e s = { s with tx := s.tx ++ entityWire env e } := by
  unfold send_entity entityWire
  cases e.type
  · simp [send_raw_entity, Serial_writeBuf]
  · simp [send_table_entity, send_table_values, foldl_writeBuf, send_table_axis_eq]
  · simp
  · simp

/-- The loop of `sendPage` from entity `e` when the `k`-th entity after it is the
first `End`. -/
theorem sendPageLoop_spec (env : Env) : ∀ (k fuel : Nat) (e : Entity) (s : State),
    (∀ en ∈ entitySeq env k e, en.type ≠ EntityType.End) →
    (env.advance^[k] e).type = EntityType.End → k < fuel →
    sendPageLoop env fuel e s
      = some { s with tx := s.tx ++ ((entitySeq env k e).map (entityWire env)).flatten } := by
  intro k
  induction k with
  | zero =>
    intro fuel e s _ hend hfuel
    obtain ⟨f, rfl⟩ : ∃ f, fuel = f + 1 := ⟨fuel - 1, by omega⟩
    have : e.type = EntityType.End := hend
    simp [sendPageLoop, this, entitySeq]
  | succ k ih =>
    intro fuel e s hne hend hfuel
    obtain ⟨f, rfl⟩ : ∃ f, fuel = f + 1 := ⟨fuel - 1, by omega⟩
    have h0 : e.type ≠ EntityType.End := hne e (by simp [entitySeq])
    rw [sendPageLoop, if_neg h0, ih f (env.advance e) _
      (fun en hen => hne en (by simp [entitySeq, hen])) (by simpa using hend) (by omega),
      send_entity_eq]
    simp [entitySeq]

/-- **C19** Binary page dump order: when the entity sequence of the selected page
(`page_begin`, then `advance`) reaches `End` after `k` entities, `sendPage` returns
and appends to the output the wire forms of those `k` entities in sequence order,
the `End` entity excluded: a raw entity is its bytes verbatim, a `NoEntity` nothing,
a table its value rows in row-iterator order unconverted, then every X-axis sample
and then every Y-axis sample, each converted to one byte by the converter of its own
axis's domain. Nothing else changes. -/
theorem C19_page_dump_order (env : Env) (fuel k : Nat) (s : State)
    (hne : ∀ en ∈ entitySeq env k (env.page_begin s.effects s.currentPage),
      en.type ≠ EntityType.End)
    (hend : (env.advance^[k] (env.page_begin s.effects s.currentPage)).type = EntityType.End)
    (hfuel : k < fuel) :
    sendPage env fuel s
        = some { s with tx := s.tx
            ++ ((entitySeq env k (env.page_begin s.effects s.currentPage)).map
                  (entityWire env)).flatten }
    ∧ (∀ e : Entity, e.type = EntityType.Raw → entityWire env e = e.raw)
    ∧ (∀ e : Entity, e.type = EntityType.NoEntity → entityWire env e = [])
    ∧ (∀ e : Entity, e.type = EntityType.Table →
        entityWire env e
          = e.rows.flatten ++ e.xAxis.map (fun v => env.to_byte e.xDomain v % 256)
              ++ e.yAxis.map (fun v => env.to_byte e.yDomain v % 256)) := by
  refine ⟨sendPageLoop_spec env k fuel _ s hne hend hfuel, ?_, ?_, ?_⟩
  · intro e h; simp [entityWire, h]
  · intro e h; simp [entityWire, h]
  · intro e h; simp [entityWire, h]

/-- The sample page: raw bytes 1, 2, 3, then the table rows 10, 11, 12, 13, the X
axis 100, 200 through the converter of domain 0 and the Y axis 50, 60 through the
converter of domain 1 (25, 30); the empty entity adds nothing. -/
theorem C19_page_dump_order_witness :
    (∀ en ∈ entitySeq pagedEnv 3
        (pagedEnv.page_begin (initialState [] (fun _ => 1)).effects
          (initialState [] (fun _ => 1)).currentPage), en.type ≠ EntityType.End)
    ∧ (pagedEnv.advance^[3] (pagedEnv.page_begin (initialState [] (fun _ => 1)).effects
          (initialState [] (fun _ => 1)).currentPage)).type = EntityType.End
    ∧ sendPage pagedEnv 4 (initialState [] (fun _ => 1))
        = some { initialState [] (fun _ => 1) with
            tx := [1, 2, 3, 10, 11, 12, 13, 100, 200, 25, 30] } := by
  have hne : ∀ en ∈ entitySeq pagedEnv 3
        (pagedEnv.page_begin (initialState [] (fun _ => 1)).effects
          (initialState [] (fun _ => 1)).currentPage), en.type ≠ EntityType.End := by
    intro en hen
    simp only [entitySeq, List.mem_cons, List.mem_singleton, List.not_mem_nil, or_false] at hen
    rcases hen with h | h | h <;> rw [h] <;> decide
  refine ⟨hne, rfl, ?_⟩
  rw [(C19_page_dump_order pagedEnv 4 3 (initialState [] (fun _ => 1)) hne rfl (by decide)).1]
  rfl

/-! ## Page range read -/

theorem dispatch_p (env : Env) (fuel : Nat) (s : State) (h : s.currentCommand = 112) :
    dispatch env fuel s = some (case_p env s) := by
  simp [dispatch, h]

/-- The write loop of `case 'p'` over `n` values from index `x`. -/
theorem forLoop_pageValues (env : Env) (page : Nat) (n : Nat) : ∀ (x : Nat) (s : State),
    forLoop (fun i t => Serial_write t
        (env.getPageValue t.effects page ((t.valueOffset + i) % 65536))) n x s
      = { s with tx := s.tx ++ (List.range n).map (fun i =>
            env.getPageValue s.effects page ((s.valueOffset + (x + i)) % 65536) % 256) } := by
  induction n with
  | zero => intro x s; simp [forLoop]
  | succ n ih =>
    intro x s
    rw [forLoop, ih, List.range_succ_eq_map]
    simp only [Serial_write, List.map_cons, List.map_map, Nat.add_zero, List.append_assoc,
      List.singleton_append]
    congr 3
    apply List.map_congr_left
    intro i _
    simp only [Function.comp]
    rw [show x + 1 + i = x + (i + 1) by omega]

/-- What `case 'p'` does when its six argument bytes are buffered; the number of
bytes written is the length field read as an `int`. -/
theorem case_p_spec (env : Env) (s : State) (x0 page offLo offHi lenLo lenHi : Nat)
    (rest : List Nat)
    (hrx : s.rx = x0 :: page :: offLo :: offHi :: lenLo :: lenHi :: rest)
    (hb : page < 256 ∧ offLo < 256 ∧ offHi < 256 ∧ lenLo < 256 ∧ lenHi < 256) :
    case_p env s
      = { s with
          rx := rest
          valueOffset := word offHi offLo
          cmdPending := false
          tx := s.tx ++ (List.range (wrapSigned env.intBits (word lenHi lenLo)).toNat).map
            (fun i => env.getPageValue s.effects page ((word offHi offLo + i) % 65536) % 256) } := by
  obtain ⟨h1, h2, h3, h4, h5⟩ := hb
  simp [case_p, Serial_available, Serial_read, hrx, toByte_natCast, h1, h2, h3, h4, h5,
    forLoop_pageValues]

/-- An `int` wide enough for the value holds it unchanged. -/
theorem wrapSigned_natCast (bits w : Nat) (h : w < 2 ^ (bits - 1)) :
    wrapSigned bits (w : Int) = w := by
  have h1 : (w : Int) < 2 ^ (bits - 1) := by exact_mod_cast h
  have h2 : (2 : Int) ^ (bits - 1) ≤ 2 ^ bits :=
    pow_le_pow_right₀ (by norm_num) (Nat.sub_le _ _)
  have h3 : (w : Int) % 2 ^ bits = w := Int.emod_eq_of_lt (Int.ofNat_nonneg _) (by omega)
  unfold wrapSigned
  rw [h3, if_pos h1]

/-- A 16-bit `int` reads a length of 32768 or more as a negative number. -/
theorem wrapSigned_16_neg (w : Nat) (h1 : 32768 ≤ w) (h2 : w < 65536) :
    (wrapSigned 16 (w : Int)).toNat = 0 := by
  unfold wrapSigned
  norm_num
  split_ifs <;> omega

/-- **C20** (divergence from the stated contract) Page range read: with the six
argument bytes of `'p'` buffered, `legacySerialCommand` consumes exactly those six
bytes, clears `cmdPending` and leaves `currentPage` unchanged. When the length
`lenLo + 256 * lenHi` fits the platform's `int` it writes exactly that many bytes,
the `i`-th being `getPageValue(page, off + i)` with the 16-bit offset wrapping at
65536; with a 16-bit `int` and a length of 32768 or more it writes no byte at all. -/
theorem C20_page_range_read (env : Env) (fuel : Nat) (s : State)
    (x0 page offLo offHi lenLo lenHi : Nat) (rest : List Nat)
    (hcmd : (readCommand s).currentCommand = 112)
    (hrx : (readCommand s).rx = x0 :: page :: offLo :: offHi :: lenLo :: lenHi :: rest)
    (hb : page < 256 ∧ offLo < 256 ∧ offHi < 256 ∧ lenLo < 256 ∧ lenHi < 256) :
    ∃ s1, legacySerialCommand env fuel s = some s1
      ∧ s1.rx = rest ∧ s1.cmdPending = false ∧ s1.currentPage = s.currentPage
      ∧ (lenLo + 256 * lenHi < 2 ^ (env.intBits - 1) →
          s1.tx = s.tx ++ (List.range (lenLo + 256 * lenHi)).map (fun i =>
            env.getPageValue s.effects page ((offLo + 256 * offHi + i) % 65536) % 256))
      ∧ (env.intBits = 16 → 128 ≤ lenHi → s1.tx = s.tx) := by
  have hw : ∀ a b : Nat, a < 256 → b < 256 → word a b = b + 256 * a := by
    intro a b ha hb
    unfold word
    omega
  have hpage : (readCommand s).currentPage = s.currentPage := by
    unfold readCommand
    split_ifs <;> simp [Serial_read_snd]
  have htx : (readCommand s).tx = s.tx := by
    unfold readCommand
    split_ifs <;> simp [Serial_read_snd]
  have heff : (readCommand s).effects = s.effects := by
    unfold readCommand
    split_ifs <;> simp [Serial_read_snd]
  refine ⟨case_p env (readCommand s), ?_, ?_⟩
  · rw [legacySerialCommand, dispatch_p env fuel _ hcmd]
  rw [case_p_spec env (readCommand s) x0 page offLo offHi lenLo lenHi rest hrx hb]
  refine ⟨rfl, rfl, hpage, ?_, ?_⟩
  · intro hfit
    show (readCommand s).tx ++ _ = _
    rw [hw lenHi lenLo hb.2.2.2.2 hb.2.2.2.1, hw offHi offLo hb.2.2.1 hb.2.1,
      wrapSigned_natCast _ _ hfit, Int.toNat_ofNat, htx, heff]
  · intro h16 hhi
    show (readCommand s).tx ++ _ = _
    rw [h16, hw lenHi lenLo hb.2.2.2.2 hb.2.2.2.1,
      wrapSigned_16_neg _ (by omega) (by omega), htx]
    simp

/-- On a platform with a 16-bit `int`, the request for 32768 bytes of page 1
(length bytes 0x00, 0x80) is answered with no byte; a request for 3 bytes from
offset 2 is answered with the three page values. -/
theorem C20_page_range_read_witness :
    (readCommand (initialState [112, 0, 1, 0, 0, 0, 128] (fun _ => 1))).currentCommand = 112
    ∧ (∃ s1, legacySerialCommand sampleEnv 1 (initialState [112, 0, 1, 0, 0, 0, 128] (fun _ => 1))
          = some s1 ∧ s1.rx = [] ∧ s1.cmdPending = false ∧ s1.tx = [])
    ∧ (∃ s1, legacySerialCommand sampleEnv 1 (initialState [112, 0, 1, 2, 0, 3, 0] (fun _ => 1))
          = some s1 ∧ s1.tx = [3, 4, 5]) := by
  refine ⟨rfl, ?_, ?_⟩
  · obtain ⟨s1, h1, h2, h3, -, -, h6⟩ := C20_page_range_read sampleEnv 1
      (initialState [112, 0, 1, 0, 0, 0, 128] (fun _ => 1)) 0 1 0 0 0 128 [] rfl rfl
      (by decide)
    exact ⟨s1, h1, h2, h3, h6 rfl (by decide)⟩
  · obtain ⟨s1, h1, -, -, -, h5, -⟩ := C20_page_range_read sampleEnv 1
      (initialState [112, 0, 1, 2, 0, 3, 0] (fun _ => 1)) 0 1 2 0 3 0 [] rfl rfl
      (by decide)
    exact ⟨s1, h1, h5 (by decide)⟩

/-! ## Progress of a bulk write -/

theorem readCommand_chunk (s : State) :
    (readCommand s).chunkPending = s.chunkPending
    ∧ (readCommand s).chunkComplete = s.chunkComplete
    ∧ (readCommand s).chunkSize = s.chunkSize := by
  unfold readCommand
  split_ifs <;> simp [Serial_read_snd]

theorem dispatch_M (env : Env) (fuel : Nat) (s : State) (h : s.currentCommand = 77) :
    dispatch env fuel s = some (case_M s) := by
  simp [dispatch, h]

theorem SamePage.refl_page (s : State) : SamePage s s := ⟨rfl, rfl⟩

theorem SamePage.trans_page {a b c : State} (h1 : SamePage a b) (h2 : SamePage b c) : SamePage a c :=
  ⟨Eq.trans h2.1 h1.1, Eq.trans h2.2 h1.2⟩

/-- A state that agrees with `s` on the selected page and its classification. -/
theorem SamePage.of_eq_page {s s1 : State} (h1 : s1.currentPage = s.currentPage)
    (h2 : s1.isMap = s.isMap) : SamePage s s1 :=
  ⟨h1, h2⟩

theorem Serial_write_page (s : State) (v : Nat) : SamePage s (Serial_write s v) :=
  SamePage.of_eq_page rfl rfl

theorem Serial_print_page (s : State) (t : String) : SamePage s (Serial_print s t) :=
  SamePage.of_eq_page rfl rfl

theorem Serial_println_page (s : State) (t : String) : SamePage s (Serial_println s t) :=
  SamePage.of_eq_page rfl rfl

theorem Serial_read_page (s : State) : SamePage s (Serial_read s).2 := by
  rw [Serial_read_snd]
  exact SamePage.of_eq_page rfl rfl

theorem Serial_wait_page (k : Nat) (s s1 : State) (h : Serial_wait k s = some s1) :
    SamePage s s1 := by
  unfold Serial_wait at h
  cases hw : waitBytes k s.rx s.wire with
  | none => rw [hw] at h; simp at h
  | some p =>
    rw [hw] at h
    simp only [Option.map_some', Option.some.injEq] at h
    rw [← h]
    exact SamePage.of_eq_page rfl rfl

theorem forLoop_page (body : Nat → State → State) (h : ∀ x s, SamePage s (body x s)) :
    ∀ (n x : Nat) (s : State), SamePage s (forLoop body n x s) := by
  intro n
  induction n with
  | zero => intro x s; exact SamePage.refl_page s
  | succ n ih => intro x s; exact (h x s).trans_page (ih (x + 1) (body x s))

theorem foldl_page {α : Type} (f : State → α → State) (h : ∀ s a, SamePage s (f s a)) :
    ∀ (l : List α) (s : State), SamePage s (l.foldl f s) := by
  intro l
  induction l with
  | nil => intro s; exact SamePage.refl_page s
  | cons a l ih => intro s; exact (h s a).trans_page (ih (f s a))

theorem sendValuesLegacy_page (s : State) : SamePage s (sendValuesLegacy s) := by
  unfold sendValuesLegacy
  have h : ∀ (l : List Nat) (p : State × Int), SamePage p.1 (l.foldl writeCounted p).1 := by
    intro l
    induction l with
    | nil => intro p; exact SamePage.refl_page _
    | cons a l ih =>
      intro p
      exact (Serial_write_page p.1 a).trans_page (ih (writeCounted p a))
  exact (h _ (s, 114)).trans_page (forLoop_page _ (fun _ t => Serial_write_page t 99) _ _ _)

theorem sendValuesHeader_page (env : Env) (cmd portNum : Nat) (s : State) :
    SamePage s (sendValuesHeader env cmd portNum s) := by
  unfold sendValuesHeader
  split_ifs <;> exact SamePage.of_eq_page rfl rfl

theorem sendValuesLoop_page (env : Env) (offset packetLength portNum : Nat) :
    ∀ (fuel x : Nat) (s s1 : State),
    sendValuesLoop env offset packetLength portNum fuel x s = some s1 → SamePage s s1 := by
  intro fuel
  induction fuel with
  | zero => intro x s s1 h; simp [sendValuesLoop] at h
  | succ fuel ih =>
    intro x s s1 h
    rw [sendValuesLoop] at h
    by_cases h1 : x < packetLength
    · rw [if_pos h1] at h
      obtain ⟨sw, hsw, hw⟩ : ∃ sw, sw = (if portNum = 0 then
          Serial_write s (env.getTSLogEntry s.currentStatus ((offset + x) % 65536))
          else if portNum = 3 ∧ env.CANSerial_AVAILABLE = true then
            { s with canTx := s.canTx ++
              [env.getTSLogEntry s.currentStatus ((offset + x) % 65536) % 256] }
          else s) ∧ SamePage s sw := by
        refine ⟨_, rfl, ?_⟩
        split_ifs <;> exact SamePage.of_eq_page rfl rfl
      simp only [← hsw] at h
      by_cases h2 : (Serial_availableForWrite sw).1 < 1
      · rw [if_pos h2] at h
        simp only [Option.some.injEq] at h
        rw [← h]
        exact hw.trans_page (SamePage.of_eq_page rfl rfl)
      · rw [if_neg h2] at h
        have hq : SamePage sw (Serial_availableForWrite sw).2 := SamePage.of_eq_page rfl rfl
        exact (hw.trans_page hq).trans_page (ih _ _ _ h)
    · rw [if_neg h1] at h
      simp only [Option.some.injEq] at h
      rw [← h]
      exact SamePage.of_eq_page rfl rfl

theorem sendValues_page (env : Env) (fuel offset packetLength cmd portNum : Nat)
    (s s1 : State) (h : sendValues env fuel offset packetLength cmd portNum s = some s1) :
    SamePage s s1 :=
  (sendValuesHeader_page env cmd portNum s).trans_page (sendValuesLoop_page env _ _ _ _ _ _ _ h)


theorem send_entity_page (env : Env) (e : Entity) (s : State) : SamePage s (send_entity env e s) := by
  unfold send_entity
  cases e.type
  · exact SamePage.of_eq_page rfl rfl
  · exact ((foldl_page Serial_writeBuf (fun _ _ => SamePage.of_eq_page rfl rfl) _ _).trans_page
      (foldl_page _ (fun t v => Serial_write_page t _) _ _)).trans_page
      (foldl_page _ (fun t v => Serial_write_page t _) _ _)
  · exact SamePage.refl_page s
  · exact SamePage.refl_page s

theorem sendPageLoop_page (env : Env) : ∀ (fuel : Nat) (e : Entity) (s s1 : State),
    sendPageLoop env fuel e s = some s1 → SamePage s s1 := by
  intro fuel
  induction fuel with
  | zero => intro e s s1 h; simp [sendPageLoop] at h
  | succ fuel ih =>
    intro e s s1 h
    rw [sendPageLoop] at h
    by_cases he : e.type = EntityType.End
    · rw [if_pos he] at h
      simp only [Option.some.injEq] at h
      rw [← h]
      exact SamePage.refl_page s
    · rw [if_neg he] at h
      exact (send_entity_page env e s).trans_page (ih _ _ _ h)

theorem toothRecord_page (x : Nat) (s : State) : SamePage s (toothRecord x s) := by
  unfold toothRecord
  exact (((Serial_write_page _ _).trans_page (Serial_write_page _ _)).trans_page
    (Serial_write_page _ _)).trans_page (Serial_write_page _ _)

theorem sendToothLog_legacy_page (env : Env) (startOffset : Nat) (s : State) :
    SamePage s (sendToothLog_legacy env startOffset s) := by
  unfold sendToothLog_legacy
  split_ifs
  · have h := forLoop_page toothRecord toothRecord_page
      (env.TOOTH_LOG_SIZE - startOffset) startOffset s
    exact ⟨h.1, h.2⟩
  · have h := forLoop_page (fun _ t => Serial_write t 0)
      (fun _ t => Serial_write_page t 0) (4 * env.TOOTH_LOG_SIZE) 0 s
    exact ⟨h.1, h.2⟩

theorem sendCompositeLoop_page : ∀ (n x : Nat) (s : State),
    SamePage s (sendCompositeLoop n x s).2 := by
  intro n
  induction n with
  | zero => intro x s; exact SamePage.refl_page s
  | succ n ih =>
    intro x s
    rw [sendCompositeLoop]
    by_cases h : (Serial_availableForWrite s).1 < 4
    · rw [if_pos h]
      exact SamePage.of_eq_page rfl rfl
    · rw [if_neg h]
      refine SamePage.trans_page ?_ (ih _ _)
      have h1 : SamePage s { (Serial_availableForWrite s).2 with
          inProgressCompositeTime := (Serial_availableForWrite s).2.toothHistory x % 2 ^ 32 } :=
        SamePage.of_eq_page rfl rfl
      exact ((((h1.trans_page (Serial_write_page _ _)).trans_page (Serial_write_page _ _)).trans_page
        (Serial_write_page _ _)).trans_page (Serial_write_page _ _)).trans_page (Serial_write_page _ _)

theorem sendCompositeLog_legacy_page (env : Env) (startOffset : Nat) (s : State) :
    SamePage s (sendCompositeLog_legacy env startOffset s) := by
  unfold sendCompositeLog_legacy
  by_cases hr : BIT_CHECK s.currentStatus.status1 env.BIT_STATUS1_TOOTHLOG1READY = true
  · rw [if_pos hr]
    obtain ⟨s0, hs0, h0⟩ : ∃ s0, s0 = (if startOffset = 0 then
        { s with inProgressCompositeTime := 0 } else s) ∧ SamePage s s0 := by
      refine ⟨_, rfl, ?_⟩
      split_ifs
      · exact SamePage.of_eq_page rfl rfl
      · exact SamePage.refl_page s
    simp only [← hs0]
    have h := h0.trans_page (sendCompositeLoop_page (env.TOOTH_LOG_SIZE - startOffset) startOffset s0)
    by_cases hc : (sendCompositeLoop (env.TOOTH_LOG_SIZE - startOffset) startOffset s0).1 = true
    · rw [if_pos hc]
      exact h.trans_page (SamePage.of_eq_page rfl rfl)
    · rw [if_neg hc]
      exact h
  · rw [if_neg hr]
    have h := forLoop_page (fun _ t => Serial_write t 0)
      (fun _ t => Serial_write_page t 0) (5 * env.TOOTH_LOG_SIZE) 0 s
    exact ⟨h.1, h.2⟩

theorem writeCalibration_page (s : State) : SamePage s (writeCalibration s) :=
  SamePage.of_eq_page rfl rfl

theorem receiveO2Loop_page (t : CalTable) : ∀ (n x : Nat) (s s1 : State),
    receiveO2Loop t n x s = some s1 → SamePage s s1 := by
  intro n
  induction n with
  | zero =>
    intro x s s1 h
    simp only [receiveO2Loop, Option.some.injEq] at h
    rw [← h]
    exact SamePage.refl_page s
  | succ n ih =>
    intro x s s1 h
    rw [receiveO2Loop] at h
    cases hw : Serial_wait 1 s with
    | none => rw [hw] at h; simp at h
    | some w =>
      rw [hw] at h
      simp only at h
      refine ((Serial_wait_page 1 s w hw).trans_page ?_).trans_page (ih _ _ _ h)
      split_ifs
      · exact (Serial_read_page w).trans_page (SamePage.of_eq_page rfl rfl)
      · exact Serial_read_page w

theorem receiveTempLoop_page (env : Env) (t : CalTable) (OFFSET DIVISION_FACTOR : Int) :
    ∀ (n x : Nat) (s s1 : State),
    receiveTempLoop env t OFFSET DIVISION_FACTOR n x s = some s1 → SamePage s s1 := by
  intro n
  induction n with
  | zero =>
    intro x s s1 h
    simp only [receiveTempLoop, Option.some.injEq] at h
    rw [← h]
    exact SamePage.refl_page s
  | succ n ih =>
    intro x s s1 h
    rw [receiveTempLoop] at h
    cases hw : Serial_wait 2 s with
    | none => rw [hw] at h; simp at h
    | some w =>
      rw [hw] at h
      simp only at h
      refine ((Serial_wait_page 2 s w hw).trans_page ?_).trans_page (ih _ _ _ h)
      exact ((Serial_read_page w).trans_page (Serial_read_page _)).trans_page
        (SamePage.of_eq_page rfl rfl)

theorem receiveCalibration_page (env : Env) (tableID : Nat) (s s1 : State)
    (h : receiveCalibration env tableID s = some s1) : SamePage s s1 := by
  unfold receiveCalibration at h
  simp only at h
  split_ifs at h
  · cases hl : receiveO2Loop (calibrationTarget env tableID).1 1024 0 s with
    | none => rw [hl] at h; simp at h
    | some w =>
      rw [hl] at h
      simp only [Option.map_some', Option.some.injEq] at h
      rw [← h]
      exact (receiveO2Loop_page _ _ _ _ _ hl).trans_page (writeCalibration_page w)
  · cases hl : receiveTempLoop env (calibrationTarget env tableID).1
        (calibrationTarget env tableID).2.1 (calibrationTarget env tableID).2.2 32 0 s with
    | none => rw [hl] at h; simp at h
    | some w =>
      rw [hl] at h
      simp only [Option.map_some', Option.some.injEq] at h
      rw [← h]
      exact (receiveTempLoop_page _ _ _ _ _ _ _ _ hl).trans_page (writeCalibration_page w)

theorem loadEEPROMLoop_page : ∀ (n x : Nat) (s s1 : State),
    loadEEPROMLoop n x s = some s1 → SamePage s s1 := by
  intro n
  induction n with
  | zero =>
    intro x s s1 h
    simp only [loadEEPROMLoop, Option.some.injEq] at h
    rw [← h]
    exact SamePage.refl_page s
  | succ n ih =>
    intro x s s1 h
    rw [loadEEPROMLoop] at h
    cases hw : Serial_wait 3 s with
    | none => rw [hw] at h; simp at h
    | some w =>
      rw [hw] at h
      simp only at h
      refine ((Serial_wait_page 3 s w hw).trans_page ?_).trans_page (ih _ _ _ h)
      exact (Serial_read_page w).trans_page (SamePage.of_eq_page rfl rfl)


/-- The selected page after a loop of single-byte writes. -/
theorem forLoop_write_pcore (g : Nat → State → Nat) (n x : Nat) (s : State) :
    (forLoop (fun i t => Serial_write t (g i t)) n x s).currentPage = s.currentPage
    ∧ (forLoop (fun i t => Serial_write t (g i t)) n x s).isMap = s.isMap := by
  obtain ⟨out, h⟩ := forLoop_tx_only (fun i t => Serial_write t (g i t))
    (fun i t => ⟨[g i t % 256], rfl⟩) n x s
  rw [h]
  exact ⟨rfl, rfl⟩

theorem Serial_write_pcore (s : State) (v : Nat) :
    (Serial_write s v).currentPage = s.currentPage
    ∧ (Serial_write s v).isMap = s.isMap :=
  ⟨rfl, rfl⟩

theorem Serial_print_pcore (s : State) (text : String) :
    (Serial_print s text).currentPage = s.currentPage
    ∧ (Serial_print s text).isMap = s.isMap :=
  ⟨rfl, rfl⟩

theorem Serial_println_pcore (s : State) (text : String) :
    (Serial_println s text).currentPage = s.currentPage
    ∧ (Serial_println s text).isMap = s.isMap :=
  ⟨rfl, rfl⟩

/-- The selected page after a loop that prints pairs. -/
theorem forLoop_printPair_pcore (f g : Nat → State → Nat) (n x : Nat) (s : State) :
    (forLoop (fun i t => printPair (f i t) (g i t) t) n x s).currentPage = s.currentPage
    ∧ (forLoop (fun i t => printPair (f i t) (g i t) t) n x s).isMap = s.isMap := by
  obtain ⟨out, h⟩ := forLoop_tx_only (fun i t => printPair (f i t) (g i t) t)
    (fun i t => ⟨textBytes (Nat.repr (f i t)) ++ (textBytes ", "
        ++ (textBytes (Nat.repr (g i t)) ++ [13, 10])), by
      simp only [printPair, Serial_printlnNum, Serial_println, Serial_print, Serial_printNum,
        List.append_assoc, textBytes]⟩) n x s
  rw [h]
  exact ⟨rfl, rfl⟩

theorem case_a_page (s : State) : SamePage s (case_a s) := by
  unfold case_a
  simp only []
  split_ifs
  · have h0 : SamePage s { s with cmdPending := true } := SamePage.of_eq_page rfl rfl
    have h1 := (h0.trans_page (Serial_read_page _)).trans_page
      (Serial_read_page (Serial_read { s with cmdPending := true }).2)
    have h2 := h1.trans_page (sendValuesLegacy_page _)
    refine h2.trans_page ?_
    generalize sendValuesLegacy (Serial_read (Serial_read { s with cmdPending := true }).2).2 = q
    exact SamePage.of_eq_page rfl rfl
  · exact SamePage.of_eq_page rfl rfl

theorem case_b_page (s : State) : SamePage s (case_b s) := by
  unfold SamePage case_b
  simp only []
  split_ifs <;> simp [Serial_read_snd]

theorem case_c_page (s : State) : SamePage s (case_c s) := by
  simp [SamePage, case_c, Serial_write_pcore]

theorem case_d_page (env : Env) (s : State) : SamePage s (case_d env s) := by
  unfold SamePage case_d
  simp only []
  split_ifs <;> simp [Serial_read_snd, Serial_write_pcore]

theorem case_E_page (env : Env) (s : State) : SamePage s (case_E env s) := by
  unfold SamePage case_E
  simp only []
  split_ifs <;> simp [Serial_read_snd]

theorem case_G_page (env : Env) (s : State) : SamePage s (case_G env s) := by
  unfold SamePage case_G
  simp [forLoop_write_pcore, Serial_print_pcore, Serial_write_pcore]

theorem case_H_page (env : Env) (s : State) : SamePage s (case_H env s) := by
  simp [SamePage, case_H, Serial_write_pcore]

theorem case_J_page (env : Env) (s : State) : SamePage s (case_J env s) := by
  simp [SamePage, case_J, Serial_write_pcore]

theorem case_L_page (env : Env) (s : State) : SamePage s (case_L env s) := by
  unfold SamePage case_L
  split_ifs <;> simp

theorem case_m_page (env : Env) (s : State) : SamePage s (case_m env s) := by
  simp [SamePage, case_m, Serial_write_pcore]

theorem case_p_page (env : Env) (s : State) : SamePage s (case_p env s) := by
  unfold SamePage case_p
  simp only []
  split_ifs <;> simp [Serial_read_snd, forLoop_write_pcore]

theorem case_S_page (s : State) : SamePage s (case_S s) := by
  simp [SamePage, case_S, Serial_print_pcore]

theorem case_T_page (env : Env) (s : State) : SamePage s (case_T env s) := by
  unfold case_T
  simp only []
  split_ifs
  · refine SamePage.trans_page (SamePage.trans_page ?_ (sendToothLog_legacy_page env 0 _))
      (SamePage.of_eq_page rfl rfl)
    unfold SamePage
    simp [Serial_read_snd]
  · refine SamePage.trans_page (SamePage.trans_page ?_ (sendCompositeLog_legacy_page env 0 _))
      (SamePage.of_eq_page rfl rfl)
    unfold SamePage
    simp [Serial_read_snd]
  · unfold SamePage
    simp [Serial_read_snd]
  · exact SamePage.of_eq_page rfl rfl

theorem case_W_page (s : State) : SamePage s (case_W s) := by
  unfold SamePage case_W
  simp only []
  split_ifs <;> simp [Serial_read_snd]

theorem case_Z_page (env : Env) (s : State) : SamePage s (case_Z env s) := by
  unfold SamePage case_Z
  split_ifs
  · simp
  · simp [forLoop_printPair_pcore, Serial_println_pcore]

theorem case_backquote_page (s : State) : SamePage s (case_backquote s) := by
  unfold SamePage case_backquote
  simp only []
  split_ifs <;> simp [Serial_read_snd]

theorem case_help_page (env : Env) (s : State) : SamePage s (case_help env s) := by
  unfold SamePage case_help
  split_ifs <;> simp [Serial_println_pcore]

theorem case_default_page (s : State) : SamePage s (case_default s) := by
  simp [SamePage, case_default, Serial_println_pcore]


theorem case_g_page (env : Env) (s s1 : State) (h : case_g env s = some s1) : SamePage s s1 := by
  unfold case_g at h
  cases hw : Serial_wait 3 s with
  | none => rw [hw] at h; simp at h
  | some w =>
    rw [hw] at h
    simp only at h
    have h0 : SamePage s (Serial_read (Serial_read w).2).2 :=
      ((Serial_wait_page 3 s w hw).trans_page (Serial_read_page w)).trans_page (Serial_read_page _)
    split_ifs at h
    · simp only [Option.some.injEq] at h
      rw [← h]
      exact h0.trans_page (Serial_println_page _ _)
    · cases hl : loadEEPROMLoop (word (toByte (Serial_read (Serial_read w).2).1)
          (toByte (Serial_read w).1)) 0 (Serial_read (Serial_read w).2).2 with
      | none => rw [hl] at h; simp at h
      | some q =>
        rw [hl] at h
        simp only [Option.map_some', Option.some.injEq] at h
        rw [← h]
        exact (h0.trans_page (loadEEPROMLoop_page _ _ _ _ hl)).trans_page (SamePage.of_eq_page rfl rfl)
    · simp only [Option.some.injEq] at h
      rw [← h]
      exact h0.trans_page (Serial_println_page _ _)
    · cases hl : loadEEPROMLoop (word (toByte (Serial_read w).1)
          (toByte (Serial_read (Serial_read w).2).1)) 0 (Serial_read (Serial_read w).2).2 with
      | none => rw [hl] at h; simp at h
      | some q =>
        rw [hl] at h
        simp only [Option.map_some', Option.some.injEq] at h
        rw [← h]
        exact (h0.trans_page (loadEEPROMLoop_page _ _ _ _ hl)).trans_page (SamePage.of_eq_page rfl rfl)

theorem case_r_page (env : Env) (fuel : Nat) (s s1 : State) (h : case_r env fuel s = some s1) :
    SamePage s s1 := by
  unfold case_r at h
  simp only [] at h
  by_cases h6 : 6 ≤ Serial_available { s with cmdPending := true }
  · rw [if_pos h6] at h
    obtain ⟨q, hq, hf⟩ : ∃ q, q = (Serial_read (Serial_read (Serial_read (Serial_read
        (Serial_read { (Serial_read { s with cmdPending := true }).2 with
          tsCanId := toByte (Serial_read { s with cmdPending := true }).1 }).2).2).2).2).2
        ∧ SamePage s q := by
      refine ⟨_, rfl, ?_⟩
      unfold SamePage
      simp [Serial_read_snd]
    simp only [← hq] at h
    split_ifs at h
    · cases hv : sendValues env fuel
          (word (toByte (Serial_read (Serial_read (Serial_read
            { (Serial_read { s with cmdPending := true }).2 with
              tsCanId := toByte (Serial_read { s with cmdPending := true }).1 }).2).2).1)
            (toByte (Serial_read (Serial_read
            { (Serial_read { s with cmdPending := true }).2 with
              tsCanId := toByte (Serial_read { s with cmdPending := true }).1 }).2).1))
          (word (toByte (Serial_read (Serial_read (Serial_read (Serial_read (Serial_read
            { (Serial_read { s with cmdPending := true }).2 with
              tsCanId := toByte (Serial_read { s with cmdPending := true }).1 }).2).2).2).2).1)
            (toByte (Serial_read (Serial_read (Serial_read (Serial_read
            { (Serial_read { s with cmdPending := true }).2 with
              tsCanId := toByte (Serial_read { s with cmdPending := true }).1 }).2).2).2).1))
          (toByte (Serial_read { (Serial_read { s with cmdPending := true }).2 with
              tsCanId := toByte (Serial_read { s with cmdPending := true }).1 }).1) 0 q with
      | none => rw [hv] at h; simp at h
      | some r =>
        rw [hv] at h
        simp only [Option.map_some', Option.some.injEq] at h
        rw [← h]
        exact (hf.trans_page (sendValues_page _ _ _ _ _ _ _ _ hv)).trans_page
          (SamePage.of_eq_page rfl rfl)
    · simp only [Option.some.injEq] at h
      rw [← h]
      exact hf.trans_page (SamePage.of_eq_page rfl rfl)
  · rw [if_neg h6] at h
    simp only [Option.some.injEq] at h
    rw [← h]
    exact SamePage.of_eq_page rfl rfl

theorem case_t_page (env : Env) (s s1 : State) (h : case_t env s = some s1) : SamePage s s1 := by
  unfold case_t at h
  cases hw : Serial_wait 1 s with
  | none => rw [hw] at h; simp at h
  | some w =>
    rw [hw] at h
    simp only at h
    cases hc : receiveCalibration env (toByte (Serial_read w).1) (Serial_read w).2 with
    | none => rw [hc] at h; simp at h
    | some q =>
      rw [hc] at h
      simp only [Option.map_some', Option.some.injEq] at h
      rw [← h]
      exact (((Serial_wait_page 1 s w hw).trans_page (Serial_read_page w)).trans_page
        (receiveCalibration_page _ _ _ _ hc)).trans_page (writeCalibration_page q)

theorem case_U_page (env : Env) (s s1 : State) (h : case_U env s = some s1) : SamePage s s1 := by
  unfold case_U at h
  by_cases hr : s.resetControl ≠ env.RESET_CONTROL_DISABLED
  · rw [if_pos hr] at h
    obtain ⟨q, hq, hf⟩ : ∃ q, q = (if env.SMALL_FLASH_MODE = false ∧ s.cmdPending = false then
        Serial_println s "Comms halted. Next byte will reset the Arduino." else s)
        ∧ SamePage s q := by
      refine ⟨_, rfl, ?_⟩
      split_ifs
      · exact Serial_println_page _ _
      · exact SamePage.refl_page s
    simp only [← hq] at h
    cases hw : Serial_wait 1 q with
    | none => rw [hw] at h; simp at h
    | some w =>
      rw [hw] at h
      simp only [Option.map_some', Option.some.injEq] at h
      rw [← h]
      exact (hf.trans_page (Serial_wait_page 1 q w hw)).trans_page (SamePage.of_eq_page rfl rfl)
  · rw [if_neg hr] at h
    split_ifs at h
    · simp only [Option.some.injEq] at h
      rw [← h]
      exact Serial_println_page _ _
    · simp only [Option.some.injEq] at h
      rw [← h]
      exact SamePage.refl_page s

theorem SamePage.of_some_page {s a s1 : State} (hf : SamePage s a) (h : some a = some s1) : SamePage s s1 := by
  simp only [Option.some.injEq] at h
  rw [← h]
  exact hf

/-- Every command handler other than `'P'`, `'M'` and `'w'` keeps the selected page
and its classification. -/
theorem dispatch_page (env : Env) (fuel : Nat) (s s1 : State) (hP : s.currentCommand ≠ 80)
    (hM : s.currentCommand ≠ 77) (hw : s.currentCommand ≠ 119)
    (h : dispatch env fuel s = some s1) : SamePage s s1 := by
  unfold dispatch at h
  by_cases c : s.currentCommand = 97
  · rw [if_pos c] at h
    exact (case_a_page s).of_some_page h
  rw [if_neg c] at h
  clear c
  by_cases c : s.currentCommand = 65
  · rw [if_pos c] at h
    exact sendValues_page env fuel 0 (env.LOG_ENTRY_SIZE % 65536) 49 0 s s1 h
  rw [if_neg c] at h
  clear c
  by_cases c : s.currentCommand = 66
  · rw [if_pos c] at h
    exact (SamePage.of_eq_page rfl rfl : SamePage s (case_B s)).of_some_page h
  rw [if_neg c] at h
  clear c
  by_cases c : s.currentCommand = 98
  · rw [if_pos c] at h
    exact (case_b_page s).of_some_page h
  rw [if_neg c] at h
  clear c
  by_cases c : s.currentCommand = 67
  · rw [if_pos c] at h
    exact (Serial_write_page s 1 : SamePage s (case_C s)).of_some_page h
  rw [if_neg c] at h
  clear c
  by_cases c : s.currentCommand = 99
  · rw [if_pos c] at h
    exact (case_c_page s).of_some_page h
  rw [if_neg c] at h
  clear c
  by_cases c : s.currentCommand = 100
  · rw [if_pos c] at h
    exact (case_d_page env s).of_some_page h
  rw [if_neg c] at h
  clear c
  by_cases c : s.currentCommand = 69
  · rw [if_pos c] at h
    exact (case_E_page env s).of_some_page h
  rw [if_neg c] at h
  clear c
  by_cases c : s.currentCommand = 70
  · rw [if_pos c] at h
    exact (Serial_print_page s "001" : SamePage s (case_F s)).of_some_page h
  rw [if_neg c] at h
  clear c
  by_cases c : s.currentCommand = 71
  · rw [if_pos c] at h
    exact (case_G_page env s).of_some_page h
  rw [if_neg c] at h
  clear c
  by_cases c : s.currentCommand = 103
  · rw [if_pos c] at h
    exact case_g_page env s s1 h
  rw [if_neg c] at h
  clear c
  by_cases c : s.currentCommand = 72
  · rw [if_pos c] at h
    exact (case_H_page env s).of_some_page h
  rw [if_neg c] at h
  clear c
  by_cases c : s.currentCommand = 104
  · rw [if_pos c] at h
    exact (SamePage.of_eq_page rfl rfl : SamePage s (case_h s)).of_some_page h
  rw [if_neg c] at h
  clear c
  by_cases c : s.currentCommand = 74
  · rw [if_pos c] at h
    exact (case_J_page env s).of_some_page h
  rw [if_neg c] at h
  clear c
  by_cases c : s.currentCommand = 106
  · rw [if_pos c] at h
    exact (SamePage.of_eq_page rfl rfl : SamePage s (case_j s)).of_some_page h
  rw [if_neg c] at h
  clear c
  by_cases c : s.currentCommand = 76
  · rw [if_pos c] at h
    exact (case_L_page env s).of_some_page h
  rw [if_neg c] at h
  clear c
  by_cases c : s.currentCommand = 109
  · rw [if_pos c] at h
    exact (case_m_page env s).of_some_page h
  rw [if_neg c] at h
  clear c
  by_cases c : s.currentCommand = 78
  · rw [if_pos c] at h
    exact (Serial_println_page s "" : SamePage s (case_N s)).of_some_page h
  rw [if_neg c] at h
  clear c
  by_cases c : s.currentCommand = 80
  · rw [if_pos c] at h
    exact absurd c hP
  rw [if_neg c] at h
  clear c
  by_cases c : s.currentCommand = 112
  · rw [if_pos c] at h
    exact (case_p_page env s).of_some_page h
  rw [if_neg c] at h
  clear c
  by_cases c : s.currentCommand = 81
  · rw [if_pos c] at h
    exact (Serial_print_page s "speeduino 202207" : SamePage s (case_Q s)).of_some_page h
  rw [if_neg c] at h
  clear c
  by_cases c : s.currentCommand = 114
  · rw [if_pos c] at h
    exact case_r_page env fuel s s1 h
  rw [if_neg c] at h
  clear c
  by_cases c : s.currentCommand = 83
  · rw [if_pos c] at h
    exact (case_S_page s).of_some_page h
  rw [if_neg c] at h
  clear c
  by_cases c : s.currentCommand = 84
  · rw [if_pos c] at h
    exact (case_T_page env s).of_some_page h
  rw [if_neg c] at h
  clear c
  by_cases c : s.currentCommand = 116
  · rw [if_pos c] at h
    exact case_t_page env s s1 h
  rw [if_neg c] at h
  clear c
  by_cases c : s.currentCommand = 85
  · rw [if_pos c] at h
    exact case_U_page env s s1 h
  rw [if_neg c] at h
  clear c
  by_cases c : s.currentCommand = 86
  · rw [if_pos c] at h
    exact sendPageLoop_page env fuel _ s s1 h
  rw [if_neg c] at h
  clear c
  by_cases c : s.currentCommand = 87
  · rw [if_pos c] at h
    exact (case_W_page s).of_some_page h
  rw [if_neg c] at h
  clear c
  by_cases c : s.currentCommand = 77
  · rw [if_pos c] at h
    exact absurd c hM
  rw [if_neg c] at h
  clear c
  by_cases c : s.currentCommand = 119
  · rw [if_pos c] at h
    exact absurd c hw
  rw [if_neg c] at h
  clear c
  by_cases c : s.currentCommand = 90
  · rw [if_pos c] at h
    exact (case_Z_page env s).of_some_page h
  rw [if_neg c] at h
  clear c
  by_cases c : s.currentCommand = 122
  · rw [if_pos c] at h
    exact (sendToothLog_legacy_page env 0 s : SamePage s (case_z env s)).of_some_page h
  rw [if_neg c] at h
  clear c
  by_cases c : s.currentCommand = 96
  · rw [if_pos c] at h
    exact (case_backquote_page s).of_some_page h
  rw [if_neg c] at h
  clear c
  by_cases c : s.currentCommand = 63
  · rw [if_pos c] at h
    exact (case_help_page env s).of_some_page h
  rw [if_neg c] at h
  clear c
  exact (case_default_page s).of_some_page h

theorem readCommand_page (s : State) : SamePage s (readCommand s) := by
  unfold readCommand
  split_ifs
  · exact (Serial_read_page s).trans_page (SamePage.of_eq_page rfl rfl)
  · exact SamePage.refl_page s

theorem chunkLoop_isMap : ∀ (n : Nat) (s : State), (chunkLoop n s).isMap = s.isMap := by
  intro n
  induction n with
  | zero => intro s; rfl
  | succ n ih =>
    intro s
    rw [chunkLoop]
    split_ifs
    · rw [ih]
      simp [Serial_read_snd]
    · rfl

/-- The handler `case 'M'` does not touch `isMap`. -/
theorem case_M_isMap (s : State) : (case_M s).isMap = s.isMap := by
  unfold case_M
  simp only []
  split_ifs <;> simp [chunkLoop_isMap, Serial_read_snd]

/-- The handler `case 'w'` does not touch `isMap`. -/
theorem case_w_isMap (s : State) : (case_w s).isMap = s.isMap := by
  unfold case_w
  split_ifs <;> simp [Serial_read_snd]

/-- Counterexample to **C13**: the command `'M'` with the header bytes 0, 4, 0, 0,
1, 0 and one data byte, from the start state (page 1 selected). The command is not
`'P'`, yet the call returns with `currentPage` 4; `isMap` is still true although
page 4 is none of the table pages. -/
theorem C13_counterexample :
    (readCommand (initialState [77, 0, 4, 0, 0, 1, 0, 9] (fun _ => 1))).currentCommand ≠ 80
    ∧ (initialState [77, 0, 4, 0, 0, 1, 0, 9] (fun _ => 1)).currentPage = 1
    ∧ ∃ s1, legacySerialCommand sampleEnv 1 (initialState [77, 0, 4, 0, 0, 1, 0, 9] (fun _ => 1))
          = some s1
        ∧ s1.currentPage = 4 ∧ s1.isMap = true
        ∧ 4 ∉ [sampleEnv.veMapPage, sampleEnv.ignMapPage, sampleEnv.afrMapPage,
            sampleEnv.fuelMap2Page, sampleEnv.ignMap2Page] :=
  ⟨by decide, rfl, _, rfl, rfl, rfl, by decide⟩

/-- **C13** (amended) Selected page and its classification: a call of
`legacySerialCommand` that handles a command other than `'P'` leaves `isMap`
unchanged, and one that handles a command other than `'P'`, `'M'` and `'w'` leaves
`currentPage` unchanged as well. (`'M'` and `'w'` store the page byte of their
header in `currentPage` without classifying it.) -/
theorem C13_page_selection_frame (env : Env) (fuel : Nat) (s s1 : State)
    (hP : (readCommand s).currentCommand ≠ 80)
    (h : legacySerialCommand env fuel s = some s1) :
    s1.isMap = s.isMap
    ∧ ((readCommand s).currentCommand ≠ 77 → (readCommand s).currentCommand ≠ 119 →
        s1.currentPage = s.currentPage) := by
  obtain ⟨r1, r2⟩ := readCommand_page s
  unfold legacySerialCommand at h
  by_cases hM : (readCommand s).currentCommand = 77
  · have hd : dispatch env fuel (readCommand s) = some (case_M (readCommand s)) := by
      simp [dispatch, hM]
    rw [hd] at h
    simp only [Option.some.injEq] at h
    rw [← h]
    exact ⟨by rw [case_M_isMap, r2], fun hn => absurd hM hn⟩
  · by_cases hw : (readCommand s).currentCommand = 119
    · have hd : dispatch env fuel (readCommand s) = some (case_w (readCommand s)) := by
        simp [dispatch, hw]
      rw [hd] at h
      simp only [Option.some.injEq] at h
      rw [← h]
      exact ⟨by rw [case_w_isMap, r2], fun _ hn => absurd hw hn⟩
    · obtain ⟨p1, p2⟩ := dispatch_page env fuel _ s1 hP hM hw h
      exact ⟨by rw [p2, r2], fun _ _ => by rw [p1, r1]⟩

/-- The command `'w'` with the page byte 4 in its header, from the start state:
`isMap` keeps its value; the command `'C'` keeps `currentPage` too. -/
theorem C13_page_selection_frame_witness :
    (readCommand (initialState [119, 0, 4, 0, 0, 1, 0, 9] (fun _ => 1))).currentCommand ≠ 80
    ∧ (∃ s1, legacySerialCommand sampleEnv 1
          (initialState [119, 0, 4, 0, 0, 1, 0, 9] (fun _ => 1)) = some s1
        ∧ s1.isMap = true)
    ∧ (∃ s1, legacySerialCommand sampleEnv 1 (initialState [67] (fun _ => 1)) = some s1
        ∧ s1.isMap = true ∧ s1.currentPage = 1) :=
  ⟨by decide,
   ⟨_, rfl, (C13_page_selection_frame sampleEnv 1
      (initialState [119, 0, 4, 0, 0, 1, 0, 9] (fun _ => 1)) _ (by decide) rfl).1⟩,
   ⟨_, rfl, (C13_page_selection_frame sampleEnv 1 (initialState [67] (fun _ => 1)) _
      (by decide) rfl).1,
    (C13_page_selection_frame sampleEnv 1 (initialState [67] (fun _ => 1)) _
      (by decide) rfl).2 (by decide) (by decide)⟩⟩

/-! ## Single-byte page write -/

theorem dispatch_W (env : Env) (fuel : Nat) (s : State) (h : s.currentCommand = 87) :
    dispatch env fuel s = some (case_W s) := by
  simp [dispatch, h]

/-- What `case 'W'` does on a table page when its three argument bytes are
buffered. -/
theorem case_W_map (s : State) (offLo offHi v : Nat) (rest : List Nat)
    (hmap : s.isMap = true) (hrx : s.rx = offLo :: offHi :: v :: rest)
    (hb : offLo < 256 ∧ offHi < 256 ∧ v < 256) :
    case_W s
      = { s with
          rx := rest
          valueOffset := offLo + 256 * offHi
          effects := s.effects ++ [Effect.setPageValue s.currentPage (offLo + 256 * offHi) v]
          cmdPending := false } := by
  obtain ⟨h1, h2, h3⟩ := hb
  have hw : word offHi offLo = offLo + 256 * offHi := by unfold word; omega
  have hm : (offLo + 256 * offHi) % 65536 = offLo + 256 * offHi := by omega
  simp [case_W, hmap, Serial_available, Serial_read, hrx, toByte_natCast, h1, h2, h3, hw, hm]

/-- What `case 'W'` does on a raw page when its two argument bytes are buffered. -/
theorem case_W_raw (s : State) (off v : Nat) (rest : List Nat)
    (hmap : s.isMap = false) (hrx : s.rx = off :: v :: rest)
    (hb : off < 256 ∧ v < 256) :
    case_W s
      = { s with
          rx := rest
          valueOffset := off
          effects := s.effects ++ [Effect.setPageValue s.currentPage off v]
          cmdPending := false } := by
  obtain ⟨h1, h2⟩ := hb
  have hm : off % 65536 = off := by omega
  simp [case_W, hmap, Serial_available, Serial_read, hrx, toByte_natCast, h1, h2, hm]

/-- What `readCommand` leaves alone. -/
theorem readCommand_keeps (s : State) :
    (readCommand s).tx = s.tx ∧ (readCommand s).effects = s.effects
    ∧ (readCommand s).currentPage = s.currentPage ∧ (readCommand s).isMap = s.isMap
    ∧ (readCommand s).wire = s.wire ∧ (readCommand s).calibration = s.calibration
    ∧ (readCommand s).currentStatus = s.currentStatus := by
  unfold readCommand
  split_ifs <;> simp [Serial_read_snd]

/-- **C21** Single-byte page write: when `legacySerialCommand` handles `'W'` (code
87) on a table page (`isMap` true) with the three argument bytes `offLo`, `offHi`,
`value` buffered, it consumes exactly those three bytes and performs the single
write `setPageValue(currentPage, offLo + 256 * offHi, value)`; on a raw page
(`isMap` false) with the two bytes `offset`, `value` buffered it consumes exactly
those two and performs `setPageValue(currentPage, offset, value)`. In both cases
nothing is written to the transport, `currentPage` and `isMap` are unchanged and
`cmdPending` is false afterwards. -/
theorem C21_single_byte_write (env : Env) (fuel : Nat) (s : State) (b0 b1 b2 : Nat)
    (rest : List Nat) (hcmd : (readCommand s).currentCommand = 87)
    (hb : b0 < 256 ∧ b1 < 256 ∧ b2 < 256) :
    ∃ s1, legacySerialCommand env fuel s = some s1
      ∧ (s.isMap = true → (readCommand s).rx = b0 :: b1 :: b2 :: rest →
          s1.rx = rest
          ∧ s1.effects = s.effects ++ [Effect.setPageValue s.currentPage (b0 + 256 * b1) b2]
          ∧ s1.tx = s.tx ∧ s1.currentPage = s.currentPage ∧ s1.isMap = s.isMap
          ∧ s1.cmdPending = false)
      ∧ (s.isMap = false → (readCommand s).rx = b0 :: b1 :: rest →
          s1.rx = rest
          ∧ s1.effects = s.effects ++ [Effect.setPageValue s.currentPage b0 b1]
          ∧ s1.tx = s.tx ∧ s1.currentPage = s.currentPage ∧ s1.isMap = s.isMap
          ∧ s1.cmdPending = false) := by
  obtain ⟨k1, k2, k3, k4, -⟩ := readCommand_keeps s
  refine ⟨case_W (readCommand s), ?_, ?_, ?_⟩
  · rw [legacySerialCommand, dispatch_W env fuel _ hcmd]
  · intro hmap hrx
    rw [case_W_map (readCommand s) b0 b1 b2 rest (by rw [k4, hmap]) hrx hb]
    exact ⟨rfl, by rw [← k2, ← k3], k1, k3, k4, rfl⟩
  · intro hmap hrx
    rw [case_W_raw (readCommand s) b0 b1 rest (by rw [k4, hmap]) hrx ⟨hb.1, hb.2.1⟩]
    exact ⟨rfl, by rw [← k2, ← k3], k1, k3, k4, rfl⟩

/-- From the start state (`isMap` true, page 1): `'W'` with the bytes 0x34, 0x01,
0x07 writes 7 at offset 308 of page 1. -/
theorem C21_single_byte_write_witness :
    (readCommand (initialState [87, 52, 1, 7] (fun _ => 1))).currentCommand = 87
    ∧ ∃ s1, legacySerialCommand sampleEnv 1 (initialState [87, 52, 1, 7] (fun _ => 1)) = some s1
      ∧ s1.rx = [] ∧ s1.effects = [Effect.setPageValue 1 308 7] ∧ s1.tx = []
      ∧ s1.cmdPending = false := by
  obtain ⟨s1, h1, h2, -⟩ := C21_single_byte_write sampleEnv 1
    (initialState [87, 52, 1, 7] (fun _ => 1)) 52 1 7 [] rfl (by decide)
  obtain ⟨a, b, c, -, -, f⟩ := h2 rfl rfl
  exact ⟨rfl, s1, h1, a, b, c, f⟩

/-! ## Size check of the raw-store load -/

theorem dispatch_g (env : Env) (fuel : Nat) (s : State) (h : s.currentCommand = 103) :
    dispatch env fuel s = case_g env s := by
  simp [dispatch, h]

/-- The size that `case 'g'` decodes from the two bytes it reads, `b0` first. -/
theorem case_g_reject (env : Env) (s : State) (b0 b1 b2 : Nat) (rest : List Nat)
    (hin : s.rx ++ s.wire = b0 :: b1 :: b2 :: rest) (hb : b0 < 256 ∧ b1 < 256)
    (hsize : (if env.argsRightToLeft then word b1 b0 else word b0 b1) ≠ env.getEEPROMSize) :
    ∃ s1, case_g env s = some s1
      ∧ s1.rx ++ s1.wire = b2 :: rest
      ∧ s1.tx = s.tx ++ textBytes "ERR; Incorrect EEPROM size" ++ [13, 10]
      ∧ s1.effects = s.effects ∧ s1.cmdPending = s.cmdPending := by
  obtain ⟨w, hw1, hw2, hw3, hw4⟩ := Serial_wait_some 3 s (by rw [hin]; simp)
  obtain ⟨r, hr⟩ : ∃ r, w.rx = b0 :: b1 :: r := by
    cases hwr : w.rx with
    | nil => rw [hwr] at hw3; simp at hw3
    | cons a l =>
      cases l with
      | nil => rw [hwr] at hw3; simp at hw3
      | cons a1 r =>
        rw [hwr, hin] at hw2
        simp at hw2
        exact ⟨r, by rw [hw2.1, hw2.2.1]⟩
  have hrest : r ++ w.wire = b2 :: rest := by
    rw [hr, hin] at hw2
    simpa using hw2
  have hread0 : Serial_read w = ((b0 : Int), { w with rx := b1 :: r }) :=
    Serial_read_cons w _ _ hr
  have hread1 : Serial_read { w with rx := b1 :: r } = ((b1 : Int), { w with rx := r }) := by
    simp [Serial_read]
  refine ⟨Serial_println { w with rx := r } "ERR; Incorrect EEPROM size", ?_, hrest, ?_, ?_, ?_⟩
  · rw [case_g, hw1]
    simp only [hread0, hread1, toByte_natCast _ hb.1, toByte_natCast _ hb.2]
    rw [if_pos hsize]
  · rw [hw4]; rfl
  · rw [hw4]; rfl
  · rw [hw4]; rfl

/-! ## Idempotence of page selection -/

theorem dispatch_V (env : Env) (fuel : Nat) (s : State) (h : s.currentCommand = 86) :
    dispatch env fuel s = case_V env fuel s := by
  simp [dispatch, h]

/-- The output of the loop of `sendPage` does not depend on the state it starts
from. -/
theorem sendPageLoop_out (env : Env) : ∀ (fuel : Nat) (e : Entity) (s s1 : State),
    sendPageLoop env fuel e s = some s1 →
    ∃ out, ∀ t : State, sendPageLoop env fuel e t = some { t with tx := t.tx ++ out } := by
  intro fuel
  induction fuel with
  | zero => intro e s s1 h; simp [sendPageLoop] at h
  | succ fuel ih =>
    intro e s s1 h
    rw [sendPageLoop] at h
    by_cases he : e.type = EntityType.End
    · refine ⟨[], fun t => ?_⟩
      rw [sendPageLoop, if_pos he]
      simp
    · rw [if_neg he] at h
      obtain ⟨out, hout⟩ := ih _ _ _ h
      refine ⟨entityWire env e ++ out, fun t => ?_⟩
      rw [sendPageLoop, if_neg he, hout, send_entity_eq]
      simp

/-- One call that handles `'P'` with its argument byte, from an idle state with an
empty buffer: the result is the state with the page selected, whatever page was
selected before. -/
theorem select_page_step (env : Env) (fuel : Nat) (b : Nat) (hb : b < 256) :
    ∃ (page : Nat) (map : Bool), ∀ t : State,
      t.cmdPending = false → t.legacySerial = false → t.rx = [] →
      legacySerialCommand env fuel (receive [80, b] t)
        = some { t with
            rx := []
            currentCommand := 80
            currentPage := page
            isMap := map
            cmdPending := false } := by
  refine ⟨if 48 ≤ b ∧ b ≤ 57 then (b - 48) % 256
      else if 97 ≤ b ∧ b ≤ 102 then (b - 87) % 256
      else if 65 ≤ b ∧ b ≤ 70 then (b - 55) % 256
      else b, ?_⟩
  refine ⟨decide ((if 48 ≤ b ∧ b ≤ 57 then (b - 48) % 256
      else if 97 ≤ b ∧ b ≤ 102 then (b - 87) % 256
      else if 65 ≤ b ∧ b ≤ 70 then (b - 55) % 256
      else b) = env.veMapPage ∨ (if 48 ≤ b ∧ b ≤ 57 then (b - 48) % 256
      else if 97 ≤ b ∧ b ≤ 102 then (b - 87) % 256
      else if 65 ≤ b ∧ b ≤ 70 then (b - 55) % 256
      else b) = env.ignMapPage ∨ (if 48 ≤ b ∧ b ≤ 57 then (b - 48) % 256
      else if 97 ≤ b ∧ b ≤ 102 then (b - 87) % 256
      else if 65 ≤ b ∧ b ≤ 70 then (b - 55) % 256
      else b) = env.afrMapPage ∨ (if 48 ≤ b ∧ b ≤ 57 then (b - 48) % 256
      else if 97 ≤ b ∧ b ≤ 102 then (b - 87) % 256
      else if 65 ≤ b ∧ b ≤ 70 then (b - 55) % 256
      else b) = env.fuelMap2Page ∨ (if 48 ≤ b ∧ b ≤ 57 then (b - 48) % 256
      else if 97 ≤ b ∧ b ≤ 102 then (b - 87) % 256
      else if 65 ≤ b ∧ b ≤ 70 then (b - 55) % 256
      else b) = env.ignMap2Page), fun t h1 h2 h3 => ?_⟩
  have hcmd : (readCommand (receive [80, b] t)).currentCommand = 80 := by
    simp [readCommand, receive, h1, h2, h3, Serial_read, toByte]
  have hrx : (readCommand (receive [80, b] t)).rx = [b] := by
    simp [readCommand, receive, h1, h2, h3, Serial_read]
  have hst : readCommand (receive [80, b] t) = { t with rx := [b], currentCommand := 80 } := by
    simp [readCommand, receive, h1, h2, h3, Serial_read, toByte]
  rw [legacySerialCommand, dispatch_P env fuel _ hcmd, hst]
  have h0 : (0 : Nat) < Serial_available { t with rx := [b], currentCommand := 80, cmdPending := true } := by
    simp [Serial_available]
  have hr : Serial_read { t with rx := [b], currentCommand := 80, cmdPending := true }
      = ((b : Int), { t with rx := [], currentCommand := 80, cmdPending := true }) := by
    simp [Serial_read]
  unfold case_P
  simp only [h0, if_true, hr, toByte_natCast b hb]

/-- One call that handles `'V'`, from an idle state with an empty buffer. -/
theorem dump_page_step (env : Env) (fuel : Nat) (t : State)
    (h1 : t.cmdPending = false) (h2 : t.legacySerial = false) (h3 : t.rx = []) :
    legacySerialCommand env fuel (receive [86] t)
      = sendPageLoop env fuel (env.page_begin t.effects t.currentPage)
          { t with rx := [], currentCommand := 86 } := by
  have hst : readCommand (receive [86] t) = { t with rx := [], currentCommand := 86 } := by
    simp [readCommand, receive, h1, h2, h3, Serial_read, toByte]
  rw [legacySerialCommand, hst, dispatch_V env fuel _ rfl]
  rfl

/-- **C23** Idempotent page selection: from an idle session state with an empty
receive buffer, for every byte `b`, handling `'P' b` a second time returns exactly
the state `s1` that handling it once returns; and when a page dump `'V'` is
handled in between, the second `'P' b` returns `s1` with only the bytes of that
dump added to the output, and a later `'V'` writes the same dump bytes again. -/
theorem C23_idempotent_page_select (env : Env) (fuel : Nat) (s : State) (b : Nat)
    (hb : b < 256)
    (hidle : s.cmdPending = false ∧ s.legacySerial = false ∧ s.rx = []) :
    ∃ s1, legacySerialCommand env fuel (receive [80, b] s) = some s1
      ∧ legacySerialCommand env fuel (receive [80, b] s1) = some s1
      ∧ ∀ sV, legacySerialCommand env fuel (receive [86] s1) = some sV →
          ∃ out, sV.tx = s1.tx ++ out
            ∧ legacySerialCommand env fuel (receive [80, b] sV)
                = some { s1 with tx := s1.tx ++ out }
            ∧ legacySerialCommand env fuel (receive [86] { s1 with tx := s1.tx ++ out })
                = some { sV with tx := s1.tx ++ out ++ out } := by
  obtain ⟨page, map, hP⟩ := select_page_step env fuel b hb
  obtain ⟨i1, i2, i3⟩ := hidle
  obtain ⟨s1, hs1, c1, c2, c3, c4⟩ : ∃ s1 : State,
      s1 = { s with
              rx := []
              currentCommand := 80
              currentPage := page
              isMap := map
              cmdPending := false }
      ∧ s1.cmdPending = false ∧ s1.legacySerial = false ∧ s1.rx = []
      ∧ { s1 with
            rx := []
            currentCommand := 80
            currentPage := page
            isMap := map
            cmdPending := false } = s1 :=
    ⟨_, rfl, rfl, i2, rfl, rfl⟩
  refine ⟨s1, by rw [hP s i1 i2 i3, hs1], by rw [hP s1 c1 c2 c3, c4], ?_⟩
  intro sV hV
  rw [dump_page_step env fuel s1 c1 c2 c3] at hV
  obtain ⟨out, hout⟩ := sendPageLoop_out env fuel _ _ _ hV
  rw [hout] at hV
  simp only [Option.some.injEq] at hV
  subst hV
  refine ⟨out, rfl, ?_, ?_⟩
  · refine (hP { ({ s1 with rx := [], currentCommand := 86 } : State) with
        tx := s1.tx ++ out } c1 c2 rfl).trans ?_
    subst hs1
    rfl
  · refine (dump_page_step env fuel { s1 with tx := s1.tx ++ out } c1 c2 c3).trans ?_
    exact hout _

/-- The sample pages: after `'P' '3'` from the start state the selected page is 3,
a second `'P' '3'` returns the same state, and the dump `'V'` in between adds its
eleven bytes to the output and nothing else. -/
theorem C23_idempotent_page_select_witness :
    (51 : Nat) < 256
    ∧ (initialState [] (fun _ => 1)).cmdPending = false
    ∧ ∃ s1, legacySerialCommand pagedEnv 4 (receive [80, 51] (initialState [] (fun _ => 1)))
          = some s1
        ∧ s1.currentPage = 3
        ∧ legacySerialCommand pagedEnv 4 (receive [80, 51] s1) = some s1
        ∧ ∃ sV, legacySerialCommand pagedEnv 4 (receive [86] s1) = some sV
            ∧ sV.tx = [1, 2, 3, 10, 11, 12, 13, 100, 200, 25, 30]
            ∧ legacySerialCommand pagedEnv 4 (receive [80, 51] sV)
                = some { s1 with tx := sV.tx } := by
  obtain ⟨s1, h1, h2, h3⟩ := C23_idempotent_page_select pagedEnv 4
    (initialState [] (fun _ => 1)) 51 (by decide) ⟨rfl, rfl, rfl⟩
  have e1 : legacySerialCommand pagedEnv 4 (receive [80, 51] (initialState [] (fun _ => 1)))
      = some (case_P pagedEnv (readCommand (receive [80, 51] (initialState [] (fun _ => 1))))) :=
    rfl
  rw [e1] at h1
  simp only [Option.some.injEq] at h1
  subst h1
  have hV : legacySerialCommand pagedEnv 4 (receive [86]
      (case_P pagedEnv (readCommand (receive [80, 51] (initialState [] (fun _ => 1))))))
      = some { case_P pagedEnv (readCommand (receive [80, 51] (initialState [] (fun _ => 1))))
          with currentCommand := 86, tx := [1, 2, 3, 10, 11, 12, 13, 100, 200, 25, 30] } := rfl
  obtain ⟨out, g1, g2, -⟩ := h3 _ hV
  have hout : out = [1, 2, 3, 10, 11, 12, 13, 100, 200, 25, 30] := by
    have : ([1, 2, 3, 10, 11, 12, 13, 100, 200, 25, 30] : List Nat) = [] ++ out := g1
    simpa using this.symm
  refine ⟨by decide, rfl, _, rfl, rfl, h2, _, hV, rfl, ?_⟩
  rw [g2, hout]
  rfl

/-! ## Fixed-width cells of the ASCII listing -/

/-- The decimal text of a byte, digit by digit. -/
theorem repr_byte (v : Nat) (hv : v < 256) :
    textBytes (Nat.repr v)
      = (if v < 10 then [48 + v]
         else if v < 100 then [48 + v / 10, 48 + v % 10]
         else [48 + v / 100, 48 + v / 10 % 10, 48 + v % 10]) := by
  interval_cases v <;> rfl

/-- What `serial_print_prepadded_value` appends. -/
theorem serial_print_prepadded_value_eq (v : Nat) (s : State) :
    serial_print_prepadded_value v s
      = { s with tx := s.tx
            ++ ((if v < 10 then [32, 32] else if v < 100 then [32] else [])
                ++ textBytes (Nat.repr v) ++ [32]) } := by
  unfold serial_print_prepadded_value serial_print_prepadding
  by_cases h100 : v < 100
  · by_cases h10 : v < 10
    · simp [h100, h10, Serial_print, Serial_printNum, textBytes]
    · simp [h100, h10, Serial_print, Serial_printNum, textBytes]
  · have h10 : ¬ v < 10 := by omega
    simp [h100, h10, Serial_print, Serial_printNum, textBytes]

/-- **C24** ASCII table cells are fixed width: for every byte value `v`,
`serial_print_prepadded_value(v)` appends exactly four characters to the output:
the decimal digits of `v` right-aligned in three characters, with two leading
spaces for `v < 10`, one for `10 ≤ v < 100` and none otherwise, followed by a single
space; nothing else changes. -/
theorem C24_fixed_width_cell (v : Nat) (s : State) (hv : v < 256) :
    serial_print_prepadded_value v s
      = { s with tx := s.tx
            ++ (if v < 10 then [32, 32, 48 + v, 32]
                else if v < 100 then [32, 48 + v / 10, 48 + v % 10, 32]
                else [48 + v / 100, 48 + v / 10 % 10, 48 + v % 10, 32]) }
    ∧ (serial_print_prepadded_value v s).tx.length = s.tx.length + 4 := by
  have h : serial_print_prepadded_value v s
      = { s with tx := s.tx
            ++ (if v < 10 then [32, 32, 48 + v, 32]
                else if v < 100 then [32, 48 + v / 10, 48 + v % 10, 32]
                else [48 + v / 100, 48 + v / 10 % 10, 48 + v % 10, 32]) } := by
    rw [serial_print_prepadded_value_eq, repr_byte v hv]
    by_cases h10 : v < 10
    · simp [h10]
    · by_cases h100 : v < 100
      · simp [h10, h100]
      · simp [h10, h100]
  refine ⟨h, ?_⟩
  rw [h]
  show (s.tx ++ _).length = _
  rw [List.length_append]
  split_ifs <;> rfl

/-- The cells for 7, 42 and 255: "  7 ", " 42 " and "255 ". -/
theorem C24_fixed_width_cell_witness :
    (serial_print_prepadded_value 7 (initialState [] (fun _ => 1))).tx = textBytes "  7 "
    ∧ (serial_print_prepadded_value 42 (initialState [] (fun _ => 1))).tx = textBytes " 42 "
    ∧ (serial_print_prepadded_value 255 (initialState [] (fun _ => 1))).tx = textBytes "255 " := by
  refine ⟨?_, ?_, ?_⟩
  · rw [(C24_fixed_width_cell 7 (initialState [] (fun _ => 1)) (by decide)).1]; rfl
  · rw [(C24_fixed_width_cell 42 (initialState [] (fun _ => 1)) (by decide)).1]; rfl
  · rw [(C24_fixed_width_cell 255 (initialState [] (fun _ => 1)) (by decide)).1]; rfl

/-! ## Completion effects of the telemetry stream -/

/-- The engine status after the loop of `sendValues`: a completed send has cleared
the refresh bit of `status3`, a suspended one has left the status alone. -/
theorem sendValuesLoop_status (env : Env) (offset packetLength portNum : Nat) :
    ∀ (fuel x : Nat) (s s1 : State),
    sendValuesLoop env offset packetLength portNum fuel x s = some s1 →
    (s1.serialInProgress = false
        ∧ s1.currentStatus = { s.currentStatus with
            status3 := BIT_CLEAR s.currentStatus.status3 env.BIT_STATUS3_VSS_REFRESH })
      ∨ (s1.serialInProgress = true ∧ s1.currentStatus = s.currentStatus) := by
  intro fuel
  induction fuel with
  | zero => intro x s s1 h; simp [sendValuesLoop] at h
  | succ fuel ih =>
    intro x s s1 h
    rw [sendValuesLoop] at h
    by_cases h1 : x < packetLength
    · rw [if_pos h1] at h
      obtain ⟨sw, hsw, hw⟩ : ∃ sw, sw = (if portNum = 0 then
          Serial_write s (env.getTSLogEntry s.currentStatus ((offset + x) % 65536))
          else if portNum = 3 ∧ env.CANSerial_AVAILABLE = true then
            { s with canTx := s.canTx ++
              [env.getTSLogEntry s.currentStatus ((offset + x) % 65536) % 256] }
          else s) ∧ sw.currentStatus = s.currentStatus := by
        refine ⟨_, rfl, ?_⟩
        split_ifs <;> rfl
      simp only [← hsw] at h
      by_cases h2 : (Serial_availableForWrite sw).1 < 1
      · rw [if_pos h2] at h
        simp only [Option.some.injEq] at h
        rw [← h]
        exact Or.inr ⟨rfl, hw⟩
      · rw [if_neg h2] at h
        have hq : (Serial_availableForWrite sw).2.currentStatus = s.currentStatus := hw
        rcases ih _ _ _ h with ⟨a, b⟩ | ⟨a, b⟩
        · exact Or.inl ⟨a, by rw [b, hq]⟩
        · exact Or.inr ⟨a, by rw [b, hq]⟩
    · rw [if_neg h1] at h
      simp only [Option.some.injEq] at h
      rw [← h]
      exact Or.inl ⟨rfl, rfl⟩

/-- What the part of `sendValues` before its loop leaves alone, on every port. -/
theorem sendValuesHeader_keeps (env : Env) (cmd portNum : Nat) (s : State) :
    (sendValuesHeader env cmd portNum s).tx = s.tx
    ∧ (sendValuesHeader env cmd portNum s).currentStatus.status3 = s.currentStatus.status3
    ∧ (sendValuesHeader env cmd portNum s).currentStatus.hasSync = s.currentStatus.hasSync
    ∧ (sendValuesHeader env cmd portNum s).currentStatus.spark
        = syncSpark env s.currentStatus.spark s.currentStatus.hasSync
    ∧ (portNum = 0 → (sendValuesHeader env cmd portNum s).canTx = s.canTx) := by
  unfold sendValuesHeader
  simp only []
  refine ⟨?_, ?_, ?_, ?_, ?_⟩
  · split_ifs <;> rfl
  · split_ifs <;> rfl
  · split_ifs <;> rfl
  · split_ifs <;> rfl
  · intro h0
    have h3 : ¬ portNum = 3 := by omega
    rw [if_neg h3]
    split_ifs <;> rfl

/-- Clearing a bit of a byte: that bit reads as clear and every other bit is as
before. -/
theorem BIT_CLEAR_testBit (var pos i : Nat) (hvar : var < 256) :
    (BIT_CLEAR var pos).testBit i = (if i = pos then false else var.testBit i) := by
  unfold BIT_CLEAR
  rw [Nat.testBit_and, Nat.testBit_xor, Nat.one_shiftLeft, Nat.testBit_two_pow]
  have h255 : Nat.testBit 255 i = decide (i < 8) := by
    have : (255 : Nat) = 2 ^ 8 - 1 := by norm_num
    rw [this, Nat.testBit_two_pow_sub_one]
  have hhi : 8 ≤ i → var.testBit i = false := by
    intro h8
    apply Nat.testBit_lt_two_pow
    calc var < 256 := hvar
      _ = 2 ^ 8 := by norm_num
      _ ≤ 2 ^ i := Nat.pow_le_pow_right (by norm_num) h8
  rw [h255]
  by_cases h8 : i < 8
  · by_cases hp : i = pos
    · subst hp
      simp [h8]
    · have hp' : ¬ pos = i := fun h => hp h.symm
      simp [h8, hp, hp']
  · rw [hhi (by omega)]
    simp

/-- The outcome of any `sendValues` call that returns, on the flag and on
`status3`. -/
theorem sendValues_status3 (env : Env) (fuel offset packetLength cmd portNum : Nat)
    (s s1 : State) (h3 : s.currentStatus.status3 < 256)
    (h : sendValues env fuel offset packetLength cmd portNum s = some s1) :
    (s1.serialInProgress = false
      ∧ ∀ i, s1.currentStatus.status3.testBit i
          = (if i = env.BIT_STATUS3_VSS_REFRESH then false
             else s.currentStatus.status3.testBit i))
    ∨ (s1.serialInProgress = true ∧ s1.currentStatus.status3 = s.currentStatus.status3) := by
  obtain ⟨-, k2, -⟩ := sendValuesHeader_keeps env cmd portNum s
  rcases sendValuesLoop_status env offset packetLength portNum fuel 0 _ s1 h with ⟨a, b⟩ | ⟨a, b⟩
  · refine Or.inl ⟨a, fun i => ?_⟩
    rw [b]
    show (BIT_CLEAR (sendValuesHeader env cmd portNum s).currentStatus.status3 _).testBit i = _
    rw [k2]
    exact BIT_CLEAR_testBit _ _ i h3
  · exact Or.inr ⟨a, by rw [b, k2]⟩

/-- **C27** Completion effects of the telemetry stream: a `sendValues` call on the
primary port with `packetLength ≤ 255` returns having written `w` bytes; either it
has written all `packetLength` bytes, and then `serialInProgress` is false and bit
`BIT_STATUS3_VSS_REFRESH` of `status3` is clear with every other bit unchanged, or
it has suspended on backpressure after `1 ≤ w ≤ packetLength` bytes, and then
`serialInProgress` is true and `status3` is unchanged. The same two outcomes on the
flag and on `status3` hold for every call that returns, on any port and for any
length. `status3` is a byte. -/
theorem C27_completion_effects (env : Env) (fuel offset packetLength cmd : Nat) (s : State)
    (hP : packetLength ≤ 255) (hfuel : packetLength < fuel)
    (h3 : s.currentStatus.status3 < 256) :
    (∃ s1 w, sendValues env fuel offset packetLength cmd 0 s = some s1
      ∧ s1.tx.length = s.tx.length + w
      ∧ ((w = packetLength ∧ s1.serialInProgress = false
          ∧ ∀ i, s1.currentStatus.status3.testBit i
              = (if i = env.BIT_STATUS3_VSS_REFRESH then false
                 else s.currentStatus.status3.testBit i))
        ∨ (1 ≤ w ∧ w ≤ packetLength ∧ s1.serialInProgress = true
          ∧ s1.currentStatus.status3 = s.currentStatus.status3)))
    ∧ (∀ (fuel1 offset1 length1 cmd1 portNum : Nat) (s1 : State),
        sendValues env fuel1 offset1 length1 cmd1 portNum s = some s1 →
        (s1.serialInProgress = false
          ∧ ∀ i, s1.currentStatus.status3.testBit i
              = (if i = env.BIT_STATUS3_VSS_REFRESH then false
                 else s.currentStatus.status3.testBit i))
        ∨ (s1.serialInProgress = true
          ∧ s1.currentStatus.status3 = s.currentStatus.status3)) := by
  refine ⟨?_, fun fuel1 offset1 length1 cmd1 portNum s1 h =>
    sendValues_status3 env fuel1 offset1 length1 cmd1 portNum s s1 h3 h⟩
  obtain ⟨k1, -⟩ := sendValuesHeader_keeps env cmd 0 s
  obtain ⟨s1, w, g1, g2, g3, g4⟩ := sendValuesLoop_spec env offset packetLength hP fuel 0
    (sendValuesHeader env cmd 0 s) (Nat.zero_le _) (by omega)
  have hcall : sendValues env fuel offset packetLength cmd 0 s = some s1 := g1
  refine ⟨s1, w, hcall, by rw [g3, k1]; simp, ?_⟩
  rcases sendValues_status3 env fuel offset packetLength cmd 0 s s1 h3 hcall with
    ⟨a, b⟩ | ⟨a, b⟩
  · rcases g4 with ⟨-, d⟩ | ⟨c, -⟩
    · exact Or.inl ⟨by omega, a, b⟩
    · rw [a] at c; exact absurd c (by simp)
  · rcases g4 with ⟨c, -⟩ | ⟨-, d, -⟩
    · rw [a] at c; exact absurd c (by simp)
    · exact Or.inr ⟨d, by omega, a, b⟩

/-- Three record bytes from the start state with `status3` 12 (bits 2 and 3 set): with
room in the transmit buffer the call completes and `status3` is 4; with a full
buffer it suspends and `status3` is still 12. -/
theorem C27_completion_effects_witness :
    (3 : Nat) ≤ 255
    ∧ (∃ s1, sendValues sampleEnv 4 0 3 49 0
          { initialState [] (fun _ => 1) with currentStatus := { zeroStatus with status3 := 12 } }
          = some s1
        ∧ s1.serialInProgress = false ∧ s1.currentStatus.status3 = 4)
    ∧ (∃ s1, sendValues sampleEnv 4 0 3 49 0
          { initialState [] (fun _ => 0) with currentStatus := { zeroStatus with status3 := 12 } }
          = some s1
        ∧ s1.serialInProgress = true ∧ s1.currentStatus.status3 = 12) := by
  refine ⟨by decide, ?_, ?_⟩
  · obtain ⟨⟨s1, w, h1, -, -⟩, -⟩ := C27_completion_effects sampleEnv 4 0 3 49
      { initialState [] (fun _ => 1) with currentStatus := { zeroStatus with status3 := 12 } }
      (by decide) (by decide) (by decide)
    have h2 : (sendValues sampleEnv 4 0 3 49 0
          { initialState [] (fun _ => 1) with
            currentStatus := { zeroStatus with status3 := 12 } }).map
        (fun t => (t.serialInProgress, t.currentStatus.status3)) = some (false, 4) := by
      decide
    rw [h1] at h2
    simp only [Option.map_some', Option.some.injEq, Prod.mk.injEq] at h2
    exact ⟨s1, h1, h2.1, h2.2⟩
  · obtain ⟨⟨s1, w, h1, -, -⟩, -⟩ := C27_completion_effects sampleEnv 4 0 3 49
      { initialState [] (fun _ => 0) with currentStatus := { zeroStatus with status3 := 12 } }
      (by decide) (by decide) (by decide)
    have h2 : (sendValues sampleEnv 4 0 3 49 0
          { initialState [] (fun _ => 0) with
            currentStatus := { zeroStatus with status3 := 12 } }).map
        (fun t => (t.serialInProgress, t.currentStatus.status3)) = some (true, 12) := by
      decide
    rw [h1] at h2
    simp only [Option.map_some', Option.some.injEq, Prod.mk.injEq] at h2
    exact ⟨s1, h1, h2.1, h2.2⟩

/-! ## Mirroring of the sync flag into the spark byte -/

/-- The bits of the spark byte after the sync flag is mirrored into it. -/
theorem syncSpark_testBit (env : Env) (spark : Nat) (hasSync : Bool) (i : Nat)
    (hspark : spark < 256) (hbit : env.BIT_SPARK_SYNC < 8) (hint : 8 ≤ env.intBits) :
    (syncSpark env spark hasSync).testBit i
      = (if i = env.BIT_SPARK_SYNC then hasSync else spark.testBit i) := by
  have hhi : 8 ≤ i → spark.testBit i = false := by
    intro h8
    apply Nat.testBit_lt_two_pow
    calc spark < 256 := hspark
      _ = 2 ^ 8 := by norm_num
      _ ≤ 2 ^ i := Nat.pow_le_pow_right (by norm_num) h8
  unfold syncSpark
  have h256 : (256 : Nat) = 2 ^ 8 := by norm_num
  rw [h256, Nat.one_shiftLeft]
  simp only [Nat.testBit_mod_two_pow, Nat.testBit_xor, Nat.testBit_and, Nat.testBit_two_pow]
  by_cases h8 : i < 8
  · have hw : i < env.intBits := by omega
    by_cases hb : env.BIT_SPARK_SYNC = i
    · subst hb
      cases hasSync <;> cases hs : spark.testBit env.BIT_SPARK_SYNC <;>
        simp [h8, hw, hs, Nat.testBit_two_pow_sub_one]
    · have hb' : ¬ i = env.BIT_SPARK_SYNC := fun h => hb h.symm
      rw [if_neg hb']
      cases hasSync <;> cases hs : spark.testBit i <;>
        simp [h8, hb, hw, hs, Nat.testBit_two_pow_sub_one]
  · have hb' : ¬ i = env.BIT_SPARK_SYNC := by omega
    rw [if_neg hb', hhi (by omega)]
    simp [h8]

/-- The loop of `sendValues` does not touch `spark` or `hasSync`. -/
theorem sendValuesLoop_spark (env : Env) (offset packetLength portNum fuel : Nat)
    (s s1 : State) (h : sendValuesLoop env offset packetLength portNum fuel 0 s = some s1) :
    s1.currentStatus.spark = s.currentStatus.spark
    ∧ s1.currentStatus.hasSync = s.currentStatus.hasSync := by
  rcases sendValuesLoop_status env offset packetLength portNum fuel 0 s s1 h with ⟨-, b⟩ | ⟨-, b⟩
  · rw [b]; exact ⟨rfl, rfl⟩
  · rw [b]; exact ⟨rfl, rfl⟩

/-- **C26** Sync bit mirroring: for every value of the byte `currentStatus.spark`
and of `currentStatus.hasSync` at entry, the part of `sendValues` that precedes the
record loop, in every call (on any port, first or resumed), leaves bit
`BIT_SPARK_SYNC` of `spark` equal to `hasSync` and every other bit of `spark` as it
was, with nothing written to the serial output yet; the record loop reads the status
with this `spark`, and a call that returns still has it. `BIT_SPARK_SYNC` is a bit
of a byte and `int` has at least 8 bits. -/
theorem C26_sync_bit_mirroring (env : Env) (cmd portNum : Nat) (s : State)
    (hspark : s.currentStatus.spark < 256) (hbit : env.BIT_SPARK_SYNC < 8)
    (hint : 8 ≤ env.intBits) :
    (∀ i, (sendValuesHeader env cmd portNum s).currentStatus.spark.testBit i
        = (if i = env.BIT_SPARK_SYNC then s.currentStatus.hasSync
           else s.currentStatus.spark.testBit i))
    ∧ (sendValuesHeader env cmd portNum s).tx = s.tx
    ∧ (sendValuesHeader env cmd portNum s).currentStatus.hasSync = s.currentStatus.hasSync
    ∧ (∀ (fuel offset packetLength : Nat) (s1 : State),
        sendValues env fuel offset packetLength cmd portNum s = some s1 →
        s1.currentStatus.hasSync = s.currentStatus.hasSync
        ∧ ∀ i, s1.currentStatus.spark.testBit i
            = (if i = env.BIT_SPARK_SYNC then s.currentStatus.hasSync
               else s.currentStatus.spark.testBit i)) := by
  obtain ⟨k1, -, k3, k4, -⟩ := sendValuesHeader_keeps env cmd portNum s
  have hbits : ∀ i, (sendValuesHeader env cmd portNum s).currentStatus.spark.testBit i
        = (if i = env.BIT_SPARK_SYNC then s.currentStatus.hasSync
           else s.currentStatus.spark.testBit i) := by
    intro i
    rw [k4]
    exact syncSpark_testBit env _ _ i hspark hbit hint
  refine ⟨hbits, k1, k3, ?_⟩
  intro fuel offset packetLength s1 h
  obtain ⟨a, b⟩ := sendValuesLoop_spark env offset packetLength portNum fuel _ s1 h
  exact ⟨by rw [b, k3], fun i => by rw [a]; exact hbits i⟩

/-- With the sync bit at position 7 and `spark` 5: with `hasSync` true bit 7 is set
afterwards, with `hasSync` false it is clear, and bits 0 and 1 are as in 5. -/
theorem C26_sync_bit_mirroring_witness :
    sampleEnv.BIT_SPARK_SYNC < 8 ∧ 8 ≤ sampleEnv.intBits
    ∧ (sendValuesHeader sampleEnv 49 0
        { initialState [] (fun _ => 1) with
          currentStatus := { zeroStatus with spark := 5, hasSync := true }
        }).currentStatus.spark.testBit 7 = true
    ∧ (sendValuesHeader sampleEnv 49 0
        { initialState [] (fun _ => 1) with
          currentStatus := { zeroStatus with spark := 5, hasSync := true }
        }).currentStatus.spark.testBit 0 = true
    ∧ (sendValuesHeader sampleEnv 49 0
        { initialState [] (fun _ => 1) with
          currentStatus := { zeroStatus with spark := 5, hasSync := true }
        }).currentStatus.spark.testBit 1 = false
    ∧ (sendValuesHeader sampleEnv 49 0
        { initialState [] (fun _ => 1) with
          currentStatus := { zeroStatus with spark := 133, hasSync := false }
        }).currentStatus.spark.testBit 7 = false := by
  have h1 := (C26_sync_bit_mirroring sampleEnv 49 0
    { initialState [] (fun _ => 1) with
      currentStatus := { zeroStatus with spark := 5, hasSync := true } }
    (by decide) (by decide) (by decide)).1
  have h2 := (C26_sync_bit_mirroring sampleEnv 49 0
    { initialState [] (fun _ => 1) with
      currentStatus := { zeroStatus with spark := 133, hasSync := false } }
    (by decide) (by decide) (by decide)).1
  refine ⟨by decide, by decide, ?_, ?_, ?_, ?_⟩
  · rw [h1 7]; rfl
  · rw [h1 0]; rfl
  · rw [h1 1]; rfl
  · rw [h2 7]; rfl

/-! ## The resumption cursor of a suspended telemetry stream -/

/-- **C25** (divergence from the stated contract) Suspension cursor: a `sendValues`
call on the primary port with `packetLength ≤ 255` returns having written `w` bytes,
and when it has suspended on backpressure then `1 ≤ w ≤ packetLength`,
`serialInProgress` is true, `inProgressLength = packetLength - w`, and
`inProgressOffset` is `offset + w` reduced modulo 256, because the cursor is stored
in a byte: it equals `offset + w` only when `offset + w ≤ 255`. -/
theorem C25_suspension_cursor (env : Env) (fuel offset packetLength cmd : Nat) (s : State)
    (hP : packetLength ≤ 255) (hfuel : packetLength < fuel) :
    ∃ s1 w, sendValues env fuel offset packetLength cmd 0 s = some s1
      ∧ s1.tx.length = s.tx.length + w ∧ w ≤ packetLength
      ∧ (s1.serialInProgress = true →
          1 ≤ w ∧ s1.inProgressOffset = (offset + w) % 256
          ∧ s1.inProgressLength = packetLength - w
          ∧ (offset + w ≤ 255 → s1.inProgressOffset = offset + w)) := by
  obtain ⟨k1, -⟩ := sendValuesHeader_keeps env cmd 0 s
  obtain ⟨s1, w, g1, g2, g3, g4⟩ := sendValuesLoop_spec env offset packetLength hP fuel 0
    (sendValuesHeader env cmd 0 s) (Nat.zero_le _) (by omega)
  refine ⟨s1, w, g1, by rw [g3, k1]; simp, by omega, ?_⟩
  intro hsus
  rcases g4 with ⟨a, -⟩ | ⟨-, b, c, d, -⟩
  · rw [hsus] at a; exact absurd a (by simp)
  · rw [Nat.zero_add] at c d
    refine ⟨b, c, ?_, fun hle => ?_⟩
    · rw [d]; omega
    · rw [c]; omega

/-- The request `sendValues(300, 2, 0x30, 0)` with a full transmit buffer: the call
suspends after one byte, and `inProgressOffset` is 45, not 301. -/
theorem C25_suspension_cursor_witness :
    (2 : Nat) ≤ 255
    ∧ ∃ s1, sendValues sampleEnv 3 300 2 48 0 (initialState [] (fun _ => 0)) = some s1
      ∧ s1.serialInProgress = true ∧ s1.tx.length = 1
      ∧ s1.inProgressOffset = 45 ∧ s1.inProgressLength = 1 := by
  obtain ⟨s1, w, h1, -, -, -⟩ := C25_suspension_cursor sampleEnv 3 300 2 48
    (initialState [] (fun _ => 0)) (by decide) (by decide)
  have h2 : (sendValues sampleEnv 3 300 2 48 0 (initialState [] (fun _ => 0))).map
      (fun t => (t.serialInProgress, t.tx.length, t.inProgressOffset, t.inProgressLength))
      = some (true, 1, 45, 1) := by decide
  rw [h1] at h2
  simp only [Option.map_some', Option.some.injEq, Prod.mk.injEq] at h2
  exact ⟨by decide, s1, h1, h2.1, h2.2.1, h2.2.2.1, h2.2.2.2⟩

/-! ## The time accumulator of the composite log -/

/-- The time accumulator after the composite loop over `n` records from index `x`:
it holds the timestamp of the last record sent, or its old value when none was. -/
theorem sendCompositeLoop_time : ∀ (n x : Nat) (s : State), x + n ≤ 256 →
    ∃ w, w ≤ n
      ∧ (sendCompositeLoop n x s).2.inProgressCompositeTime
          = (if w = 0 then s.inProgressCompositeTime
             else s.toothHistory (x + w - 1) % 2 ^ 32)
      ∧ (((sendCompositeLoop n x s).1 = true ∧ w = n
            ∧ (sendCompositeLoop n x s).2.compositeLogSendInProgress
                = s.compositeLogSendInProgress
            ∧ (sendCompositeLoop n x s).2.inProgressOffset = s.inProgressOffset)
        ∨ ((sendCompositeLoop n x s).1 = false ∧ w < n
            ∧ (sendCompositeLoop n x s).2.inProgressOffset = x + w
            ∧ (sendCompositeLoop n x s).2.compositeLogSendInProgress = true)) := by
  intro n
  induction n with
  | zero =>
    intro x s _
    exact ⟨0, Nat.le_refl 0, rfl, Or.inl ⟨rfl, rfl, rfl, rfl⟩⟩
  | succ n ih =>
    intro x s hx
    by_cases h : s.afw s.afwCalls < 4
    · rw [sendCompositeLoop_full n x s h]
      refine ⟨0, Nat.zero_le _, rfl, Or.inr ⟨rfl, by omega, ?_, rfl⟩⟩
      show x % 256 = x + 0
      omega
    · rw [sendCompositeLoop_room n x s (by omega)]
      obtain ⟨w, hw, h1, h2⟩ := ih (x + 1) { s with
          afwCalls := s.afwCalls + 1
          inProgressCompositeTime := s.toothHistory x % 2 ^ 32
          tx := s.tx ++ compositeRecord s x } (by omega)
      refine ⟨w + 1, by omega, ?_, ?_⟩
      · rw [h1, if_neg (Nat.succ_ne_zero w)]
        by_cases hw0 : w = 0
        · rw [if_pos hw0, hw0]
          show s.toothHistory x % 2 ^ 32 = _
          rw [show x + (0 + 1) - 1 = x by omega]
        · rw [if_neg hw0]
          show s.toothHistory (x + 1 + w - 1) % 2 ^ 32 = _
          rw [show x + 1 + w - 1 = x + (w + 1) - 1 by omega]
      · rcases h2 with ⟨a, b, c, d⟩ | ⟨a, b, c, d⟩
        · exact Or.inl ⟨a, by omega, c, d⟩
        · exact Or.inr ⟨a, by omega, by rw [c]; omega, d⟩

/-- The time accumulator after one call `sendCompositeLog_legacy(k)` with the ready
bit set. -/
theorem sendCompositeLog_legacy_time (env : Env) (k : Nat) (s : State)
    (hready : BIT_CHECK s.currentStatus.status1 env.BIT_STATUS1_TOOTHLOG1READY = true)
    (hT : env.TOOTH_LOG_SIZE ≤ 255) (hk : k ≤ env.TOOTH_LOG_SIZE) :
    ((sendCompositeLog_legacy env k s).compositeLogSendInProgress = false
        ∧ (sendCompositeLog_legacy env k s).inProgressCompositeTime = 0)
    ∨ ((sendCompositeLog_legacy env k s).compositeLogSendInProgress = true
        ∧ k ≤ (sendCompositeLog_legacy env k s).inProgressOffset
        ∧ (sendCompositeLog_legacy env k s).inProgressOffset < env.TOOTH_LOG_SIZE
        ∧ (sendCompositeLog_legacy env k s).inProgressCompositeTime
            = (if (sendCompositeLog_legacy env k s).inProgressOffset = k then
                (if k = 0 then 0 else s.inProgressCompositeTime)
               else s.toothHistory ((sendCompositeLog_legacy env k s).inProgressOffset - 1)
                      % 2 ^ 32)) := by
  obtain ⟨q, hq, q1, q2⟩ : ∃ q,
      q = (if k = 0 then { s with inProgressCompositeTime := 0 } else s)
      ∧ q.toothHistory = s.toothHistory
      ∧ q.inProgressCompositeTime = (if k = 0 then 0 else s.inProgressCompositeTime) := by
    refine ⟨_, rfl, ?_⟩
    by_cases h0 : k = 0
    · rw [if_pos h0, if_pos h0]; exact ⟨rfl, rfl⟩
    · rw [if_neg h0, if_neg h0]; exact ⟨rfl, rfl⟩
  obtain ⟨w, hw, h1, h2⟩ := sendCompositeLoop_time (env.TOOTH_LOG_SIZE - k) k q (by omega)
  have hdef : sendCompositeLog_legacy env k s
      = (if (sendCompositeLoop (env.TOOTH_LOG_SIZE - k) k q).1 = true then
          { (sendCompositeLoop (env.TOOTH_LOG_SIZE - k) k q).2 with
            currentStatus :=
              { (sendCompositeLoop (env.TOOTH_LOG_SIZE - k) k q).2.currentStatus with
                status1 := BIT_CLEAR
                  (sendCompositeLoop (env.TOOTH_LOG_SIZE - k) k q).2.currentStatus.status1
                  env.BIT_STATUS1_TOOTHLOG1READY }
            toothHistoryIndex := 0
            cmdPending := false
            compositeLogSendInProgress := false
            inProgressCompositeTime := 0 }
         else (sendCompositeLoop (env.TOOTH_LOG_SIZE - k) k q).2) := by
    rw [hq]
    simp only [sendCompositeLog_legacy, hready, if_true]
  rcases h2 with ⟨a, -⟩ | ⟨a, b, c, d⟩
  · rw [hdef, if_pos a]
    exact Or.inl ⟨rfl, rfl⟩
  · have a1 : ¬ (sendCompositeLoop (env.TOOTH_LOG_SIZE - k) k q).1 = true := by
      rw [a]; decide
    rw [hdef, if_neg a1]
    refine Or.inr ⟨d, by omega, by omega, ?_⟩
    rw [h1, c, q1, q2]
    by_cases hw0 : w = 0
    · have e : k + w = k := by omega
      rw [if_pos hw0, if_pos e]
    · have e : ¬ k + w = k := by omega
      rw [if_neg hw0, if_neg e]

/-- Counterexample to **C28**: a transfer resumed at record 126 of 127 (start offset
126, not 0) with room in the transmit buffer. The call sends record 126, whose
timestamp is 16909186, and completes; on return the accumulator is 0, not the
timestamp of the last record sent. -/
theorem C28_counterexample :
    (126 : Nat) ≠ 0
    ∧ (sendCompositeLog_legacy sampleEnv 126
        { loggedState (fun _ => 64) with
          inProgressCompositeTime := 16909185
          inProgressOffset := 126
          compositeLogSendInProgress := true }).tx = [1, 2, 3, 130, 70]
    ∧ (sendCompositeLog_legacy sampleEnv 126
        { loggedState (fun _ => 64) with
          inProgressCompositeTime := 16909185
          inProgressOffset := 126
          compositeLogSendInProgress := true }).compositeLogSendInProgress = false
    ∧ (sendCompositeLog_legacy sampleEnv 126
        { loggedState (fun _ => 64) with
          inProgressCompositeTime := 16909185
          inProgressOffset := 126
          compositeLogSendInProgress := true }).inProgressCompositeTime = 0 := by
  decide

/-- **C28** (amended) Composite time accumulator: a call
`sendCompositeLog_legacy(k)` with the ready bit set either completes, and then it
returns with `compositeLogSendInProgress` false and the accumulator
`inProgressCompositeTime` reset to 0 whatever `k` was; or it suspends at record
`inProgressOffset ≥ k`, and then the accumulator holds the timestamp (32 bits) of
the last record sent, or, when the call sent no record, 0 for `k = 0` and its value
at entry for `k ≠ 0`. -/
theorem C28_composite_time_accumulator (env : Env) (k : Nat) (s : State)
    (hready : BIT_CHECK s.currentStatus.status1 env.BIT_STATUS1_TOOTHLOG1READY = true)
    (hT : env.TOOTH_LOG_SIZE ≤ 255) (hk : k ≤ env.TOOTH_LOG_SIZE) :
    ((sendCompositeLog_legacy env k s).compositeLogSendInProgress = false
        ∧ (sendCompositeLog_legacy env k s).inProgressCompositeTime = 0)
    ∨ ((sendCompositeLog_legacy env k s).compositeLogSendInProgress = true
        ∧ k ≤ (sendCompositeLog_legacy env k s).inProgressOffset
        ∧ (sendCompositeLog_legacy env k s).inProgressOffset < env.TOOTH_LOG_SIZE
        ∧ (sendCompositeLog_legacy env k s).inProgressCompositeTime
            = (if (sendCompositeLog_legacy env k s).inProgressOffset = k then
                (if k = 0 then 0 else s.inProgressCompositeTime)
               else s.toothHistory ((sendCompositeLog_legacy env k s).inProgressOffset - 1)
                      % 2 ^ 32)) :=
  sendCompositeLog_legacy_time env k s hready hT hk

/-- A transfer resumed at record 5 with room for two records only: the call
suspends at record 7 with the accumulator at the timestamp of record 6. -/
theorem C28_composite_time_accumulator_witness :
    BIT_CHECK (loggedState (fun i => if i < 2 then 64 else 0)).currentStatus.status1
        sampleEnv.BIT_STATUS1_TOOTHLOG1READY = true
    ∧ sampleEnv.TOOTH_LOG_SIZE ≤ 255 ∧ 5 ≤ sampleEnv.TOOTH_LOG_SIZE
    ∧ (sendCompositeLog_legacy sampleEnv 5
        (loggedState (fun i => if i < 2 then 64 else 0))).compositeLogSendInProgress = true
    ∧ (sendCompositeLog_legacy sampleEnv 5
        (loggedState (fun i => if i < 2 then 64 else 0))).inProgressOffset = 7
    ∧ (sendCompositeLog_legacy sampleEnv 5
        (loggedState (fun i => if i < 2 then 64 else 0))).inProgressCompositeTime = 16909066 := by
  have hflag : (sendCompositeLog_legacy sampleEnv 5
        (loggedState (fun i => if i < 2 then 64 else 0))).compositeLogSendInProgress = true := by
    decide
  have hoff : (sendCompositeLog_legacy sampleEnv 5
        (loggedState (fun i => if i < 2 then 64 else 0))).inProgressOffset = 7 := by
    decide
  refine ⟨by decide, by decide, by decide, hflag, hoff, ?_⟩
  rcases C28_composite_time_accumulator sampleEnv 5
      (loggedState (fun i => if i < 2 then 64 else 0)) (by decide) (by decide) (by decide) with
    ⟨a, -⟩ | ⟨-, -, -, d⟩
  · rw [hflag] at a; exact absurd a (by simp)
  · rw [d, hoff]
    decide

/-! ## The worked calibration example -/

/-- The temperature branch of `receiveCalibration`, for every table id other than 2:
the 32 samples at the head of the input are converted with the offset of the target
that the `switch` selects and stored in that target's table. -/
theorem receiveCalibration_temps (env : Env) (s : State) (tableID : Nat)
    (samples : List Int) (rest : List Nat)
    (h2 : tableID ≠ 2) (hbits : 16 ≤ env.intBits)
    (hoff : -30931 ≤ (calibrationTarget env tableID).2.1
      ∧ (calibrationTarget env tableID).2.1 ≤ 30965)
    (hlen : samples.length = 32) (hfit : ∀ v ∈ samples, fitsInt16 v)
    (hin : s.rx ++ s.wire = (samples.map sampleBytes).flatten ++ rest) :
    ∃ s1, receiveCalibration env tableID s = some s1
      ∧ s1.rx ++ s1.wire = rest
      ∧ ∀ x, x < 32 →
          calValues (calibrationTarget env tableID).1 s1.calibration x
            = (storedTemperature (calibrationTarget env tableID).2.1 (samples.getD x 0)).toNat
          ∧ calBins (calibrationTarget env tableID).1 s1.calibration x = 32 * x := by
  have hdiv : (calibrationTarget env tableID).2.2 = 10 := by
    unfold calibrationTarget
    split_ifs <;> rfl
  obtain ⟨s1, h1, h2', h5⟩ :=
    receiveTempLoop_spec env (calibrationTarget env tableID).1
      (calibrationTarget env tableID).2.1 hbits hoff 32 0 s samples rest hlen hfit hin
      (by omega)
  refine ⟨writeCalibration s1, ?_, h2', ?_⟩
  · simp only [receiveCalibration, h2, if_false, hdiv, h1, Option.map_some']
  · intro x hx
    have hk := h5 x
    have hr : 0 ≤ x ∧ x < 0 + 32 := by omega
    rw [if_pos hr, if_pos hr, Nat.sub_zero] at hk
    exact hk

theorem fitsInt16_replicate (v : Int) (hv : fitsInt16 v) :
    ∀ u ∈ List.replicate 32 v, fitsInt16 u := by
  intro u hu
  rw [List.eq_of_mem_replicate hu]
  exact hv

theorem getD_replicate_32 (v : Int) (x : Nat) (hx : x < 32) :
    (List.replicate 32 v).getD x 0 = v := by
  rw [List.getD_eq_getElem _ _ (by rw [List.length_replicate]; exact hx)]
  exact List.getElem_replicate _ _

/-- Counterexample to **C29**: the coolant table fed with 32 samples of 320 (32.0
degrees Fahrenheit) and offset 40. The firmware stores 40 in every cell, here cell
0: (320 / 10 - 32) * 5 / 9 + 40 = 40, not 23. -/
theorem C29_counterexample :
    sampleEnv.CALIBRATION_TEMPERATURE_OFFSET = 40
    ∧ ∃ s1, receiveCalibration sampleEnv 0
        { initialState [] (fun _ => 1) with
          wire := ((List.replicate 32 (320 : Int)).map sampleBytes).flatten } = some s1
      ∧ s1.calibration.cltCalibration_values 0 = 40
      ∧ s1.calibration.cltCalibration_values 0 ≠ 23 := by
  obtain ⟨s1, h1, -, h3⟩ := receiveCalibration_temps sampleEnv
    { initialState [] (fun _ => 1) with
      wire := ((List.replicate 32 (320 : Int)).map sampleBytes).flatten }
    0 (List.replicate 32 320) [] (by decide) (by decide) (by decide) (by simp)
    (fitsInt16_replicate 320 (by unfold fitsInt16; decide)) (by simp [initialState])
  have h40 : s1.calibration.cltCalibration_values 0 = 40 := by
    have := (h3 0 (by decide)).1
    rw [getD_replicate_32 320 0 (by decide)] at this
    exact this
  exact ⟨rfl, s1, h1, h40, by rw [h40]; decide⟩

/-- **C29** (amended) Worked calibration example: with `OFFSET = 40`, ingesting the
coolant or intake-air sample `v = 320` (32.0 degrees Fahrenheit) stores
`(320 / 10 - 32) * 5 / 9 + 40 = 40`; the value 23 is what the sample `v = 0` (0.0
degrees Fahrenheit) stores, `(0 - 32) * 5 / 9 + 40` with the quotient truncated
toward zero. Stated for a table fed with 32 equal samples: every cell holds that
value. -/
theorem C29_worked_example (env : Env) (s : State) (tableID : Nat) (v : Int)
    (rest : List Nat) (htable : tableID = 0 ∨ tableID = 1) (hbits : 16 ≤ env.intBits)
    (hoff : env.CALIBRATION_TEMPERATURE_OFFSET = 40) (hv : v = 320 ∨ v = 0)
    (hin : s.rx ++ s.wire = ((List.replicate 32 v).map sampleBytes).flatten ++ rest) :
    ∃ s1, receiveCalibration env tableID s = some s1
      ∧ ∀ x, x < 32 →
          calValues (if tableID = 0 then CalTable.clt else CalTable.iat) s1.calibration x
            = (if v = 320 then 40 else 23) := by
  have htarget : calibrationTarget env tableID
      = (if tableID = 0 then CalTable.clt else CalTable.iat, 40, 10) := by
    rcases htable with h | h <;> simp [calibrationTarget, h, hoff]
  have hfit : fitsInt16 v := by
    rcases hv with h | h <;> rw [h] <;> unfold fitsInt16 <;> decide
  obtain ⟨s1, h1, -, h3⟩ := receiveCalibration_temps env s tableID (List.replicate 32 v) rest
    (by omega) hbits (by rw [htarget]; exact ⟨by norm_num, by norm_num⟩) (by simp) (fitsInt16_replicate v hfit) hin
  refine ⟨s1, h1, fun x hx => ?_⟩
  have := (h3 x hx).1
  rw [htarget, getD_replicate_32 v x hx] at this
  simp only at this
  rw [this]
  rcases hv with h | h <;> rw [h] <;> decide

/-- The coolant table fed with samples of 320 holds 40 in cell 5; the intake-air
table fed with samples of 0 holds 23 in cell 31. -/
theorem C29_worked_example_witness :
    sampleEnv.CALIBRATION_TEMPERATURE_OFFSET = 40
    ∧ (∃ s1, receiveCalibration sampleEnv 0
          { initialState [] (fun _ => 1) with
            wire := ((List.replicate 32 (320 : Int)).map sampleBytes).flatten } = some s1
        ∧ s1.calibration.cltCalibration_values 5 = 40)
    ∧ (∃ s1, receiveCalibration sampleEnv 1
          { initialState [] (fun _ => 1) with
            wire := ((List.replicate 32 (0 : Int)).map sampleBytes).flatten } = some s1
        ∧ s1.calibration.iatCalibration_values 31 = 23) := by
  refine ⟨rfl, ?_, ?_⟩
  · obtain ⟨s1, h1, h2⟩ := C29_worked_example sampleEnv
      { initialState [] (fun _ => 1) with
        wire := ((List.replicate 32 (320 : Int)).map sampleBytes).flatten }
      0 320 [] (Or.inl rfl) (by decide) rfl (Or.inl rfl) (by simp [initialState])
    exact ⟨s1, h1, h2 5 (by decide)⟩
  · obtain ⟨s1, h1, h2⟩ := C29_worked_example sampleEnv
      { initialState [] (fun _ => 1) with
        wire := ((List.replicate 32 (0 : Int)).map sampleBytes).flatten }
      1 0 [] (Or.inr rfl) (by decide) rfl (Or.inr rfl) (by simp [initialState])
    exact ⟨s1, h1, h2 31 (by decide)⟩

/-! ## Calibration table ids outside 0, 1, 2 -/

/-- **C30** (divergence from the stated contract) Invalid calibration table id: for
every `tableID` outside 0, 1, 2 the `default` arm of the `switch` points the target
at the intake-air table with offset 0 and the routine goes on: with 32 samples at
the head of the input, `receiveCalibration` consumes their 64 bytes and overwrites
the intake-air table, `values[x]` with the converted sample and `bins[x]` with
`32 x`, instead of returning without modifying a table. -/
theorem C30_invalid_table_id (env : Env) (s : State) (tableID : Nat)
    (samples : List Int) (rest : List Nat)
    (hid : tableID ≠ 0 ∧ tableID ≠ 1 ∧ tableID ≠ 2) (hbits : 16 ≤ env.intBits)
    (hlen : samples.length = 32) (hfit : ∀ v ∈ samples, fitsInt16 v)
    (hin : s.rx ++ s.wire = (samples.map sampleBytes).flatten ++ rest) :
    ∃ s1, receiveCalibration env tableID s = some s1
      ∧ s1.rx ++ s1.wire = rest
      ∧ ∀ x, x < 32 →
          s1.calibration.iatCalibration_values x
            = (storedTemperature 0 (samples.getD x 0)).toNat
          ∧ s1.calibration.iatCalibration_bins x = 32 * x := by
  have htarget : calibrationTarget env tableID = (CalTable.iat, 0, 10) := by
    simp [calibrationTarget, hid.1, hid.2.1, hid.2.2]
  obtain ⟨s1, h1, h2, h3⟩ := receiveCalibration_temps env s tableID samples rest hid.2.2 hbits
    (by rw [htarget]; exact ⟨by norm_num, by norm_num⟩) hlen hfit hin
  refine ⟨s1, h1, h2, fun x hx => ?_⟩
  have := h3 x hx
  rw [htarget] at this
  exact this

/-- Table id 3 with 32 samples of 500 (50.0 degrees Fahrenheit), from the start
state whose intake-air table is all zero: the call returns with `values[0] = 10` and
`bins[1] = 32` in the intake-air table. -/
theorem C30_invalid_table_id_witness :
    ((3 : Nat) ≠ 0 ∧ (3 : Nat) ≠ 1 ∧ (3 : Nat) ≠ 2)
    ∧ (initialState [] (fun _ => 1)).calibration.iatCalibration_values 0 = 0
    ∧ (initialState [] (fun _ => 1)).calibration.iatCalibration_bins 1 = 0
    ∧ ∃ s1, receiveCalibration sampleEnv 3
        { initialState [] (fun _ => 1) with
          wire := ((List.replicate 32 (500 : Int)).map sampleBytes).flatten } = some s1
      ∧ s1.calibration.iatCalibration_values 0 = 10
      ∧ s1.calibration.iatCalibration_bins 1 = 32 := by
  obtain ⟨s1, h1, -, h3⟩ := C30_invalid_table_id sampleEnv
    { initialState [] (fun _ => 1) with
      wire := ((List.replicate 32 (500 : Int)).map sampleBytes).flatten }
    3 (List.replicate 32 500) [] (by decide) (by decide) (by simp)
    (fitsInt16_replicate 500 (by unfold fitsInt16; decide)) (by simp [initialState])
  refine ⟨by decide, rfl, rfl, s1, h1, ?_, (h3 1 (by decide)).2⟩
  rw [(h3 0 (by decide)).1, getD_replicate_32 500 0 (by decide)]
  decide

/-! ## Length of the legacy telemetry answer -/

theorem dispatch_a (env : Env) (fuel : Nat) (s : State) (h : s.currentCommand = 97) :
    dispatch env fuel s = some (case_a s) := by
  simp [dispatch, h]

/-- A run of counted single-byte writes appends the bytes and lowers the counter by
their number. -/
theorem foldl_writeCounted (l : List Nat) : ∀ (s : State) (c : Int),
    l.foldl writeCounted (s, c)
      = ({ s with tx := s.tx ++ l.map (fun v => v % 256) }, c - (l.length : Int)) := by
  induction l with
  | nil => intro s c; simp
  | cons a l ih =>
    intro s c
    rw [List.foldl_cons]
    show List.foldl writeCounted (Serial_write s a, c - 1) l = _
    rw [ih]
    simp only [Serial_write, List.map_cons, List.length_cons, List.append_assoc,
      List.singleton_append, Nat.cast_add, Nat.cast_one]
    congr 1
    omega

/-- The record part of the legacy answer has 74 bytes for every status. -/
theorem legacyRecord_length (st : Status) : (legacyRecord st).length = 74 := by
  simp [legacyRecord]

/-- The legacy answer: the 74 record bytes and 40 filler bytes. -/
theorem sendValuesLegacy_eq (s : State) :
    sendValuesLegacy s
      = { s with tx := s.tx ++ ((legacyRecord s.currentStatus).map (fun v => v % 256)
            ++ List.replicate 40 99) } := by
  unfold sendValuesLegacy
  simp only [foldl_writeCounted, legacyRecord_length, forLoop_write_const]
  have h : ((114 : Int) - ((74 : Nat) : Int)).toNat = 40 := by decide
  rw [h]
  simp

/-- **C32** Legacy telemetry record length: for every engine status,
`sendValuesLegacy` appends exactly 114 bytes to the output, the 74 record bytes
followed by 40 times the filler value 99, and changes nothing else; and the command
`'a'` (code 97), once its two argument bytes are buffered, consumes those two bytes,
answers with exactly these 114 bytes and clears `cmdPending`. Every single-byte
`Serial.write` reports one byte written. -/
theorem C32_legacy_record_length (env : Env) (fuel : Nat) (s : State) (b0 b1 : Nat)
    (rest : List Nat) (hcmd : (readCommand s).currentCommand = 97)
    (hrx : (readCommand s).rx = b0 :: b1 :: rest) :
    (∀ t : State,
        sendValuesLegacy t
          = { t with tx := t.tx ++ ((legacyRecord t.currentStatus).map (fun v => v % 256)
                ++ List.replicate 40 99) }
        ∧ ((legacyRecord t.currentStatus).map (fun v => v % 256)
              ++ List.replicate 40 99).length = 114)
    ∧ ∃ s1, legacySerialCommand env fuel s = some s1
        ∧ s1.rx = rest ∧ s1.cmdPending = false
        ∧ s1.tx = s.tx ++ ((legacyRecord s.currentStatus).map (fun v => v % 256)
              ++ List.replicate 40 99)
        ∧ s1.tx.length = s.tx.length + 114 := by
  have hlen : ∀ st : Status, ((legacyRecord st).map (fun v => v % 256)
      ++ List.replicate 40 99).length = 114 := by
    intro st
    rw [List.length_append, List.length_map, legacyRecord_length, List.length_replicate]
  refine ⟨fun t => ⟨sendValuesLegacy_eq t, hlen _⟩, ?_⟩
  obtain ⟨k1, -, -, -, -, -, k7⟩ := readCommand_keeps s
  have hcase : case_a (readCommand s)
      = { sendValuesLegacy { readCommand s with cmdPending := true, rx := rest } with
          cmdPending := false } := by
    simp [case_a, Serial_available, Serial_read, hrx]
  have htx : (case_a (readCommand s)).tx
      = s.tx ++ ((legacyRecord s.currentStatus).map (fun v => v % 256)
          ++ List.replicate 40 99) := by
    rw [hcase, sendValuesLegacy_eq]
    show (readCommand s).tx ++ ((legacyRecord (readCommand s).currentStatus).map _ ++ _) = _
    rw [k1, k7]
  refine ⟨case_a (readCommand s), ?_, ?_, ?_, htx, ?_⟩
  · rw [legacySerialCommand, dispatch_a env fuel _ hcmd]
  · rw [hcase, sendValuesLegacy_eq]
  · rw [hcase]
  · rw [htx, List.length_append, hlen]

/-- The command `'a'` with two argument bytes from the start state: the answer has
114 bytes and ends with the filler. -/
theorem C32_legacy_record_length_witness :
    (readCommand (initialState [97, 0, 6] (fun _ => 1))).currentCommand = 97
    ∧ ∃ s1, legacySerialCommand sampleEnv 1 (initialState [97, 0, 6] (fun _ => 1)) = some s1
      ∧ s1.rx = [] ∧ s1.cmdPending = false ∧ s1.tx.length = 114
      ∧ s1.tx.drop 74 = List.replicate 40 99 := by
  obtain ⟨-, s1, h1, h2, h3, h4, h5⟩ := C32_legacy_record_length sampleEnv 1
    (initialState [97, 0, 6] (fun _ => 1)) 0 6 [] rfl rfl
  refine ⟨rfl, s1, h1, h2, h3, by rw [h5]; rfl, ?_⟩
  rw [h4]
  rfl

/-! ## Ownership of a bulk write -/

/-- A new `'M'` request with fewer than seven bytes buffered is not started. -/
theorem case_M_short (t : State) (hch : t.chunkPending = false) (hlen : t.rx.length < 7) :
    case_M t = { t with cmdPending := true } := by
  have h7 : ¬ 7 ≤ t.rx.length := by omega
  simp [case_M, hch, Serial_available, h7]

/-- A new `'M'` request with the length field 0 and seven bytes buffered. -/
theorem case_M_zero (t : State) (x0 page offLo offHi b7 : Nat) (rest : List Nat)
    (hch : t.chunkPending = false)
    (hrx : t.rx = x0 :: page :: offLo :: offHi :: 0 :: 0 :: b7 :: rest)
    (hb : page < 256 ∧ offLo < 256 ∧ offHi < 256) :
    case_M t
      = { t with
          rx := b7 :: rest
          currentPage := page
          valueOffset := word offHi offLo
          chunkSize := 0
          chunkComplete := 0
          chunkPending := false
          cmdPending := false } := by
  obtain ⟨h1, h2, h3⟩ := hb
  have hw : word 0 0 = 0 := rfl
  have hz : toByte 0 = 0 := by decide
  simp [case_M, hch, Serial_available, Serial_read, hrx, toByte_natCast, h1, h2, h3, hz, hw,
    chunkLoop]

/-- An idle session reads the next buffered byte as its command. -/
theorem readCommand_next (t : State) (b : Nat) (rest : List Nat)
    (h1 : t.cmdPending = false) (h2 : t.legacySerial = false) (hrx : t.rx = b :: rest)
    (hb : b < 256) :
    (readCommand t).currentCommand = b ∧ (readCommand t).rx = rest := by
  simp [readCommand, h1, h2, hrx, Serial_read, toByte_natCast b hb]

/-- **C34** Zero-length bulk write: a new `'M'` request (code 77, no chunk pending)
whose length field is 0 is not started while only its six header bytes are
buffered: the call leaves them in the buffer, performs no page write and returns
with `cmdPending` true. Once a seventh byte is buffered the handler consumes
exactly the six header bytes, performs no page write, returns with `cmdPending` and
`chunkPending` false and leaves the seventh byte in the buffer, where the next call
reads it as its command byte. -/
theorem C34_zero_length_bulk_write (env : Env) (fuel : Nat) (s : State)
    (x0 page offLo offHi b7 : Nat) (rest : List Nat)
    (hcmd : (readCommand s).currentCommand = 77) (hch : s.chunkPending = false)
    (hleg : s.legacySerial = false)
    (hb : page < 256 ∧ offLo < 256 ∧ offHi < 256 ∧ b7 < 256) :
    ((readCommand s).rx = [x0, page, offLo, offHi, 0, 0] →
        ∃ s1, legacySerialCommand env fuel s = some s1
          ∧ s1.rx = [x0, page, offLo, offHi, 0, 0] ∧ s1.effects = s.effects
          ∧ s1.cmdPending = true ∧ s1.chunkPending = false)
    ∧ ((readCommand s).rx = x0 :: page :: offLo :: offHi :: 0 :: 0 :: b7 :: rest →
        ∃ s1, legacySerialCommand env fuel s = some s1
          ∧ s1.rx = b7 :: rest ∧ s1.effects = s.effects
          ∧ s1.cmdPending = false ∧ s1.chunkPending = false
          ∧ (readCommand s1).currentCommand = b7 ∧ (readCommand s1).rx = rest) := by
  obtain ⟨-, k2, -⟩ := readCommand_keeps s
  obtain ⟨c1, -, -⟩ := readCommand_chunk s
  obtain ⟨r1, -⟩ := readCommand_session s
  have hch' : (readCommand s).chunkPending = false := by rw [c1, hch]
  have hcall : legacySerialCommand env fuel s = some (case_M (readCommand s)) := by
    rw [legacySerialCommand, dispatch_M env fuel _ hcmd]
  constructor
  · intro hrx
    refine ⟨_, hcall, ?_⟩
    rw [case_M_short (readCommand s) hch' (by rw [hrx]; simp)]
    exact ⟨hrx, k2, rfl, hch'⟩
  · intro hrx
    refine ⟨_, hcall, ?_⟩
    rw [case_M_zero (readCommand s) x0 page offLo offHi b7 rest hch' hrx
      ⟨hb.1, hb.2.1, hb.2.2.1⟩]
    have hl : (readCommand s).legacySerial = false := by rw [r1, hleg]
    exact ⟨rfl, k2, rfl, rfl, readCommand_next _ b7 rest rfl hl rfl hb.2.2.2⟩

/-- The request `'M'` for 0 bytes at offset 0 of page 4: with six bytes after the
command nothing happens; with the byte 81 (the code of `'Q'`) behind them the six
are consumed, nothing is stored, and the next call handles `'Q'`. -/
theorem C34_zero_length_bulk_write_witness :
    (readCommand (initialState [77, 0, 4, 0, 0, 0, 0, 81] (fun _ => 1))).currentCommand = 77
    ∧ (∃ s1, legacySerialCommand sampleEnv 1 (initialState [77, 0, 4, 0, 0, 0, 0] (fun _ => 1))
          = some s1
        ∧ s1.rx = [0, 4, 0, 0, 0, 0] ∧ s1.cmdPending = true)
    ∧ ∃ s1, legacySerialCommand sampleEnv 1 (initialState [77, 0, 4, 0, 0, 0, 0, 81] (fun _ => 1))
          = some s1
        ∧ s1.rx = [81] ∧ s1.effects = [] ∧ s1.cmdPending = false ∧ s1.chunkPending = false
        ∧ (readCommand s1).currentCommand = 81 := by
  refine ⟨rfl, ?_, ?_⟩
  · obtain ⟨s1, h1, h2, -, h4, -⟩ := (C34_zero_length_bulk_write sampleEnv 1
      (initialState [77, 0, 4, 0, 0, 0, 0] (fun _ => 1)) 0 4 0 0 0 [] rfl rfl rfl
      (by decide)).1 rfl
    exact ⟨s1, h1, h2, h4⟩
  · obtain ⟨s1, h1, h2, h3, h4, h5, h6, -⟩ := (C34_zero_length_bulk_write sampleEnv 1
      (initialState [77, 0, 4, 0, 0, 0, 0, 81] (fun _ => 1)) 0 4 0 0 81 [] rfl rfl rfl
      (by decide)).2 rfl
    exact ⟨s1, h1, h2, h3, h4, h5, h6⟩

/-! ## Raw-store dump and load -/

/-- The spin for `k` bytes never ends when fewer than `k` bytes are due. -/
theorem waitBytes_none (k : Nat) : ∀ (wire rx : List Nat), (rx ++ wire).length < k →
    waitBytes k rx wire = none := by
  intro wire
  induction wire with
  | nil =>
    intro rx h
    have : ¬ k ≤ rx.length := by simpa using h
    simp [waitBytes, this]
  | cons b w ih =>
    intro rx h
    have h1 : ¬ k ≤ rx.length := by
      simp only [List.length_append, List.length_cons] at h
      omega
    rw [waitBytes, if_neg h1]
    exact ih (rx ++ [b]) (by simpa using h)

theorem Serial_wait_none (k : Nat) (s : State) (h : (s.rx ++ s.wire).length < k) :
    Serial_wait k s = none := by
  simp [Serial_wait, waitBytes_none k s.wire s.rx h]

/-- The store loop of `'g'` waits for three bytes before each single read, so it
never ends when fewer than `n + 2` bytes are due for its `n` reads. -/
theorem loadEEPROMLoop_starves : ∀ (n x : Nat) (s : State), 1 ≤ n →
    (s.rx ++ s.wire).length < n + 2 → loadEEPROMLoop n x s = none := by
  intro n
  induction n with
  | zero => intro x s h; omega
  | succ n ih =>
    intro x s _ hlen
    by_cases h3 : (s.rx ++ s.wire).length < 3
    · rw [loadEEPROMLoop, Serial_wait_none 3 s h3]
    · obtain ⟨w, hw1, hw2, hw3, -⟩ := Serial_wait_some 3 s (by omega)
      rw [loadEEPROMLoop, hw1]
      apply ih
      · omega
      · show ((Serial_read w).2.rx ++ (Serial_read w).2.wire).length < n + 2
        rw [Serial_read_snd]
        have : (w.rx.tail ++ w.wire).length + 1 = (s.rx ++ s.wire).length := by
          rw [← hw2]
          simp only [List.length_append, List.length_tail]
          omega
        show (w.rx.tail ++ w.wire).length < n + 2
        omega

/-- The store loop of `'g'` when its `n` bytes and at least two more are due: byte
`i` goes to raw address `x + i`. -/
theorem loadEEPROMLoop_spec : ∀ (n x : Nat) (s : State) (bs rest : List Nat),
    bs.length = n → (∀ b ∈ bs, b < 256) → 2 ≤ rest.length →
    s.rx ++ s.wire = bs ++ rest →
    ∃ s1, loadEEPROMLoop n x s = some s1
      ∧ s1.rx ++ s1.wire = rest
      ∧ s1.effects = s.effects
          ++ (List.range n).map (fun i => Effect.EEPROMWriteRaw (x + i) (bs.getD i 0))
      ∧ s1.tx = s.tx ∧ s1.cmdPending = s.cmdPending := by
  intro n
  induction n with
  | zero =>
    intro x s bs rest hlen _ _ hin
    have : bs = [] := List.eq_nil_of_length_eq_zero hlen
    subst this
    exact ⟨s, rfl, by simpa using hin, by simp, rfl, rfl⟩
  | succ n ih =>
    intro x s bs rest hlen hb hrest hin
    match bs, hlen with
    | b :: bs', hlen =>
      have hlen' : bs'.length = n := by simpa using hlen
      obtain ⟨w, hw1, hw2, hw3, hw4⟩ := Serial_wait_some 3 s (by
        rw [hin]; simp only [List.length_append, List.length_cons]; omega)
      obtain ⟨r, hr⟩ : ∃ r, w.rx = b :: r := by
        cases hwr : w.rx with
        | nil => rw [hwr] at hw3; simp at hw3
        | cons a l =>
          rw [hwr, hin] at hw2
          simp at hw2
          exact ⟨l, by rw [hw2.1]⟩
      have hrest' : r ++ w.wire = bs' ++ rest := by
        rw [hr, hin] at hw2
        simpa using hw2
      have hread : Serial_read w = ((b : Int), { w with rx := r }) := Serial_read_cons w _ _ hr
      obtain ⟨s1, h1, h2, h3, h4, h5⟩ := ih (x + 1)
        { w with rx := r, effects := w.effects ++ [Effect.EEPROMWriteRaw x b] }
        bs' rest hlen' (fun c hc => hb c (by simp [hc])) hrest hrest'
      refine ⟨s1, ?_, h2, ?_, ?_, ?_⟩
      · rw [loadEEPROMLoop, hw1]
        simp only [hread, toByte_natCast b (hb b (by simp))]
        exact h1
      · rw [h3, List.range_succ_eq_map]
        have he : w.effects = s.effects := by rw [hw4]
        simp only [he, List.map_cons, List.map_map, List.append_assoc, List.singleton_append,
          Nat.add_zero, List.getD_cons_zero]
        congr 2
        apply List.map_congr_left
        intro i _
        simp only [Function.comp, List.getD_cons_succ]
        rw [show x + 1 + i = x + (i + 1) by omega]
      · rw [h4, hw4]
      · rw [h5, hw4]

/-- The dump loop of `'G'` over `n` raw addresses from `x`. -/
theorem forLoop_readRaw (env : Env) (n : Nat) : ∀ (x : Nat) (s : State),
    forLoop (fun x t => Serial_write t (env.EEPROMReadRaw t.effects x)) n x s
      = { s with tx := s.tx
            ++ (List.range n).map (fun i => env.EEPROMReadRaw s.effects (x + i) % 256) } := by
  induction n with
  | zero => intro x s; simp [forLoop]
  | succ n ih =>
    intro x s
    rw [forLoop, ih, List.range_succ_eq_map]
    simp only [Serial_write, List.map_cons, List.map_map, Nat.add_zero, List.append_assoc,
      List.singleton_append]
    congr 3
    apply List.map_congr_left
    intro i _
    simp only [Function.comp]
    rw [show x + 1 + i = x + (i + 1) by omega]

/-- What `'G'` writes: the dump stream of the store content. -/
theorem case_G_eq (env : Env) (s : State) :
    case_G env s = { s with tx := s.tx ++ dumpStream env s.effects, cmdPending := false } := by
  unfold case_G
  simp only [forLoop_readRaw]
  simp [Serial_write, Serial_print, dumpStream, lowByte, highByte]

/-- The size check of `'g'` on a stream that starts with the size as `'G'` writes
it, when the first byte read is the low byte: the store loop is entered with the
bytes behind the two size bytes due. -/
theorem case_g_accept (env : Env) (s : State) (tail : List Nat)
    (hord : env.argsRightToLeft = true) (hS : env.getEEPROMSize < 65536)
    (htail : 1 ≤ tail.length)
    (hin : s.rx ++ s.wire
      = lowByte env.getEEPROMSize :: highByte env.getEEPROMSize :: tail) :
    ∃ q, case_g env s
        = (loadEEPROMLoop env.getEEPROMSize 0 q).map (fun t => { t with cmdPending := false })
      ∧ q.rx ++ q.wire = tail ∧ q.effects = s.effects ∧ q.tx = s.tx := by
  obtain ⟨w, hw1, hw2, hw3, hw4⟩ := Serial_wait_some 3 s (by
    rw [hin]; simp only [List.length_cons]; omega)
  obtain ⟨r, hr⟩ : ∃ r, w.rx = lowByte env.getEEPROMSize :: highByte env.getEEPROMSize :: r := by
    cases hwr : w.rx with
    | nil => rw [hwr] at hw3; simp at hw3
    | cons a l =>
      cases l with
      | nil => rw [hwr] at hw3; simp at hw3
      | cons a1 r =>
        rw [hwr, hin] at hw2
        simp at hw2
        exact ⟨r, by rw [hw2.1, hw2.2.1]⟩
  have hrest : r ++ w.wire = tail := by
    rw [hr, hin] at hw2
    simpa using hw2
  have hlo : lowByte env.getEEPROMSize < 256 := by unfold lowByte; omega
  have hhi : highByte env.getEEPROMSize < 256 := by unfold highByte; omega
  have hword : word (highByte env.getEEPROMSize) (lowByte env.getEEPROMSize)
      = env.getEEPROMSize := by
    unfold word highByte lowByte
    omega
  have hread0 : Serial_read w
      = ((lowByte env.getEEPROMSize : Int),
          { w with rx := highByte env.getEEPROMSize :: r }) :=
    Serial_read_cons w _ _ hr
  have hread1 : Serial_read { w with rx := highByte env.getEEPROMSize :: r }
      = ((highByte env.getEEPROMSize : Int), { w with rx := r }) := by
    simp [Serial_read]
  refine ⟨{ w with rx := r }, ?_, hrest, by rw [hw4], by rw [hw4]⟩
  rw [case_g, hw1]
  simp only [hread0, hread1, toByte_natCast _ hlo, toByte_natCast _ hhi, hord, if_true, hword]
  simp

theorem dump_take_getD (f : Nat → Nat) (S i : Nat) (hi : i < S) :
    ((44 :: (List.range S).map f).take S).getD i 0 = (if i = 0 then 44 else f (i - 1)) := by
  rw [List.getD_eq_getElem?_getD, List.getElem?_take_of_lt hi]
  cases i with
  | zero => simp
  | succ j =>
    have hj : j < S := by omega
    simp [List.getElem?_map, List.getElem?_range hj]

theorem dump_drop (f : Nat → Nat) (S : Nat) (hS : 1 ≤ S) :
    (44 :: (List.range S).map f).drop S = [f (S - 1)] := by
  obtain ⟨n, rfl⟩ : ∃ n, S = n + 1 := ⟨S - 1, by omega⟩
  rw [List.drop_succ_cons, List.range_succ, List.map_append, List.drop_left']
  · simp
  · simp

/-- **C31** (divergence from the stated contract) Raw-store dump and load: `'G'`
writes the two size bytes, a comma and the `S = getEEPROMSize()` raw bytes, but
`'g'` (code 103) does not take the comma out of the stream and waits for three
buffered bytes before every single read. With the first size byte read as the low
byte and `1 ≤ S`: fed exactly the stream of `'G'`, `'g'` never returns; fed that
stream with at least one more byte behind it, `'g'` returns having stored the comma
at raw address 0 and byte `i - 1` of the dump at address `i`, with the last byte of
the dump still unread. -/
theorem C31_dump_load_round_trip (env : Env) (fuel : Nat) (s0 t : State) (extra : List Nat)
    (hord : env.argsRightToLeft = true) (hS1 : 1 ≤ env.getEEPROMSize)
    (hS : env.getEEPROMSize < 65536) (hcmd : (readCommand t).currentCommand = 103) :
    case_G env s0 = { s0 with tx := s0.tx ++ dumpStream env s0.effects, cmdPending := false }
    ∧ ((readCommand t).rx ++ (readCommand t).wire = dumpStream env s0.effects →
        legacySerialCommand env fuel t = none)
    ∧ (extra ≠ [] →
        (readCommand t).rx ++ (readCommand t).wire = dumpStream env s0.effects ++ extra →
        ∃ s1, legacySerialCommand env fuel t = some s1
          ∧ s1.effects = t.effects ++ (List.range env.getEEPROMSize).map (fun i =>
              Effect.EEPROMWriteRaw i
                (if i = 0 then 44 else env.EEPROMReadRaw s0.effects (i - 1) % 256))
          ∧ s1.rx ++ s1.wire
              = env.EEPROMReadRaw s0.effects (env.getEEPROMSize - 1) % 256 :: extra) := by
  obtain ⟨-, k2, -⟩ := readCommand_keeps t
  have hcall : legacySerialCommand env fuel t = case_g env (readCommand t) := by
    rw [legacySerialCommand, dispatch_g env fuel _ hcmd]
  refine ⟨case_G_eq env s0, ?_, ?_⟩
  · intro hin
    obtain ⟨q, hq, q1, -, -⟩ := case_g_accept env (readCommand t)
      (44 :: (List.range env.getEEPROMSize).map (fun x => env.EEPROMReadRaw s0.effects x % 256))
      hord hS (by simp) (by rw [hin]; rfl)
    rw [hcall, hq, loadEEPROMLoop_starves env.getEEPROMSize 0 q hS1 (by rw [q1]; simp)]
    rfl
  · intro hex hin
    obtain ⟨q, hq, q1, q2, -⟩ := case_g_accept env (readCommand t)
      ((44 :: (List.range env.getEEPROMSize).map (fun x => env.EEPROMReadRaw s0.effects x % 256))
        ++ extra)
      hord hS (by simp) (by rw [hin]; rfl)
    have hex1 : 1 ≤ extra.length := by
      cases extra with
      | nil => exact absurd rfl hex
      | cons a l => simp
    obtain ⟨s1, h1, h2, h3, -, -⟩ := loadEEPROMLoop_spec env.getEEPROMSize 0 q
      ((44 :: (List.range env.getEEPROMSize).map
        (fun x => env.EEPROMReadRaw s0.effects x % 256)).take env.getEEPROMSize)
      ((44 :: (List.range env.getEEPROMSize).map
        (fun x => env.EEPROMReadRaw s0.effects x % 256)).drop env.getEEPROMSize ++ extra)
      (by simp)
      (by
        intro b hb
        have hb' := List.mem_of_mem_take hb
        simp only [List.mem_cons, List.mem_map] at hb'
        rcases hb' with h | ⟨a, -, h⟩
        · omega
        · omega)
      (by rw [dump_drop _ _ hS1]; simp only [List.length_append, List.length_cons,
          List.length_nil]; omega)
      (by rw [q1, ← List.append_assoc, List.take_append_drop])
    refine ⟨{ s1 with cmdPending := false }, by rw [hcall, hq, h1]; rfl, ?_, ?_⟩
    · show s1.effects = _
      rw [h3, q2, k2]
      congr 1
      apply List.map_congr_left
      intro i hi
      rw [Nat.zero_add, dump_take_getD _ _ i (List.mem_range.mp hi)]
    · show s1.rx ++ s1.wire = _
      rw [h2, dump_drop _ _ hS1]
      rfl

/-- The sample store of 4 bytes 0, 1, 2, 3: the stream of `'G'` is 4, 0, 44, 0, 1,
2, 3; fed exactly this stream `'g'` never returns, and with the byte 9 behind it
`'g'` stores 44, 0, 1, 2 at the addresses 0 to 3 and leaves 3 and 9 unread. -/
theorem C31_dump_load_round_trip_witness :
    sampleEnv.argsRightToLeft = true ∧ 1 ≤ sampleEnv.getEEPROMSize
    ∧ (case_G sampleEnv (initialState [] (fun _ => 1))).tx = [4, 0, 44, 0, 1, 2, 3]
    ∧ legacySerialCommand sampleEnv 1
        { initialState [103] (fun _ => 1) with wire := [4, 0, 44, 0, 1, 2, 3] } = none
    ∧ ∃ s1, legacySerialCommand sampleEnv 1
          { initialState [103] (fun _ => 1) with wire := [4, 0, 44, 0, 1, 2, 3, 9] } = some s1
        ∧ s1.effects = [Effect.EEPROMWriteRaw 0 44, Effect.EEPROMWriteRaw 1 0,
            Effect.EEPROMWriteRaw 2 1, Effect.EEPROMWriteRaw 3 2]
        ∧ s1.rx ++ s1.wire = [3, 9] := by
  have hA := C31_dump_load_round_trip sampleEnv 1 (initialState [] (fun _ => 1))
    { initialState [103] (fun _ => 1) with wire := [4, 0, 44, 0, 1, 2, 3] } []
    rfl (by decide) (by decide) rfl
  have hB := C31_dump_load_round_trip sampleEnv 1 (initialState [] (fun _ => 1))
    { initialState [103] (fun _ => 1) with wire := [4, 0, 44, 0, 1, 2, 3, 9] } [9]
    rfl (by decide) (by decide) rfl
  obtain ⟨s1, h1, h2, h3⟩ := hB.2.2 (by simp) rfl
  refine ⟨rfl, by decide, ?_, hA.2.1 rfl, s1, h1, ?_, ?_⟩
  · rw [hA.1]; rfl
  · rw [h2]; rfl
  · rw [h3]; rfl

/-! ## Idle sessions across commands -/

theorem KeepsIdle.refl_idle (s : State) : KeepsIdle s s := fun h => h

theorem KeepsIdle.trans_idle {a b c : State} (h1 : KeepsIdle a b) (h2 : KeepsIdle b c) :
    KeepsIdle a c :=
  fun h => h2 (h1 h)

/-- A state that agrees with `s` on `cmdPending`. -/
theorem KeepsIdle.of_eq_idle {s s1 : State} (h1 : s1.cmdPending = s.cmdPending) :
    KeepsIdle s s1 :=
  fun h => h1.trans h

/-- A state in which `cmdPending` has been cleared. -/
theorem KeepsIdle.of_false_idle {s s1 : State} (h1 : s1.cmdPending = false) : KeepsIdle s s1 :=
  fun _ => h1

/-- The flag `cmdPending` after a loop of single-byte writes. -/
theorem forLoop_write_icore (g : Nat → State → Nat) (n x : Nat) (s : State) :
    (forLoop (fun i t => Serial_write t (g i t)) n x s).cmdPending = s.cmdPending := by
  obtain ⟨out, h⟩ := forLoop_tx_only (fun i t => Serial_write t (g i t))
    (fun i t => ⟨[g i t % 256], rfl⟩) n x s
  rw [h]

theorem Serial_write_icore (s : State) (v : Nat) :
    (Serial_write s v).cmdPending = s.cmdPending :=
  rfl

theorem Serial_print_icore (s : State) (text : String) :
    (Serial_print s text).cmdPending = s.cmdPending :=
  rfl

theorem Serial_println_icore (s : State) (text : String) :
    (Serial_println s text).cmdPending = s.cmdPending :=
  rfl

/-- The flag `cmdPending` after a loop that prints pairs. -/
theorem forLoop_printPair_icore (f g : Nat → State → Nat) (n x : Nat) (s : State) :
    (forLoop (fun i t => printPair (f i t) (g i t) t) n x s).cmdPending = s.cmdPending := by
  obtain ⟨out, h⟩ := forLoop_tx_only (fun i t => printPair (f i t) (g i t) t)
    (fun i t => ⟨textBytes (Nat.repr (f i t)) ++ (textBytes ", "
        ++ (textBytes (Nat.repr (g i t)) ++ [13, 10])), by
      simp only [printPair, Serial_printlnNum, Serial_println, Serial_print, Serial_printNum,
        List.append_assoc, textBytes]⟩) n x s
  rw [h]

/-- A state that agrees with `s` on the selected page and its classification. -/

theorem Serial_write_idle (s : State) (v : Nat) : KeepsIdle s (Serial_write s v) :=
  KeepsIdle.of_eq_idle rfl

theorem Serial_print_idle (s : State) (t : String) : KeepsIdle s (Serial_print s t) :=
  KeepsIdle.of_eq_idle rfl

theorem Serial_println_idle (s : State) (t : String) : KeepsIdle s (Serial_println s t) :=
  KeepsIdle.of_eq_idle rfl

theorem Serial_read_idle (s : State) : KeepsIdle s (Serial_read s).2 := by
  rw [Serial_read_snd]
  exact KeepsIdle.of_eq_idle rfl

theorem Serial_wait_idle (k : Nat) (s s1 : State) (h : Serial_wait k s = some s1) :
    KeepsIdle s s1 := by
  unfold Serial_wait at h
  cases hw : waitBytes k s.rx s.wire with
  | none => rw [hw] at h; simp at h
  | some p =>
    rw [hw] at h
    simp only [Option.map_some', Option.some.injEq] at h
    rw [← h]
    exact KeepsIdle.of_eq_idle rfl

theorem forLoop_idle (body : Nat → State → State) (h : ∀ x s, KeepsIdle s (body x s)) :
    ∀ (n x : Nat) (s : State), KeepsIdle s (forLoop body n x s) := by
  intro n
  induction n with
  | zero => intro x s; exact KeepsIdle.refl_idle s
  | succ n ih => intro x s; exact (h x s).trans_idle (ih (x + 1) (body x s))

theorem foldl_idle {α : Type} (f : State → α → State) (h : ∀ s a, KeepsIdle s (f s a)) :
    ∀ (l : List α) (s : State), KeepsIdle s (l.foldl f s) := by
  intro l
  induction l with
  | nil => intro s; exact KeepsIdle.refl_idle s
  | cons a l ih => intro s; exact (h s a).trans_idle (ih (f s a))

theorem sendValuesHeader_idle (env : Env) (cmd portNum : Nat) (s : State) :
    KeepsIdle s (sendValuesHeader env cmd portNum s) := by
  unfold sendValuesHeader
  split_ifs <;> exact KeepsIdle.of_eq_idle rfl

theorem sendValuesLoop_idle (env : Env) (offset packetLength portNum : Nat) :
    ∀ (fuel x : Nat) (s s1 : State),
    sendValuesLoop env offset packetLength portNum fuel x s = some s1 → KeepsIdle s s1 := by
  intro fuel
  induction fuel with
  | zero => intro x s s1 h; simp [sendValuesLoop] at h
  | succ fuel ih =>
    intro x s s1 h
    rw [sendValuesLoop] at h
    by_cases h1 : x < packetLength
    · rw [if_pos h1] at h
      obtain ⟨sw, hsw, hw⟩ : ∃ sw, sw = (if portNum = 0 then
          Serial_write s (env.getTSLogEntry s.currentStatus ((offset + x) % 65536))
          else if portNum = 3 ∧ env.CANSerial_AVAILABLE = true then
            { s with canTx := s.canTx ++
              [env.getTSLogEntry s.currentStatus ((offset + x) % 65536) % 256] }
          else s) ∧ KeepsIdle s sw := by
        refine ⟨_, rfl, ?_⟩
        split_ifs <;> exact KeepsIdle.of_eq_idle rfl
      simp only [← hsw] at h
      by_cases h2 : (Serial_availableForWrite sw).1 < 1
      · rw [if_pos h2] at h
        simp only [Option.some.injEq] at h
        rw [← h]
        exact hw.trans_idle (KeepsIdle.of_eq_idle rfl)
      · rw [if_neg h2] at h
        have hq : KeepsIdle sw (Serial_availableForWrite sw).2 := KeepsIdle.of_eq_idle rfl
        exact (hw.trans_idle hq).trans_idle (ih _ _ _ h)
    · rw [if_neg h1] at h
      simp only [Option.some.injEq] at h
      rw [← h]
      exact KeepsIdle.of_eq_idle rfl

theorem sendValues_idle (env : Env) (fuel offset packetLength cmd portNum : Nat)
    (s s1 : State) (h : sendValues env fuel offset packetLength cmd portNum s = some s1) :
    KeepsIdle s s1 :=
  (sendValuesHeader_idle env cmd portNum s).trans_idle (sendValuesLoop_idle env _ _ _ _ _ _ _ h)

theorem send_entity_idle (env : Env) (e : Entity) (s : State) : KeepsIdle s (send_entity env e s) := by
  unfold send_entity
  cases e.type
  · exact KeepsIdle.of_eq_idle rfl
  · exact ((foldl_idle Serial_writeBuf (fun _ _ => KeepsIdle.of_eq_idle rfl) _ _).trans_idle
      (foldl_idle _ (fun t v => Serial_write_idle t _) _ _)).trans_idle
      (foldl_idle _ (fun t v => Serial_write_idle t _) _ _)
  · exact KeepsIdle.refl_idle s
  · exact KeepsIdle.refl_idle s

theorem sendPageLoop_idle (env : Env) : ∀ (fuel : Nat) (e : Entity) (s s1 : State),
    sendPageLoop env fuel e s = some s1 → KeepsIdle s s1 := by
  intro fuel
  induction fuel with
  | zero => intro e s s1 h; simp [sendPageLoop] at h
  | succ fuel ih =>
    intro e s s1 h
    rw [sendPageLoop] at h
    by_cases he : e.type = EntityType.End
    · rw [if_pos he] at h
      simp only [Option.some.injEq] at h
      rw [← h]
      exact KeepsIdle.refl_idle s
    · rw [if_neg he] at h
      exact (send_entity_idle env e s).trans_idle (ih _ _ _ h)

theorem sendToothLog_legacy_idle (env : Env) (startOffset : Nat) (s : State) :
    KeepsIdle s (sendToothLog_legacy env startOffset s) := by
  unfold sendToothLog_legacy
  split_ifs
  · exact KeepsIdle.of_false_idle rfl
  · exact KeepsIdle.of_false_idle rfl

theorem writeCalibration_idle (s : State) : KeepsIdle s (writeCalibration s) :=
  KeepsIdle.of_eq_idle rfl

theorem receiveO2Loop_idle (t : CalTable) : ∀ (n x : Nat) (s s1 : State),
    receiveO2Loop t n x s = some s1 → KeepsIdle s s1 := by
  intro n
  induction n with
  | zero =>
    intro x s s1 h
    simp only [receiveO2Loop, Option.some.injEq] at h
    rw [← h]
    exact KeepsIdle.refl_idle s
  | succ n ih =>
    intro x s s1 h
    rw [receiveO2Loop] at h
    cases hw : Serial_wait 1 s with
    | none => rw [hw] at h; simp at h
    | some w =>
      rw [hw] at h
      simp only at h
      refine ((Serial_wait_idle 1 s w hw).trans_idle ?_).trans_idle (ih _ _ _ h)
      split_ifs
      · exact (Serial_read_idle w).trans_idle (KeepsIdle.of_eq_idle rfl)
      · exact Serial_read_idle w

theorem receiveTempLoop_idle (env : Env) (t : CalTable) (OFFSET DIVISION_FACTOR : Int) :
    ∀ (n x : Nat) (s s1 : State),
    receiveTempLoop env t OFFSET DIVISION_FACTOR n x s = some s1 → KeepsIdle s s1 := by
  intro n
  induction n with
  | zero =>
    intro x s s1 h
    simp only [receiveTempLoop, Option.some.injEq] at h
    rw [← h]
    exact KeepsIdle.refl_idle s
  | succ n ih =>
    intro x s s1 h
    rw [receiveTempLoop] at h
    cases hw : Serial_wait 2 s with
    | none => rw [hw] at h; simp at h
    | some w =>
      rw [hw] at h
      simp only at h
      refine ((Serial_wait_idle 2 s w hw).trans_idle ?_).trans_idle (ih _ _ _ h)
      exact ((Serial_read_idle w).trans_idle (Serial_read_idle _)).trans_idle
        (KeepsIdle.of_eq_idle rfl)

theorem receiveCalibration_idle (env : Env) (tableID : Nat) (s s1 : State)
    (h : receiveCalibration env tableID s = some s1) : KeepsIdle s s1 := by
  unfold receiveCalibration at h
  simp only at h
  split_ifs at h
  · cases hl : receiveO2Loop (calibrationTarget env tableID).1 1024 0 s with
    | none => rw [hl] at h; simp at h
    | some w =>
      rw [hl] at h
      simp only [Option.map_some', Option.some.injEq] at h
      rw [← h]
      exact (receiveO2Loop_idle _ _ _ _ _ hl).trans_idle (writeCalibration_idle w)
  · cases hl : receiveTempLoop env (calibrationTarget env tableID).1
        (calibrationTarget env tableID).2.1 (calibrationTarget env tableID).2.2 32 0 s with
    | none => rw [hl] at h; simp at h
    | some w =>
      rw [hl] at h
      simp only [Option.map_some', Option.some.injEq] at h
      rw [← h]
      exact (receiveTempLoop_idle _ _ _ _ _ _ _ _ hl).trans_idle (writeCalibration_idle w)

theorem loadEEPROMLoop_idle : ∀ (n x : Nat) (s s1 : State),
    loadEEPROMLoop n x s = some s1 → KeepsIdle s s1 := by
  intro n
  induction n with
  | zero =>
    intro x s s1 h
    simp only [loadEEPROMLoop, Option.some.injEq] at h
    rw [← h]
    exact KeepsIdle.refl_idle s
  | succ n ih =>
    intro x s s1 h
    rw [loadEEPROMLoop] at h
    cases hw : Serial_wait 3 s with
    | none => rw [hw] at h; simp at h
    | some w =>
      rw [hw] at h
      simp only at h
      refine ((Serial_wait_idle 3 s w hw).trans_idle ?_).trans_idle (ih _ _ _ h)
      exact (Serial_read_idle w).trans_idle (KeepsIdle.of_eq_idle rfl)

theorem case_c_idle (s : State) : KeepsIdle s (case_c s) := by
  simp [KeepsIdle, case_c, Serial_write_icore]

theorem case_G_idle (env : Env) (s : State) : KeepsIdle s (case_G env s) := by
  unfold KeepsIdle case_G
  simp [forLoop_write_icore, Serial_print_icore, Serial_write_icore]

theorem case_H_idle (env : Env) (s : State) : KeepsIdle s (case_H env s) := by
  simp [KeepsIdle, case_H, Serial_write_icore]

theorem case_J_idle (env : Env) (s : State) : KeepsIdle s (case_J env s) := by
  simp [KeepsIdle, case_J, Serial_write_icore]

theorem case_L_idle (env : Env) (s : State) : KeepsIdle s (case_L env s) := by
  unfold KeepsIdle case_L
  split_ifs <;> simp

theorem case_m_idle (env : Env) (s : State) : KeepsIdle s (case_m env s) := by
  simp [KeepsIdle, case_m, Serial_write_icore]

theorem case_S_idle (s : State) : KeepsIdle s (case_S s) := by
  simp [KeepsIdle, case_S, Serial_print_icore]

theorem case_Z_idle (env : Env) (s : State) : KeepsIdle s (case_Z env s) := by
  unfold KeepsIdle case_Z
  split_ifs
  · simp
  · simp [forLoop_printPair_icore, Serial_println_icore]

theorem case_help_idle (env : Env) (s : State) : KeepsIdle s (case_help env s) := by
  unfold KeepsIdle case_help
  split_ifs <;> simp [Serial_println_icore]

theorem case_default_idle (s : State) : KeepsIdle s (case_default s) := by
  simp [KeepsIdle, case_default, Serial_println_icore]

theorem case_g_idle (env : Env) (s s1 : State) (h : case_g env s = some s1) : KeepsIdle s s1 := by
  unfold case_g at h
  cases hw : Serial_wait 3 s with
  | none => rw [hw] at h; simp at h
  | some w =>
    rw [hw] at h
    simp only at h
    have h0 : KeepsIdle s (Serial_read (Serial_read w).2).2 :=
      ((Serial_wait_idle 3 s w hw).trans_idle (Serial_read_idle w)).trans_idle (Serial_read_idle _)
    split_ifs at h
    · simp only [Option.some.injEq] at h
      rw [← h]
      exact h0.trans_idle (Serial_println_idle _ _)
    · cases hl : loadEEPROMLoop (word (toByte (Serial_read (Serial_read w).2).1)
          (toByte (Serial_read w).1)) 0 (Serial_read (Serial_read w).2).2 with
      | none => rw [hl] at h; simp at h
      | some q =>
        rw [hl] at h
        simp only [Option.map_some', Option.some.injEq] at h
        rw [← h]
        exact (h0.trans_idle (loadEEPROMLoop_idle _ _ _ _ hl)).trans_idle (KeepsIdle.of_false_idle rfl)
    · simp only [Option.some.injEq] at h
      rw [← h]
      exact h0.trans_idle (Serial_println_idle _ _)
    · cases hl : loadEEPROMLoop (word (toByte (Serial_read w).1)
          (toByte (Serial_read (Serial_read w).2).1)) 0 (Serial_read (Serial_read w).2).2 with
      | none => rw [hl] at h; simp at h
      | some q =>
        rw [hl] at h
        simp only [Option.map_some', Option.some.injEq] at h
        rw [← h]
        exact (h0.trans_idle (loadEEPROMLoop_idle _ _ _ _ hl)).trans_idle (KeepsIdle.of_false_idle rfl)

theorem case_t_idle (env : Env) (s s1 : State) (h : case_t env s = some s1) : KeepsIdle s s1 := by
  unfold case_t at h
  cases hw : Serial_wait 1 s with
  | none => rw [hw] at h; simp at h
  | some w =>
    rw [hw] at h
    simp only at h
    cases hc : receiveCalibration env (toByte (Serial_read w).1) (Serial_read w).2 with
    | none => rw [hc] at h; simp at h
    | some q =>
      rw [hc] at h
      simp only [Option.map_some', Option.some.injEq] at h
      rw [← h]
      exact (((Serial_wait_idle 1 s w hw).trans_idle (Serial_read_idle w)).trans_idle
        (receiveCalibration_idle _ _ _ _ hc)).trans_idle (writeCalibration_idle q)

theorem case_U_idle (env : Env) (s s1 : State) (h : case_U env s = some s1) : KeepsIdle s s1 := by
  unfold case_U at h
  by_cases hr : s.resetControl ≠ env.RESET_CONTROL_DISABLED
  · rw [if_pos hr] at h
    obtain ⟨q, hq, hf⟩ : ∃ q, q = (if env.SMALL_FLASH_MODE = false ∧ s.cmdPending = false then
        Serial_println s "Comms halted. Next byte will reset the Arduino." else s)
        ∧ KeepsIdle s q := by
      refine ⟨_, rfl, ?_⟩
      split_ifs
      · exact Serial_println_idle _ _
      · exact KeepsIdle.refl_idle s
    simp only [← hq] at h
    cases hw : Serial_wait 1 q with
    | none => rw [hw] at h; simp at h
    | some w =>
      rw [hw] at h
      simp only [Option.map_some', Option.some.injEq] at h
      rw [← h]
      exact (hf.trans_idle (Serial_wait_idle 1 q w hw)).trans_idle (KeepsIdle.of_eq_idle rfl)
  · rw [if_neg hr] at h
    split_ifs at h
    · simp only [Option.some.injEq] at h
      rw [← h]
      exact Serial_println_idle _ _
    · simp only [Option.some.injEq] at h
      rw [← h]
      exact KeepsIdle.refl_idle s

theorem KeepsIdle.of_some_idle {s a s1 : State} (hf : KeepsIdle s a) (h : some a = some s1) : KeepsIdle s s1 := by
  simp only [Option.some.injEq] at h
  rw [← h]
  exact hf

theorem case_w_idle (s : State) : KeepsIdle s (case_w s) := by
  unfold KeepsIdle case_w
  simp only []
  split_ifs <;> simp [Serial_read_snd]

/-- Every command handler other than those of the commands in `pendable` leaves an
idle session idle: none of them assigns `true` to `cmdPending`. -/
theorem dispatch_idle (env : Env) (fuel : Nat) (s s1 : State)
    (hp : s.currentCommand ∉ pendable)
    (h : dispatch env fuel s = some s1) : KeepsIdle s s1 := by
  simp only [pendable, List.mem_cons, List.mem_singleton, List.not_mem_nil, or_false,
    not_or] at hp
  obtain ⟨p1, p2, p3, p4, p5, p6, p7, p8, p9, p10, p11⟩ := hp
  unfold dispatch at h
  by_cases c : s.currentCommand = 97
  · rw [if_pos c] at h
    exact absurd c (by omega)
  rw [if_neg c] at h
  clear c
  by_cases c : s.currentCommand = 65
  · rw [if_pos c] at h
    exact sendValues_idle env fuel 0 (env.LOG_ENTRY_SIZE % 65536) 49 0 s s1 h
  rw [if_neg c] at h
  clear c
  by_cases c : s.currentCommand = 66
  · rw [if_pos c] at h
    exact (KeepsIdle.of_eq_idle rfl : KeepsIdle s (case_B s)).of_some_idle h
  rw [if_neg c] at h
  clear c
  by_cases c : s.currentCommand = 98
  · rw [if_pos c] at h
    exact absurd c (by omega)
  rw [if_neg c] at h
  clear c
  by_cases c : s.currentCommand = 67
  · rw [if_pos c] at h
    exact (Serial_write_idle s 1 : KeepsIdle s (case_C s)).of_some_idle h
  rw [if_neg c] at h
  clear c
  by_cases c : s.currentCommand = 99
  · rw [if_pos c] at h
    exact (case_c_idle s).of_some_idle h
  rw [if_neg c] at h
  clear c
  by_cases c : s.currentCommand = 100
  · rw [if_pos c] at h
    exact absurd c (by omega)
  rw [if_neg c] at h
  clear c
  by_cases c : s.currentCommand = 69
  · rw [if_pos c] at h
    exact absurd c (by omega)
  rw [if_neg c] at h
  clear c
  by_cases c : s.currentCommand = 70
  · rw [if_pos c] at h
    exact (Serial_print_idle s "001" : KeepsIdle s (case_F s)).of_some_idle h
  rw [if_neg c] at h
  clear c
  by_cases c : s.currentCommand = 71
  · rw [if_pos c] at h
    exact (case_G_idle env s).of_some_idle h
  rw [if_neg c] at h
  clear c
  by_cases c : s.currentCommand = 103
  · rw [if_pos c] at h
    exact case_g_idle env s s1 h
  rw [if_neg c] at h
  clear c
  by_cases c : s.currentCommand = 72
  · rw [if_pos c] at h
    exact (case_H_idle env s).of_some_idle h
  rw [if_neg c] at h
  clear c
  by_cases c : s.currentCommand = 104
  · rw [if_pos c] at h
    exact (KeepsIdle.of_eq_idle rfl : KeepsIdle s (case_h s)).of_some_idle h
  rw [if_neg c] at h
  clear c
  by_cases c : s.currentCommand = 74
  · rw [if_pos c] at h
    exact (case_J_idle env s).of_some_idle h
  rw [if_neg c] at h
  clear c
  by_cases c : s.currentCommand = 106
  · rw [if_pos c] at h
    exact (KeepsIdle.of_eq_idle rfl : KeepsIdle s (case_j s)).of_some_idle h
  rw [if_neg c] at h
  clear c
  by_cases c : s.currentCommand = 76
  · rw [if_pos c] at h
    exact (case_L_idle env s).of_some_idle h
  rw [if_neg c] at h
  clear c
  by_cases c : s.currentCommand = 109
  · rw [if_pos c] at h
    exact (case_m_idle env s).of_some_idle h
  rw [if_neg c] at h
  clear c
  by_cases c : s.currentCommand = 78
  · rw [if_pos c] at h
    exact (Serial_println_idle s "" : KeepsIdle s (case_N s)).of_some_idle h
  rw [if_neg c] at h
  clear c
  by_cases c : s.currentCommand = 80
  · rw [if_pos c] at h
    exact absurd c (by omega)
  rw [if_neg c] at h
  clear c
  by_cases c : s.currentCommand = 112
  · rw [if_pos c] at h
    exact absurd c (by omega)
  rw [if_neg c] at h
  clear c
  by_cases c : s.currentCommand = 81
  · rw [if_pos c] at h
    exact (Serial_print_idle s "speeduino 202207" : KeepsIdle s (case_Q s)).of_some_idle h
  rw [if_neg c] at h
  clear c
  by_cases c : s.currentCommand = 114
  · rw [if_pos c] at h
    exact absurd c (by omega)
  rw [if_neg c] at h
  clear c
  by_cases c : s.currentCommand = 83
  · rw [if_pos c] at h
    exact (case_S_idle s).of_some_idle h
  rw [if_neg c] at h
  clear c
  by_cases c : s.currentCommand = 84
  · rw [if_pos c] at h
    exact absurd c (by omega)
  rw [if_neg c] at h
  clear c
  by_cases c : s.currentCommand = 116
  · rw [if_pos c] at h
    exact case_t_idle env s s1 h
  rw [if_neg c] at h
  clear c
  by_cases c : s.currentCommand = 85
  · rw [if_pos c] at h
    exact case_U_idle env s s1 h
  rw [if_neg c] at h
  clear c
  by_cases c : s.currentCommand = 86
  · rw [if_pos c] at h
    exact sendPageLoop_idle env fuel _ s s1 h
  rw [if_neg c] at h
  clear c
  by_cases c : s.currentCommand = 87
  · rw [if_pos c] at h
    exact absurd c (by omega)
  rw [if_neg c] at h
  clear c
  by_cases c : s.currentCommand = 77
  · rw [if_pos c] at h
    exact absurd c (by omega)
  rw [if_neg c] at h
  clear c
  by_cases c : s.currentCommand = 119
  · rw [if_pos c] at h
    exact (case_w_idle s).of_some_idle h
  rw [if_neg c] at h
  clear c
  by_cases c : s.currentCommand = 90
  · rw [if_pos c] at h
    exact (case_Z_idle env s).of_some_idle h
  rw [if_neg c] at h
  clear c
  by_cases c : s.currentCommand = 122
  · rw [if_pos c] at h
    exact (sendToothLog_legacy_idle env 0 s : KeepsIdle s (case_z env s)).of_some_idle h
  rw [if_neg c] at h
  clear c
  by_cases c : s.currentCommand = 96
  · rw [if_pos c] at h
    exact absurd c (by omega)
  rw [if_neg c] at h
  clear c
  by_cases c : s.currentCommand = 63
  · rw [if_pos c] at h
    exact (case_help_idle env s).of_some_idle h
  rw [if_neg c] at h
  clear c
  exact (case_default_idle s).of_some_idle h


/-- One call of `legacySerialCommand` keeps "a pending command is one of the commands
in `pendable`": the command in `currentCommand` after the call is the one that was
dispatched, and a handler outside `pendable` leaves an idle session idle. -/
theorem PendInv_call (env : Env) (fuel : Nat) (s s1 : State) (hI : PendInv s)
    (h : legacySerialCommand env fuel s = some s1) : PendInv s1 := by
  obtain ⟨-, -, -, r4, -, -, -, r8⟩ := readCommand_session s
  unfold legacySerialCommand at h
  by_cases hp : (readCommand s).currentCommand ∈ pendable
  · have hc : s1.currentCommand = (readCommand s).currentCommand := by
      by_cases hM : (readCommand s).currentCommand = 77
      · rw [dispatch_M env fuel _ hM] at h
        simp only [Option.some.injEq] at h
        rw [← h]
        exact (case_M_session _).2.2.1
      · exact (dispatch_frame env fuel _ s1 hM h).2.2.1
    intro _
    rw [hc]
    exact hp
  · have hidle : s.cmdPending = false := by
      cases hq : s.cmdPending with
      | false => rfl
      | true =>
        exfalso
        apply hp
        rw [r8 hq]
        exact hI hq
    intro hq
    have hk := dispatch_idle env fuel _ s1 hp h (by rw [r4, hidle])
    rw [hk] at hq
    exact absurd hq (by simp)

/-- In every reachable state a pending command is one of the commands in
`pendable`. -/
theorem Reachable.pendInv {env : Env} {s : State} (h : Reachable env s) : PendInv s := by
  induction h with
  | start rx afw => exact fun hc => absurd hc (by simp [initialState])
  | call s s1 fuel _ hcall ih => exact PendInv_call env fuel s s1 ih hcall
  | environment s rx wire afw afwCalls st th clh thi rc _ ih => exact ih

/-- A reachable state from which a command outside `pendable` is dispatched is
idle: the command byte was read by this very call. -/
theorem Reachable.idle_of_dispatch {env : Env} {s : State} (h : Reachable env s)
    (hp : (readCommand s).currentCommand ∉ pendable) : s.cmdPending = false := by
  obtain ⟨-, -, -, -, -, -, -, r8⟩ := readCommand_session s
  cases hq : s.cmdPending with
  | false => rfl
  | true =>
    exfalso
    apply hp
    rw [r8 hq]
    exact h.pendInv hq

/-- Handler `'g'` with fewer than three bytes ever arriving: the wait of line 169
never ends. -/
theorem case_g_starves (env : Env) (s : State) (h : (s.rx ++ s.wire).length < 3) :
    case_g env s = none := by
  rw [case_g, Serial_wait_none 3 s h]

/-- Counterexample to **C22**: from the start state the command `'g'` followed by
exactly the two size bytes 5 and 0, which decode to a size (5, or 1280 in the other
argument order) different from the store size 4, whether the two bytes are already
buffered or still in flight. The handler waits for a third byte at line 169 before
it reads the size, so the call never returns, whatever the fuel: no error text is
written and the session does not get back to idle. -/
theorem C22_counterexample :
    Reachable sampleEnv (initialState [103, 5, 0] (fun _ => 1))
    ∧ (readCommand (initialState [103, 5, 0] (fun _ => 1))).currentCommand = 103
    ∧ (readCommand (initialState [103, 5, 0] (fun _ => 1))).rx = [5, 0]
    ∧ word 0 5 ≠ sampleEnv.getEEPROMSize ∧ word 5 0 ≠ sampleEnv.getEEPROMSize
    ∧ (∀ fuel : Nat,
        legacySerialCommand sampleEnv fuel (initialState [103, 5, 0] (fun _ => 1)) = none)
    ∧ (∀ fuel : Nat,
        legacySerialCommand sampleEnv fuel
          { initialState [103] (fun _ => 1) with wire := [5, 0] } = none) := by
  refine ⟨Reachable.start _ _, rfl, rfl, by decide, by decide, ?_, ?_⟩
  · intro fuel
    rw [legacySerialCommand, dispatch_g sampleEnv fuel _ rfl]
    exact case_g_starves _ _ (by decide)
  · intro fuel
    rw [legacySerialCommand, dispatch_g sampleEnv fuel _ rfl]
    exact case_g_starves _ _ (by decide)

/-- **C22** (amended) Raw-store load rejects a wrong size: let `legacySerialCommand`
be called in a reachable state and dispatch `'g'` (code 103). The handler waits until
three bytes are available before it reads the two size bytes (line 169). If fewer
than three bytes ever arrive after the command byte, the call never returns. If at
least three bytes are due and the first two decode to a size different from
`getEEPROMSize()`, the call returns having consumed exactly the two size bytes and
written the text "ERR; Incorrect EEPROM size" followed by carriage return and line
feed; no `EEPROMWriteRaw` (no external call at all) is performed and `cmdPending` is
false. The size is `word` of the two bytes in the order in which the compiler
evaluates the two `Serial.read()` arguments. That `cmdPending` is false comes from
reachability: the reject path never assigns it, and `'g'` is dispatched only from an
idle session. -/
theorem C22_raw_store_size_check (env : Env) (fuel : Nat) (s : State)
    (hr : Reachable env s) (hcmd : (readCommand s).currentCommand = 103) :
    (((readCommand s).rx ++ (readCommand s).wire).length < 3 →
      legacySerialCommand env fuel s = none)
    ∧ ∀ (b0 b1 b2 : Nat) (rest : List Nat),
      (readCommand s).rx ++ (readCommand s).wire = b0 :: b1 :: b2 :: rest →
      b0 < 256 ∧ b1 < 256 →
      (if env.argsRightToLeft then word b1 b0 else word b0 b1) ≠ env.getEEPROMSize →
      ∃ s1, legacySerialCommand env fuel s = some s1
        ∧ s1.rx ++ s1.wire = b2 :: rest
        ∧ s1.tx = s.tx ++ textBytes "ERR; Incorrect EEPROM size" ++ [13, 10]
        ∧ s1.effects = s.effects ∧ s1.cmdPending = false := by
  have hidle : s.cmdPending = false :=
    hr.idle_of_dispatch (by rw [hcmd]; decide)
  refine ⟨?_, ?_⟩
  · intro hlen
    rw [legacySerialCommand, dispatch_g env fuel _ hcmd]
    exact case_g_starves env _ hlen
  · intro b0 b1 b2 rest hin hb hsize
    obtain ⟨k1, k2, -⟩ := readCommand_keeps s
    obtain ⟨-, -, -, r4, -⟩ := readCommand_session s
    obtain ⟨s1, h1, h2, h3, h4, h5⟩ :=
      case_g_reject env (readCommand s) b0 b1 b2 rest hin hb hsize
    refine ⟨s1, ?_, h2, by rw [h3, k1], by rw [h4, k2], by rw [h5, r4, hidle]⟩
    rw [legacySerialCommand, dispatch_g env fuel _ hcmd, h1]

/-- The command `'g'` announcing 5 bytes when the store holds 4, sent after a
completed `'Q'` command: with a third byte due the error line is written after the
signature and nothing is stored; with the two size bytes only, the call does not
return. -/
theorem C22_raw_store_size_check_witness :
    (∃ s, legacySerialCommand sampleEnv 1 (initialState [81, 103, 5, 0, 44] (fun _ => 1)) = some s
      ∧ Reachable sampleEnv s
      ∧ (readCommand s).currentCommand = 103
      ∧ (if sampleEnv.argsRightToLeft then word 0 5 else word 5 0) ≠ sampleEnv.getEEPROMSize
      ∧ ∃ s1, legacySerialCommand sampleEnv 1 s = some s1
        ∧ s1.rx ++ s1.wire = [44]
        ∧ s1.tx = textBytes "speeduino 202207" ++ textBytes "ERR; Incorrect EEPROM size" ++ [13, 10]
        ∧ s1.effects = [] ∧ s1.cmdPending = false)
    ∧ (∃ s, legacySerialCommand sampleEnv 1 (initialState [81, 103, 5, 0] (fun _ => 1)) = some s
      ∧ Reachable sampleEnv s
      ∧ (readCommand s).currentCommand = 103
      ∧ legacySerialCommand sampleEnv 1 s = none) := by
  refine ⟨⟨_, rfl, Reachable.call _ _ 1 (Reachable.start [81, 103, 5, 0, 44] (fun _ => 1)) rfl,
      rfl, by decide, ?_⟩,
    ⟨_, rfl, Reachable.call _ _ 1 (Reachable.start [81, 103, 5, 0] (fun _ => 1)) rfl, rfl, ?_⟩⟩
  · obtain ⟨s1, h1, h2, h3, h4, h5⟩ := (C22_raw_store_size_check sampleEnv 1 _
      (Reachable.call _ _ 1 (Reachable.start [81, 103, 5, 0, 44] (fun _ => 1)) rfl) rfl).2
      5 0 44 [] rfl (by decide) (by decide)
    exact ⟨s1, h1, h2, h3, h4, h5⟩
  · exact (C22_raw_store_size_check sampleEnv 1 _
      (Reachable.call _ _ 1 (Reachable.start [81, 103, 5, 0] (fun _ => 1)) rfl) rfl).1
      (by decide)

end CommsLegacy
